import Mathlib

/-! The driver of bpf2c, the ahead-of-time eBPF translator.

A shallow embedding of `tools/bpf2c/bpf2c.cpp`.

* Fixed-size fields (GUIDs, enums, integers, the context descriptor) are
  embedded as natural numbers: the value of their object representation.
* `const char*` fields and `std::string` values are embedded as `String`.
* A counted C array (pointer plus count) is embedded as a list; the count
  field is the length of the list.
* Bytes are natural numbers; a byte string is a `List Nat`.
* Collaborators whose code lives outside the translated file (the hash
  engine, the ELF validator, the code generator, the program type registry
  and the verifier) are parameters of the model.
-/

namespace Bpf2c

/-! ## Program information reported by the verifier -/

/-- The C struct `ebpf_helper_function_prototype_t`, reduced to the fields
that `get_program_info_type_hash` reads. -/
structure ebpf_helper_function_prototype_t where
  helper_id : Nat
  name : String
  return_type : Nat
  arguments : List Nat
deriving DecidableEq, Repr, Inhabited

/-- The C struct `ebpf_program_type_descriptor_t`, reduced to the fields
that `get_program_info_type_hash` reads. -/
structure ebpf_program_type_descriptor_t where
  name : String
  context_descriptor : Nat
  program_type : Nat
  bpf_prog_type : Nat
  is_privileged : Nat
deriving DecidableEq, Repr, Inhabited

/-- The C struct `ebpf_program_info_t`. The helper prototype table is a
list; `count_of_program_type_specific_helpers` is its length. -/
structure ebpf_program_info_t where
  program_type_descriptor : ebpf_program_type_descriptor_t
  program_type_specific_helper_prototype : List ebpf_helper_function_prototype_t
deriving DecidableEq, Repr, Inhabited

/-- The count field of `ebpf_program_info_t`. -/
def ebpf_program_info_t.count_of_program_type_specific_helpers
    (program_info : ebpf_program_info_t) : Nat :=
  program_info.program_type_specific_helper_prototype.length

/-! ## The hash engine (`hash.h`) -/

/-- The type `hash_t::byte_range_t`: the ordered ranges handed to the digest. -/
abbrev byte_range_t := List (List Nat)

/-- The hash engine of `hash.h`, which is a parameter of the model: one
serialisation per overload of `hash_t::append_byte_range` that bpf2c uses
(the bytes of the range that the overload appends), and the digest
selected by an algorithm name, which fails on an unsupported algorithm. -/
structure hash_t where
  of_name : String → List Nat
  of_context_descriptor : Nat → List Nat
  of_program_type : Nat → List Nat
  of_bpf_prog_type : Nat → List Nat
  of_is_privileged : Nat → List Nat
  of_count : Nat → List Nat
  of_helper_id : Nat → List Nat
  of_return_type : Nat → List Nat
  of_argument_type : Nat → List Nat
  digest : String → List Nat → Except String (List Nat)

/-- The call `hash_t::append_byte_range(byte_range, value)`, where `range` is
the serialisation of `value`: one more range at the end. -/
def append_byte_range (byte_range : byte_range_t) (range : List Nat) : byte_range_t :=
  byte_range ++ [range]

/-- The bytes that a `byte_range_t` denotes: its ranges laid end to end. -/
def byte_range_t.bytes (byte_range : byte_range_t) : List Nat :=
  byte_range.flatten

/-- Modelled from the spec: `hash_t::hash_byte_ranges` is declared in the
absent `hash.h`; it digests the resulting byte range, the ranges taken in
order as one byte sequence, with the configured algorithm. -/
def hash_t.hash_byte_ranges (hash : hash_t) (algorithm : String) (byte_range : byte_range_t) :
    Except String (List Nat) :=
  hash.digest algorithm byte_range.bytes

/-- Modelled from the spec: `hash_t::hash_string` is declared in the absent
`hash.h`; it digests the bytes of the loaded file with the configured
algorithm. -/
def hash_t.hash_string (hash : hash_t) (algorithm : String) (data : List Nat) :
    Except String (List Nat) :=
  hash.digest algorithm data

/-! ## `std::map<uint32_t, size_t>` -/

/-- The statement `m[key] = value` on a `std::map`, kept as a list of
entries in ascending key order: an existing entry for `key` is overwritten,
otherwise a new entry is inserted at its place in the order. -/
def map_assign : List (Nat × Nat) → Nat → Nat → List (Nat × Nat)
  | [], key, value => [(key, value)]
  | (k, v) :: m, key, value =>
    if key < k then (key, value) :: (k, v) :: m
    else if key = k then (key, value) :: m
    else (k, v) :: map_assign m key value

/-! ## `get_program_info_type_hash` -/

/-- Lines 93-95: the loop that fills `helper_id_ordering`, entered with the
prototypes from position `index` on still to visit. -/
def fill_helper_id_ordering :
    List ebpf_helper_function_prototype_t → Nat → List (Nat × Nat) → List (Nat × Nat)
  | [], _, helper_id_ordering => helper_id_ordering
  | prototype :: rest, index, helper_id_ordering =>
    fill_helper_id_ordering rest (index + 1)
      (map_assign helper_id_ordering prototype.helper_id index)

/-- Lines 101-106: the loop over the fixed-arity argument array. -/
def append_arguments (hash : hash_t) : List Nat → byte_range_t → byte_range_t
  | [], byte_range => byte_range
  | argument :: rest, byte_range =>
    append_arguments hash rest (append_byte_range byte_range (hash.of_argument_type argument))

/-- Lines 98-106: the body of the loop over `helper_id_ordering` for the
prototype at the mapped index. -/
def append_helper (hash : hash_t) (prototype : ebpf_helper_function_prototype_t)
    (byte_range : byte_range_t) : byte_range_t :=
  let byte_range := append_byte_range byte_range (hash.of_helper_id prototype.helper_id)
  let byte_range := append_byte_range byte_range (hash.of_name prototype.name)
  let byte_range := append_byte_range byte_range (hash.of_return_type prototype.return_type)
  append_arguments hash prototype.arguments byte_range

/-- Lines 97-107: the loop over `helper_id_ordering` in ascending key order;
each entry reads the prototype table at the mapped index. -/
def append_helpers (hash : hash_t) (prototypes : List ebpf_helper_function_prototype_t) :
    List (Nat × Nat) → byte_range_t → byte_range_t
  | [], byte_range => byte_range
  | (_, index) :: rest, byte_range =>
    append_helpers hash prototypes rest
      (append_helper hash (prototypes.getD index default) byte_range)

/-- Lines 86-107 of `get_program_info_type_hash`: the byte range built from
the program information. -/
def program_info_byte_range (hash : hash_t) (program_info : ebpf_program_info_t) : byte_range_t :=
  let byte_range : byte_range_t := []
  let byte_range := append_byte_range byte_range
    (hash.of_name program_info.program_type_descriptor.name)
  let byte_range := append_byte_range byte_range
    (hash.of_context_descriptor program_info.program_type_descriptor.context_descriptor)
  let byte_range := append_byte_range byte_range
    (hash.of_program_type program_info.program_type_descriptor.program_type)
  let byte_range := append_byte_range byte_range
    (hash.of_bpf_prog_type program_info.program_type_descriptor.bpf_prog_type)
  let byte_range := append_byte_range byte_range
    (hash.of_is_privileged program_info.program_type_descriptor.is_privileged)
  let byte_range := append_byte_range byte_range
    (hash.of_count program_info.count_of_program_type_specific_helpers)
  let helper_id_ordering :=
    fill_helper_id_ordering program_info.program_type_specific_helper_prototype 0 []
  append_helpers hash program_info.program_type_specific_helper_prototype
    helper_id_ordering byte_range

/-- The function `get_program_info_type_hash(algorithm)`. The argument
`reported` is what `ebpf_get_program_info_from_verifier` yields: `none` when
its result is not `EBPF_SUCCESS`. A thrown `std::runtime_error` is
`Except.error` with the message. -/
def get_program_info_type_hash (hash : hash_t) (algorithm : String)
    (reported : Option ebpf_program_info_t) : Except String (List Nat) :=
  match reported with
  | none => .error "Failed to get program information"
  | some program_info => hash.hash_byte_ranges algorithm (program_info_byte_range hash program_info)

/-! ## The order the specification describes -/

/-- The helper prototypes taken in ascending `helper_id` order. -/
def helpers_by_ascending_id (prototypes : List ebpf_helper_function_prototype_t) :
    List ebpf_helper_function_prototype_t :=
  prototypes.insertionSort (fun a b => a.helper_id ≤ b.helper_id)

instance helper_id_le_total : IsTotal ebpf_helper_function_prototype_t
    (fun a b => a.helper_id ≤ b.helper_id) :=
  ⟨fun a b => le_total a.helper_id b.helper_id⟩

instance helper_id_le_trans : IsTrans ebpf_helper_function_prototype_t
    (fun a b => a.helper_id ≤ b.helper_id) :=
  ⟨fun _ _ _ hab hbc => le_trans hab hbc⟩

/-- The serialisation of one helper: `helper_id`, `name`, `return_type`, then
each argument in declared order. -/
def helper_bytes (hash : hash_t) (prototype : ebpf_helper_function_prototype_t) : List Nat :=
  hash.of_helper_id prototype.helper_id ++ hash.of_name prototype.name ++
    hash.of_return_type prototype.return_type ++
    (prototype.arguments.map hash.of_argument_type).flatten

/-- The serialisation of the descriptor fields and the helper count, in the
order the specification lists them. -/
def descriptor_bytes (hash : hash_t) (program_info : ebpf_program_info_t) : List Nat :=
  hash.of_name program_info.program_type_descriptor.name ++
    hash.of_context_descriptor program_info.program_type_descriptor.context_descriptor ++
    hash.of_program_type program_info.program_type_descriptor.program_type ++
    hash.of_bpf_prog_type program_info.program_type_descriptor.bpf_prog_type ++
    hash.of_is_privileged program_info.program_type_descriptor.is_privileged ++
    hash.of_count program_info.program_type_specific_helper_prototype.length

/-- The hash input as the specification words it: the descriptor fields,
the helper count, then every helper in ascending `helper_id` order. -/
def spec_hash_input (hash : hash_t) (program_info : ebpf_program_info_t) : List Nat :=
  descriptor_bytes hash program_info ++
    ((helpers_by_ascending_id program_info.program_type_specific_helper_prototype).map
      (helper_bytes hash)).flatten

/-- The helper ids of a program information are pairwise distinct. -/
def distinct_helper_ids (program_info : ebpf_program_info_t) : Prop :=
  (program_info.program_type_specific_helper_prototype.map (·.helper_id)).Nodup

instance (program_info : ebpf_program_info_t) : Decidable (distinct_helper_ids program_info) := by
  unfold distinct_helper_ids; infer_instance

/-- The prototypes that the loop over `helper_id_ordering` visits, in order. -/
def visited_helpers (prototypes : List ebpf_helper_function_prototype_t)
    (helper_id_ordering : List (Nat × Nat)) : List ebpf_helper_function_prototype_t :=
  helper_id_ordering.map (fun entry => prototypes.getD entry.2 default)


/-! ## What the claims on the hash speak of -/

/-- A hash engine that loses nothing: every serialisation is injective, and
the serialisation of a `helper_id` has one fixed width. -/
structure hash_t.lossless (hash : hash_t) : Prop where
  name_inj : Function.Injective hash.of_name
  context_descriptor_inj : Function.Injective hash.of_context_descriptor
  program_type_inj : Function.Injective hash.of_program_type
  bpf_prog_type_inj : Function.Injective hash.of_bpf_prog_type
  is_privileged_inj : Function.Injective hash.of_is_privileged
  helper_id_inj : Function.Injective hash.of_helper_id
  return_type_inj : Function.Injective hash.of_return_type
  argument_type_inj : Function.Injective hash.of_argument_type
  helper_id_width : ∀ a b, (hash.of_helper_id a).length = (hash.of_helper_id b).length

/-- A digest without collisions under the given algorithm. -/
def hash_t.collision_free (hash : hash_t) (algorithm : String) : Prop :=
  Function.Injective (hash.digest algorithm)

/-- The second table is the first one in another declaration order: the
same prototypes, each with its `helper_id`, rearranged; the descriptor is
the same. -/
def declaration_order_permuted (program_info permuted : ebpf_program_info_t) : Prop :=
  permuted.program_type_descriptor = program_info.program_type_descriptor ∧
    permuted.program_type_specific_helper_prototype.Perm
      program_info.program_type_specific_helper_prototype

/-- One hashed field of a helper prototype changes its value: the name, the
return type, one argument type, or the `helper_id`. -/
inductive helper_field_changed :
    ebpf_helper_function_prototype_t → ebpf_helper_function_prototype_t → Prop
  | name (h : ebpf_helper_function_prototype_t) (v : String) (hv : v ≠ h.name) :
      helper_field_changed h { h with name := v }
  | return_type (h : ebpf_helper_function_prototype_t) (v : Nat) (hv : v ≠ h.return_type) :
      helper_field_changed h { h with return_type := v }
  | argument (h : ebpf_helper_function_prototype_t) (before after : List Nat) (a v : Nat)
      (hargs : h.arguments = before ++ a :: after) (hv : v ≠ a) :
      helper_field_changed h { h with arguments := before ++ v :: after }
  | helper_id (h : ebpf_helper_function_prototype_t) (v : Nat) (hv : v ≠ h.helper_id) :
      helper_field_changed h { h with helper_id := v }

/-- One hashed field of a program information changes its value, and
nothing else does. -/
inductive hashed_field_changed : ebpf_program_info_t → ebpf_program_info_t → Prop
  | name (d : ebpf_program_type_descriptor_t)
      (helpers : List ebpf_helper_function_prototype_t) (v : String) (hv : v ≠ d.name) :
      hashed_field_changed ⟨d, helpers⟩ ⟨{ d with name := v }, helpers⟩
  | context_descriptor (d : ebpf_program_type_descriptor_t)
      (helpers : List ebpf_helper_function_prototype_t) (v : Nat)
      (hv : v ≠ d.context_descriptor) :
      hashed_field_changed ⟨d, helpers⟩ ⟨{ d with context_descriptor := v }, helpers⟩
  | program_type (d : ebpf_program_type_descriptor_t)
      (helpers : List ebpf_helper_function_prototype_t) (v : Nat) (hv : v ≠ d.program_type) :
      hashed_field_changed ⟨d, helpers⟩ ⟨{ d with program_type := v }, helpers⟩
  | bpf_prog_type (d : ebpf_program_type_descriptor_t)
      (helpers : List ebpf_helper_function_prototype_t) (v : Nat) (hv : v ≠ d.bpf_prog_type) :
      hashed_field_changed ⟨d, helpers⟩ ⟨{ d with bpf_prog_type := v }, helpers⟩
  | is_privileged (d : ebpf_program_type_descriptor_t)
      (helpers : List ebpf_helper_function_prototype_t) (v : Nat) (hv : v ≠ d.is_privileged) :
      hashed_field_changed ⟨d, helpers⟩ ⟨{ d with is_privileged := v }, helpers⟩
  | helper (d : ebpf_program_type_descriptor_t)
      (before after : List ebpf_helper_function_prototype_t)
      (h h' : ebpf_helper_function_prototype_t) (hchange : helper_field_changed h h') :
      hashed_field_changed ⟨d, before ++ h :: after⟩ ⟨d, before ++ h' :: after⟩

/-! ## Sample values -/

/-- A lossless hash engine: a name is serialised as its character codes,
every other field as one cell holding its value; the digest is the identity
for every algorithm, so it has no collisions. -/
def sample_hash : hash_t where
  of_name := fun s => s.toList.map Char.toNat
  of_context_descriptor := fun n => [n]
  of_program_type := fun n => [n]
  of_bpf_prog_type := fun n => [n]
  of_is_privileged := fun n => [n]
  of_count := fun n => [n]
  of_helper_id := fun n => [n]
  of_return_type := fun n => [n]
  of_argument_type := fun n => [n]
  digest := fun _ bytes => .ok bytes

/-- A program type descriptor. -/
def sample_descriptor : ebpf_program_type_descriptor_t :=
  { name := "xdp", context_descriptor := 7, program_type := 11, bpf_prog_type := 6,
    is_privileged := 0 }

/-- A program information with two helpers declared in descending id order. -/
def sample_info : ebpf_program_info_t :=
  { program_type_descriptor := sample_descriptor
    program_type_specific_helper_prototype :=
      [ { helper_id := 9, name := "b", return_type := 1, arguments := [2, 3] },
        { helper_id := 4, name := "a", return_type := 0, arguments := [5, 5] } ] }

/-- The table of `sample_info` declared in the other order. -/
def sample_info_permuted : ebpf_program_info_t :=
  { program_type_descriptor := sample_descriptor
    program_type_specific_helper_prototype :=
      [ { helper_id := 4, name := "a", return_type := 0, arguments := [5, 5] },
        { helper_id := 9, name := "b", return_type := 1, arguments := [2, 3] } ] }

/-- A program information whose two helpers share the id 1. -/
def duplicate_info : ebpf_program_info_t :=
  { program_type_descriptor := sample_descriptor
    program_type_specific_helper_prototype :=
      [ { helper_id := 1, name := "a", return_type := 0, arguments := [] },
        { helper_id := 1, name := "b", return_type := 0, arguments := [] } ] }

/-- The table of `duplicate_info` declared in the other order. -/
def duplicate_info_permuted : ebpf_program_info_t :=
  { program_type_descriptor := sample_descriptor
    program_type_specific_helper_prototype :=
      [ { helper_id := 1, name := "b", return_type := 0, arguments := [] },
        { helper_id := 1, name := "a", return_type := 0, arguments := [] } ] }

/-- The information `duplicate_info` with the name of its first helper changed. -/
def duplicate_info_renamed : ebpf_program_info_t :=
  { program_type_descriptor := sample_descriptor
    program_type_specific_helper_prototype :=
      [ { helper_id := 1, name := "c", return_type := 0, arguments := [] },
        { helper_id := 1, name := "b", return_type := 0, arguments := [] } ] }

/-- The information `sample_info` with the id of its second helper changed
from 4 to 12, which moves that helper behind the other one in id order. -/
def sample_info_renumbered : ebpf_program_info_t :=
  { program_type_descriptor := sample_descriptor
    program_type_specific_helper_prototype :=
      [ { helper_id := 9, name := "b", return_type := 1, arguments := [2, 3] },
        { helper_id := 12, name := "a", return_type := 0, arguments := [5, 5] } ] }

/-! ## `std::string` operations used by bpf2c -/

/-- The constant `std::string::npos`, the largest `size_t`. -/
def npos : Nat := 2 ^ 64 - 1

/-- The scan of `find_last_of`: `found` is the last position seen so far. -/
def find_last_of_from (c : Char) : List Char → Nat → Nat → Nat
  | [], _, found => found
  | x :: rest, position, found =>
    find_last_of_from c rest (position + 1) (if x = c then position else found)

/-- The call `s.find_last_of(c)` for a one-character set: the position of
the last occurrence of `c`, or `npos`. -/
def find_last_of (s : String) (c : Char) : Nat :=
  find_last_of_from c s.toList 0 npos

/-- The scan of `find`. -/
def find_from (c : Char) : List Char → Nat → Nat
  | [], _ => npos
  | x :: rest, position => if x = c then position else find_from c rest (position + 1)

/-- The call `s.find(c)` for a one-character string: the position of the
first occurrence of `c`, or `npos`. -/
def find (s : String) (c : Char) : Nat :=
  find_from c s.toList 0

/-- The call `s.substr(pos, count)`: `none` stands for the exception
`std::out_of_range`, thrown when `pos` exceeds the size. -/
def substr (s : String) (pos count : Nat) : Option String :=
  if pos > s.length then none else some (String.mk ((s.toList.drop pos).take count))

/-- Lines 214-215: the artifact name `c_name` derived from the input path.
The sum `find_last_of + 1` is computed in `size_t`. -/
def derive_c_name (file : String) : Option String :=
  match substr file ((find_last_of file '\\' + 1) % 2 ^ 64) npos with
  | none => none
  | some c_name => substr c_name 0 (find c_name '.')

/-! ## Command line -/

/-- The enumeration `output_type` of `main`. -/
inductive output_type
  | Bare
  | KernelPE
  | UserPE
deriving DecidableEq, Repr

/-- The option variables of `main`, lines 121-126. -/
structure Options where
  type : output_type
  file : String
  type_string : String
  hash_algorithm : String
  verify_programs : Bool
deriving DecidableEq, Repr

/-- The initial values of the option variables. -/
def Options.initial : Options :=
  { type := .Bare, file := "", type_string := "", hash_algorithm := "SHA256",
    verify_programs := true }

/-- The option table of lines 130-201 in key order, each name with its help
text; `--no-verify` is present only in a build with `ENABLE_SKIP_VERIFY`. -/
def option_table (enable_skip_verify : Bool) : List (String × String) :=
  [("--bpf", "Input ELF file containing BPF byte code"),
   ("--dll", "Generate code for a Windows DLL"),
   ("--hash", "Algorithm used to hash ELF file"),
   ("--help", "This help menu")] ++
  (if enable_skip_verify then [("--no-verify", "Skip validating code using verifier")] else []) ++
  [("--sys", "Generate code for a Windows driver"),
   ("--type", "Type string for the eBPF programs")]

/-- What the `--help` handler writes to `std::cerr`. -/
def help_text (enable_skip_verify : Bool) (argv0 : String) : String :=
  argv0 ++ " is a tool to generate C code" ++ "from an ELF file containing BPF byte code." ++ "\n" ++
    "Options are:" ++ "\n" ++
    String.join ((option_table enable_skip_verify).map
      (fun entry => entry.1 ++ "\t" ++ entry.2 ++ "\n"))

/-- Lines 203-212: the loop over the command line parameters. The error
value is what was written to `std::cerr` before `return 1`. -/
def parse_parameters (enable_skip_verify : Bool) (argv0 : String) :
    List String → Options → Except String Options
  | [], options => .ok options
  | parameter :: rest, options =>
    if parameter = "--sys" then
      parse_parameters enable_skip_verify argv0 rest { options with type := .KernelPE }
    else if parameter = "--dll" then
      parse_parameters enable_skip_verify argv0 rest { options with type := .UserPE }
    else if parameter = "--no-verify" ∧ enable_skip_verify = true then
      parse_parameters enable_skip_verify argv0 rest { options with verify_programs := false }
    else if parameter = "--bpf" then
      match rest with
      | [] => .error ("Invalid --bpf option" ++ "\n")
      | value :: rest =>
        parse_parameters enable_skip_verify argv0 rest { options with file := value }
    else if parameter = "--type" then
      match rest with
      | [] => .error ("Invalid --type option" ++ "\n")
      | value :: rest =>
        parse_parameters enable_skip_verify argv0 rest { options with type_string := value }
    else if parameter = "--hash" then
      match rest with
      | [] => .error ("Invalid --hash option" ++ "\n")
      | value :: rest =>
        parse_parameters enable_skip_verify argv0 rest { options with hash_algorithm := value }
    else .error (help_text enable_skip_verify argv0)

/-! ## Collaborators of `main` -/

/-- What `ebpf_api_elf_verify_section_from_memory` hands back: its return
value (0 is success) and the two out-parameters, `none` for a null pointer. -/
structure verify_result where
  result : Nat
  report : Option String
  error_message : Option String
deriving DecidableEq, Repr

/-- The code outside `bpf2c.cpp` that `main` runs. `G` is the state of the
`bpf_code_generator` object and `V` the state of the verifier, which keeps
the program information of the section it verified last.

* `stat` is the size the file system reports for a path (`none`: `stat`
  fails); `ifstream` is the bytes its stream can deliver (`none`: the stream
  cannot be opened).
* A method of the generator that throws `std::runtime_error` returns
  `Except.error` with the message; `emit_c_code` returns the text it wrote to
  the stream and the message of the exception it threw, if any.
* `ebpf_get_program_type_by_name` is `none` when the result is not
  `EBPF_SUCCESS`, else the program type and the attach type.
* `ElfCheckElf` returns its verdict and the `(struct, field, reason)` triples
  it reported through `elf_everparse_error`.
* `regex_replace code pattern format` is `std::regex_replace`. -/
structure Externals (G V : Type) where
  enable_skip_verify : Bool
  stat : String → Option Nat
  ifstream : String → Option (List Nat)
  hash : hash_t
  ElfCheckElf : Nat → List Nat → Nat → Bool × List (String × String × String)
  bpf_code_generator : List Nat → String → Option (List Nat) → Except String G
  program_sections : G → Except String (List String)
  parse : G → Except String G
  parse_section : G → String → Nat → Nat → Option (List Nat) → Except String G
  generate : G → String → Except String G
  emit_c_code : G → String × Option String
  ebpf_get_program_type_by_name : String → Option (Nat × Nat)
  ebpf_api_elf_verify_section_from_memory : V → List Nat → String → Nat → verify_result × V
  ebpf_get_program_info_from_verifier : V → Option ebpf_program_info_t
  bpf2c_driver : String
  bpf2c_dll : String
  regex_replace : String → String → String → String

deriving instance DecidableEq for Except

/-- A call that `main` makes, with the arguments that the claims speak of;
the section enumeration and the verifier calls carry what they answered. -/
inductive Call
  | load_file_to_memory (path : String)
  | hash_string (algorithm : String)
  | ElfCheckElf
  | bpf_code_generator (c_name : String) (elf_file_hash : Option (List Nat))
  | program_sections (enumerated : Except String (List String))
  | parse
  | ebpf_get_program_type_by_name (name : String)
  | ebpf_api_elf_verify_section_from_memory (section_name : String) (program_type : Nat)
      (answer : verify_result)
  | ebpf_get_program_info_from_verifier (reported : Option ebpf_program_info_t)
  | hash_byte_ranges (algorithm : String) (byte_range : byte_range_t)
  | parse_section (section_name : String) (program_type attach_type : Nat)
      (program_info_hash : Option (List Nat))
  | generate (section_name : String)
  | emit_skeleton (c_name : String)
  | emit_c_code
deriving DecidableEq, Repr

/-- The pipeline step at which a run ends early. -/
inductive Failure
  | option_parsing
  | artifact_name
  | file_loading
  | file_hashing
  | elf_validation
  | generator_construction
  | section_enumeration
  | no_program_sections
  | global_data_parsing
  | type_string_resolution
  | section_type_resolution (section_name : String)
  | verification (section_name : String)
  | program_info_hashing (section_name : String)
  | section_parse (section_name : String)
  | section_generate (section_name : String)
  | skeleton_emission
  | final_emit
deriving DecidableEq, Repr

/-- How a run of `main` ends: `return 0`; `return 1` at a failed step; or no
return at all, when a step has undefined behaviour or throws an exception
that `main` does not catch. -/
inductive Outcome
  | success
  | failure (step : Failure)
  | crashed (step : Failure)
deriving DecidableEq, Repr

/-- The value that `main` returns, if it returns. -/
def Outcome.exit_code : Outcome → Option Int
  | .success => some 0
  | .failure _ => some 1
  | .crashed _ => none

/-- The step at which a run ended early, if it did. -/
def Outcome.failed_step : Outcome → Option Failure
  | .success => none
  | .failure step => some step
  | .crashed step => some step

/-- A part of `main` that writes nothing to `std::cout`: the calls it made,
what it wrote to `std::cerr`, and its value, or the way `main` ends there. -/
structure Step (α : Type) where
  calls : List Call
  cerr : String
  value : Except Outcome α

/-- A part that does nothing and yields `a`. -/
def Step.pure {α : Type} (a : α) : Step α :=
  { calls := [], cerr := "", value := .ok a }

/-- One part after another. -/
def Step.bind {α β : Type} (s : Step α) (f : α → Step β) : Step β :=
  match s.value with
  | .error outcome => { calls := s.calls, cerr := s.cerr, value := .error outcome }
  | .ok a =>
    { calls := s.calls ++ (f a).calls, cerr := s.cerr ++ (f a).cerr, value := (f a).value }

instance : Monad Step where
  pure := Step.pure
  bind := Step.bind

/-- The record of one call. -/
def Step.call (c : Call) : Step Unit :=
  { calls := [c], cerr := "", value := .ok () }

/-- The record of several calls. -/
def Step.record (cs : List Call) : Step Unit :=
  { calls := cs, cerr := "", value := .ok () }

/-- Text written to `std::cerr`. -/
def Step.write_cerr (text : String) : Step Unit :=
  { calls := [], cerr := text, value := .ok () }

/-- A line written to `std::cerr` followed by `return 1`. -/
def Step.return_1 {α : Type} (step : Failure) (line : String) : Step α :=
  { calls := [], cerr := line ++ "\n", value := .error (.failure step) }

/-- A `std::runtime_error` thrown inside the `try` block of `main`: the
handler at lines 306-309 writes `what()` to `std::cerr` and returns 1. -/
def Step.throw {α : Type} (step : Failure) (what : String) : Step α :=
  { calls := [], cerr := what ++ "\n", value := .error (.failure step) }

/-- Undefined behaviour, or an exception that the handler does not catch. -/
def Step.crash {α : Type} (step : Failure) : Step α :=
  { calls := [], cerr := "", value := .error (.crashed step) }

/-- A value or the `std::runtime_error` that a collaborator threw. -/
def Step.of_except {α : Type} (step : Failure) : Except String α → Step α
  | .ok a => Step.pure a
  | .error what => Step.throw step what

/-! ## The functions of `bpf2c.cpp` -/

/-- The constant `copyright_notice`. -/
def copyright_notice : String :=
  "// Copyright (c) Microsoft Corporation\n// SPDX-License-Identifier: MIT\n"

/-- The function `emit_skeleton`: the text written to `std::cout`, or `none`
when `substr` throws `std::out_of_range`. -/
def emit_skeleton (regex_replace : String → String → String → String)
    (c_name code : String) : Option String :=
  let output := regex_replace code "___METADATA_TABLE___" c_name
  match substr output (copyright_notice.length + 1) npos with
  | none => none
  | some output => some (output ++ "\n")

/-- The function `load_file_to_memory`: the file contents, or the message
of the `std::runtime_error` it throws. -/
def load_file_to_memory {G V : Type} (X : Externals G V) (path : String) :
    Except String (List Nat) :=
  match X.stat path with
  | none => .error ("Failed to read file: " ++ path)
  | some st_size =>
    match X.ifstream path with
    | some available =>
      if available.length < st_size then .error ("Failed to read file: " ++ path)
      else .ok (available.take st_size)
    | none => .error ("Failed to read file: " ++ path)

/-- The function `elf_everparse_error`: the line written to `std::cerr`. -/
def elf_everparse_error (struct_name field_name reason : String) : String :=
  "Failed parsing in struct " ++ struct_name ++ " field " ++ field_name ++ " reason " ++
    reason ++ "\n"

/-- Lines 257-262: the program type and attach type of one section. With a
global type (`global_program_type_set`) the variables keep the values of
lines 247-253; otherwise the registry is asked for the section name. -/
def resolve_section_type {G V : Type} (X : Externals G V) (global : Option (Nat × Nat))
    (section_name : String) : Step (Nat × Nat) :=
  match global with
  | some types => pure types
  | none => do
    Step.call (.ebpf_get_program_type_by_name section_name)
    match X.ebpf_get_program_type_by_name section_name with
    | none =>
      Step.return_1 (.section_type_resolution section_name)
        ("Program type not found for section name " ++ section_name)
    | some types => pure types

/-- Lines 264-281: the verification of one section. A failed verification
throws; the message is built from `error_message`, which is not checked
against the null pointer. -/
def verify_section {G V : Type} (X : Externals G V) (options : Options) (data : List Nat)
    (section_name : String) (program_type : Nat) (v : V) : Step V :=
  if options.verify_programs = true then
    let answer := X.ebpf_api_elf_verify_section_from_memory v data section_name program_type
    do
      Step.call (.ebpf_api_elf_verify_section_from_memory section_name program_type answer.1)
      if answer.1.result ≠ 0 then
        match answer.1.error_message with
        | none => Step.crash (.verification section_name)
        | some error_message =>
          Step.throw (.verification section_name)
            ("Verification failed for " ++ section_name ++ " with error " ++ error_message ++
              "\n Report:\n" ++ answer.1.report.getD "")
      else pure answer.2
  else pure v

/-- Lines 282-284: the program information hash of one section. The calls
recorded are the two that `get_program_info_type_hash` makes: the query of
the verifier and, when that succeeds, the digest of the byte range. -/
def hash_section {G V : Type} (X : Externals G V) (options : Options)
    (section_name : String) (v : V) : Step (Option (List Nat)) :=
  if options.verify_programs = true ∧ options.hash_algorithm ≠ "none" then
    let reported := X.ebpf_get_program_info_from_verifier v
    do
      Step.call (.ebpf_get_program_info_from_verifier reported)
      Step.record
        (match reported with
         | none => []
         | some program_info =>
           [.hash_byte_ranges options.hash_algorithm
             (program_info_byte_range X.hash program_info)])
      let program_info_hash ← Step.of_except (.program_info_hashing section_name)
        (get_program_info_type_hash X.hash options.hash_algorithm reported)
      pure (some program_info_hash)
  else pure none

/-- Lines 257-285: the body of the loop over the sections. It yields the
generator and the verifier as the section leaves them. -/
def process_section {G V : Type} (X : Externals G V) (options : Options) (data : List Nat)
    (global : Option (Nat × Nat)) (section_name : String) (generator : G) (v : V) :
    Step (G × V) := do
  let types ← resolve_section_type X global section_name
  let v ← verify_section X options data section_name types.1 v
  let program_info_hash ← hash_section X options section_name v
  Step.call (.parse_section section_name types.1 types.2 program_info_hash)
  let generator ← Step.of_except (.section_parse section_name)
    (X.parse_section generator section_name types.1 types.2 program_info_hash)
  pure (generator, v)

/-- Lines 256-286: the loop that resolves, verifies, hashes and parses the
sections in enumeration order. -/
def parse_sections {G V : Type} (X : Externals G V) (options : Options) (data : List Nat)
    (global : Option (Nat × Nat)) : List String → G → V → Step G
  | [], generator, _ => pure generator
  | section_name :: rest, generator, v => do
    let state ← process_section X options data global section_name generator v
    parse_sections X options data global rest state.1 state.2

/-- Lines 288-290: the loop that generates the sections. -/
def generate_sections {G V : Type} (X : Externals G V) : List String → G → Step G
  | [], generator => pure generator
  | section_name :: rest, generator => do
    Step.call (.generate section_name)
    let generator ← Step.of_except (.section_generate section_name)
      (X.generate generator section_name)
    generate_sections X rest generator

/-- The local variables of `main` after line 253. -/
structure Opened (G : Type) where
  c_name : String
  data : List Nat
  sections : List String
  generator : G
  global : Option (Nat × Nat)

/-- Lines 214-215: the artifact name. -/
def artifact_name (file : String) : Step String :=
  match derive_c_name file with
  | none => Step.crash .artifact_name
  | some c_name => pure c_name

/-- Lines 217-222: the hash of the file, unless the algorithm is "none". -/
def hash_file {G V : Type} (X : Externals G V) (options : Options) (data : List Nat) :
    Step (Option (List Nat)) :=
  if options.hash_algorithm ≠ "none" then do
    Step.call (.hash_string options.hash_algorithm)
    let digest ← Step.of_except .file_hashing (X.hash.hash_string options.hash_algorithm data)
    pure (some digest)
  else pure none

/-- Lines 225-228: the structural check of the ELF file. The third argument
of `ElfCheckElf` is the size cast to `uint32_t`. -/
def check_elf {G V : Type} (X : Externals G V) (data : List Nat) : Step Unit := do
  Step.call .ElfCheckElf
  Step.write_cerr (String.join
    ((X.ElfCheckElf data.length data (data.length % 2 ^ 32)).2.map
      (fun e => elf_everparse_error e.1 e.2.1 e.2.2)))
  if (X.ElfCheckElf data.length data (data.length % 2 ^ 32)).1 = false then
    Step.return_1 .elf_validation "ELF file is invalid"
  else pure ()

/-- Lines 233-238: the list of sections, which must not be empty when the
programs are verified. -/
def enumerate_sections {G V : Type} (X : Externals G V) (options : Options) (generator : G) :
    Step (List String) := do
  Step.call (.program_sections (X.program_sections generator))
  let sections ← Step.of_except .section_enumeration (X.program_sections generator)
  if options.verify_programs = true ∧ sections.length = 0 then
    Step.return_1 .no_program_sections
      ("ELF " ++ options.file ++ " file contains no program sections")
  else pure sections

/-- Lines 244-253: the global program type and attach type, if a type
string was supplied. -/
def resolve_global_type {G V : Type} (X : Externals G V) (options : Options) :
    Step (Option (Nat × Nat)) :=
  if options.type_string ≠ "" then do
    Step.call (.ebpf_get_program_type_by_name options.type_string)
    match X.ebpf_get_program_type_by_name options.type_string with
    | none =>
      Step.return_1 .type_string_resolution
        ("Program type not found for type string " ++ options.type_string)
    | some types => pure (some types)
  else pure none

/-- Lines 214-230 of `main`: from the artifact name to the construction of
the generator. It yields the artifact name, the file contents and the
generator. -/
def construct_generator {G V : Type} (X : Externals G V) (options : Options) :
    Step (String × List Nat × G) := do
  let c_name ← artifact_name options.file
  Step.call (.load_file_to_memory options.file)
  let data ← Step.of_except .file_loading (load_file_to_memory X options.file)
  let hash_value ← hash_file X options data
  check_elf X data
  Step.call (.bpf_code_generator c_name hash_value)
  let generator ← Step.of_except .generator_construction
    (X.bpf_code_generator data c_name hash_value)
  pure (c_name, data, generator)

/-- Lines 232-253 of `main`: the section enumeration, the parse of the global
data and the global program type. -/
def finish_opening {G V : Type} (X : Externals G V) (options : Options) (c_name : String)
    (data : List Nat) (generator : G) : Step (Opened G) := do
  let sections ← enumerate_sections X options generator
  Step.call .parse
  let generator ← Step.of_except .global_data_parsing (X.parse generator)
  let global ← resolve_global_type X options
  pure { c_name := c_name, data := data, sections := sections, generator := generator,
         global := global }

/-- Lines 214-253 of `main`: from the artifact name to the global program
type. -/
def open_generator {G V : Type} (X : Externals G V) (options : Options) : Step (Opened G) := do
  let constructed ← construct_generator X options
  finish_opening X options constructed.1 constructed.2.1 constructed.2.2

/-- Lines 214-290 of `main`: everything between the command line and the
first write to `std::cout`. It yields the artifact name and the generator. -/
def prepare {G V : Type} (X : Externals G V) (v : V) (options : Options) :
    Step (String × G) := do
  let opened ← open_generator X options
  let generator ←
    parse_sections X options opened.data opened.global opened.sections opened.generator v
  let generator ← generate_sections X opened.sections generator
  pure (opened.c_name, generator)

/-- What a run of `main` leaves behind: how it ended, what it wrote to
`std::cout` and `std::cerr`, and the calls it made, in order. -/
structure Result where
  outcome : Outcome
  cout : String
  cerr : String
  calls : List Call
deriving DecidableEq, Repr

/-- Lines 292-294: the banner. -/
def banner (file : String) : String :=
  copyright_notice ++ "\n" ++ "// Do not alter this generated file." ++ "\n" ++
    "// This file was generated from " ++ file ++ "\n" ++ "\n"

/-- Lines 305-310: the final emit, entered with `written` on `std::cout`. -/
def emit_final {G V : Type} (X : Externals G V) (generator : G) (written cerr : String)
    (calls : List Call) : Result :=
  let emitted := X.emit_c_code generator
  match emitted.2 with
  | none =>
    { outcome := .success, cout := written ++ emitted.1, cerr := cerr,
      calls := calls ++ [.emit_c_code] }
  | some what =>
    { outcome := .failure .final_emit, cout := written ++ emitted.1, cerr := cerr ++ what ++ "\n",
      calls := calls ++ [.emit_c_code] }

/-- Lines 295-304: the skeleton selected by the output type, then the final
emit. -/
def emit_skeleton_then_final {G V : Type} (X : Externals G V) (c_name code : String)
    (generator : G) (written cerr : String) (calls : List Call) : Result :=
  match emit_skeleton X.regex_replace c_name code with
  | none =>
    { outcome := .crashed .skeleton_emission, cout := written, cerr := cerr,
      calls := calls ++ [.emit_skeleton c_name] }
  | some skeleton =>
    emit_final X generator (written ++ skeleton) cerr (calls ++ [.emit_skeleton c_name])

/-- Lines 214-310 of `main`, entered with the parsed options. -/
def run {G V : Type} (X : Externals G V) (v : V) (options : Options) : Result :=
  let prepared := prepare X v options
  match prepared.value with
  | .error outcome =>
    { outcome := outcome, cout := "", cerr := prepared.cerr, calls := prepared.calls }
  | .ok (c_name, generator) =>
    match options.type with
    | .Bare => emit_final X generator (banner options.file) prepared.cerr prepared.calls
    | .KernelPE =>
      emit_skeleton_then_final X c_name X.bpf2c_driver generator (banner options.file)
        prepared.cerr prepared.calls
    | .UserPE =>
      emit_skeleton_then_final X c_name X.bpf2c_dll generator (banner options.file)
        prepared.cerr prepared.calls

/-- The function `main`, run with the verifier in state `v`. When the loop
over the parameters fails, `main` returns 1 with what the option handler
wrote to `std::cerr`. -/
def main {G V : Type} (X : Externals G V) (v : V) (argv0 : String)
    (parameters : List String) : Result :=
  match parse_parameters X.enable_skip_verify argv0 parameters Options.initial with
  | .error written =>
    { outcome := .failure .option_parsing, cout := "", cerr := written, calls := [] }
  | .ok options => run X v options

/-! ## A sample world -/

/-- A skeleton template: a copyright prefix of 72 characters, then text
holding the substitution token. -/
def sample_template : String :=
  "// Copyright (c) Microsoft Corporation\n// SPDX-License-Identifier: MIT\n\n" ++
    "table ___METADATA_TABLE___;"

/-- A world in which every step succeeds. The file `prog.o` holds three
bytes and has the sections `xdp_prog` and `bind`; the registry knows
`xdp_prog`, `bind` and `xdp`; the verifier accepts every section and then
reports a program information named after the section it verified last,
which is its state; the generator state is the list of the sections it
parsed. -/
def sample_world : Externals (List String) String where
  enable_skip_verify := true
  stat := fun path => if path = "prog.o" then some 3 else none
  ifstream := fun path => if path = "prog.o" then some [127, 69, 76] else none
  hash := sample_hash
  ElfCheckElf := fun _ _ _ => (true, [])
  bpf_code_generator := fun _ _ _ => .ok []
  program_sections := fun _ => .ok ["xdp_prog", "bind"]
  parse := fun generator => .ok generator
  parse_section := fun generator section_name _ _ _ => .ok (generator ++ [section_name])
  generate := fun generator _ => .ok generator
  emit_c_code := fun generator => (String.join (generator.map (fun s => "code " ++ s ++ "\n")), none)
  ebpf_get_program_type_by_name := fun name =>
    if name = "xdp_prog" then some (1, 10)
    else if name = "bind" then some (2, 20)
    else if name = "xdp" then some (1, 10)
    else none
  ebpf_api_elf_verify_section_from_memory := fun _ _ section_name _ =>
    ({ result := 0, report := none, error_message := none }, section_name)
  ebpf_get_program_info_from_verifier := fun v =>
    some { program_type_descriptor := { sample_descriptor with name := v }
           program_type_specific_helper_prototype := [] }
  bpf2c_driver := sample_template
  bpf2c_dll := sample_template
  regex_replace := fun code _ _ => code

/-- The sample world with a file that has no program sections. -/
def empty_world : Externals (List String) String :=
  { sample_world with program_sections := fun _ => .ok [] }

/-- The sample world with a verifier that rejects the section `bind`, with
the given error message and report. -/
def rejecting_world (error_message report : Option String) :
    Externals (List String) String :=
  { sample_world with
    ebpf_api_elf_verify_section_from_memory := fun _ _ section_name _ =>
      if section_name = "bind" then
        ({ result := 1, report := report, error_message := error_message }, section_name)
      else ({ result := 0, report := none, error_message := none }, section_name) }

/-- The sample world with a generator whose final emit throws after it has
written part of its output. -/
def failing_emit_world : Externals (List String) String :=
  { sample_world with emit_c_code := fun _ => ("#include", some "emit failed") }

/-- The options that `--bpf prog.o --type xdp` selects. -/
def sample_options_typed : Options :=
  { type := .Bare, file := "prog.o", type_string := "xdp", hash_algorithm := "SHA256",
    verify_programs := true }

/-- The options that `--bpf prog.o` selects. -/
def sample_options : Options :=
  { type := .Bare, file := "prog.o", type_string := "", hash_algorithm := "SHA256",
    verify_programs := true }

/-- The options that `--bpf prog.o --no-verify` selects. -/
def sample_options_unverified : Options :=
  { type := .Bare, file := "prog.o", type_string := "", hash_algorithm := "SHA256",
    verify_programs := false }

/-- The options that `--bpf prog.o --type nope` selects. -/
def sample_options_unknown_type : Options :=
  { type := .Bare, file := "prog.o", type_string := "nope", hash_algorithm := "SHA256",
    verify_programs := true }

/-! ## The parts of one loop iteration, named for the theorems -/

/-- The registry call that resolving one section makes. -/
def lookup_calls (global : Option (Nat × Nat)) (section_name : String) : List Call :=
  match global with
  | some _ => []
  | none => [.ebpf_get_program_type_by_name section_name]

/-- The types that a section resolves to under the active policy. -/
def resolved_types {G V : Type} (X : Externals G V) (global : Option (Nat × Nat))
    (section_name : String) : Option (Nat × Nat) :=
  match global with
  | some types => some types
  | none => X.ebpf_get_program_type_by_name section_name

/-- The verifier call that one section makes. -/
def verify_calls {G V : Type} (X : Externals G V) (options : Options) (data : List Nat)
    (section_name : String) (program_type : Nat) (v : V) : List Call :=
  if options.verify_programs = true then
    [.ebpf_api_elf_verify_section_from_memory section_name program_type
      (X.ebpf_api_elf_verify_section_from_memory v data section_name program_type).1]
  else []

/-- The verifier state after the verification of one section. -/
def verified_state {G V : Type} (X : Externals G V) (options : Options) (data : List Nat)
    (section_name : String) (program_type : Nat) (v : V) : V :=
  if options.verify_programs = true then
    (X.ebpf_api_elf_verify_section_from_memory v data section_name program_type).2
  else v

/-- The verifier rejects the section. -/
def verification_fails {G V : Type} (X : Externals G V) (options : Options) (data : List Nat)
    (section_name : String) (program_type : Nat) (v : V) : Prop :=
  options.verify_programs = true ∧
    (X.ebpf_api_elf_verify_section_from_memory v data section_name program_type).1.result ≠ 0

instance {G V : Type} (X : Externals G V) (options : Options) (data : List Nat)
    (section_name : String) (program_type : Nat) (v : V) :
    Decidable (verification_fails X options data section_name program_type v) := by
  unfold verification_fails; infer_instance

/-- The calls that hashing the program information of one section makes. -/
def hash_calls {G V : Type} (X : Externals G V) (options : Options) (v : V) : List Call :=
  if options.verify_programs = true ∧ options.hash_algorithm ≠ "none" then
    .ebpf_get_program_info_from_verifier (X.ebpf_get_program_info_from_verifier v) ::
      (match X.ebpf_get_program_info_from_verifier v with
       | none => []
       | some program_info =>
         [.hash_byte_ranges options.hash_algorithm (program_info_byte_range X.hash program_info)])
  else []

/-- The program information hash of one section, or the message of the
exception that `get_program_info_type_hash` throws. -/
def section_hash {G V : Type} (X : Externals G V) (options : Options) (v : V) :
    Except String (Option (List Nat)) :=
  if options.verify_programs = true ∧ options.hash_algorithm ≠ "none" then
    match get_program_info_type_hash X.hash options.hash_algorithm
        (X.ebpf_get_program_info_from_verifier v) with
    | .error what => .error what
    | .ok digest => .ok (some digest)
  else .ok none

/-- What the handler or the crash leaves on `std::cerr` and as the outcome
when the verifier rejects a section. -/
def verification_failure (section_name : String) (answer : verify_result) : String × Outcome :=
  match answer.error_message with
  | none => ("", .crashed (.verification section_name))
  | some error_message =>
    ("Verification failed for " ++ section_name ++ " with error " ++ error_message ++
        "\n Report:\n" ++ answer.report.getD "" ++ "\n",
      .failure (.verification section_name))

/-- The call is a query of the program type registry by name. -/
def Call.is_registry_lookup : Call → Bool
  | .ebpf_get_program_type_by_name _ => true
  | _ => false

/-- The call reports a verification that the verifier rejected. -/
def Call.is_failed_verification : Call → Prop
  | .ebpf_api_elf_verify_section_from_memory _ _ answer => answer.result ≠ 0
  | _ => False

/-- The way a run ends at a rejected verification `c`: with the outcome and
the error text of `verification_failure`, and with `c` as its last call. -/
def verification_fate (c : Call) (calls : List Call) (cerr : String) (outcome : Outcome) :
    Prop :=
  ∀ s pt answer, c = .ebpf_api_elf_verify_section_from_memory s pt answer →
    outcome = (verification_failure s answer).2 ∧
      (∃ text, cerr = text ++ (verification_failure s answer).1) ∧
      ∃ front, calls = front ++ [c]

/-- The step computes a digest. -/
def Failure.is_hashing : Failure → Prop
  | .file_hashing => True
  | .program_info_hashing _ => True
  | _ => False

/-- The call computes no digest and hands no digest on: it is neither a
digest of the file, nor a query or digest of the program information, and
when it constructs the generator or parses a section it passes no hash. -/
def Call.is_hash_free (c : Call) : Prop :=
  (∀ algorithm, c ≠ .hash_string algorithm) ∧
  (∀ algorithm byte_range, c ≠ .hash_byte_ranges algorithm byte_range) ∧
  (∀ reported, c ≠ .ebpf_get_program_info_from_verifier reported) ∧
  (∀ c_name elf_file_hash, c = .bpf_code_generator c_name elf_file_hash → elf_file_hash = none) ∧
  (∀ s pt at_ program_info_hash, c = .parse_section s pt at_ program_info_hash →
    program_info_hash = none)

/-- The options that `--bpf prog.o --hash none` selects. -/
def sample_options_unhashed : Options :=
  { type := .Bare, file := "prog.o", type_string := "", hash_algorithm := "none",
    verify_programs := true }

/-- Every section parse in the calls comes right after the verification of
the same section with the same program type, the query of the program
information and its digest, in this order; the verifier accepted the
section, and the hash passed to the parse is present and is what
`get_program_info_type_hash` returns for the program information that the
query just before it reported. -/
def hashed_after_own_verification (hash : hash_t) (algorithm : String) (calls : List Call) :
    Prop :=
  ∀ front back s pt at_ program_info_hash,
    calls = front ++ .parse_section s pt at_ program_info_hash :: back →
    ∃ before answer program_info digest,
      front = before ++
        [.ebpf_api_elf_verify_section_from_memory s pt answer,
         .ebpf_get_program_info_from_verifier (some program_info),
         .hash_byte_ranges algorithm (program_info_byte_range hash program_info)] ∧
      answer.result = 0 ∧
      get_program_info_type_hash hash algorithm (some program_info) = .ok digest ∧
      program_info_hash = some digest

/-- The call is a parse of a section. -/
def Call.is_parse_section : Call → Prop
  | .parse_section _ _ _ _ => True
  | _ => False

/-- The way a run ends at the failed lookup `c` of a section name: `main`
returns 1 at the resolution of that section, the error names the section,
and `c` is the last call of the run. -/
def section_lookup_fate (c : Call) (calls : List Call) (cerr : String) (outcome : Outcome) :
    Prop :=
  ∀ s, c = .ebpf_get_program_type_by_name s →
    outcome = .failure (.section_type_resolution s) ∧
      (∃ text, cerr = text ++ ("Program type not found for section name " ++ s ++ "\n")) ∧
      ∃ front, calls = front ++ [c]

/-- The call verifies, parses or generates a section. -/
def Call.is_section_call : Call → Prop
  | .ebpf_api_elf_verify_section_from_memory _ _ _ => True
  | .parse_section _ _ _ _ => True
  | .generate _ => True
  | _ => False

/-! ## More sample worlds -/

/-- The sample world with a file system that reports five bytes for
`prog.o`, two more than its stream delivers. -/
def short_read_world : Externals (List String) String :=
  { sample_world with stat := fun path => if path = "prog.o" then some 5 else none }

/-- The sample world with a file system that reports two bytes for
`prog.o`, one fewer than its stream delivers. -/
def grown_file_world : Externals (List String) String :=
  { sample_world with stat := fun path => if path = "prog.o" then some 2 else none }

/-- The sample world with a file that cannot be opened. -/
def closed_file_world : Externals (List String) String :=
  { sample_world with ifstream := fun _ => none }

/-! ## The calls on the code generator -/

/-- The call is made on the `bpf_code_generator` object: it is its
construction or one of its methods. -/
def Call.on_generator : Call → Bool
  | .bpf_code_generator _ _ => true
  | .program_sections _ => true
  | .parse => true
  | .parse_section _ _ _ _ => true
  | .generate _ => true
  | .emit_c_code => true
  | _ => false

/-- The call is `generator.parse` for the named section. -/
def Call.parses (c : Call) (section_name : String) : Prop :=
  ∃ program_type attach_type program_info_hash,
    c = .parse_section section_name program_type attach_type program_info_hash

/-- The call is `emit_skeleton`. -/
def Call.is_emit_skeleton : Call → Bool
  | .emit_skeleton _ => true
  | _ => false

/-! ## `std::regex_replace` for a pattern of ordinary characters -/

/-- Where the scan of a format string stands: in ordinary text, right after
a dollar sign, or right after a dollar sign and the digit `d`. -/
inductive format_state
  | text
  | dollar
  | digit (d : Char)

/-- The scan of the format string by the member `format` of
`std::match_results` under the default flags, for a match of a pattern
without capture groups: `pre` is the text between the end of the previous
match and this match, `matched` the match and `suf` the text after it. The
rules are those of ECMAScript: `$$` is a dollar sign, `$&` the match, a dollar
sign before a grave accent the text before the match, a dollar sign before an
apostrophe the text after it, `$n` and `$nn` the capture group of that number
(group 0 is the match, and a group that the pattern does not have is empty),
and a dollar sign before any other character, or at the end, is itself. -/
def format_scan (pre matched suf : List Char) : format_state → List Char → List Char
  | .text, [] => []
  | .text, c :: rest =>
    if c = '$' then format_scan pre matched suf .dollar rest
    else c :: format_scan pre matched suf .text rest
  | .dollar, [] => ['$']
  | .dollar, d :: rest =>
    if d = '$' then '$' :: format_scan pre matched suf .text rest
    else if d = '&' then matched ++ format_scan pre matched suf .text rest
    else if d = Char.ofNat 96 then pre ++ format_scan pre matched suf .text rest
    else if d = Char.ofNat 39 then suf ++ format_scan pre matched suf .text rest
    else if d.isDigit = true then format_scan pre matched suf (.digit d) rest
    else '$' :: d :: format_scan pre matched suf .text rest
  | .digit d, [] => if d = '0' then matched else []
  | .digit d, e :: rest =>
    if e.isDigit = true then
      (if d = '0' ∧ e = '0' then matched else []) ++ format_scan pre matched suf .text rest
    else
      (if d = '0' then matched else []) ++
        (if e = '$' then format_scan pre matched suf .dollar rest
         else e :: format_scan pre matched suf .text rest)

/-- The member `format` of `std::match_results` under the default flags: the
expansion of the format string `fmt` for one match. -/
def format (pre matched suf fmt : List Char) : List Char :=
  format_scan pre matched suf .text fmt

/-- The scan of `std::regex_replace` over the rest of the input: `pre` is
the text copied since the previous match and `skip` the number of characters
of the current match still to pass over. Text outside the matches is copied
and each match is replaced by the expansion of the format string. -/
def regex_replace_scan (pattern fmt : List Char) : List Char → List Char → Nat → List Char
  | [], _, _ => []
  | _ :: rest, _, skip + 1 => regex_replace_scan pattern fmt rest [] skip
  | c :: rest, pre, 0 =>
    if pattern.isPrefixOf (c :: rest) = true then
      format pre pattern ((c :: rest).drop pattern.length) fmt ++
        regex_replace_scan pattern fmt rest [] (pattern.length - 1)
    else c :: regex_replace_scan pattern fmt rest (pre ++ [c]) 0

/-- The call `std::regex_replace(code, std::regex(pattern), fmt)` with the
default flags, for a pattern that is not empty and consists of ordinary
characters, as `___METADATA_TABLE___` does: every occurrence of the pattern,
found from left to right without overlap, is replaced by the expansion of
`fmt`. -/
def regex_replace (code pattern fmt : String) : String :=
  String.mk (regex_replace_scan pattern.toList fmt.toList code.toList [] 0)

/-- The sample world with `std::regex_replace` as the standard library has
it and with a file system in which every path leads to the three bytes of
`prog.o`. -/
def standard_world : Externals (List String) String :=
  { sample_world with
    stat := fun _ => some 3
    ifstream := fun _ => some [127, 69, 76]
    regex_replace := regex_replace }

/-- The options that `--sys --dll --bpf prog.o` selects. -/
def sample_options_dll : Options :=
  { type := .UserPE, file := "prog.o", type_string := "", hash_algorithm := "SHA256",
    verify_programs := true }

/-- The sample world with a file whose second section, `mystery`, has a
name that the registry does not know. -/
def unknown_section_world : Externals (List String) String :=
  { sample_world with program_sections := fun _ => .ok ["xdp_prog", "mystery"] }

/-- The call invokes the verifier: it verifies a section or asks for the
program information of the section verified last. -/
def Call.on_verifier : Call → Bool
  | .ebpf_api_elf_verify_section_from_memory _ _ _ => true
  | .ebpf_get_program_info_from_verifier _ => true
  | _ => false

/-- The options that `--bpf prog.o --type xdp --hash none` selects. -/
def sample_options_typed_unhashed : Options :=
  { type := .Bare, file := "prog.o", type_string := "xdp", hash_algorithm := "none",
    verify_programs := true }

/-! ## The ways in which a run ends early -/

/-- The call is a verification of the named section that the verifier
rejected without an error message: it left `error_message` null. -/
def Call.is_unexplained_rejection (c : Call) (section_name : String) : Prop :=
  ∃ program_type answer,
    c = .ebpf_api_elf_verify_section_from_memory section_name program_type answer ∧
      answer.result ≠ 0 ∧ answer.error_message = none

/-- A reading of how a part of `main` ends early: when it ends in `return 1`
something was written to `std::cerr`, and when it ends without a return it
ends at the verification of a section that the verifier rejected without an
error message. -/
def reported_or_unexplained (outcome : Outcome) (calls : List Call) (cerr : String) : Prop :=
  (∀ step, outcome = .failure step → cerr ≠ "") ∧
  (∀ step, outcome = .crashed step →
    ∃ s c, step = .verification s ∧ c ∈ calls ∧ Call.is_unexplained_rejection c s)

/-- Every early end of the part is reported or is an unexplained
rejection. -/
def Step.ends_well {α : Type} (s : Step α) : Prop :=
  ∀ outcome, s.value = .error outcome → reported_or_unexplained outcome s.calls s.cerr

/-! ## Literal replacement -/

/-- The scan of the substitution as the specification words it: text
outside the occurrences of the token is copied and each occurrence, found
from left to right without overlap, is replaced by the name itself, character
for character. -/
def spec_replace_scan (pattern name : List Char) : List Char → Nat → List Char
  | [], _ => []
  | _ :: rest, skip + 1 => spec_replace_scan pattern name rest skip
  | c :: rest, 0 =>
    if pattern.isPrefixOf (c :: rest) = true then
      name ++ spec_replace_scan pattern name rest (pattern.length - 1)
    else c :: spec_replace_scan pattern name rest 0

/-- The substitution as the specification words it, a literal string
replacement: `code` with every occurrence of `pattern` replaced by `name`. -/
def spec_replace (code pattern name : String) : String :=
  String.mk (spec_replace_scan pattern.toList name.toList code.toList 0)

/-! ## A file that is not an ELF file -/

/-- The sample world with a validator that rejects the file and reports one
parsing error through `elf_everparse_error`. -/
def invalid_elf_world : Externals (List String) String :=
  { sample_world with
    ElfCheckElf := fun _ _ _ => (false, [("Elf64_Ehdr", "e_ident", "constraint failed")]) }

/-- What the run of the validator writes to `std::cerr` through the callback
`elf_everparse_error`. -/
def everparse_errors {G V : Type} (X : Externals G V) (data : List Nat) : String :=
  String.join ((X.ElfCheckElf data.length data (data.length % 2 ^ 32)).2.map
    (fun e => elf_everparse_error e.1 e.2.1 e.2.2))

/-! ## The program information hash comes after the verification -/

/-- The call asks the verifier for the program information. -/
def Call.is_program_info_query : Call → Prop
  | .ebpf_get_program_info_from_verifier _ => True
  | _ => False

/-- The call is a verification that the verifier accepted. -/
def Call.is_accepted_verification : Call → Prop
  | .ebpf_api_elf_verify_section_from_memory _ _ answer => answer.result = 0
  | _ => False

/-- Every query of the program information in the calls comes right after a
verification that the verifier accepted. -/
def queried_after_verification (calls : List Call) : Prop :=
  ∀ front c back, calls = front ++ c :: back → Call.is_program_info_query c →
    ∃ before q, front = before ++ [q] ∧ Call.is_accepted_verification q

/-- The options that `--bpf prog.o --hash SHA512 --no-verify` selects. -/
def sample_options_unverified_sha512 : Options :=
  { type := .Bare, file := "prog.o", type_string := "", hash_algorithm := "SHA512",
    verify_programs := false }

/-- The options that `--bpf dir\sub/prog.v1.o` selects. -/
def sample_options_path : Options :=
  { type := .Bare, file := "dir\\sub/prog.v1.o", type_string := "", hash_algorithm := "SHA256",
    verify_programs := true }

/-- The options that `--bpf out\.hidden` selects. -/
def sample_options_hidden : Options :=
  { type := .Bare, file := "out\\.hidden", type_string := "", hash_algorithm := "SHA256",
    verify_programs := true }

/-! ## Repeated helper ids -/

/-- The helper table without the prototypes that are shadowed: a prototype
is kept when no prototype declared after it has its `helper_id`. -/
def last_declared :
    List ebpf_helper_function_prototype_t → List ebpf_helper_function_prototype_t
  | [] => []
  | prototype :: rest =>
    if prototype.helper_id ∈ rest.map (·.helper_id) then last_declared rest
    else prototype :: last_declared rest

/-- The entry of `helper_id_ordering` for a prototype of the table that no
later prototype shadows: its `helper_id` mapped to its index. -/
def last_entry (table : List ebpf_helper_function_prototype_t) (entry : Nat × Nat) : Prop :=
  ∃ before prototype after, table = before ++ prototype :: after ∧
    entry = (prototype.helper_id, before.length) ∧
    prototype.helper_id ∉ after.map (·.helper_id)

end Bpf2c

/-! # The `bpf` system call shim (`src/libs/api/bpf_syscall.cpp`) -/

namespace BpfSyscall

/-! ## `union bpf_attr` -/

/-- The members of `union bpf_attr` that `bpf` names. A member of a named
inner struct carries the struct name in front: `attr->test.retval` is
`test_retval`. -/
inductive Field
  | link_detach_link_fd
  | link_id
  | start_id
  | next_id
  | map_type
  | key_size
  | value_size
  | max_entries
  | map_flags
  | map_fd
  | key
  | map_id
  | next_key
  | value
  | flags
  | bpf_fd
  | pathname
  | attach_bpf_fd
  | target_fd
  | attach_type
  | attach_flags
  | info_bpf_fd
  | info_info
  | info_info_len
  | prog_bind_map_prog_fd
  | prog_bind_map_map_fd
  | prog_bind_map_flags
  | prog_id
  | prog_type
  | license
  | insns
  | insn_cnt
  | kern_version
  | log_size
  | log_buf
  | test_prog_fd
  | test_retval
  | test_data_size_in
  | test_data_size_out
  | test_data_in
  | test_data_out
  | test_repeat
  | test_duration
  | test_ctx_size_in
  | test_ctx_size_out
  | test_ctx_in
  | test_ctx_out
  | test_flags
  | test_cpu
  | test_batch_size
deriving DecidableEq, Repr

/-- The layout that the headers give, which are not part of the sources at
hand and so are a parameter: `offsetof(union bpf_attr, field)` and
`sizeof(attr->field)` for every member, and the sizes of the two option
structs whose `sizeof` the shim stores. -/
structure Layout where
  offsetof : Field → Nat
  sizeof : Field → Nat
  sizeof_bpf_prog_bind_opts : Nat
  sizeof_bpf_test_run_opts : Nat

/-- The offset right after a member: `offsetof + sizeof`. -/
def Layout.end_offset (layout : Layout) (field : Field) : Nat :=
  layout.offsetof field + layout.sizeof field

/-- The byte at `offset` belongs to the member. -/
def Layout.covers (layout : Layout) (field : Field) (offset : Nat) : Prop :=
  layout.offsetof field ≤ offset ∧ offset < layout.end_offset field

instance (layout : Layout) (field : Field) (offset : Nat) :
    Decidable (layout.covers field offset) := by
  unfold Layout.covers; infer_instance

/-- Two members share no byte. -/
def Layout.disjoint (layout : Layout) (f g : Field) : Prop :=
  layout.end_offset f ≤ layout.offsetof g ∨ layout.end_offset g ≤ layout.offsetof f

instance (layout : Layout) (f g : Field) : Decidable (layout.disjoint f g) := by
  unfold Layout.disjoint; infer_instance

/-- The memory that `attr` points to, byte by byte from offset 0. -/
abbrev bpf_attr := Nat → Nat

/-- The value of `count` bytes in little-endian order. -/
def decode : List Nat → Nat
  | [] => 0
  | byte :: rest => byte + 256 * decode rest

/-- A read of a member: `attr->field`. -/
def get (layout : Layout) (attr : bpf_attr) (field : Field) : Nat :=
  decode ((List.range (layout.sizeof field)).map (fun k => attr (layout.offsetof field + k)))

/-- An assignment to a member, `attr->field = value`: the bytes of the
member hold the value, cut to the size of the member; no other byte changes. -/
def set (layout : Layout) (attr : bpf_attr) (field : Field) (value : Nat) : bpf_attr :=
  fun offset =>
    if layout.covers field offset then value / 256 ^ (offset - layout.offsetof field) % 256
    else attr offset

/-! ## libbpf -/

/-- The struct `bpf_test_run_opts`, with the members that the shim names;
`repeat_` is its member `repeat`. -/
structure bpf_test_run_opts where
  sz : Nat
  data_in : Nat
  data_out : Nat
  data_size_in : Nat
  data_size_out : Nat
  ctx_in : Nat
  ctx_out : Nat
  ctx_size_in : Nat
  ctx_size_out : Nat
  retval : Nat
  repeat_ : Int
  duration : Nat
  flags : Nat
  cpu : Nat
  batch_size : Nat
deriving DecidableEq, Repr, Inhabited

/-- A call of a libbpf function with its arguments, in the order of the
source. A pointer argument that the shim casts from a member is the value of
that member; an argument `&attr->member` is the value of the member before
the call; an options struct is given by the members that the shim sets. -/
inductive Call
  | bpf_link_detach (link_fd : Nat)
  | bpf_link_get_fd_by_id (link_id : Nat)
  | bpf_link_get_next_id (start_id next_id : Nat)
  | bpf_map_create (map_type key_size value_size max_entries map_flags : Nat)
  | bpf_map_delete_elem (map_fd key : Nat)
  | bpf_map_get_fd_by_id (map_id : Nat)
  | bpf_map_get_next_id (start_id next_id : Nat)
  | bpf_map_get_next_key (map_fd key next_key : Nat)
  | bpf_map_lookup_elem (map_fd key value : Nat)
  | bpf_map_lookup_and_delete_elem (map_fd key value : Nat)
  | bpf_map_update_elem (map_fd key value flags : Nat)
  | bpf_obj_get (pathname : Nat)
  | bpf_prog_attach (attach_bpf_fd target_fd attach_type attach_flags : Nat)
  | bpf_prog_detach (target_fd attach_type : Nat)
  | bpf_obj_get_info_by_fd (bpf_fd info info_len : Nat)
  | bpf_obj_pin (bpf_fd pathname : Nat)
  | bpf_prog_bind_map (prog_fd map_fd sz flags : Nat)
  | bpf_prog_get_fd_by_id (prog_id : Nat)
  | bpf_prog_get_next_id (start_id next_id : Nat)
  | bpf_prog_load (prog_type license insns insn_cnt kern_version log_size log_buf : Nat)
  | bpf_prog_test_run_opts (prog_fd : Nat) (opts : bpf_test_run_opts)
deriving DecidableEq, Repr

/-- What a libbpf function leaves behind: its return value, the value it
stored through its `&attr->member` argument if it stored one, and the
content of `*opts` after `bpf_prog_test_run_opts`. -/
structure Answer where
  result : Int
  out : Option Nat
  opts : bpf_test_run_opts
deriving DecidableEq, Repr, Inhabited

/-- The values that `bpf` stores to `errno` itself. -/
inductive Errno
  | EINVAL
deriving DecidableEq, Repr

/-- The observable outcome of one call of `bpf`: the return value, the value
that `bpf` itself stored to `errno` (`none` when it stored nothing), the
memory at `attr` afterwards, and the libbpf calls made. -/
structure Result where
  ret : Int
  errno : Option Errno
  attr : bpf_attr
  calls : List Call

/-- The values of `cmd`: one per case label of the switch, and `other` for
every value that is none of the labels. -/
inductive Command
  | BPF_LINK_DETACH
  | BPF_LINK_GET_FD_BY_ID
  | BPF_LINK_GET_NEXT_ID
  | BPF_MAP_CREATE
  | BPF_MAP_DELETE_ELEM
  | BPF_MAP_GET_FD_BY_ID
  | BPF_MAP_GET_NEXT_ID
  | BPF_MAP_GET_NEXT_KEY
  | BPF_MAP_LOOKUP_ELEM
  | BPF_MAP_LOOKUP_AND_DELETE_ELEM
  | BPF_MAP_UPDATE_ELEM
  | BPF_OBJ_GET
  | BPF_PROG_ATTACH
  | BPF_PROG_DETACH
  | BPF_OBJ_GET_INFO_BY_FD
  | BPF_OBJ_PIN
  | BPF_PROG_BIND_MAP
  | BPF_PROG_GET_FD_BY_ID
  | BPF_PROG_GET_NEXT_ID
  | BPF_PROG_LOAD
  | BPF_PROG_TEST_RUN
  | other
deriving DecidableEq, Repr

/-! ## `bpf` -/

/-- The condition of the macro `CHECK_SIZE(last_field_name)`, lines 7-11:
true when the macro leaves `bpf`. -/
def CHECK_SIZE (layout : Layout) (size : Nat) (last_field_name : Field) : Bool :=
  decide (size < layout.offsetof last_field_name + layout.sizeof last_field_name)

/-- The two statements `errno = EINVAL; return -1;`. -/
def invalid (attr : bpf_attr) : Result :=
  { ret := -1, errno := some .EINVAL, attr := attr, calls := [] }

/-- The statement `return f(...)` for a libbpf function that gets no pointer
into `attr`. -/
def forward (libbpf : Call → Answer) (attr : bpf_attr) (call : Call) : Result :=
  { ret := (libbpf call).result, errno := none, attr := attr, calls := [call] }

/-- The statement `return f(..., &attr->member)`: the function may store to
the member. -/
def forward_out (layout : Layout) (libbpf : Call → Answer) (attr : bpf_attr) (call : Call)
    (member : Field) : Result :=
  { ret := (libbpf call).result
    errno := none
    attr :=
      match (libbpf call).out with
      | some value => set layout attr member value
      | none => attr
    calls := [call] }

/-- The conversion `(int)` of an unsigned 32-bit value. -/
def to_int (value : Nat) : Int :=
  if value % 2 ^ 32 < 2 ^ 31 then (value % 2 ^ 32 : Nat) else (value % 2 ^ 32 : Nat) - 2 ^ 32

/-- Lines 98-112: the initialiser of `test_run_opts`; the members it does not
name are zero. -/
def test_run_opts (layout : Layout) (attr : bpf_attr) : bpf_test_run_opts :=
  { sz := layout.sizeof_bpf_test_run_opts
    data_in := get layout attr .test_data_in
    data_out := get layout attr .test_data_out
    data_size_in := get layout attr .test_data_size_in
    data_size_out := get layout attr .test_data_size_out
    ctx_in := get layout attr .test_ctx_in
    ctx_out := get layout attr .test_ctx_out
    ctx_size_in := get layout attr .test_ctx_size_in
    ctx_size_out := get layout attr .test_ctx_size_out
    retval := 0
    repeat_ := to_int (get layout attr .test_repeat)
    duration := 0
    flags := get layout attr .test_flags
    cpu := get layout attr .test_cpu
    batch_size := get layout attr .test_batch_size }

/-- Lines 115-118: the four assignments made when the run returned 0. -/
def store_test_results (layout : Layout) (attr : bpf_attr) (opts : bpf_test_run_opts) :
    bpf_attr :=
  let attr := set layout attr .test_data_size_out opts.data_size_out
  let attr := set layout attr .test_ctx_size_out opts.ctx_size_out
  let attr := set layout attr .test_retval opts.retval
  set layout attr .test_duration opts.duration

/-- Lines 97-121: the case `BPF_PROG_TEST_RUN`. -/
def prog_test_run (layout : Layout) (libbpf : Call → Answer) (attr : bpf_attr) : Result :=
  let call := Call.bpf_prog_test_run_opts (get layout attr .test_prog_fd)
    (test_run_opts layout attr)
  let retval := (libbpf call).result
  { ret := retval
    errno := none
    attr := if retval = 0 then store_test_results layout attr (libbpf call).opts else attr
    calls := [call] }

/-- The function `bpf(cmd, attr, size)`, lines 13-126. -/
def bpf (layout : Layout) (libbpf : Call → Answer) (cmd : Command) (attr : bpf_attr)
    (size : Nat) : Result :=
  match cmd with
  | .BPF_LINK_DETACH =>
    if CHECK_SIZE layout size .link_detach_link_fd then invalid attr
    else forward libbpf attr (.bpf_link_detach (get layout attr .link_detach_link_fd))
  | .BPF_LINK_GET_FD_BY_ID =>
    if CHECK_SIZE layout size .link_id then invalid attr
    else forward libbpf attr (.bpf_link_get_fd_by_id (get layout attr .link_id))
  | .BPF_LINK_GET_NEXT_ID =>
    if CHECK_SIZE layout size .next_id then invalid attr
    else forward_out layout libbpf attr
      (.bpf_link_get_next_id (get layout attr .start_id) (get layout attr .next_id)) .next_id
  | .BPF_MAP_CREATE =>
    if CHECK_SIZE layout size .map_flags then invalid attr
    else forward libbpf attr
      (.bpf_map_create (get layout attr .map_type) (get layout attr .key_size)
        (get layout attr .value_size) (get layout attr .max_entries)
        (get layout attr .map_flags))
  | .BPF_MAP_DELETE_ELEM =>
    if CHECK_SIZE layout size .key then invalid attr
    else forward libbpf attr
      (.bpf_map_delete_elem (get layout attr .map_fd) (get layout attr .key))
  | .BPF_MAP_GET_FD_BY_ID =>
    if CHECK_SIZE layout size .map_id then invalid attr
    else forward libbpf attr (.bpf_map_get_fd_by_id (get layout attr .map_id))
  | .BPF_MAP_GET_NEXT_ID =>
    if CHECK_SIZE layout size .next_id then invalid attr
    else forward_out layout libbpf attr
      (.bpf_map_get_next_id (get layout attr .start_id) (get layout attr .next_id)) .next_id
  | .BPF_MAP_GET_NEXT_KEY =>
    if CHECK_SIZE layout size .next_key then invalid attr
    else forward libbpf attr
      (.bpf_map_get_next_key (get layout attr .map_fd) (get layout attr .key)
        (get layout attr .next_key))
  | .BPF_MAP_LOOKUP_ELEM =>
    if CHECK_SIZE layout size .value then invalid attr
    else forward libbpf attr
      (.bpf_map_lookup_elem (get layout attr .map_fd) (get layout attr .key)
        (get layout attr .value))
  | .BPF_MAP_LOOKUP_AND_DELETE_ELEM =>
    if CHECK_SIZE layout size .value then invalid attr
    else forward libbpf attr
      (.bpf_map_lookup_and_delete_elem (get layout attr .map_fd) (get layout attr .key)
        (get layout attr .value))
  | .BPF_MAP_UPDATE_ELEM =>
    if CHECK_SIZE layout size .flags then invalid attr
    else forward libbpf attr
      (.bpf_map_update_elem (get layout attr .map_fd) (get layout attr .key)
        (get layout attr .value) (get layout attr .flags))
  | .BPF_OBJ_GET =>
    if CHECK_SIZE layout size .bpf_fd then invalid attr
    else if get layout attr .bpf_fd ≠ 0 then invalid attr
    else forward libbpf attr (.bpf_obj_get (get layout attr .pathname))
  | .BPF_PROG_ATTACH =>
    if CHECK_SIZE layout size .attach_flags then invalid attr
    else forward libbpf attr
      (.bpf_prog_attach (get layout attr .attach_bpf_fd) (get layout attr .target_fd)
        (get layout attr .attach_type) (get layout attr .attach_flags))
  | .BPF_PROG_DETACH =>
    if CHECK_SIZE layout size .attach_type then invalid attr
    else forward libbpf attr
      (.bpf_prog_detach (get layout attr .target_fd) (get layout attr .attach_type))
  | .BPF_OBJ_GET_INFO_BY_FD =>
    if CHECK_SIZE layout size .info_info_len then invalid attr
    else forward_out layout libbpf attr
      (.bpf_obj_get_info_by_fd (get layout attr .info_bpf_fd) (get layout attr .info_info)
        (get layout attr .info_info_len)) .info_info_len
  | .BPF_OBJ_PIN =>
    if CHECK_SIZE layout size .bpf_fd then invalid attr
    else forward libbpf attr
      (.bpf_obj_pin (get layout attr .bpf_fd) (get layout attr .pathname))
  | .BPF_PROG_BIND_MAP =>
    if CHECK_SIZE layout size .prog_bind_map_flags then invalid attr
    else forward libbpf attr
      (.bpf_prog_bind_map (get layout attr .prog_bind_map_prog_fd)
        (get layout attr .prog_bind_map_map_fd) layout.sizeof_bpf_prog_bind_opts
        (get layout attr .prog_bind_map_flags))
  | .BPF_PROG_GET_FD_BY_ID =>
    if CHECK_SIZE layout size .prog_id then invalid attr
    else forward libbpf attr (.bpf_prog_get_fd_by_id (get layout attr .prog_id))
  | .BPF_PROG_GET_NEXT_ID =>
    if CHECK_SIZE layout size .next_id then invalid attr
    else forward_out layout libbpf attr
      (.bpf_prog_get_next_id (get layout attr .start_id) (get layout attr .next_id)) .next_id
  | .BPF_PROG_LOAD =>
    if CHECK_SIZE layout size .kern_version then invalid attr
    else forward libbpf attr
      (.bpf_prog_load (get layout attr .prog_type) (get layout attr .license)
        (get layout attr .insns) (get layout attr .insn_cnt) (get layout attr .kern_version)
        (get layout attr .log_size) (get layout attr .log_buf))
  | .BPF_PROG_TEST_RUN => prog_test_run layout libbpf attr
  | .other => invalid attr

/-! ## What each case checks and what it touches -/

/-- The argument of `CHECK_SIZE` in the case of a command; `none` for the
case `BPF_PROG_TEST_RUN`, which has no `CHECK_SIZE`, and for `default`. -/
def last_field_name : Command → Option Field
  | .BPF_LINK_DETACH => some .link_detach_link_fd
  | .BPF_LINK_GET_FD_BY_ID => some .link_id
  | .BPF_LINK_GET_NEXT_ID => some .next_id
  | .BPF_MAP_CREATE => some .map_flags
  | .BPF_MAP_DELETE_ELEM => some .key
  | .BPF_MAP_GET_FD_BY_ID => some .map_id
  | .BPF_MAP_GET_NEXT_ID => some .next_id
  | .BPF_MAP_GET_NEXT_KEY => some .next_key
  | .BPF_MAP_LOOKUP_ELEM => some .value
  | .BPF_MAP_LOOKUP_AND_DELETE_ELEM => some .value
  | .BPF_MAP_UPDATE_ELEM => some .flags
  | .BPF_OBJ_GET => some .bpf_fd
  | .BPF_PROG_ATTACH => some .attach_flags
  | .BPF_PROG_DETACH => some .attach_type
  | .BPF_OBJ_GET_INFO_BY_FD => some .info_info_len
  | .BPF_OBJ_PIN => some .bpf_fd
  | .BPF_PROG_BIND_MAP => some .prog_bind_map_flags
  | .BPF_PROG_GET_FD_BY_ID => some .prog_id
  | .BPF_PROG_GET_NEXT_ID => some .next_id
  | .BPF_PROG_LOAD => some .kern_version
  | .BPF_PROG_TEST_RUN => none
  | .other => none

/-- The members of `attr` that the case of a command reads or writes. -/
def accessed_fields : Command → List Field
  | .BPF_LINK_DETACH => [.link_detach_link_fd]
  | .BPF_LINK_GET_FD_BY_ID => [.link_id]
  | .BPF_LINK_GET_NEXT_ID => [.start_id, .next_id]
  | .BPF_MAP_CREATE => [.map_flags, .map_type, .key_size, .value_size, .max_entries]
  | .BPF_MAP_DELETE_ELEM => [.map_fd, .key]
  | .BPF_MAP_GET_FD_BY_ID => [.map_id]
  | .BPF_MAP_GET_NEXT_ID => [.start_id, .next_id]
  | .BPF_MAP_GET_NEXT_KEY => [.map_fd, .key, .next_key]
  | .BPF_MAP_LOOKUP_ELEM => [.map_fd, .key, .value]
  | .BPF_MAP_LOOKUP_AND_DELETE_ELEM => [.map_fd, .key, .value]
  | .BPF_MAP_UPDATE_ELEM => [.map_fd, .key, .value, .flags]
  | .BPF_OBJ_GET => [.bpf_fd, .pathname]
  | .BPF_PROG_ATTACH => [.attach_bpf_fd, .target_fd, .attach_type, .attach_flags]
  | .BPF_PROG_DETACH => [.target_fd, .attach_type]
  | .BPF_OBJ_GET_INFO_BY_FD => [.info_bpf_fd, .info_info, .info_info_len]
  | .BPF_OBJ_PIN => [.bpf_fd, .pathname]
  | .BPF_PROG_BIND_MAP => [.prog_bind_map_flags, .prog_bind_map_prog_fd, .prog_bind_map_map_fd]
  | .BPF_PROG_GET_FD_BY_ID => [.prog_id]
  | .BPF_PROG_GET_NEXT_ID => [.start_id, .next_id]
  | .BPF_PROG_LOAD =>
    [.kern_version, .log_size, .log_buf, .prog_type, .license, .insns, .insn_cnt]
  | .BPF_PROG_TEST_RUN =>
    [.test_data_in, .test_data_out, .test_data_size_in, .test_data_size_out, .test_ctx_in,
      .test_ctx_out, .test_ctx_size_in, .test_ctx_size_out, .test_repeat, .test_flags,
      .test_cpu, .test_batch_size, .test_prog_fd, .test_retval, .test_duration]
  | .other => []

/-- The four members that the case `BPF_PROG_TEST_RUN` assigns. -/
def test_results : List Field :=
  [.test_data_size_out, .test_ctx_size_out, .test_retval, .test_duration]

/-! ## Sample values -/

/-- A layout to evaluate on: the members of `test` one after the other, the
pointers of 8 bytes and the others of 4; `key_size` of 4 bytes at offset 4,
where `test.retval` lies; every other member of 4 bytes at offset 0. -/
def sample_layout : Layout :=
  { offsetof := fun field =>
      match field with
      | .test_prog_fd => 0
      | .test_retval => 4
      | .test_data_size_in => 8
      | .test_data_size_out => 12
      | .test_data_in => 16
      | .test_data_out => 24
      | .test_repeat => 32
      | .test_duration => 36
      | .test_ctx_size_in => 40
      | .test_ctx_size_out => 44
      | .test_ctx_in => 48
      | .test_ctx_out => 56
      | .test_flags => 64
      | .test_cpu => 68
      | .test_batch_size => 72
      | .key_size => 4
      | _ => 0
    sizeof := fun field =>
      match field with
      | .test_data_in => 8
      | .test_data_out => 8
      | .test_ctx_in => 8
      | .test_ctx_out => 8
      | _ => 4
    sizeof_bpf_prog_bind_opts := 16
    sizeof_bpf_test_run_opts := 80 }

/-- A memory whose byte at every offset is the offset plus one. -/
def sample_attr : bpf_attr := fun offset => offset + 1

/-- A libbpf whose every function returns 0 and stores nothing, and whose
test run reports 5 bytes of data, 6 of context, the return value 7 and the
duration 8. -/
def sample_libbpf : Call → Answer := fun call =>
  match call with
  | .bpf_prog_test_run_opts _ opts =>
    { result := 0, out := none
      opts := { opts with data_size_out := 5, ctx_size_out := 6, retval := 7, duration := 8 } }
  | _ => { result := 0, out := none, opts := default }

/-- A libbpf whose every function fails with -1 and stores nothing. -/
def failing_libbpf : Call → Answer := fun _ =>
  { result := -1, out := none, opts := default }

end BpfSyscall

/-! # The ioctl handler of the sample extension driver
(`src/tests/sample/ext/drv/sample_ext_drv.c`) -/

namespace SampleExtDrv

/-- The type `NTSTATUS`: a signed 32-bit value. -/
abbrev NTSTATUS := Int

/-- The value of `STATUS_SUCCESS`. -/
def STATUS_SUCCESS : NTSTATUS := 0

/-- The value of `STATUS_UNSUCCESSFUL`, 0xC0000001 read as signed. -/
def STATUS_UNSUCCESSFUL : NTSTATUS := 0xC0000001 - 2 ^ 32

/-- The value of `STATUS_INVALID_PARAMETER`, 0xC000000D read as signed. -/
def STATUS_INVALID_PARAMETER : NTSTATUS := 0xC000000D - 2 ^ 32

/-- The value of `STATUS_BUFFER_TOO_SMALL`, 0xC0000023 read as signed. -/
def STATUS_BUFFER_TOO_SMALL : NTSTATUS := 0xC0000023 - 2 ^ 32

/-- The test `NT_SUCCESS(status)`: the status is not negative. -/
def NT_SUCCESS (status : NTSTATUS) : Prop := 0 ≤ status

instance (status : NTSTATUS) : Decidable (NT_SUCCESS status) := by
  unfold NT_SUCCESS; infer_instance

/-- The values of `ebpf_result_t` that the handler tells apart: the two it
names, and every other value. -/
inductive ebpf_result_t
  | EBPF_SUCCESS
  | EBPF_INVALID_ARGUMENT
  | other (code : Nat)
deriving DecidableEq, Repr

/-- The values of `io_control_code`: the two case labels of the switch, and
`other` for every value that is neither. -/
inductive ControlCode
  | IOCTL_SAMPLE_EBPF_EXT_CTL_RUN
  | IOCTL_SAMPLE_EBPF_EXT_CTL_PROFILE
  | other
deriving DecidableEq, Repr

/-- The struct `sample_program_context_t` of `sample_ext_helpers.h`; a
pointer is its address, `NULL` is 0. -/
structure sample_program_context_t where
  data_start : Nat
  data_end : Nat
  uint32_data : Nat
  uint16_data : Nat
  pid_tgid : Nat
deriving DecidableEq, Repr, Inhabited

/-- The macro `SAMPLE_PID_TGID_VALUE`, line 21. -/
def SAMPLE_PID_TGID_VALUE : Nat := 9999

/-- What `WdfRequestRetrieveInputBuffer` and `WdfRequestRetrieveOutputBuffer`
leave behind: the returned status and the values of the two locals that they
got the addresses of, the buffer (0 is `NULL`) and its length. -/
structure Retrieved where
  status : NTSTATUS
  buffer : Nat
  length : Nat
deriving DecidableEq, Repr, Inhabited

/-- The functions that the handler calls and the two sizes that it takes
with `sizeof`, none of which the sources at hand define. -/
structure Externals where
  WdfRequestRetrieveInputBuffer : Nat → Retrieved
  WdfRequestRetrieveOutputBuffer : Nat → Retrieved
  sample_ebpf_extension_invoke_program : sample_program_context_t → ebpf_result_t
  sample_ebpf_extension_profile_program : Nat → Nat → Nat → ebpf_result_t
  sizeof_sample_ebpf_ext_profile_request_t : Nat
  sizeof_sample_ebpf_ext_profile_reply_t : Nat

/-- A call that the handler makes, with the arguments that are values;
`KdPrintEx` is given by the words of its format string and the status. -/
inductive Call
  | WdfIoQueueGetDevice
  | WdfRequestRetrieveInputBuffer (minimum_required_size : Nat)
  | WdfRequestRetrieveOutputBuffer (minimum_required_size : Nat)
  | KdPrintEx (message : String) (status : NTSTATUS)
  | sample_ebpf_extension_invoke_program (program_context : sample_program_context_t)
  | sample_ebpf_extension_profile_program (profile_request actual_input_length
      profile_reply : Nat)
  | WdfRequestCompleteWithInformation (status : NTSTATUS) (information : Nat)
deriving DecidableEq, Repr

/-- The label `Done`, lines 375-377: the request is completed with the
status and with `output_buffer_length` as the information. -/
def done (output_buffer_length : Nat) (status : NTSTATUS) : List Call :=
  [.WdfRequestCompleteWithInformation status output_buffer_length]

/-- Lines 370-377: what follows the switch. -/
def after_switch (output_buffer_length : Nat) (status : NTSTATUS) (result : ebpf_result_t) :
    List Call :=
  if NT_SUCCESS status ∧ result ≠ .EBPF_SUCCESS then done output_buffer_length STATUS_UNSUCCESSFUL
  else done output_buffer_length status

/-- Lines 288-290: the program context, zero but for the three members
assigned. -/
def program_context (output_buffer_length output_buffer : Nat) : sample_program_context_t :=
  { data_start := output_buffer
    data_end := output_buffer + output_buffer_length
    uint32_data := 0
    uint16_data := 0
    pid_tgid := SAMPLE_PID_TGID_VALUE }

/-- Lines 287-291 and what follows: the program is invoked with the output
buffer as its context data. -/
def invoke_program (X : Externals) (output_buffer_length : Nat) (status : NTSTATUS)
    (output_buffer : Nat) : List Call :=
  .sample_ebpf_extension_invoke_program (program_context output_buffer_length output_buffer) ::
    after_switch output_buffer_length status
      (X.sample_ebpf_extension_invoke_program
        (program_context output_buffer_length output_buffer))

/-- Lines 228-297: the case `IOCTL_SAMPLE_EBPF_EXT_CTL_RUN`. -/
def ctl_run (X : Externals) (output_buffer_length input_buffer_length : Nat) : List Call :=
  if input_buffer_length ≠ 0 then
    let input := X.WdfRequestRetrieveInputBuffer input_buffer_length
    .WdfRequestRetrieveInputBuffer input_buffer_length ::
      if ¬ NT_SUCCESS input.status then
        .KdPrintEx "Input buffer failure" input.status ::
          done output_buffer_length input.status
      else if input.buffer = 0 then done output_buffer_length STATUS_INVALID_PARAMETER
      else
        let minimum_request_size := 0
        let minimum_reply_size := input.length
        if input.length < minimum_request_size then
          done output_buffer_length STATUS_INVALID_PARAMETER
        else if minimum_reply_size > 0 then
          let output := X.WdfRequestRetrieveOutputBuffer output_buffer_length
          .WdfRequestRetrieveOutputBuffer output_buffer_length ::
            if ¬ NT_SUCCESS output.status then
              .KdPrintEx "Output buffer failure" output.status ::
                done output_buffer_length output.status
            else if output.buffer = 0 then done output_buffer_length STATUS_INVALID_PARAMETER
            else if output.length < minimum_reply_size then
              done output_buffer_length STATUS_BUFFER_TOO_SMALL
            else invoke_program X output_buffer_length output.status output.buffer
        else invoke_program X output_buffer_length input.status 0
  else done output_buffer_length STATUS_INVALID_PARAMETER

/-- Lines 298-364: the case `IOCTL_SAMPLE_EBPF_EXT_CTL_PROFILE`. -/
def ctl_profile (X : Externals) (output_buffer_length input_buffer_length : Nat) :
    List Call :=
  let minimum_request_size := X.sizeof_sample_ebpf_ext_profile_request_t
  let minimum_reply_size := X.sizeof_sample_ebpf_ext_profile_reply_t
  if input_buffer_length = 0 then done output_buffer_length STATUS_INVALID_PARAMETER
  else
    let input := X.WdfRequestRetrieveInputBuffer input_buffer_length
    .WdfRequestRetrieveInputBuffer input_buffer_length ::
      if ¬ NT_SUCCESS input.status then
        .KdPrintEx "Input buffer failure" input.status ::
          done output_buffer_length input.status
      else if input.buffer = 0 then done output_buffer_length STATUS_INVALID_PARAMETER
      else if input.length < minimum_request_size then
        done output_buffer_length STATUS_INVALID_PARAMETER
      else
        let output := X.WdfRequestRetrieveOutputBuffer output_buffer_length
        .WdfRequestRetrieveOutputBuffer output_buffer_length ::
          if ¬ NT_SUCCESS output.status then
            .KdPrintEx "Output buffer failure" output.status ::
              done output_buffer_length output.status
          else if output.buffer = 0 then done output_buffer_length STATUS_INVALID_PARAMETER
          else if output.length < minimum_reply_size then
            done output_buffer_length STATUS_BUFFER_TOO_SMALL
          else
            .sample_ebpf_extension_profile_program input.buffer input.length output.buffer ::
              after_switch output_buffer_length output.status
                (X.sample_ebpf_extension_profile_program input.buffer input.length
                  output.buffer)

/-- The function `_sample_ebpf_ext_driver_io_device_control`, lines 207-378:
the calls it makes for one request, in order. -/
def _sample_ebpf_ext_driver_io_device_control (X : Externals)
    (output_buffer_length input_buffer_length : Nat) (io_control_code : ControlCode) :
    List Call :=
  .WdfIoQueueGetDevice ::
    match io_control_code with
    | .IOCTL_SAMPLE_EBPF_EXT_CTL_RUN => ctl_run X output_buffer_length input_buffer_length
    | .IOCTL_SAMPLE_EBPF_EXT_CTL_PROFILE =>
      ctl_profile X output_buffer_length input_buffer_length
    | .other => after_switch output_buffer_length STATUS_SUCCESS .EBPF_INVALID_ARGUMENT

/-! ## The words of the claim -/

/-- The call completes the request. -/
def Call.is_completion : Call → Bool
  | .WdfRequestCompleteWithInformation _ _ => true
  | _ => false

/-- The call runs an eBPF program: the invocation of the RUN case or the
profiling of the PROFILE case. -/
def Call.is_operation : Call → Bool
  | .sample_ebpf_extension_invoke_program _ => true
  | .sample_ebpf_extension_profile_program _ _ _ => true
  | _ => false

/-- The call is an operation that returned `EBPF_SUCCESS`. -/
def Call.succeeded (X : Externals) : Call → Prop
  | .sample_ebpf_extension_invoke_program program_context =>
    X.sample_ebpf_extension_invoke_program program_context = .EBPF_SUCCESS
  | .sample_ebpf_extension_profile_program profile_request actual_input_length profile_reply =>
    X.sample_ebpf_extension_profile_program profile_request actual_input_length
      profile_reply = .EBPF_SUCCESS
  | _ => False

/-- Every buffer check of the RUN case passes: the input length is not zero,
the input buffer is retrieved and not `NULL`, and where it is not empty the
output buffer is retrieved, not `NULL` and at least as long. -/
def run_checks_pass (X : Externals) (output_buffer_length input_buffer_length : Nat) : Prop :=
  input_buffer_length ≠ 0 ∧
  NT_SUCCESS (X.WdfRequestRetrieveInputBuffer input_buffer_length).status ∧
  (X.WdfRequestRetrieveInputBuffer input_buffer_length).buffer ≠ 0 ∧
  (0 < (X.WdfRequestRetrieveInputBuffer input_buffer_length).length →
    NT_SUCCESS (X.WdfRequestRetrieveOutputBuffer output_buffer_length).status ∧
    (X.WdfRequestRetrieveOutputBuffer output_buffer_length).buffer ≠ 0 ∧
    (X.WdfRequestRetrieveInputBuffer input_buffer_length).length ≤
      (X.WdfRequestRetrieveOutputBuffer output_buffer_length).length)

/-- Every buffer check of the PROFILE case passes: the input length is not
zero, the input buffer is retrieved, not `NULL` and holds a request, and the
output buffer is retrieved, not `NULL` and holds a reply. -/
def profile_checks_pass (X : Externals) (output_buffer_length input_buffer_length : Nat) :
    Prop :=
  input_buffer_length ≠ 0 ∧
  NT_SUCCESS (X.WdfRequestRetrieveInputBuffer input_buffer_length).status ∧
  (X.WdfRequestRetrieveInputBuffer input_buffer_length).buffer ≠ 0 ∧
  X.sizeof_sample_ebpf_ext_profile_request_t ≤
    (X.WdfRequestRetrieveInputBuffer input_buffer_length).length ∧
  NT_SUCCESS (X.WdfRequestRetrieveOutputBuffer output_buffer_length).status ∧
  (X.WdfRequestRetrieveOutputBuffer output_buffer_length).buffer ≠ 0 ∧
  X.sizeof_sample_ebpf_ext_profile_reply_t ≤
    (X.WdfRequestRetrieveOutputBuffer output_buffer_length).length

/-- The control code is RUN or PROFILE and every buffer check of its case
passes. -/
def checks_pass (X : Externals) (output_buffer_length input_buffer_length : Nat) :
    ControlCode → Prop
  | .IOCTL_SAMPLE_EBPF_EXT_CTL_RUN => run_checks_pass X output_buffer_length input_buffer_length
  | .IOCTL_SAMPLE_EBPF_EXT_CTL_PROFILE =>
    profile_checks_pass X output_buffer_length input_buffer_length
  | .other => False

/-! ## Sample values -/

/-- A framework that hands out a buffer of the asked length at address 4096
for input and for output, and an extension whose operations succeed; a
request and a reply take 16 bytes. -/
def sample_externals : Externals :=
  { WdfRequestRetrieveInputBuffer := fun n => { status := STATUS_SUCCESS, buffer := 4096, length := n }
    WdfRequestRetrieveOutputBuffer := fun n => { status := STATUS_SUCCESS, buffer := 4096, length := n }
    sample_ebpf_extension_invoke_program := fun _ => .EBPF_SUCCESS
    sample_ebpf_extension_profile_program := fun _ _ _ => .EBPF_SUCCESS
    sizeof_sample_ebpf_ext_profile_request_t := 16
    sizeof_sample_ebpf_ext_profile_reply_t := 16 }

end SampleExtDrv

namespace Bpf2c
/-! ## Lemmas on the byte range -/

theorem bytes_append_byte_range (byte_range : byte_range_t) (range : List Nat) :
    (append_byte_range byte_range range).bytes = byte_range.bytes ++ range := by
  simp [append_byte_range, byte_range_t.bytes]

theorem bytes_append_arguments (hash : hash_t) (arguments : List Nat) :
    ∀ byte_range : byte_range_t,
      (append_arguments hash arguments byte_range).bytes =
        byte_range.bytes ++ (arguments.map hash.of_argument_type).flatten := by
  induction arguments with
  | nil => intro byte_range; simp [append_arguments]
  | cons a rest ih =>
    intro byte_range
    simp [append_arguments, ih, bytes_append_byte_range, List.append_assoc]

theorem bytes_append_helper (hash : hash_t) (prototype : ebpf_helper_function_prototype_t)
    (byte_range : byte_range_t) :
    (append_helper hash prototype byte_range).bytes =
      byte_range.bytes ++ helper_bytes hash prototype := by
  simp [append_helper, helper_bytes, bytes_append_arguments, bytes_append_byte_range,
    List.append_assoc]

theorem bytes_append_helpers (hash : hash_t)
    (prototypes : List ebpf_helper_function_prototype_t) (helper_id_ordering : List (Nat × Nat)) :
    ∀ byte_range : byte_range_t,
      (append_helpers hash prototypes helper_id_ordering byte_range).bytes =
        byte_range.bytes ++
          ((visited_helpers prototypes helper_id_ordering).map (helper_bytes hash)).flatten := by
  induction helper_id_ordering with
  | nil => intro byte_range; simp [append_helpers, visited_helpers]
  | cons entry rest ih =>
    intro byte_range
    obtain ⟨key, index⟩ := entry
    simp only [append_helpers, ih, bytes_append_helper]
    simp [visited_helpers, List.append_assoc]

theorem bytes_program_info_byte_range (hash : hash_t) (program_info : ebpf_program_info_t) :
    (program_info_byte_range hash program_info).bytes =
      descriptor_bytes hash program_info ++
        ((visited_helpers program_info.program_type_specific_helper_prototype
          (fill_helper_id_ordering program_info.program_type_specific_helper_prototype 0 [])).map
            (helper_bytes hash)).flatten := by
  simp only [program_info_byte_range, bytes_append_helpers, bytes_append_byte_range]
  simp [descriptor_bytes, byte_range_t.bytes,
    ebpf_program_info_t.count_of_program_type_specific_helpers]

/-! ## The order of `helper_id_ordering` -/

theorem map_assign_perm (m : List (Nat × Nat)) (key value : Nat)
    (h : key ∉ m.map Prod.fst) : (map_assign m key value).Perm ((key, value) :: m) := by
  induction m with
  | nil => simp [map_assign]
  | cons e m ih =>
    obtain ⟨k, v⟩ := e
    simp only [List.map_cons, List.mem_cons, not_or] at h
    simp only [map_assign]
    split_ifs with h1 h2
    · exact List.Perm.refl _
    · exact absurd h2 h.1
    · exact ((ih h.2).cons (k, v)).trans (List.Perm.swap _ _ _)

theorem map_assign_mem (m : List (Nat × Nat)) (key value : Nat) (e : Nat × Nat)
    (h : e ∈ map_assign m key value) : e = (key, value) ∨ e ∈ m := by
  induction m with
  | nil => simpa [map_assign] using h
  | cons e' m ih =>
    obtain ⟨k, v⟩ := e'
    simp only [map_assign] at h
    split_ifs at h with h1 h2
    · simpa using h
    · simp only [List.mem_cons] at h ⊢
      rcases h with h | h
      · exact Or.inl h
      · exact Or.inr (Or.inr h)
    · simp only [List.mem_cons] at h ⊢
      rcases h with h | h
      · exact Or.inr (Or.inl h)
      · rcases ih h with h | h
        · exact Or.inl h
        · exact Or.inr (Or.inr h)

theorem map_assign_sorted (m : List (Nat × Nat)) (key value : Nat)
    (h : m.Pairwise (fun a b => a.1 < b.1)) :
    (map_assign m key value).Pairwise (fun a b => a.1 < b.1) := by
  induction m with
  | nil => simp [map_assign]
  | cons e m ih =>
    obtain ⟨k, v⟩ := e
    rw [List.pairwise_cons] at h
    simp only [map_assign]
    split_ifs with h1 h2
    · refine List.pairwise_cons.2 ⟨?_, List.pairwise_cons.2 h⟩
      intro b hb
      rcases List.mem_cons.1 hb with hb | hb
      · subst hb; exact h1
      · exact lt_trans h1 (h.1 b hb)
    · subst h2
      exact List.pairwise_cons.2 ⟨h.1, h.2⟩
    · refine List.pairwise_cons.2 ⟨?_, ih h.2⟩
      intro b hb
      rcases map_assign_mem m key value b hb with hb | hb
      · subst hb; show k < key; omega
      · exact h.1 b hb

/-- What the loop that fills `helper_id_ordering` maintains when the helper
ids are pairwise distinct: the visited prototypes are a rearrangement of the
part of the table already walked, in strictly ascending key order, each entry
keyed by the id of the prototype at its index. -/
theorem fill_helper_id_ordering_spec (prototypes : List ebpf_helper_function_prototype_t)
    (hnodup : (prototypes.map (·.helper_id)).Nodup) :
    ∀ (rest walked : List ebpf_helper_function_prototype_t) (m : List (Nat × Nat)),
      prototypes = walked ++ rest →
      (visited_helpers prototypes m).Perm walked →
      (∀ e ∈ m, (prototypes.getD e.2 default).helper_id = e.1) →
      m.Pairwise (fun a b => a.1 < b.1) →
      (visited_helpers prototypes (fill_helper_id_ordering rest walked.length m)).Perm prototypes ∧
      (∀ e ∈ fill_helper_id_ordering rest walked.length m,
        (prototypes.getD e.2 default).helper_id = e.1) ∧
      (fill_helper_id_ordering rest walked.length m).Pairwise (fun a b => a.1 < b.1) := by
  intro rest
  induction rest with
  | nil =>
    intro walked m hsplit hperm hkey hsorted
    simp only [List.append_nil] at hsplit
    subst hsplit
    exact ⟨hperm, hkey, hsorted⟩
  | cons p rest ih =>
    intro walked m hsplit hperm hkey hsorted
    have hget : prototypes.getD walked.length default = p := by
      subst hsplit
      rw [List.getD_eq_getElem?_getD, List.getElem?_append_right (le_refl _)]
      simp
    have hfresh : p.helper_id ∉ m.map Prod.fst := by
      intro hmem
      obtain ⟨e, he, hek⟩ := List.mem_map.1 hmem
      have h1 : prototypes.getD e.2 default ∈ walked :=
        hperm.mem_iff.1 (List.mem_map.2 ⟨e, he, rfl⟩)
      have h2 : (prototypes.getD e.2 default).helper_id = p.helper_id := by
        rw [hkey e he, hek]
      subst hsplit
      rw [List.map_append, List.map_cons] at hnodup
      have hdis := (List.nodup_append.1 hnodup).2.2
      exact hdis (List.mem_map.2 ⟨_, h1, h2⟩) (List.mem_cons_self _ _)
    have hstep := ih (walked ++ [p]) (map_assign m p.helper_id walked.length)
      (by simp [hsplit])
      (by
        have h1 := (map_assign_perm m p.helper_id walked.length hfresh).map
          (fun entry : Nat × Nat => prototypes.getD entry.2 default)
        simp only [List.map_cons, hget] at h1
        exact (h1.trans (hperm.cons p)).trans (List.perm_append_singleton p walked).symm)
      (by
        intro e he
        rcases map_assign_mem m _ _ e he with he | he
        · subst he
          show (prototypes.getD walked.length default).helper_id = p.helper_id
          rw [hget]
        · exact hkey e he)
      (map_assign_sorted m _ _ hsorted)
    simpa [fill_helper_id_ordering] using hstep

theorem visited_helpers_eq_sorted (prototypes : List ebpf_helper_function_prototype_t)
    (hnodup : (prototypes.map (·.helper_id)).Nodup) :
    visited_helpers prototypes (fill_helper_id_ordering prototypes 0 []) =
      helpers_by_ascending_id prototypes := by
  obtain ⟨hperm, hkey, hsorted⟩ :=
    fill_helper_id_ordering_spec prototypes hnodup prototypes [] [] (by simp)
      (by simp [visited_helpers]) (by simp) List.Pairwise.nil
  simp only [List.length_nil] at hperm hkey hsorted
  have hsorted_visited : (visited_helpers prototypes
      (fill_helper_id_ordering prototypes 0 [])).Pairwise
        (fun a b => a.helper_id < b.helper_id) := by
    rw [visited_helpers, List.pairwise_map]
    refine hsorted.imp_of_mem ?_
    intro a b ha hb hab
    rw [hkey a ha, hkey b hb]
    exact hab
  have hsorted_spec : (helpers_by_ascending_id prototypes).Pairwise
      (fun a b => a.helper_id < b.helper_id) := by
    have hle : (helpers_by_ascending_id prototypes).Pairwise
        (fun a b => a.helper_id ≤ b.helper_id) :=
      List.sorted_insertionSort (fun a b : ebpf_helper_function_prototype_t =>
        a.helper_id ≤ b.helper_id) prototypes
    have hnd : ((helpers_by_ascending_id prototypes).map (·.helper_id)).Nodup :=
      ((List.perm_insertionSort _ prototypes).map _).nodup_iff.2 hnodup
    rw [List.Nodup, List.pairwise_map] at hnd
    exact (hle.and hnd).imp (fun h => lt_of_le_of_ne h.1 h.2)
  haveI : IsAntisymm ebpf_helper_function_prototype_t
      (fun a b => a.helper_id < b.helper_id) :=
    ⟨fun a b h1 h2 => absurd h1 (not_lt.2 (le_of_lt h2))⟩
  exact List.eq_of_perm_of_sorted
    (hperm.trans (List.perm_insertionSort _ prototypes).symm) hsorted_visited hsorted_spec


/-- Two rearrangements of one table with pairwise distinct ids, both in
ascending id order, are the same list. -/
theorem ascending_unique (a b : List ebpf_helper_function_prototype_t)
    (hperm : a.Perm b) (hnodup : (a.map (·.helper_id)).Nodup)
    (ha : a.Pairwise (fun x y => x.helper_id ≤ y.helper_id))
    (hb : b.Pairwise (fun x y => x.helper_id ≤ y.helper_id)) : a = b := by
  have strict : ∀ l : List ebpf_helper_function_prototype_t,
      (l.map (·.helper_id)).Nodup → l.Pairwise (fun x y => x.helper_id ≤ y.helper_id) →
        l.Pairwise (fun x y => x.helper_id < y.helper_id) := by
    intro l hnd hle
    rw [List.Nodup, List.pairwise_map] at hnd
    exact (hle.and hnd).imp (fun h => lt_of_le_of_ne h.1 h.2)
  haveI : IsAntisymm ebpf_helper_function_prototype_t
      (fun x y => x.helper_id < y.helper_id) :=
    ⟨fun x y h1 h2 => absurd h1 (not_lt.2 (le_of_lt h2))⟩
  exact List.eq_of_perm_of_sorted hperm (strict a hnodup ha)
    (strict b ((hperm.map _).nodup_iff.1 hnodup) hb)

theorem helpers_by_ascending_id_perm (a b : List ebpf_helper_function_prototype_t)
    (hperm : a.Perm b) (hnodup : (a.map (·.helper_id)).Nodup) :
    helpers_by_ascending_id a = helpers_by_ascending_id b := by
  have hpa : (helpers_by_ascending_id a).Perm a := List.perm_insertionSort _ a
  have hpb : (helpers_by_ascending_id b).Perm b := List.perm_insertionSort _ b
  refine ascending_unique _ _ (hpa.trans (hperm.trans hpb.symm))
    ((hpa.map _).nodup_iff.2 hnodup) ?_ ?_
  · exact List.sorted_insertionSort _ a
  · exact List.sorted_insertionSort _ b

theorem helpers_by_ascending_id_middle (before after : List ebpf_helper_function_prototype_t)
    (h : ebpf_helper_function_prototype_t)
    (hnodup : ((before ++ h :: after).map (·.helper_id)).Nodup) :
    helpers_by_ascending_id (before ++ h :: after) =
      List.orderedInsert (fun a b => a.helper_id ≤ b.helper_id) h
        (helpers_by_ascending_id (before ++ after)) := by
  have hp : (helpers_by_ascending_id (before ++ h :: after)).Perm (before ++ h :: after) :=
    List.perm_insertionSort _ _
  have hq : (List.orderedInsert (fun a b : ebpf_helper_function_prototype_t =>
      a.helper_id ≤ b.helper_id) h (helpers_by_ascending_id (before ++ after))).Perm
        (before ++ h :: after) :=
    ((List.perm_orderedInsert _ h _).trans
      ((List.perm_insertionSort _ (before ++ after)).cons h)).trans List.perm_middle.symm
  refine ascending_unique _ _ (hp.trans hq.symm) ((hp.map _).nodup_iff.2 hnodup) ?_ ?_
  · exact List.sorted_insertionSort _ _
  · exact (List.sorted_insertionSort _ (before ++ after)).orderedInsert h _

/-! ## The hash input -/

theorem sample_hash_lossless : sample_hash.lossless where
  name_inj := by
    intro a b h
    have h1 : a.toList = b.toList :=
      List.map_injective_iff.2 (fun x y hxy => Char.ext (UInt32.ext hxy)) h
    exact String.ext h1
  context_descriptor_inj := fun a b h => by simpa [sample_hash] using h
  program_type_inj := fun a b h => by simpa [sample_hash] using h
  bpf_prog_type_inj := fun a b h => by simpa [sample_hash] using h
  is_privileged_inj := fun a b h => by simpa [sample_hash] using h
  helper_id_inj := fun a b h => by simpa [sample_hash] using h
  return_type_inj := fun a b h => by simpa [sample_hash] using h
  argument_type_inj := fun a b h => by simpa [sample_hash] using h
  helper_id_width := fun a b => rfl

theorem sample_hash_collision_free (algorithm : String) :
    sample_hash.collision_free algorithm := by
  intro a b h
  simpa [sample_hash] using h

theorem helpers_by_ascending_id_strict (prototypes : List ebpf_helper_function_prototype_t)
    (hnodup : (prototypes.map (·.helper_id)).Nodup) :
    (helpers_by_ascending_id prototypes).Pairwise (fun a b => a.helper_id < b.helper_id) := by
  have hle : (helpers_by_ascending_id prototypes).Pairwise
      (fun a b => a.helper_id ≤ b.helper_id) :=
    List.sorted_insertionSort (fun a b : ebpf_helper_function_prototype_t =>
      a.helper_id ≤ b.helper_id) prototypes
  have hnd : ((helpers_by_ascending_id prototypes).map (·.helper_id)).Nodup :=
    ((List.perm_insertionSort _ prototypes).map _).nodup_iff.2 hnodup
  rw [List.Nodup, List.pairwise_map] at hnd
  exact (hle.and hnd).imp (fun h => lt_of_le_of_ne h.1 h.2)

/-- C1: when the helper ids are pairwise distinct, the bytes that
`get_program_info_type_hash` digests are the serialisations of the descriptor
name, context descriptor, program type id, `bpf_prog_type`, `is_privileged` and
the helper count, followed, for each helper in ascending `helper_id` order, by
its `helper_id`, name, return type and arguments in declared order; the
function returns the digest of these bytes under the given algorithm. The
helpers in ascending order are the helpers of the table, each once, with
strictly increasing ids. -/
theorem get_program_info_type_hash_digests_spec_input (hash : hash_t) (algorithm : String)
    (program_info : ebpf_program_info_t) (hdistinct : distinct_helper_ids program_info) :
    (helpers_by_ascending_id program_info.program_type_specific_helper_prototype).Perm
        program_info.program_type_specific_helper_prototype ∧
      (helpers_by_ascending_id program_info.program_type_specific_helper_prototype).Pairwise
        (fun a b => a.helper_id < b.helper_id) ∧
      (program_info_byte_range hash program_info).bytes = spec_hash_input hash program_info ∧
      get_program_info_type_hash hash algorithm (some program_info) =
        hash.digest algorithm (spec_hash_input hash program_info) := by
  have hbytes : (program_info_byte_range hash program_info).bytes =
      spec_hash_input hash program_info := by
    rw [bytes_program_info_byte_range, visited_helpers_eq_sorted _ hdistinct]
    rfl
  refine ⟨List.perm_insertionSort _ _, helpers_by_ascending_id_strict _ hdistinct, hbytes, ?_⟩
  simp only [get_program_info_type_hash, hash_t.hash_byte_ranges, hbytes]

theorem get_program_info_type_hash_digests_spec_input_witness :
    distinct_helper_ids sample_info ∧
      (program_info_byte_range sample_hash sample_info).bytes =
        [120, 100, 112, 7, 11, 6, 0, 2, 4, 97, 0, 5, 5, 9, 98, 1, 2, 3] ∧
      get_program_info_type_hash sample_hash "SHA256" (some sample_info) =
        .ok [120, 100, 112, 7, 11, 6, 0, 2, 4, 97, 0, 5, 5, 9, 98, 1, 2, 3] := by
  have h := get_program_info_type_hash_digests_spec_input sample_hash "SHA256" sample_info
    (by decide)
  refine ⟨by decide, ?_, ?_⟩
  · rw [h.2.2.1]; decide
  · rw [h.2.2.2]; rfl

/-! ## Stability of the hash under the declaration order -/

theorem spec_hash_input_eq (hash : hash_t) (program_info : ebpf_program_info_t)
    (hdistinct : distinct_helper_ids program_info) :
    (program_info_byte_range hash program_info).bytes = spec_hash_input hash program_info := by
  rw [bytes_program_info_byte_range, visited_helpers_eq_sorted _ hdistinct]
  rfl

/-- C2, as the code has it: for a program information whose helper ids are
pairwise distinct, declaring the helper prototypes in another order, with the
descriptor and every prototype unchanged, leaves the digested bytes and the
hash returned by `get_program_info_type_hash` unchanged. -/
theorem hash_stable_under_declaration_order (hash : hash_t) (algorithm : String)
    (program_info permuted : ebpf_program_info_t)
    (hdistinct : distinct_helper_ids program_info)
    (hperm : declaration_order_permuted program_info permuted) :
    (program_info_byte_range hash permuted).bytes =
        (program_info_byte_range hash program_info).bytes ∧
      get_program_info_type_hash hash algorithm (some permuted) =
        get_program_info_type_hash hash algorithm (some program_info) := by
  obtain ⟨hdesc, hp⟩ := hperm
  have hdistinct' : distinct_helper_ids permuted :=
    ((hp.map _).nodup_iff).2 hdistinct
  have hbytes : (program_info_byte_range hash permuted).bytes =
      (program_info_byte_range hash program_info).bytes := by
    rw [spec_hash_input_eq hash _ hdistinct, spec_hash_input_eq hash _ hdistinct']
    simp only [spec_hash_input, descriptor_bytes, hdesc, hp.length_eq,
      helpers_by_ascending_id_perm _ _ hp hdistinct']
  refine ⟨hbytes, ?_⟩
  simp only [get_program_info_type_hash, hash_t.hash_byte_ranges, hbytes]

theorem hash_stable_under_declaration_order_witness :
    distinct_helper_ids sample_info ∧
      declaration_order_permuted sample_info sample_info_permuted ∧
      get_program_info_type_hash sample_hash "SHA256" (some sample_info_permuted) =
        get_program_info_type_hash sample_hash "SHA256" (some sample_info) :=
  ⟨by decide, ⟨rfl, List.Perm.swap _ _ _⟩,
    (hash_stable_under_declaration_order sample_hash "SHA256" sample_info sample_info_permuted
      (by decide) ⟨rfl, List.Perm.swap _ _ _⟩).2⟩

/-- C2, as stated, fails on a table with a repeated helper id: the two
declaration orders of `duplicate_info` hash differently, because the entry
declared last for an id is the one that is hashed. -/
theorem hash_depends_on_declaration_order_of_duplicates :
    declaration_order_permuted duplicate_info duplicate_info_permuted ∧
      get_program_info_type_hash sample_hash "SHA256" (some duplicate_info) =
        .ok [120, 100, 112, 7, 11, 6, 0, 2, 1, 98, 0] ∧
      get_program_info_type_hash sample_hash "SHA256" (some duplicate_info_permuted) =
        .ok [120, 100, 112, 7, 11, 6, 0, 2, 1, 97, 0] ∧
      get_program_info_type_hash sample_hash "SHA256" (some duplicate_info_permuted) ≠
        get_program_info_type_hash sample_hash "SHA256" (some duplicate_info) := by
  have h1 : get_program_info_type_hash sample_hash "SHA256" (some duplicate_info) =
      .ok [120, 100, 112, 7, 11, 6, 0, 2, 1, 98, 0] := rfl
  have h2 : get_program_info_type_hash sample_hash "SHA256" (some duplicate_info_permuted) =
      .ok [120, 100, 112, 7, 11, 6, 0, 2, 1, 97, 0] := rfl
  refine ⟨⟨rfl, List.Perm.swap _ _ _⟩, h1, h2, ?_⟩
  rw [h1, h2]
  intro h
  have h3 := Except.ok.inj h
  revert h3
  decide

/-! ## Sensitivity of the hash input to every hashed field -/

theorem helper_bytes_ne_of_field_changed (hash : hash_t) (hl : hash.lossless)
    (h h' : ebpf_helper_function_prototype_t) (hchange : helper_field_changed h h')
    (hid : h'.helper_id = h.helper_id) : helper_bytes hash h ≠ helper_bytes hash h' := by
  cases hchange with
  | name v hv =>
    intro heq
    simp only [helper_bytes, List.append_assoc] at heq
    have h1 := List.append_cancel_right (List.append_cancel_left heq)
    exact hv (hl.name_inj h1).symm
  | return_type v hv =>
    intro heq
    simp only [helper_bytes, List.append_assoc] at heq
    have h1 := List.append_cancel_right
      (List.append_cancel_left (List.append_cancel_left heq))
    exact hv (hl.return_type_inj h1).symm
  | argument before after a v hargs hv =>
    intro heq
    simp only [helper_bytes, List.append_assoc, hargs, List.map_append, List.map_cons,
      List.flatten_append, List.flatten_cons] at heq
    have h1 := List.append_cancel_right (List.append_cancel_left (List.append_cancel_left
      (List.append_cancel_left (List.append_cancel_left heq))))
    exact hv (hl.argument_type_inj h1).symm
  | helper_id v hv => exact absurd hid hv

theorem flatten_head_ne (hash : hash_t) (hl : hash.lossless)
    (x y : ebpf_helper_function_prototype_t) (xs ys : List ebpf_helper_function_prototype_t)
    (hne : x.helper_id ≠ y.helper_id) :
    ((x :: xs).map (helper_bytes hash)).flatten ≠ ((y :: ys).map (helper_bytes hash)).flatten := by
  intro heq
  simp only [List.map_cons, List.flatten_cons, helper_bytes, List.append_assoc] at heq
  exact hne (hl.helper_id_inj (List.append_inj_left heq (hl.helper_id_width _ _)))

theorem ordered_insert_same_id (hash : hash_t) (h h' : ebpf_helper_function_prototype_t)
    (hid : h'.helper_id = h.helper_id) (hne : helper_bytes hash h ≠ helper_bytes hash h') :
    ∀ sorted : List ebpf_helper_function_prototype_t,
      ((List.orderedInsert (fun a b => a.helper_id ≤ b.helper_id) h sorted).map
        (helper_bytes hash)).flatten ≠
      ((List.orderedInsert (fun a b => a.helper_id ≤ b.helper_id) h' sorted).map
        (helper_bytes hash)).flatten := by
  intro sorted
  induction sorted with
  | nil =>
    intro heq
    simp only [List.orderedInsert, List.map_cons, List.map_nil, List.flatten_cons,
      List.flatten_nil, List.append_nil] at heq
    exact hne heq
  | cons t rest ih =>
    simp only [List.orderedInsert, hid]
    split_ifs with hle
    · intro heq
      simp only [List.map_cons, List.flatten_cons] at heq
      exact hne (List.append_cancel_right heq)
    · intro heq
      simp only [List.map_cons, List.flatten_cons] at heq
      exact ih (List.append_cancel_left heq)

theorem ordered_insert_id_changed (hash : hash_t) (hl : hash.lossless)
    (h h' : ebpf_helper_function_prototype_t) (hne : h'.helper_id ≠ h.helper_id) :
    ∀ sorted : List ebpf_helper_function_prototype_t,
      h.helper_id ∉ sorted.map (·.helper_id) → h'.helper_id ∉ sorted.map (·.helper_id) →
      ((List.orderedInsert (fun a b => a.helper_id ≤ b.helper_id) h sorted).map
        (helper_bytes hash)).flatten ≠
      ((List.orderedInsert (fun a b => a.helper_id ≤ b.helper_id) h' sorted).map
        (helper_bytes hash)).flatten := by
  intro sorted
  induction sorted with
  | nil =>
    intro _ _
    simp only [List.orderedInsert]
    exact flatten_head_ne hash hl h h' [] [] (Ne.symm hne)
  | cons t rest ih =>
    intro hfresh hfresh'
    simp only [List.map_cons, List.mem_cons, not_or] at hfresh hfresh'
    simp only [List.orderedInsert]
    split_ifs with hle hle' hle'
    · exact flatten_head_ne hash hl h h' _ _ (Ne.symm hne)
    · exact flatten_head_ne hash hl h t _ _ hfresh.1
    · exact flatten_head_ne hash hl t h' _ _ (Ne.symm hfresh'.1)
    · intro heq
      simp only [List.map_cons, List.flatten_cons] at heq
      exact ih hfresh.2 hfresh'.2 (List.append_cancel_left heq)

theorem not_mem_ids_of_middle (before after : List ebpf_helper_function_prototype_t)
    (h : ebpf_helper_function_prototype_t)
    (hnodup : ((before ++ h :: after).map (·.helper_id)).Nodup) :
    h.helper_id ∉ (helpers_by_ascending_id (before ++ after)).map (·.helper_id) := by
  intro hmem
  have hp : ((helpers_by_ascending_id (before ++ after)).map (·.helper_id)).Perm
      ((before ++ after).map (·.helper_id)) := (List.perm_insertionSort _ _).map _
  have hmem' := hp.mem_iff.1 hmem
  have hnodup' : ((h :: (before ++ after)).map (·.helper_id)).Nodup :=
    ((@List.perm_middle _ h before after).map _).nodup_iff.1 hnodup
  rw [List.map_cons, List.nodup_cons] at hnodup'
  exact hnodup'.1 hmem'

theorem sorted_helper_bytes_ne (hash : hash_t) (hl : hash.lossless)
    (before after : List ebpf_helper_function_prototype_t)
    (h h' : ebpf_helper_function_prototype_t) (hchange : helper_field_changed h h')
    (hnodup : ((before ++ h :: after).map (·.helper_id)).Nodup)
    (hnodup' : ((before ++ h' :: after).map (·.helper_id)).Nodup) :
    ((helpers_by_ascending_id (before ++ h :: after)).map (helper_bytes hash)).flatten ≠
      ((helpers_by_ascending_id (before ++ h' :: after)).map (helper_bytes hash)).flatten := by
  rw [helpers_by_ascending_id_middle before after h hnodup,
    helpers_by_ascending_id_middle before after h' hnodup']
  by_cases hid : h'.helper_id = h.helper_id
  · exact ordered_insert_same_id hash h h' hid
      (helper_bytes_ne_of_field_changed hash hl h h' hchange hid) _
  · exact ordered_insert_id_changed hash hl h h' hid _
      (not_mem_ids_of_middle before after h hnodup)
      (not_mem_ids_of_middle before after h' hnodup')

theorem spec_hash_input_ne (hash : hash_t) (hl : hash.lossless)
    (program_info changed : ebpf_program_info_t)
    (hdistinct : distinct_helper_ids program_info) (hdistinct' : distinct_helper_ids changed)
    (hchange : hashed_field_changed program_info changed) :
    spec_hash_input hash program_info ≠ spec_hash_input hash changed := by
  cases hchange with
  | name d helpers v hv =>
    intro heq
    simp only [spec_hash_input, descriptor_bytes, List.append_assoc] at heq
    exact hv (hl.name_inj (List.append_cancel_right heq)).symm
  | context_descriptor d helpers v hv =>
    intro heq
    simp only [spec_hash_input, descriptor_bytes, List.append_assoc] at heq
    exact hv (hl.context_descriptor_inj
      (List.append_cancel_right (List.append_cancel_left heq))).symm
  | program_type d helpers v hv =>
    intro heq
    simp only [spec_hash_input, descriptor_bytes, List.append_assoc] at heq
    exact hv (hl.program_type_inj (List.append_cancel_right
      (List.append_cancel_left (List.append_cancel_left heq)))).symm
  | bpf_prog_type d helpers v hv =>
    intro heq
    simp only [spec_hash_input, descriptor_bytes, List.append_assoc] at heq
    exact hv (hl.bpf_prog_type_inj (List.append_cancel_right (List.append_cancel_left
      (List.append_cancel_left (List.append_cancel_left heq))))).symm
  | is_privileged d helpers v hv =>
    intro heq
    simp only [spec_hash_input, descriptor_bytes, List.append_assoc] at heq
    exact hv (hl.is_privileged_inj (List.append_cancel_right (List.append_cancel_left
      (List.append_cancel_left (List.append_cancel_left (List.append_cancel_left heq)))))).symm
  | helper d before after h h' hc =>
    intro heq
    have hlen : (before ++ h' :: after).length = (before ++ h :: after).length := by simp
    simp only [spec_hash_input, descriptor_bytes, hlen] at heq
    exact sorted_helper_bytes_ne hash hl before after h h' hc hdistinct hdistinct'
      (List.append_cancel_left heq)

/-- C3, as the code has it: for a program information whose helper ids are
pairwise distinct before and after the change, and a lossless serialisation,
changing the value of one hashed field (descriptor name, context descriptor,
program type id, `bpf_prog_type`, `is_privileged`, or a helper's name, return
type, argument type or `helper_id`) changes the digested bytes, so the hash
returned by `get_program_info_type_hash` changes under every collision-free
digest. -/
theorem hash_changes_with_hashed_field (hash : hash_t) (hl : hash.lossless)
    (program_info changed : ebpf_program_info_t)
    (hdistinct : distinct_helper_ids program_info) (hdistinct' : distinct_helper_ids changed)
    (hchange : hashed_field_changed program_info changed) :
    (program_info_byte_range hash program_info).bytes ≠
        (program_info_byte_range hash changed).bytes ∧
      ∀ algorithm, hash.collision_free algorithm →
        get_program_info_type_hash hash algorithm (some program_info) ≠
          get_program_info_type_hash hash algorithm (some changed) := by
  have hbytes : (program_info_byte_range hash program_info).bytes ≠
      (program_info_byte_range hash changed).bytes := by
    rw [spec_hash_input_eq hash _ hdistinct, spec_hash_input_eq hash _ hdistinct']
    exact spec_hash_input_ne hash hl program_info changed hdistinct hdistinct' hchange
  refine ⟨hbytes, ?_⟩
  intro algorithm hfree heq
  simp only [get_program_info_type_hash, hash_t.hash_byte_ranges] at heq
  exact hbytes (hfree heq)

theorem hash_changes_with_hashed_field_witness :
    sample_hash.lossless ∧ sample_hash.collision_free "SHA256" ∧
      distinct_helper_ids sample_info ∧ distinct_helper_ids sample_info_renumbered ∧
      hashed_field_changed sample_info sample_info_renumbered ∧
      get_program_info_type_hash sample_hash "SHA256" (some sample_info) ≠
        get_program_info_type_hash sample_hash "SHA256" (some sample_info_renumbered) :=
  have hchange : hashed_field_changed sample_info sample_info_renumbered :=
    hashed_field_changed.helper sample_descriptor
      [{ helper_id := 9, name := "b", return_type := 1, arguments := [2, 3] }] []
      { helper_id := 4, name := "a", return_type := 0, arguments := [5, 5] } _
      (helper_field_changed.helper_id _ 12 (by decide))
  ⟨sample_hash_lossless, sample_hash_collision_free "SHA256", by decide, by decide, hchange,
    (hash_changes_with_hashed_field sample_hash sample_hash_lossless sample_info
      sample_info_renumbered (by decide) (by decide) hchange).2 "SHA256"
      (sample_hash_collision_free "SHA256")⟩

/-- C3, as stated, fails on a table with a repeated helper id: renaming the
first helper of `duplicate_info`, which a later prototype with the same id
shadows, changes a hashed field of a lossless, collision-free hash engine and
leaves both the digested bytes and the hash as they were. -/
theorem hash_blind_to_shadowed_helper :
    sample_hash.lossless ∧ sample_hash.collision_free "SHA256" ∧
      hashed_field_changed duplicate_info duplicate_info_renamed ∧
      (program_info_byte_range sample_hash duplicate_info).bytes =
        (program_info_byte_range sample_hash duplicate_info_renamed).bytes ∧
      get_program_info_type_hash sample_hash "SHA256" (some duplicate_info) =
        get_program_info_type_hash sample_hash "SHA256" (some duplicate_info_renamed) :=
  ⟨sample_hash_lossless, sample_hash_collision_free "SHA256",
    hashed_field_changed.helper sample_descriptor []
      [{ helper_id := 1, name := "b", return_type := 0, arguments := [] }]
      { helper_id := 1, name := "a", return_type := 0, arguments := [] } _
      (helper_field_changed.name _ "c" (by decide)),
    rfl, rfl⟩

/-! ## One loop iteration in normal form -/

theorem resolve_section_type_eq {G V : Type} (X : Externals G V)
    (global : Option (Nat × Nat)) (section_name : String) :
    resolve_section_type X global section_name =
      match resolved_types X global section_name with
      | none =>
        { calls := lookup_calls global section_name
          cerr := "Program type not found for section name " ++ section_name ++ "\n"
          value := .error (.failure (.section_type_resolution section_name)) }
      | some types =>
        { calls := lookup_calls global section_name, cerr := "", value := .ok types } := by
  cases global with
  | some types => simp [resolve_section_type, resolved_types, lookup_calls, pure, Step.pure]
  | none =>
    simp only [resolve_section_type, resolved_types, lookup_calls]
    cases h : X.ebpf_get_program_type_by_name section_name <;>
      simp [bind, pure, Step.bind, Step.pure, Step.call, Step.return_1]

theorem verify_section_eq {G V : Type} (X : Externals G V) (options : Options)
    (data : List Nat) (section_name : String) (program_type : Nat) (v : V) :
    verify_section X options data section_name program_type v =
      if verification_fails X options data section_name program_type v then
        { calls := verify_calls X options data section_name program_type v
          cerr := (verification_failure section_name
            (X.ebpf_api_elf_verify_section_from_memory v data section_name program_type).1).1
          value := .error (verification_failure section_name
            (X.ebpf_api_elf_verify_section_from_memory v data section_name program_type).1).2 }
      else
        { calls := verify_calls X options data section_name program_type v, cerr := ""
          value := .ok (verified_state X options data section_name program_type v) } := by
  unfold verify_section verification_fails verify_calls verified_state verification_failure
  by_cases hv : options.verify_programs = true
  · by_cases hr :
      (X.ebpf_api_elf_verify_section_from_memory v data section_name program_type).1.result = 0
    · simp [hv, hr, bind, pure, Step.bind, Step.pure, Step.call]
    · cases hm : (X.ebpf_api_elf_verify_section_from_memory v data section_name
          program_type).1.error_message <;>
        simp [hv, hr, hm, bind, Step.bind, Step.call, Step.crash, Step.throw]
  · simp [hv, pure, Step.pure]

theorem hash_section_eq {G V : Type} (X : Externals G V) (options : Options)
    (section_name : String) (v : V) :
    hash_section X options section_name v =
      match section_hash X options v with
      | .error what =>
        { calls := hash_calls X options v, cerr := what ++ "\n"
          value := .error (.failure (.program_info_hashing section_name)) }
      | .ok program_info_hash =>
        { calls := hash_calls X options v, cerr := "", value := .ok program_info_hash } := by
  unfold hash_section hash_calls section_hash
  by_cases hh : options.verify_programs = true ∧ options.hash_algorithm ≠ "none"
  · rw [if_pos hh, if_pos hh, if_pos hh]
    cases hr : X.ebpf_get_program_info_from_verifier v with
    | none =>
      simp [bind, pure, Step.bind, Step.pure, Step.call, Step.record, Step.of_except,
        Step.throw, get_program_info_type_hash]
    | some program_info =>
      cases hd : get_program_info_type_hash X.hash options.hash_algorithm (some program_info) <;>
        simp [hd, bind, pure, Step.bind, Step.pure, Step.call, Step.record, Step.of_except,
          Step.throw]
  · rw [if_neg hh, if_neg hh, if_neg hh]
    simp [pure, Step.pure]

theorem process_section_eq {G V : Type} (X : Externals G V) (options : Options)
    (data : List Nat) (global : Option (Nat × Nat)) (section_name : String) (generator : G)
    (v : V) :
    process_section X options data global section_name generator v =
      match resolved_types X global section_name with
      | none =>
        { calls := lookup_calls global section_name
          cerr := "Program type not found for section name " ++ section_name ++ "\n"
          value := .error (.failure (.section_type_resolution section_name)) }
      | some types =>
        if verification_fails X options data section_name types.1 v then
          { calls := lookup_calls global section_name ++
              verify_calls X options data section_name types.1 v
            cerr := (verification_failure section_name
              (X.ebpf_api_elf_verify_section_from_memory v data section_name types.1).1).1
            value := .error (verification_failure section_name
              (X.ebpf_api_elf_verify_section_from_memory v data section_name types.1).1).2 }
        else
          match section_hash X options (verified_state X options data section_name types.1 v) with
          | .error what =>
            { calls := lookup_calls global section_name ++
                (verify_calls X options data section_name types.1 v ++
                  hash_calls X options (verified_state X options data section_name types.1 v))
              cerr := what ++ "\n"
              value := .error (.failure (.program_info_hashing section_name)) }
          | .ok program_info_hash =>
            match X.parse_section generator section_name types.1 types.2 program_info_hash with
            | .error what =>
              { calls := lookup_calls global section_name ++
                  (verify_calls X options data section_name types.1 v ++
                    (hash_calls X options (verified_state X options data section_name types.1 v) ++
                      [.parse_section section_name types.1 types.2 program_info_hash]))
                cerr := what ++ "\n"
                value := .error (.failure (.section_parse section_name)) }
            | .ok parsed =>
              { calls := lookup_calls global section_name ++
                  (verify_calls X options data section_name types.1 v ++
                    (hash_calls X options (verified_state X options data section_name types.1 v) ++
                      [.parse_section section_name types.1 types.2 program_info_hash]))
                cerr := ""
                value := .ok (parsed, verified_state X options data section_name types.1 v) } := by
  unfold process_section
  rw [resolve_section_type_eq]
  cases hres : resolved_types X global section_name with
  | none => simp [bind, Step.bind]
  | some types =>
    simp only [bind, Step.bind]
    rw [verify_section_eq]
    by_cases hfail : verification_fails X options data section_name types.1 v
    · simp [hfail]
    · simp only [hfail, if_false]
      rw [hash_section_eq]
      cases hh : section_hash X options (verified_state X options data section_name types.1 v) with
      | error what => simp
      | ok program_info_hash =>
        cases hp : X.parse_section generator section_name types.1 types.2 program_info_hash <;>
          simp [hp, pure, Step.pure, Step.call, Step.of_except, Step.throw, bind, Step.bind]

/-! ## Calls and values through a sequence of parts -/

theorem Step.mem_bind_calls {α β : Type} (s : Step α) (f : α → Step β) (c : Call) :
    c ∈ (s >>= f).calls ↔ c ∈ s.calls ∨ ∃ a, s.value = .ok a ∧ c ∈ (f a).calls := by
  show c ∈ (Step.bind s f).calls ↔ _
  unfold Step.bind
  cases h : s.value with
  | error outcome => simp
  | ok a => simp

theorem Step.bind_value_ok {α β : Type} (s : Step α) (f : α → Step β) (b : β) :
    (s >>= f).value = .ok b ↔ ∃ a, s.value = .ok a ∧ (f a).value = .ok b := by
  show (Step.bind s f).value = .ok b ↔ _
  unfold Step.bind
  cases h : s.value with
  | error outcome => simp
  | ok a => simp

theorem Step.bind_value_error {α β : Type} (s : Step α) (f : α → Step β) (outcome : Outcome) :
    (s >>= f).value = .error outcome ↔
      s.value = .error outcome ∨ ∃ a, s.value = .ok a ∧ (f a).value = .error outcome := by
  show (Step.bind s f).value = .error outcome ↔ _
  unfold Step.bind
  cases h : s.value with
  | error o => simp
  | ok a => simp

theorem Step.mem_pure_calls {α : Type} (a : α) (c : Call) :
    c ∈ (pure a : Step α).calls ↔ False := by
  show c ∈ (Step.pure a).calls ↔ False
  simp [Step.pure]

theorem Step.pure_value {α : Type} (a : α) : (pure a : Step α).value = .ok a := rfl

theorem Step.mem_call_calls (e c : Call) : c ∈ (Step.call e).calls ↔ c = e := by
  simp [Step.call]

theorem Step.call_value (e : Call) : (Step.call e).value = .ok () := rfl

theorem Step.mem_of_except_calls {α : Type} (step : Failure) (r : Except String α) (c : Call) :
    c ∈ (Step.of_except step r).calls ↔ False := by
  cases r <;> simp [Step.of_except, Step.throw, Step.pure]

theorem Step.of_except_value_ok {α : Type} (step : Failure) (r : Except String α) (a : α) :
    (Step.of_except step r).value = .ok a ↔ r = .ok a := by
  cases r <;> simp [Step.of_except, Step.throw, Step.pure]

theorem Step.of_except_value_error {α : Type} (step : Failure) (r : Except String α)
    (outcome : Outcome) :
    (Step.of_except step r).value = .error outcome ↔
      outcome = .failure step ∧ ∃ what, r = .error what := by
  cases r <;> simp [Step.of_except, Step.throw, Step.pure, eq_comm]

theorem Step.mem_return_1_calls {α : Type} (step : Failure) (line : String) (c : Call) :
    c ∈ (Step.return_1 step line : Step α).calls ↔ False := by
  simp [Step.return_1]

theorem Step.mem_crash_calls {α : Type} (step : Failure) (c : Call) :
    c ∈ (Step.crash step : Step α).calls ↔ False := by
  simp [Step.crash]


theorem Step.mem_record_calls (cs : List Call) (c : Call) :
    c ∈ (Step.record cs).calls ↔ c ∈ cs := Iff.rfl

theorem Step.mem_write_cerr_calls (text : String) (c : Call) :
    c ∈ (Step.write_cerr text).calls ↔ False := by
  simp [Step.write_cerr]

theorem Step.write_cerr_value (text : String) : (Step.write_cerr text).value = .ok () := rfl

theorem artifact_name_calls (file : String) : (artifact_name file).calls = [] := by
  unfold artifact_name
  cases derive_c_name file <;> rfl

theorem mem_hash_file_calls {G V : Type} (X : Externals G V) (options : Options)
    (data : List Nat) (c : Call) :
    c ∈ (hash_file X options data).calls ↔
      c = .hash_string options.hash_algorithm ∧ options.hash_algorithm ≠ "none" := by
  unfold hash_file
  by_cases h : options.hash_algorithm = "none"
  · simp [h, pure, Step.mem_pure_calls]
  · simp [h, pure, Step.mem_bind_calls, Step.mem_call_calls, Step.mem_of_except_calls,
      Step.mem_pure_calls]

theorem hash_file_value_ok {G V : Type} (X : Externals G V) (options : Options)
    (data : List Nat) (hash_value : Option (List Nat))
    (h : (hash_file X options data).value = .ok hash_value) :
    (options.hash_algorithm = "none" → hash_value = none) ∧
      (options.hash_algorithm ≠ "none" → ∃ digest,
        X.hash.hash_string options.hash_algorithm data = .ok digest ∧
          hash_value = some digest) := by
  unfold hash_file at h
  by_cases hn : options.hash_algorithm = "none"
  · simp only [hn, ne_eq, not_true_eq_false, if_false, Step.pure_value] at h
    simp [hn, (Except.ok.inj h).symm]
  · simp only [hn, ne_eq, not_false_eq_true, if_true, Step.bind_value_ok, Step.call_value,
      Step.of_except_value_ok, Step.pure_value] at h
    obtain ⟨_, _, digest, hd, hv⟩ := h
    simp [hn, hd, (Except.ok.inj hv).symm]

theorem mem_check_elf_calls {G V : Type} (X : Externals G V) (data : List Nat) (c : Call) :
    c ∈ (check_elf X data).calls ↔ c = .ElfCheckElf := by
  unfold check_elf
  simp only [Step.mem_bind_calls, Step.mem_call_calls, Step.mem_write_cerr_calls,
    Step.call_value, Step.write_cerr_value]
  constructor
  · rintro (h | ⟨_, _, h | ⟨_, _, h⟩⟩)
    · exact h
    · exact h.elim
    · split_ifs at h
      · exact ((Step.mem_return_1_calls _ _ _).1 h).elim
      · exact ((Step.mem_pure_calls () _).1 h).elim
  · intro h; exact Or.inl h

theorem mem_enumerate_sections_calls {G V : Type} (X : Externals G V) (options : Options)
    (generator : G) (c : Call) :
    c ∈ (enumerate_sections X options generator).calls ↔
      c = .program_sections (X.program_sections generator) := by
  unfold enumerate_sections
  simp only [Step.mem_bind_calls, Step.mem_call_calls, Step.mem_of_except_calls,
    Step.call_value, Step.of_except_value_ok]
  constructor
  · rintro (h | ⟨_, _, h | ⟨sections, _, h⟩⟩)
    · exact h
    · exact h.elim
    · split_ifs at h
      · exact ((Step.mem_return_1_calls _ _ _).1 h).elim
      · exact ((Step.mem_pure_calls sections _).1 h).elim
  · intro h; exact Or.inl h

theorem mem_resolve_global_type_calls {G V : Type} (X : Externals G V) (options : Options)
    (c : Call) :
    c ∈ (resolve_global_type X options).calls ↔
      c = .ebpf_get_program_type_by_name options.type_string ∧ options.type_string ≠ "" := by
  unfold resolve_global_type
  by_cases h : options.type_string = ""
  · simp [h, pure, Step.mem_pure_calls]
  · cases hl : X.ebpf_get_program_type_by_name options.type_string <;>
      simp [h, hl, pure, Step.mem_bind_calls, Step.mem_call_calls, Step.mem_return_1_calls,
        Step.mem_pure_calls]

theorem construct_generator_calls {G V : Type} (X : Externals G V) (options : Options)
    (c : Call) (hc : c ∈ (construct_generator X options).calls) :
    c = .load_file_to_memory options.file ∨
      (c = .hash_string options.hash_algorithm ∧ options.hash_algorithm ≠ "none") ∨
      c = .ElfCheckElf ∨
      (∃ c_name hash_value, c = .bpf_code_generator c_name hash_value ∧
        (options.hash_algorithm = "none" → hash_value = none)) := by
  unfold construct_generator at hc
  simp only [pure, Step.mem_bind_calls, Step.mem_pure_calls, Step.mem_call_calls,
    Step.mem_of_except_calls, artifact_name_calls, mem_hash_file_calls, mem_check_elf_calls,
    List.not_mem_nil, false_or, or_false, and_false, exists_false, exists_const] at hc
  obtain ⟨c_name, _, h⟩ := hc
  rcases h with h | ⟨_, _, data, _, h⟩
  · exact Or.inl h
  rcases h with h | ⟨hash_value, hhash, h⟩
  · exact Or.inr (Or.inl h)
  rcases h with h | ⟨_, _, h⟩
  · exact Or.inr (Or.inr (Or.inl h))
  · exact Or.inr (Or.inr (Or.inr
      ⟨c_name, hash_value, h, (hash_file_value_ok X options data hash_value hhash).1⟩))

theorem finish_opening_calls {G V : Type} (X : Externals G V) (options : Options)
    (c_name : String) (data : List Nat) (generator : G) (c : Call)
    (hc : c ∈ (finish_opening X options c_name data generator).calls) :
    c = .program_sections (X.program_sections generator) ∨ c = .parse ∨
      (c = .ebpf_get_program_type_by_name options.type_string ∧ options.type_string ≠ "") := by
  unfold finish_opening at hc
  simp only [pure, Step.mem_bind_calls, Step.mem_pure_calls, Step.mem_call_calls,
    Step.mem_of_except_calls, mem_enumerate_sections_calls, mem_resolve_global_type_calls,
    false_or, or_false, and_false, exists_false, exists_const] at hc
  rcases hc with h | ⟨sections, _, h⟩
  · exact Or.inl h
  rcases h with h | ⟨_, _, parsed, _, h⟩
  · exact Or.inr (Or.inl h)
  · exact Or.inr (Or.inr h)

/-- The calls of lines 214-253 are among: the file load, the file hash (only
for an algorithm other than "none"), the ELF check, the construction of the
generator (without a file hash when the algorithm is "none"), the section
enumeration, the global parse, and the lookup of the type string (only when
one was supplied). -/
theorem open_generator_calls {G V : Type} (X : Externals G V) (options : Options) (c : Call)
    (hc : c ∈ (open_generator X options).calls) :
    c = .load_file_to_memory options.file ∨
      (c = .hash_string options.hash_algorithm ∧ options.hash_algorithm ≠ "none") ∨
      c = .ElfCheckElf ∨
      (∃ c_name hash_value, c = .bpf_code_generator c_name hash_value ∧
        (options.hash_algorithm = "none" → hash_value = none)) ∨
      (∃ enumerated, c = .program_sections enumerated) ∨ c = .parse ∨
      (c = .ebpf_get_program_type_by_name options.type_string ∧ options.type_string ≠ "") := by
  unfold open_generator at hc
  rw [Step.mem_bind_calls] at hc
  rcases hc with h | ⟨constructed, _, h⟩
  · rcases construct_generator_calls X options c h with h | h | h | h
    · exact Or.inl h
    · exact Or.inr (Or.inl h)
    · exact Or.inr (Or.inr (Or.inl h))
    · exact Or.inr (Or.inr (Or.inr (Or.inl h)))
  · rcases finish_opening_calls X options _ _ _ c h with h | h | h
    · exact Or.inr (Or.inr (Or.inr (Or.inr (Or.inl ⟨_, h⟩))))
    · exact Or.inr (Or.inr (Or.inr (Or.inr (Or.inr (Or.inl h)))))
    · exact Or.inr (Or.inr (Or.inr (Or.inr (Or.inr (Or.inr h)))))

/-! ## The loops and the run as a whole -/

theorem mem_generate_sections_calls {G V : Type} (X : Externals G V) (sections : List String) :
    ∀ (generator : G) (c : Call), c ∈ (generate_sections X sections generator).calls →
      ∃ s ∈ sections, c = .generate s := by
  induction sections with
  | nil =>
    intro generator c hc
    exact ((Step.mem_pure_calls generator c).1 hc).elim
  | cons s rest ih =>
    intro generator c hc
    unfold generate_sections at hc
    simp only [Step.mem_bind_calls, Step.mem_call_calls, Step.mem_of_except_calls,
      false_or] at hc
    rcases hc with hc | ⟨_, _, generated, _, hc⟩
    · exact ⟨s, List.mem_cons_self _ _, hc⟩
    · obtain ⟨s', hs', hc'⟩ := ih generated c hc
      exact ⟨s', List.mem_cons_of_mem _ hs', hc'⟩

/-- Every call of the section loop is a call of the body of the loop run on
one of the sections. -/
theorem parse_sections_calls_forall {G V : Type} (X : Externals G V) (options : Options)
    (data : List Nat) (global : Option (Nat × Nat)) (P : Call → Prop)
    (sections : List String) :
    (∀ s ∈ sections, ∀ (generator : G) (v : V),
      ∀ c ∈ (process_section X options data global s generator v).calls, P c) →
    ∀ (generator : G) (v : V),
      ∀ c ∈ (parse_sections X options data global sections generator v).calls, P c := by
  induction sections with
  | nil =>
    intro _ generator v c hc
    exact ((Step.mem_pure_calls generator c).1 hc).elim
  | cons s rest ih =>
    intro hbody generator v c hc
    unfold parse_sections at hc
    rw [Step.mem_bind_calls] at hc
    rcases hc with hc | ⟨state, _, hc⟩
    · exact hbody s (List.mem_cons_self _ _) generator v c hc
    · exact ih (fun s' hs' => hbody s' (List.mem_cons_of_mem _ hs')) state.1 state.2 c hc

theorem mem_prepare_calls {G V : Type} (X : Externals G V) (v : V) (options : Options)
    (c : Call) (hc : c ∈ (prepare X v options).calls) :
    c ∈ (open_generator X options).calls ∨
      ∃ opened, (open_generator X options).value = .ok opened ∧
        (c ∈ (parse_sections X options opened.data opened.global opened.sections
            opened.generator v).calls ∨
          ∃ s ∈ opened.sections, c = .generate s) := by
  unfold prepare at hc
  simp only [pure, Step.mem_bind_calls, Step.mem_pure_calls, or_false, exists_false,
    and_false] at hc
  rcases hc with hc | ⟨opened, hopen, hc | ⟨parsed, _, hc⟩⟩
  · exact Or.inl hc
  · exact Or.inr ⟨opened, hopen, Or.inl hc⟩
  · exact Or.inr ⟨opened, hopen, Or.inr (mem_generate_sections_calls X _ parsed c hc)⟩

theorem run_of_error {G V : Type} (X : Externals G V) (v : V) (options : Options)
    (outcome : Outcome) (h : (prepare X v options).value = .error outcome) :
    run X v options =
      { outcome := outcome, cout := "", cerr := (prepare X v options).cerr,
        calls := (prepare X v options).calls } := by
  unfold run
  simp only [h]

theorem run_of_ok {G V : Type} (X : Externals G V) (v : V) (options : Options)
    (c_name : String) (generator : G)
    (h : (prepare X v options).value = .ok (c_name, generator)) :
    run X v options =
      match options.type with
      | .Bare =>
        emit_final X generator (banner options.file) (prepare X v options).cerr
          (prepare X v options).calls
      | .KernelPE =>
        emit_skeleton_then_final X c_name X.bpf2c_driver generator (banner options.file)
          (prepare X v options).cerr (prepare X v options).calls
      | .UserPE =>
        emit_skeleton_then_final X c_name X.bpf2c_dll generator (banner options.file)
          (prepare X v options).cerr (prepare X v options).calls := by
  unfold run
  simp only [h]

theorem mem_emit_final_calls {G V : Type} (X : Externals G V) (generator : G)
    (written cerr : String) (calls : List Call) (c : Call)
    (hc : c ∈ (emit_final X generator written cerr calls).calls) :
    c ∈ calls ∨ c = .emit_c_code := by
  unfold emit_final at hc
  cases h : (X.emit_c_code generator).2 <;> simpa [h] using hc

theorem mem_emit_skeleton_then_final_calls {G V : Type} (X : Externals G V)
    (c_name code : String) (generator : G) (written cerr : String) (calls : List Call)
    (c : Call)
    (hc : c ∈ (emit_skeleton_then_final X c_name code generator written cerr calls).calls) :
    c ∈ calls ∨ c = .emit_skeleton c_name ∨ c = .emit_c_code := by
  unfold emit_skeleton_then_final at hc
  cases h : emit_skeleton X.regex_replace c_name code with
  | none => simp only [h, List.mem_append, List.mem_singleton] at hc; tauto
  | some skeleton =>
    simp only [h] at hc
    rcases mem_emit_final_calls X _ _ _ _ c hc with h1 | h1
    · simp only [List.mem_append, List.mem_singleton] at h1; tauto
    · exact Or.inr (Or.inr h1)

theorem mem_run_calls {G V : Type} (X : Externals G V) (v : V) (options : Options) (c : Call)
    (hc : c ∈ (run X v options).calls) :
    c ∈ (prepare X v options).calls ∨ (∃ c_name, c = .emit_skeleton c_name) ∨
      c = .emit_c_code := by
  unfold run at hc
  cases h : (prepare X v options).value with
  | error outcome => simp only [h] at hc; exact Or.inl hc
  | ok prepared =>
    obtain ⟨c_name, generator⟩ := prepared
    simp only [h] at hc
    cases ht : options.type with
    | Bare =>
      simp only [ht] at hc
      rcases mem_emit_final_calls X _ _ _ _ c hc with h1 | h1
      · exact Or.inl h1
      · exact Or.inr (Or.inr h1)
    | KernelPE =>
      simp only [ht] at hc
      rcases mem_emit_skeleton_then_final_calls X _ _ _ _ _ _ c hc with h1 | h1 | h1
      · exact Or.inl h1
      · exact Or.inr (Or.inl ⟨_, h1⟩)
      · exact Or.inr (Or.inr h1)
    | UserPE =>
      simp only [ht] at hc
      rcases mem_emit_skeleton_then_final_calls X _ _ _ _ _ _ c hc with h1 | h1 | h1
      · exact Or.inl h1
      · exact Or.inr (Or.inl ⟨_, h1⟩)
      · exact Or.inr (Or.inr h1)

theorem main_eq_run {G V : Type} (X : Externals G V) (v : V) (argv0 : String)
    (parameters : List String) (options : Options)
    (hparse : parse_parameters X.enable_skip_verify argv0 parameters Options.initial =
      .ok options) :
    main X v argv0 parameters = run X v options := by
  unfold main
  simp only [hparse]

/-- The calls of one loop iteration: the lookup of the section name (only
without a global type), the verifier call, the calls of the program
information hash, and the parse of the section with the resolved types and
the hash just computed. -/
theorem mem_process_section_calls {G V : Type} (X : Externals G V) (options : Options)
    (data : List Nat) (global : Option (Nat × Nat)) (s : String) (generator : G) (v : V)
    (c : Call) (hc : c ∈ (process_section X options data global s generator v).calls) :
    c ∈ lookup_calls global s ∨
      ∃ types, resolved_types X global s = some types ∧
        (c ∈ verify_calls X options data s types.1 v ∨
          (¬ verification_fails X options data s types.1 v ∧
            (c ∈ hash_calls X options (verified_state X options data s types.1 v) ∨
              ∃ h, section_hash X options (verified_state X options data s types.1 v) = .ok h ∧
                c = .parse_section s types.1 types.2 h))) := by
  rw [process_section_eq] at hc
  cases hres : resolved_types X global s with
  | none => simp only [hres] at hc; exact Or.inl hc
  | some types =>
    simp only [hres] at hc
    refine Or.elim (Classical.em (verification_fails X options data s types.1 v)) ?_ ?_
    · intro hfail
      simp only [hfail, if_true, List.mem_append] at hc
      rcases hc with hc | hc
      · exact Or.inl hc
      · exact Or.inr ⟨types, rfl, Or.inl hc⟩
    · intro hfail
      simp only [hfail, if_false] at hc
      cases hh : section_hash X options (verified_state X options data s types.1 v) with
      | error what =>
        simp only [hh, List.mem_append] at hc
        rcases hc with hc | hc | hc
        · exact Or.inl hc
        · exact Or.inr ⟨types, rfl, Or.inl hc⟩
        · exact Or.inr ⟨types, rfl, Or.inr ⟨hfail, Or.inl hc⟩⟩
      | ok h =>
        simp only [hh] at hc
        have hc' : c ∈ lookup_calls global s ++ (verify_calls X options data s types.1 v ++
            (hash_calls X options (verified_state X options data s types.1 v) ++
              [.parse_section s types.1 types.2 h])) := by
          cases hp : X.parse_section generator s types.1 types.2 h <;>
            simpa only [hp] using hc
        simp only [List.mem_append, List.mem_singleton] at hc'
        rcases hc' with hc' | hc' | hc' | hc'
        · exact Or.inl hc'
        · exact Or.inr ⟨types, rfl, Or.inl hc'⟩
        · exact Or.inr ⟨types, rfl, Or.inr ⟨hfail, Or.inl hc'⟩⟩
        · exact Or.inr ⟨types, rfl, Or.inr ⟨hfail, Or.inr ⟨h, hh, hc'⟩⟩⟩

theorem mem_lookup_calls (global : Option (Nat × Nat)) (s : String) (c : Call) :
    c ∈ lookup_calls global s ↔ global = none ∧ c = .ebpf_get_program_type_by_name s := by
  cases global <;> simp [lookup_calls]

theorem mem_verify_calls {G V : Type} (X : Externals G V) (options : Options)
    (data : List Nat) (s : String) (program_type : Nat) (v : V) (c : Call) :
    c ∈ verify_calls X options data s program_type v ↔
      options.verify_programs = true ∧
        c = .ebpf_api_elf_verify_section_from_memory s program_type
          (X.ebpf_api_elf_verify_section_from_memory v data s program_type).1 := by
  unfold verify_calls
  by_cases h : options.verify_programs = true <;> simp [h]

theorem mem_hash_calls {G V : Type} (X : Externals G V) (options : Options) (v : V)
    (c : Call) (hc : c ∈ hash_calls X options v) :
    (options.verify_programs = true ∧ options.hash_algorithm ≠ "none") ∧
      (c = .ebpf_get_program_info_from_verifier (X.ebpf_get_program_info_from_verifier v) ∨
        ∃ program_info, X.ebpf_get_program_info_from_verifier v = some program_info ∧
          c = .hash_byte_ranges options.hash_algorithm
            (program_info_byte_range X.hash program_info)) := by
  unfold hash_calls at hc
  by_cases h : options.verify_programs = true ∧ options.hash_algorithm ≠ "none"
  · rw [if_pos h] at hc
    refine ⟨h, ?_⟩
    cases hr : X.ebpf_get_program_info_from_verifier v with
    | none => simp only [hr, List.mem_cons, List.not_mem_nil, or_false] at hc; exact Or.inl hc
    | some program_info =>
      simp only [hr, List.mem_cons, List.not_mem_nil, or_false] at hc
      rcases hc with hc | hc
      · exact Or.inl hc
      · exact Or.inr ⟨program_info, rfl, hc⟩
  · rw [if_neg h] at hc
    exact absurd hc (List.not_mem_nil _)

theorem resolve_global_type_value {G V : Type} (X : Externals G V) (options : Options)
    (global : Option (Nat × Nat)) (hg : (resolve_global_type X options).value = .ok global) :
    (options.type_string ≠ "" →
      ∃ types, X.ebpf_get_program_type_by_name options.type_string = some types ∧
        global = some types) ∧
    (options.type_string = "" → global = none) := by
  unfold resolve_global_type at hg
  by_cases hts : options.type_string = ""
  · simp only [hts, ne_eq, not_true_eq_false, if_false, pure, Step.pure_value] at hg
    simp [hts, (Except.ok.inj hg).symm]
  · simp only [hts, ne_eq, not_false_eq_true, if_true, Step.bind_value_ok,
      Step.call_value] at hg
    obtain ⟨_, _, hg⟩ := hg
    cases hl : X.ebpf_get_program_type_by_name options.type_string with
    | none => simp [hl, Step.return_1] at hg
    | some types =>
      simp only [hl, pure, Step.pure_value] at hg
      simp [hts, (Except.ok.inj hg).symm]

theorem open_generator_global {G V : Type} (X : Externals G V) (options : Options)
    (opened : Opened G) (h : (open_generator X options).value = .ok opened) :
    (options.type_string ≠ "" →
      ∃ types, X.ebpf_get_program_type_by_name options.type_string = some types ∧
        opened.global = some types) ∧
    (options.type_string = "" → opened.global = none) := by
  unfold open_generator finish_opening at h
  simp only [pure, Step.bind_value_ok, Step.pure_value] at h
  obtain ⟨_, _, _, _, _, _, _, _, global, hg, hv⟩ := h
  have hglobal : opened.global = global := by
    rw [← Except.ok.inj hv]
  rw [hglobal]
  exact resolve_global_type_value X options global hg

theorem Step.countP_bind_le {α β : Type} (p : Call → Bool) (s : Step α) (f : α → Step β)
    (m n : Nat) (hs : s.calls.countP p ≤ m)
    (hf : ∀ a, s.value = .ok a → (f a).calls.countP p ≤ n) :
    (s >>= f).calls.countP p ≤ m + n := by
  show (Step.bind s f).calls.countP p ≤ m + n
  unfold Step.bind
  cases h : s.value with
  | error outcome => simp only; omega
  | ok a =>
    simp only [List.countP_append]
    have := hf a h
    omega

theorem countP_eq_zero_of_forall (p : Call → Bool) (calls : List Call)
    (h : ∀ c ∈ calls, p c = false) : calls.countP p = 0 := by
  rw [List.countP_eq_zero]
  intro c hc
  simp [h c hc]

theorem open_generator_registry_lookups {G V : Type} (X : Externals G V) (options : Options) :
    (open_generator X options).calls.countP Call.is_registry_lookup ≤ 1 := by
  unfold open_generator
  have zero : ∀ {α : Type} (s : Step α), (∀ c ∈ s.calls, Call.is_registry_lookup c = false) →
      s.calls.countP Call.is_registry_lookup ≤ 0 := by
    intro α s h
    exact le_of_eq (countP_eq_zero_of_forall _ _ h)
  refine Step.countP_bind_le _ _ _ 0 1 (zero _ ?_) (fun constructed _ => ?_)
  · intro c hc
    rcases construct_generator_calls X options c hc with h | ⟨h, _⟩ | h | ⟨_, _, h, _⟩ <;>
      rw [h] <;> rfl
  unfold finish_opening
  refine Step.countP_bind_le _ _ _ 0 1 (zero _ ?_) (fun sections _ => ?_)
  · intro c hc; rw [(mem_enumerate_sections_calls _ _ _ _).1 hc]; rfl
  refine Step.countP_bind_le _ _ _ 0 1 (zero _ ?_) (fun _ _ => ?_)
  · intro c hc; rw [(Step.mem_call_calls _ _).1 hc]; rfl
  refine Step.countP_bind_le _ _ _ 0 1 (zero _ ?_) (fun parsed _ => ?_)
  · intro c hc; exact ((Step.mem_of_except_calls _ _ _).1 hc).elim
  refine Step.countP_bind_le _ _ _ 1 0 ?_ (fun global _ => zero _ ?_)
  · unfold resolve_global_type
    by_cases hts : options.type_string = ""
    · simp [hts, pure, Step.pure]
    · simp only [hts, ne_eq, not_false_eq_true, if_true]
      refine Step.countP_bind_le _ _ _ 1 0 ?_ (fun _ _ => zero _ ?_)
      · simp [Step.call, List.countP_cons, Call.is_registry_lookup]
      · intro c hc
        cases hl : X.ebpf_get_program_type_by_name options.type_string with
        | none => rw [hl] at hc; exact ((Step.mem_return_1_calls _ _ _).1 hc).elim
        | some types => rw [hl] at hc; exact ((Step.mem_pure_calls (some types) _).1 hc).elim
  · intro c hc
    exact ((Step.mem_pure_calls _ _).1 hc).elim

theorem emit_final_calls {G V : Type} (X : Externals G V) (generator : G)
    (written cerr : String) (calls : List Call) :
    (emit_final X generator written cerr calls).calls = calls ++ [.emit_c_code] := by
  unfold emit_final
  cases h : (X.emit_c_code generator).2 <;> simp only [h]

/-- The calls of a run are those made before the first write to `std::cout`,
followed by the calls of the emission: `emit_skeleton` and `emit_c_code`. -/
theorem run_calls_split {G V : Type} (X : Externals G V) (v : V) (options : Options) :
    ∃ emission, (run X v options).calls = (prepare X v options).calls ++ emission ∧
      (∀ c ∈ emission, c = .emit_c_code ∨ ∃ c_name, c = .emit_skeleton c_name) ∧
      (∀ outcome, (prepare X v options).value = .error outcome → emission = []) := by
  cases h : (prepare X v options).value with
  | error outcome =>
    rw [run_of_error X v options outcome h]
    exact ⟨[], by simp, by simp, fun _ _ => rfl⟩
  | ok prepared =>
    obtain ⟨c_name, generator⟩ := prepared
    rw [run_of_ok X v options c_name generator h]
    have hno : ∀ outcome : Outcome,
        (Except.ok (c_name, generator) : Except Outcome (String × G)) = .error outcome →
          ∀ l : List Call, l = [] := fun _ hcontra => by cases hcontra
    cases ht : options.type with
    | Bare =>
      refine ⟨[.emit_c_code], ?_, ?_, fun o ho => hno o ho _⟩
      · simp only [emit_final_calls]
      · intro c hc; exact Or.inl (List.mem_singleton.1 hc)
    | KernelPE =>
      simp only [emit_skeleton_then_final]
      cases hs : emit_skeleton X.regex_replace c_name X.bpf2c_driver with
      | none =>
        refine ⟨[.emit_skeleton c_name], rfl, ?_, fun o ho => hno o ho _⟩
        intro c hc; exact Or.inr ⟨c_name, List.mem_singleton.1 hc⟩
      | some skeleton =>
        refine ⟨[.emit_skeleton c_name, .emit_c_code], ?_, ?_, fun o ho => hno o ho _⟩
        · simp only [emit_final_calls, List.append_assoc, List.singleton_append]
        · intro c hc
          simp only [List.mem_cons, List.mem_singleton, List.not_mem_nil, or_false] at hc
          rcases hc with hc | hc
          · exact Or.inr ⟨c_name, hc⟩
          · exact Or.inl hc
    | UserPE =>
      simp only [emit_skeleton_then_final]
      cases hs : emit_skeleton X.regex_replace c_name X.bpf2c_dll with
      | none =>
        refine ⟨[.emit_skeleton c_name], rfl, ?_, fun o ho => hno o ho _⟩
        intro c hc; exact Or.inr ⟨c_name, List.mem_singleton.1 hc⟩
      | some skeleton =>
        refine ⟨[.emit_skeleton c_name, .emit_c_code], ?_, ?_, fun o ho => hno o ho _⟩
        · simp only [emit_final_calls, List.append_assoc, List.singleton_append]
        · intro c hc
          simp only [List.mem_cons, List.mem_singleton, List.not_mem_nil, or_false] at hc
          rcases hc with hc | hc
          · exact Or.inr ⟨c_name, hc⟩
          · exact Or.inl hc


/-! ## Type resolution -/

theorem process_section_global_types {G V : Type} (X : Externals G V) (options : Options)
    (data : List Nat) (types : Nat × Nat) (s : String) (generator : G) (v : V) (c : Call)
    (hc : c ∈ (process_section X options data (some types) s generator v).calls) :
    Call.is_registry_lookup c = false ∧
      ∀ s' pt at_ h, c = .parse_section s' pt at_ h → (pt, at_) = types := by
  rcases mem_process_section_calls X options data (some types) s generator v c hc with
    h | ⟨t, ht, h | ⟨_, h | ⟨hv, _, h⟩⟩⟩
  · exact absurd ((mem_lookup_calls _ _ _).1 h).1 (by simp)
  · rw [((mem_verify_calls _ _ _ _ _ _ _).1 h).2]
    exact ⟨rfl, fun _ _ _ _ hcontra => by cases hcontra⟩
  · rcases (mem_hash_calls _ _ _ _ h).2 with h | ⟨_, _, h⟩ <;> rw [h] <;>
      exact ⟨rfl, fun _ _ _ _ hcontra => by cases hcontra⟩
  · rw [h]
    refine ⟨rfl, ?_⟩
    intro s' pt at_ h' heq
    have ht' : t = types := by simpa [resolved_types] using ht.symm
    cases heq
    rw [← ht']

theorem process_section_own_types {G V : Type} (X : Externals G V) (options : Options)
    (data : List Nat) (s : String) (generator : G) (v : V) (c : Call)
    (hc : c ∈ (process_section X options data none s generator v).calls) :
    ∀ s' pt at_ h, c = .parse_section s' pt at_ h →
      X.ebpf_get_program_type_by_name s' = some (pt, at_) := by
  intro s' pt at_ h' heq
  rcases mem_process_section_calls X options data none s generator v c hc with
    h | ⟨t, ht, h | ⟨_, h | ⟨hv, _, h⟩⟩⟩
  · rw [((mem_lookup_calls _ _ _).1 h).2] at heq; cases heq
  · rw [((mem_verify_calls _ _ _ _ _ _ _).1 h).2] at heq; cases heq
  · rcases (mem_hash_calls _ _ _ _ h).2 with h | ⟨_, _, h⟩ <;> rw [h] at heq <;> cases heq
  · rw [h] at heq
    cases heq
    simpa [resolved_types] using ht

/-- C4: in every run, with a non-empty global type string every section
handed to `generator.parse` gets the program type and attach type that the
registry has for that type string, whatever the section is called, and the
registry is queried at most once, with the type string; without a type
string every section handed to `generator.parse` gets the types that the
registry has for its own name. The policy is fixed by the type string alone,
so one run never uses both. -/
theorem type_resolution_policy {G V : Type} (X : Externals G V) (v : V) (argv0 : String)
    (parameters : List String) (options : Options)
    (hparse : parse_parameters X.enable_skip_verify argv0 parameters Options.initial =
      .ok options) :
    (options.type_string ≠ "" →
      (∀ s pt at_ h, Call.parse_section s pt at_ h ∈ (main X v argv0 parameters).calls →
        X.ebpf_get_program_type_by_name options.type_string = some (pt, at_)) ∧
      (∀ name, Call.ebpf_get_program_type_by_name name ∈ (main X v argv0 parameters).calls →
        name = options.type_string) ∧
      (main X v argv0 parameters).calls.countP Call.is_registry_lookup ≤ 1) ∧
    (options.type_string = "" →
      ∀ s pt at_ h, Call.parse_section s pt at_ h ∈ (main X v argv0 parameters).calls →
        X.ebpf_get_program_type_by_name s = some (pt, at_)) := by
  rw [main_eq_run X v argv0 parameters options hparse]
  have hglobal : ∀ c ∈ (run X v options).calls, options.type_string ≠ "" →
      (Call.is_registry_lookup c = false ∨
        c = .ebpf_get_program_type_by_name options.type_string) ∧
      ∀ s pt at_ h, c = .parse_section s pt at_ h →
        X.ebpf_get_program_type_by_name options.type_string = some (pt, at_) := by
    intro c hc hts
    rcases mem_run_calls X v options c hc with h | ⟨_, h⟩ | h
    · rcases mem_prepare_calls X v options c h with h | ⟨opened, hopen, h | ⟨_, _, h⟩⟩
      · rcases open_generator_calls X options c h with
          h | ⟨h, _⟩ | h | ⟨_, _, h, _⟩ | ⟨_, h⟩ | h | ⟨h, _⟩
        all_goals first
          | exact ⟨Or.inr h, fun _ _ _ _ hcontra => by rw [h] at hcontra; cases hcontra⟩
          | exact ⟨Or.inl (by rw [h]; rfl),
              fun _ _ _ _ hcontra => by rw [h] at hcontra; cases hcontra⟩
      · obtain ⟨types, hlookup, hg⟩ := (open_generator_global X options opened hopen).1 hts
        rw [hg] at h
        have hP := parse_sections_calls_forall X options opened.data (some types)
          (fun c => Call.is_registry_lookup c = false ∧
            ∀ s' pt at_ h, c = .parse_section s' pt at_ h → (pt, at_) = types)
          opened.sections
          (fun s _ generator v c hc =>
            process_section_global_types X options opened.data types s generator v c hc)
          opened.generator v c h
        refine ⟨Or.inl hP.1, ?_⟩
        intro s pt at_ h' heq
        rw [hlookup, hP.2 s pt at_ h' heq]
      · exact ⟨Or.inl (by rw [h]; rfl),
          fun _ _ _ _ hcontra => by rw [h] at hcontra; cases hcontra⟩
    · exact ⟨Or.inl (by rw [h]; rfl),
        fun _ _ _ _ hcontra => by rw [h] at hcontra; cases hcontra⟩
    · exact ⟨Or.inl (by rw [h]; rfl),
        fun _ _ _ _ hcontra => by rw [h] at hcontra; cases hcontra⟩
  refine ⟨fun hts => ⟨?_, ?_, ?_⟩, ?_⟩
  · intro s pt at_ h hc
    exact (hglobal _ hc hts).2 s pt at_ h rfl
  · intro name hc
    rcases (hglobal _ hc hts).1 with h | h
    · cases h
    · cases h; rfl
  · obtain ⟨emission, hsplit, hemission, _⟩ := run_calls_split X v options
    rw [hsplit, List.countP_append,
      countP_eq_zero_of_forall _ emission (fun c hc => by
        rcases hemission c hc with h | ⟨_, h⟩ <;> rw [h] <;> rfl)]
    unfold prepare
    refine Step.countP_bind_le _ _ _ 1 0 (open_generator_registry_lookups X options)
      (fun opened hopen => le_of_eq (countP_eq_zero_of_forall _ _ ?_))
    intro c hc
    obtain ⟨types, _, hg⟩ := (open_generator_global X options opened hopen).1 hts
    simp only [pure, Step.mem_bind_calls, Step.mem_pure_calls, or_false, exists_false,
      and_false] at hc
    rcases hc with hc | ⟨parsed, _, hc⟩
    · rw [hg] at hc
      exact (parse_sections_calls_forall X options opened.data (some types)
        (fun c => Call.is_registry_lookup c = false ∧
          ∀ s' pt at_ h, c = .parse_section s' pt at_ h → (pt, at_) = types)
        opened.sections
        (fun s _ generator v c hc =>
          process_section_global_types X options opened.data types s generator v c hc)
        opened.generator v c hc).1
    · obtain ⟨_, _, h⟩ := mem_generate_sections_calls X _ parsed c hc
      rw [h]; rfl
  · intro hts s pt at_ h hc
    rcases mem_run_calls X v options _ hc with h1 | ⟨_, h1⟩ | h1
    · rcases mem_prepare_calls X v options _ h1 with h2 | ⟨opened, hopen, h2 | ⟨_, _, h2⟩⟩
      · rcases open_generator_calls X options _ h2 with
          h3 | ⟨h3, _⟩ | h3 | ⟨_, _, h3, _⟩ | ⟨_, h3⟩ | h3 | ⟨h3, _⟩ <;> cases h3
      · rw [(open_generator_global X options opened hopen).2 hts] at h2
        exact parse_sections_calls_forall X options opened.data none
          (fun c => ∀ s' pt at_ h, c = .parse_section s' pt at_ h →
            X.ebpf_get_program_type_by_name s' = some (pt, at_))
          opened.sections
          (fun s _ generator v c hc =>
            process_section_own_types X options opened.data s generator v c hc)
          opened.generator v _ h2 s pt at_ h rfl
      · cases h2
    · cases h1
    · cases h1

theorem type_resolution_policy_witness :
    parse_parameters sample_world.enable_skip_verify "bpf2c"
        ["--bpf", "prog.o", "--type", "xdp"] Options.initial = .ok sample_options_typed ∧
      (∀ s pt at_ h, Call.parse_section s pt at_ h ∈
          (main sample_world "" "bpf2c" ["--bpf", "prog.o", "--type", "xdp"]).calls →
        sample_world.ebpf_get_program_type_by_name "xdp" = some (pt, at_)) ∧
      Call.parse_section "bind" 1 10 (some [98, 105, 110, 100, 7, 11, 6, 0, 0]) ∈
        (main sample_world "" "bpf2c" ["--bpf", "prog.o", "--type", "xdp"]).calls :=
  ⟨rfl,
    ((type_resolution_policy sample_world "" "bpf2c" ["--bpf", "prog.o", "--type", "xdp"]
      sample_options_typed rfl).1 (by decide)).1,
    by decide⟩

/-! ## How a run ends -/

/-- The part of `main` before the first write to `std::cout`, by the first
stage that fails, if any. -/
theorem prepare_cases {G V : Type} (X : Externals G V) (v : V) (options : Options) :
    (∃ outcome, (open_generator X options).value = .error outcome ∧
      prepare X v options =
        { calls := (open_generator X options).calls, cerr := (open_generator X options).cerr,
          value := .error outcome }) ∨
    ∃ opened, (open_generator X options).value = .ok opened ∧
      ((∃ outcome,
          (parse_sections X options opened.data opened.global opened.sections
            opened.generator v).value = .error outcome ∧
          prepare X v options =
            { calls := (open_generator X options).calls ++
                (parse_sections X options opened.data opened.global opened.sections
                  opened.generator v).calls
              cerr := (open_generator X options).cerr ++
                (parse_sections X options opened.data opened.global opened.sections
                  opened.generator v).cerr
              value := .error outcome }) ∨
        ∃ parsed,
          (parse_sections X options opened.data opened.global opened.sections
            opened.generator v).value = .ok parsed ∧
          prepare X v options =
            { calls := (open_generator X options).calls ++
                ((parse_sections X options opened.data opened.global opened.sections
                  opened.generator v).calls ++
                  (generate_sections X opened.sections parsed).calls)
              cerr := (open_generator X options).cerr ++
                ((parse_sections X options opened.data opened.global opened.sections
                  opened.generator v).cerr ++
                  (generate_sections X opened.sections parsed).cerr)
              value :=
                match (generate_sections X opened.sections parsed).value with
                | .error outcome => .error outcome
                | .ok generated => .ok (opened.c_name, generated) }) := by
  unfold prepare
  cases hopen : (open_generator X options).value with
  | error outcome =>
    exact Or.inl ⟨outcome, rfl, by simp [bind, Step.bind, hopen]⟩
  | ok opened =>
    refine Or.inr ⟨opened, rfl, ?_⟩
    cases hloop : (parse_sections X options opened.data opened.global opened.sections
        opened.generator v).value with
    | error outcome =>
      exact Or.inl ⟨outcome, rfl, by simp [bind, Step.bind, hopen, hloop]⟩
    | ok parsed =>
      refine Or.inr ⟨parsed, rfl, ?_⟩
      cases hgen : (generate_sections X opened.sections parsed).value <;>
        simp [bind, pure, Step.bind, Step.pure, hopen, hloop, hgen]

/-- A call that is fatal in the body of the section loop is fatal in the
loop: when every such call of the body ends the body with a fate that stays
true under more calls and more error text in front, it ends the loop with
that fate. -/
theorem parse_sections_fatal {G V : Type} (X : Externals G V) (options : Options)
    (data : List Nat) (global : Option (Nat × Nat)) (bad : Call → Prop)
    (fate : Call → List Call → String → Outcome → Prop)
    (hfront : ∀ c calls cerr outcome front text,
      fate c calls cerr outcome → fate c (front ++ calls) (text ++ cerr) outcome)
    (sections : List String) :
    (∀ s ∈ sections, ∀ (generator : G) (v : V),
      ∀ c ∈ (process_section X options data global s generator v).calls, bad c →
        ∃ outcome, (process_section X options data global s generator v).value =
            .error outcome ∧
          fate c (process_section X options data global s generator v).calls
            (process_section X options data global s generator v).cerr outcome) →
    ∀ (generator : G) (v : V),
      ∀ c ∈ (parse_sections X options data global sections generator v).calls, bad c →
        ∃ outcome, (parse_sections X options data global sections generator v).value =
            .error outcome ∧
          fate c (parse_sections X options data global sections generator v).calls
            (parse_sections X options data global sections generator v).cerr outcome := by
  induction sections with
  | nil =>
    intro _ generator v c hc
    exact ((Step.mem_pure_calls generator c).1 hc).elim
  | cons s rest ih =>
    intro hbody generator v c hc hbad
    unfold parse_sections
    unfold parse_sections at hc
    cases hb : (process_section X options data global s generator v).value with
    | error outcome =>
      have hc' : c ∈ (process_section X options data global s generator v).calls := by
        simpa [bind, Step.bind, hb] using hc
      obtain ⟨o, ho, hfate⟩ := hbody s (List.mem_cons_self _ _) generator v c hc' hbad
      have ho' : outcome = o := by rw [hb] at ho; exact Except.error.inj ho
      refine ⟨o, ?_, ?_⟩
      · simp [bind, Step.bind, hb, ho']
      · simpa [bind, Step.bind, hb] using hfate
    | ok state =>
      have hc' : c ∈ (process_section X options data global s generator v).calls ∨
          c ∈ (parse_sections X options data global rest state.1 state.2).calls := by
        simpa [bind, Step.bind, hb] using hc
      rcases hc' with hc' | hc'
      · obtain ⟨o, ho, _⟩ := hbody s (List.mem_cons_self _ _) generator v c hc' hbad
        rw [hb] at ho
        cases ho
      · obtain ⟨o, ho, hfate⟩ :=
          ih (fun s' hs' => hbody s' (List.mem_cons_of_mem _ hs')) state.1 state.2 c hc' hbad
        refine ⟨o, ?_, ?_⟩
        · simpa [bind, Step.bind, hb] using ho
        · simpa [bind, Step.bind, hb] using hfront _ _ _ _ _ _ hfate

/-- A call that only the section loop makes and that is fatal there ends the
run: the run stops in the loop, with the outcome of the loop and nothing on
`std::cout`. -/
theorem run_fatal {G V : Type} (X : Externals G V) (v : V) (options : Options)
    (bad : Call → Prop) (fate : Call → List Call → String → Outcome → Prop)
    (hfront : ∀ c calls cerr outcome front text,
      fate c calls cerr outcome → fate c (front ++ calls) (text ++ cerr) outcome)
    (hopen : ∀ c ∈ (open_generator X options).calls, ¬ bad c)
    (hgenerate : ∀ s, ¬ bad (.generate s))
    (hskeleton : ∀ c_name, ¬ bad (.emit_skeleton c_name))
    (hemit : ¬ bad .emit_c_code)
    (hbody : ∀ opened, (open_generator X options).value = .ok opened →
      ∀ s ∈ opened.sections, ∀ (generator : G) (v : V),
      ∀ c ∈ (process_section X options opened.data opened.global s generator v).calls, bad c →
        ∃ outcome,
          (process_section X options opened.data opened.global s generator v).value =
            .error outcome ∧
          fate c (process_section X options opened.data opened.global s generator v).calls
            (process_section X options opened.data opened.global s generator v).cerr outcome)
    (c : Call) (hc : c ∈ (run X v options).calls) (hbad : bad c) :
    ∃ opened outcome, (open_generator X options).value = .ok opened ∧
      (parse_sections X options opened.data opened.global opened.sections
        opened.generator v).value = .error outcome ∧
      fate c (parse_sections X options opened.data opened.global opened.sections
          opened.generator v).calls
        (parse_sections X options opened.data opened.global opened.sections
          opened.generator v).cerr outcome ∧
      run X v options =
        { outcome := outcome, cout := ""
          cerr := (open_generator X options).cerr ++
            (parse_sections X options opened.data opened.global opened.sections
              opened.generator v).cerr
          calls := (open_generator X options).calls ++
            (parse_sections X options opened.data opened.global opened.sections
              opened.generator v).calls } := by
  have hloop : c ∈ (open_generator X options).calls ∨
      ∃ opened, (open_generator X options).value = .ok opened ∧
        c ∈ (parse_sections X options opened.data opened.global opened.sections
          opened.generator v).calls := by
    rcases mem_run_calls X v options c hc with h | ⟨_, h⟩ | h
    · rcases mem_prepare_calls X v options c h with h | ⟨opened, hopened, h | ⟨s, _, h⟩⟩
      · exact Or.inl h
      · exact Or.inr ⟨opened, hopened, h⟩
      · rw [h] at hbad; exact absurd hbad (hgenerate s)
    · rw [h] at hbad; exact absurd hbad (hskeleton _)
    · rw [h] at hbad; exact absurd hbad hemit
  rcases hloop with h | ⟨opened, hopened, h⟩
  · exact absurd hbad (hopen c h)
  · obtain ⟨outcome, hvalue, hfate⟩ :=
      parse_sections_fatal X options opened.data opened.global bad fate hfront opened.sections
        (hbody opened hopened) opened.generator v c h hbad
    refine ⟨opened, outcome, hopened, hvalue, hfate, ?_⟩
    rcases prepare_cases X v options with ⟨o, ho, _⟩ | ⟨opened', hopened', hp⟩
    · rw [hopened] at ho; cases ho
    · have heq : opened' = opened := by
        rw [hopened] at hopened'; exact (Except.ok.inj hopened').symm
      subst heq
      rcases hp with ⟨o, ho, hp⟩ | ⟨parsed, hparsed, _⟩
      · have ho' : o = outcome := by rw [hvalue] at ho; exact (Except.error.inj ho).symm
        subst ho'
        rw [run_of_error X v options o (by rw [hp])]
        rw [hp]
      · rw [hvalue] at hparsed; cases hparsed

/-! ## Fail-fast on verification -/

theorem verification_fate_front (c : Call) (calls : List Call) (cerr : String)
    (outcome : Outcome) (front : List Call) (text : String)
    (h : verification_fate c calls cerr outcome) :
    verification_fate c (front ++ calls) (text ++ cerr) outcome := by
  intro s pt answer hc
  obtain ⟨ho, ⟨text', ht⟩, ⟨front', hf⟩⟩ := h s pt answer hc
  refine ⟨ho, ⟨text ++ text', ?_⟩, ⟨front ++ front', ?_⟩⟩
  · rw [ht, String.append_assoc]
  · rw [hf, List.append_assoc]

theorem process_section_failed_verification {G V : Type} (X : Externals G V)
    (options : Options) (data : List Nat) (global : Option (Nat × Nat)) (s : String)
    (generator : G) (v : V) (c : Call)
    (hc : c ∈ (process_section X options data global s generator v).calls)
    (hbad : Call.is_failed_verification c) :
    ∃ outcome, (process_section X options data global s generator v).value = .error outcome ∧
      verification_fate c (process_section X options data global s generator v).calls
        (process_section X options data global s generator v).cerr outcome := by
  have hkind : ∀ c' : Call, Call.is_failed_verification c' →
      (c' ∈ lookup_calls global s → False) ∧
      (∀ types, c' ∈ hash_calls X options (verified_state X options data s types v) → False) ∧
      (∀ pt at_ h, c' = .parse_section s pt at_ h → False) := by
    intro c' hc'
    refine ⟨fun h => ?_, fun types h => ?_, fun _ _ _ h => ?_⟩
    · rw [((mem_lookup_calls _ _ _).1 h).2] at hc'; exact hc'
    · rcases (mem_hash_calls _ _ _ _ h).2 with h | ⟨_, _, h⟩ <;> rw [h] at hc' <;> exact hc'
    · rw [h] at hc'; exact hc'
  rw [process_section_eq] at hc ⊢
  cases hres : resolved_types X global s with
  | none =>
    simp only [hres] at hc
    exact ((hkind c hbad).1 hc).elim
  | some types =>
    simp only [hres] at hc ⊢
    by_cases hfail : verification_fails X options data s types.1 v
    · simp only [hfail, if_true] at hc ⊢
      rcases List.mem_append.1 hc with h | h
      · exact ((hkind c hbad).1 h).elim
      · have hc' := ((mem_verify_calls _ _ _ _ _ _ _).1 h).2
        refine ⟨_, rfl, ?_⟩
        intro s' pt answer heq
        rw [hc'] at heq
        cases heq
        refine ⟨rfl, ⟨"", by simp⟩, ⟨lookup_calls global s, ?_⟩⟩
        rw [hc']
        simp [verify_calls, hfail.1]
    · exfalso
      simp only [hfail, if_false] at hc
      have hmem : c ∈ verify_calls X options data s types.1 v := by
        cases hh : section_hash X options (verified_state X options data s types.1 v) with
        | error what =>
          simp only [hh, List.mem_append] at hc
          rcases hc with h | h | h
          · exact ((hkind c hbad).1 h).elim
          · exact h
          · exact ((hkind c hbad).2.1 _ h).elim
        | ok h' =>
          simp only [hh] at hc
          have hc' : c ∈ lookup_calls global s ++ (verify_calls X options data s types.1 v ++
              (hash_calls X options (verified_state X options data s types.1 v) ++
                [.parse_section s types.1 types.2 h'])) := by
            cases hp : X.parse_section generator s types.1 types.2 h' <;>
              simpa only [hp] using hc
          simp only [List.mem_append, List.mem_singleton] at hc'
          rcases hc' with h | h | h | h
          · exact ((hkind c hbad).1 h).elim
          · exact h
          · exact ((hkind c hbad).2.1 _ h).elim
          · exact ((hkind c hbad).2.2 _ _ _ h).elim
      obtain ⟨hv, hc'⟩ := (mem_verify_calls _ _ _ _ _ _ _).1 hmem
      rw [hc'] at hbad
      exact hfail ⟨hv, hbad⟩

theorem process_section_no_generate {G V : Type} (X : Externals G V) (options : Options)
    (data : List Nat) (global : Option (Nat × Nat)) (s : String) (generator : G) (v : V)
    (c : Call) (hc : c ∈ (process_section X options data global s generator v).calls) :
    (∀ s', c ≠ .generate s') ∧ c ≠ .emit_c_code := by
  rcases mem_process_section_calls X options data global s generator v c hc with
    h | ⟨t, _, h | ⟨_, h | ⟨_, _, h⟩⟩⟩
  · rw [((mem_lookup_calls _ _ _).1 h).2]
    exact ⟨fun _ hcontra => (by cases hcontra), fun hcontra => (by cases hcontra)⟩
  · rw [((mem_verify_calls _ _ _ _ _ _ _).1 h).2]
    exact ⟨fun _ hcontra => (by cases hcontra), fun hcontra => (by cases hcontra)⟩
  · rcases (mem_hash_calls _ _ _ _ h).2 with h | ⟨_, _, h⟩ <;> rw [h] <;>
      exact ⟨fun _ hcontra => (by cases hcontra), fun hcontra => (by cases hcontra)⟩
  · rw [h]
    exact ⟨fun _ hcontra => (by cases hcontra), fun hcontra => (by cases hcontra)⟩

theorem open_generator_no_generate {G V : Type} (X : Externals G V) (options : Options)
    (c : Call) (hc : c ∈ (open_generator X options).calls) :
    (∀ s', c ≠ .generate s') ∧ c ≠ .emit_c_code ∧ ¬ Call.is_failed_verification c := by
  rcases open_generator_calls X options c hc with
    h | ⟨h, _⟩ | h | ⟨_, _, h, _⟩ | ⟨_, h⟩ | h | ⟨h, _⟩ <;> rw [h] <;>
    exact ⟨fun _ hcontra => (by cases hcontra), fun hcontra => (by cases hcontra),
      fun hcontra => hcontra⟩

/-- Fail-fast on verification: when the verifier rejects a section, the run
ends there. Nothing is on `std::cout`, the rejected verification is the last
call of the run, so neither `generate` nor `emit_c_code` is called, and the
run ends as `verification_failure` says: `main` returns 1 with the error of
the verifier on `std::cerr` when the verifier supplied an error message. -/
theorem verification_failure_ends_run {G V : Type} (X : Externals G V) (v : V)
    (argv0 : String) (parameters : List String) (s : String) (pt : Nat)
    (answer : verify_result)
    (hc : Call.ebpf_api_elf_verify_section_from_memory s pt answer ∈
      (main X v argv0 parameters).calls)
    (hfailed : answer.result ≠ 0) :
    (main X v argv0 parameters).cout = "" ∧
      (main X v argv0 parameters).outcome = (verification_failure s answer).2 ∧
      (∃ text, (main X v argv0 parameters).cerr = text ++ (verification_failure s answer).1) ∧
      (∃ front, (main X v argv0 parameters).calls =
        front ++ [.ebpf_api_elf_verify_section_from_memory s pt answer]) ∧
      (∀ s', Call.generate s' ∉ (main X v argv0 parameters).calls) ∧
      Call.emit_c_code ∉ (main X v argv0 parameters).calls ∧
      (answer.error_message ≠ none → (main X v argv0 parameters).outcome.exit_code = some 1) := by
  cases hparse : parse_parameters X.enable_skip_verify argv0 parameters Options.initial with
  | error written =>
    unfold main at hc
    simp only [hparse] at hc
    exact absurd hc (List.not_mem_nil _)
  | ok options =>
    rw [main_eq_run X v argv0 parameters options hparse] at hc ⊢
    obtain ⟨opened, outcome, hopened, _, hfate, hrun⟩ :=
      run_fatal X v options Call.is_failed_verification verification_fate
        verification_fate_front
        (fun c hc => (open_generator_no_generate X options c hc).2.2)
        (fun _ h => h) (fun _ h => h) (fun h => h)
        (fun opened _ s _ generator v c hc hbad =>
          process_section_failed_verification X options opened.data opened.global s generator v
            c hc hbad)
        _ hc hfailed
    obtain ⟨houtcome, ⟨text, htext⟩, ⟨front, hfront⟩⟩ := hfate s pt answer rfl
    have hcalls : ∀ c ∈ (run X v options).calls, (∀ s', c ≠ .generate s') ∧ c ≠ .emit_c_code := by
      intro c hc'
      rw [hrun] at hc'
      rcases List.mem_append.1 hc' with h | h
      · exact ⟨(open_generator_no_generate X options c h).1,
          (open_generator_no_generate X options c h).2.1⟩
      · exact parse_sections_calls_forall X options opened.data opened.global
          (fun c => (∀ s', c ≠ .generate s') ∧ c ≠ .emit_c_code) opened.sections
          (fun s _ generator v c hc =>
            process_section_no_generate X options opened.data opened.global s generator v c hc)
          opened.generator v c h
    refine ⟨by rw [hrun], by rw [hrun, houtcome], ⟨(open_generator X options).cerr ++ text, ?_⟩,
      ⟨(open_generator X options).calls ++ front, ?_⟩,
      fun s' hmem => (hcalls _ hmem).1 s' rfl, fun hmem => (hcalls _ hmem).2 rfl, ?_⟩
    · rw [hrun]; simp only [htext, String.append_assoc]
    · rw [hrun]; simp only [hfront, List.append_assoc]
    · intro hmessage
      rw [hrun]
      simp only [houtcome]
      cases hm : answer.error_message with
      | none => exact absurd hm hmessage
      | some message => simp [verification_failure, hm, Outcome.exit_code]

/-- C5 at a verifier that rejects the section `bind` and leaves
`error_message` null: the section `xdp_prog` was verified and parsed before,
nothing is on `std::cout` and nothing was generated, but `main` builds a
`std::string` from the null pointer, which is undefined, and does not reach
`return 1`. -/
theorem rejected_section_without_message :
    (main (rejecting_world none none) "" "bpf2c" ["--bpf", "prog.o"]).outcome =
        .crashed (.verification "bind") ∧
      (main (rejecting_world none none) "" "bpf2c" ["--bpf", "prog.o"]).outcome.exit_code ≠
        some 1 ∧
      (main (rejecting_world none none) "" "bpf2c" ["--bpf", "prog.o"]).cout = "" ∧
      Call.parse_section "xdp_prog" 1 10
          (some [120, 100, 112, 95, 112, 114, 111, 103, 7, 11, 6, 0, 0]) ∈
        (main (rejecting_world none none) "" "bpf2c" ["--bpf", "prog.o"]).calls ∧
      (main (rejecting_world (some "bad") none) "" "bpf2c" ["--bpf", "prog.o"]).outcome.exit_code =
        some 1 := by
  refine ⟨by rfl, by decide, by rfl, by decide, by rfl⟩

/-! ## The policy for a file without program sections -/

theorem Step.bind_eq_of_ok {α β : Type} (s : Step α) (f : α → Step β) (a : α)
    (h : s.value = .ok a) :
    (s >>= f) =
      { calls := s.calls ++ (f a).calls, cerr := s.cerr ++ (f a).cerr, value := (f a).value } := by
  show Step.bind s f = _
  simp [Step.bind, h]

theorem Step.bind_eq_of_error {α β : Type} (s : Step α) (f : α → Step β) (outcome : Outcome)
    (h : s.value = .error outcome) :
    (s >>= f) = { calls := s.calls, cerr := s.cerr, value := .error outcome } := by
  show Step.bind s f = _
  simp [Step.bind, h]

/-- A section enumeration in the calls of a run was made on the generator
that the run constructed. -/
theorem enumeration_reached {G V : Type} (X : Externals G V) (v : V) (options : Options)
    (enumerated : Except String (List String))
    (hc : Call.program_sections enumerated ∈ (run X v options).calls) :
    ∃ c_name data generator,
      (construct_generator X options).value = .ok (c_name, data, generator) ∧
      X.program_sections generator = enumerated := by
  have hopen : Call.program_sections enumerated ∈ (open_generator X options).calls := by
    rcases mem_run_calls X v options _ hc with h | ⟨_, h⟩ | h
    · rcases mem_prepare_calls X v options _ h with h | ⟨opened, _, h | ⟨_, _, h⟩⟩
      · exact h
      · exfalso
        exact parse_sections_calls_forall X options opened.data opened.global
          (fun c => ∀ e, c ≠ .program_sections e) opened.sections
          (fun s _ generator v c hc => by
            intro e he
            rcases mem_process_section_calls X options opened.data opened.global s generator v
              c hc with h | ⟨t, _, h | ⟨_, h | ⟨_, _, h⟩⟩⟩
            · rw [((mem_lookup_calls _ _ _).1 h).2] at he; cases he
            · rw [((mem_verify_calls _ _ _ _ _ _ _).1 h).2] at he; cases he
            · rcases (mem_hash_calls _ _ _ _ h).2 with h | ⟨_, _, h⟩ <;> rw [h] at he <;>
                cases he
            · rw [h] at he; cases he)
          opened.generator v _ h enumerated rfl
      · cases h
    · cases h
    · cases h
  unfold open_generator at hopen
  rw [Step.mem_bind_calls] at hopen
  rcases hopen with h | ⟨constructed, hconstructed, h⟩
  · rcases construct_generator_calls X options _ h with h | ⟨h, _⟩ | h | ⟨_, _, h, _⟩ <;>
      cases h
  · obtain ⟨c_name, data, generator⟩ := constructed
    refine ⟨c_name, data, generator, hconstructed, ?_⟩
    rcases finish_opening_calls X options _ _ _ _ h with h | h | ⟨h, _⟩
    · cases h; rfl
    · cases h
    · cases h

theorem open_generator_of_constructed {G V : Type} (X : Externals G V) (options : Options)
    (c_name : String) (data : List Nat) (generator : G)
    (h : (construct_generator X options).value = .ok (c_name, data, generator)) :
    open_generator X options =
      { calls := (construct_generator X options).calls ++
          (finish_opening X options c_name data generator).calls
        cerr := (construct_generator X options).cerr ++
          (finish_opening X options c_name data generator).cerr
        value := (finish_opening X options c_name data generator).value } := by
  unfold open_generator
  rw [Step.bind_eq_of_ok _ _ _ h]

theorem finish_opening_no_sections_verified {G V : Type} (X : Externals G V)
    (options : Options) (c_name : String) (data : List Nat) (generator : G)
    (hempty : X.program_sections generator = .ok [])
    (hverify : options.verify_programs = true) :
    finish_opening X options c_name data generator =
      { calls := [.program_sections (.ok [])]
        cerr := "ELF " ++ options.file ++ " file contains no program sections" ++ "\n"
        value := .error (.failure .no_program_sections) } := by
  unfold finish_opening enumerate_sections
  simp [hempty, hverify, bind, Step.bind, Step.call, Step.of_except, Step.pure, Step.return_1]

theorem resolve_global_type_cases {G V : Type} (X : Externals G V) (options : Options) :
    (∀ c ∈ (resolve_global_type X options).calls,
      c = .ebpf_get_program_type_by_name options.type_string) ∧
    ((resolve_global_type X options).value = .error (.failure .type_string_resolution) ∨
      ∃ global, (resolve_global_type X options).value = .ok global) := by
  refine ⟨fun c hc => ((mem_resolve_global_type_calls X options c).1 hc).1, ?_⟩
  unfold resolve_global_type
  by_cases hts : options.type_string = ""
  · exact Or.inr ⟨none, by simp [hts, pure, Step.pure]⟩
  · cases hl : X.ebpf_get_program_type_by_name options.type_string with
    | none =>
      exact Or.inl (by simp [hts, hl, bind, Step.bind, Step.call, Step.return_1])
    | some types =>
      exact Or.inr ⟨some types, by simp [hts, hl, bind, pure, Step.bind, Step.call, Step.pure]⟩

theorem finish_opening_no_sections_unverified {G V : Type} (X : Externals G V)
    (options : Options) (c_name : String) (data : List Nat) (generator : G)
    (hempty : X.program_sections generator = .ok [])
    (hverify : options.verify_programs = false) :
    ∃ rest, (finish_opening X options c_name data generator).calls =
        [.program_sections (.ok []), .parse] ++ rest ∧
      (∀ c ∈ rest, c = .ebpf_get_program_type_by_name options.type_string) ∧
      ((finish_opening X options c_name data generator).value =
          .error (.failure .global_data_parsing) ∨
        (finish_opening X options c_name data generator).value =
          .error (.failure .type_string_resolution) ∨
        ∃ parsed global, X.parse generator = .ok parsed ∧
          (finish_opening X options c_name data generator).value =
            .ok { c_name := c_name, data := data, sections := [], generator := parsed,
                  global := global }) := by
  have henum : enumerate_sections X options generator =
      { calls := [.program_sections (.ok [])], cerr := "", value := .ok [] } := by
    unfold enumerate_sections
    simp [hempty, hverify, bind, pure, Step.bind, Step.call, Step.of_except, Step.pure]
  unfold finish_opening
  rw [Step.bind_eq_of_ok _ _ [] (by rw [henum]), henum]
  cases hp : X.parse generator with
  | error what =>
    refine ⟨[], ?_, by simp, Or.inl ?_⟩ <;>
      simp [bind, Step.bind, Step.call, Step.of_except, Step.throw]
  | ok parsed =>
    obtain ⟨hcalls, hvalue⟩ := resolve_global_type_cases X options
    refine ⟨(resolve_global_type X options).calls, ?_, hcalls, ?_⟩
    · rcases hvalue with h | ⟨global, h⟩ <;>
        simp [bind, pure, Step.bind, Step.call, Step.of_except, Step.pure, h]
    · rcases hvalue with h | ⟨global, h⟩
      · exact Or.inr (Or.inl
          (by simp [bind, pure, Step.bind, Step.call, Step.of_except, Step.pure, h]))
      · exact Or.inr (Or.inr ⟨parsed, global, rfl,
          by simp [bind, pure, Step.bind, Step.call, Step.of_except, Step.pure, h]⟩)

theorem prepare_of_no_sections {G V : Type} (X : Externals G V) (v : V) (options : Options)
    (opened : Opened G) (hopened : (open_generator X options).value = .ok opened)
    (hempty : opened.sections = []) :
    prepare X v options =
      { calls := (open_generator X options).calls, cerr := (open_generator X options).cerr
        value := .ok (opened.c_name, opened.generator) } := by
  unfold prepare
  rw [Step.bind_eq_of_ok _ _ opened hopened, hempty]
  simp [parse_sections, generate_sections, bind, pure, Step.bind, Step.pure]

theorem emit_final_cases {G V : Type} (X : Externals G V) (generator : G)
    (written cerr : String) (calls : List Call) :
    ((emit_final X generator written cerr calls).outcome = .success ∨
      (emit_final X generator written cerr calls).outcome = .failure .final_emit) ∧
    (emit_final X generator written cerr calls).cout = written ++ (X.emit_c_code generator).1 := by
  unfold emit_final
  cases h : (X.emit_c_code generator).2 <;> simp [h]

/-- The emission, lines 292-310: once everything before the first write to
`std::cout` has succeeded, the run ends in success, in a crash of the
skeleton emission or in a failure of the final emit; the banner is on
`std::cout` in each case, and after a success it is followed by the skeleton
of the output type, if any, and by what `emit_c_code` wrote. -/
theorem run_of_prepared {G V : Type} (X : Externals G V) (v : V) (options : Options)
    (c_name : String) (generator : G)
    (hp : (prepare X v options).value = .ok (c_name, generator)) :
    ((run X v options).outcome = .success ∨
      (run X v options).outcome = .crashed .skeleton_emission ∨
      (run X v options).outcome = .failure .final_emit) ∧
    (∃ written, (run X v options).cout = banner options.file ++ written) ∧
    ((run X v options).outcome = .success →
      ∃ skeleton, (run X v options).cout =
          banner options.file ++ skeleton ++ (X.emit_c_code generator).1 ∧
        (options.type = .Bare → skeleton = "")) := by
  rw [run_of_ok X v options c_name generator hp]
  cases ht : options.type with
  | Bare =>
    simp only
    obtain ⟨ho, hcout⟩ := emit_final_cases X generator (banner options.file)
      (prepare X v options).cerr (prepare X v options).calls
    refine ⟨?_, ⟨_, hcout⟩, fun _ => ⟨"", by rw [hcout]; simp, fun _ => rfl⟩⟩
    rcases ho with ho | ho
    · exact Or.inl ho
    · exact Or.inr (Or.inr ho)
  | KernelPE =>
    simp only [emit_skeleton_then_final]
    cases hs : emit_skeleton X.regex_replace c_name X.bpf2c_driver with
    | none =>
      exact ⟨Or.inr (Or.inl rfl), ⟨"", by simp⟩, fun h => by cases h⟩
    | some skeleton =>
      simp only
      obtain ⟨ho, hcout⟩ := emit_final_cases X generator (banner options.file ++ skeleton)
        (prepare X v options).cerr ((prepare X v options).calls ++ [.emit_skeleton c_name])
      refine ⟨?_, ⟨skeleton ++ (X.emit_c_code generator).1, ?_⟩,
        fun _ => ⟨skeleton, hcout, fun h => by cases h⟩⟩
      · rcases ho with ho | ho
        · exact Or.inl ho
        · exact Or.inr (Or.inr ho)
      · rw [hcout, String.append_assoc]
  | UserPE =>
    simp only [emit_skeleton_then_final]
    cases hs : emit_skeleton X.regex_replace c_name X.bpf2c_dll with
    | none =>
      exact ⟨Or.inr (Or.inl rfl), ⟨"", by simp⟩, fun h => by cases h⟩
    | some skeleton =>
      simp only
      obtain ⟨ho, hcout⟩ := emit_final_cases X generator (banner options.file ++ skeleton)
        (prepare X v options).cerr ((prepare X v options).calls ++ [.emit_skeleton c_name])
      refine ⟨?_, ⟨skeleton ++ (X.emit_c_code generator).1, ?_⟩,
        fun _ => ⟨skeleton, hcout, fun h => by cases h⟩⟩
      · rcases ho with ho | ho
        · exact Or.inl ho
        · exact Or.inr (Or.inr ho)
      · rw [hcout, String.append_assoc]

theorem prepare_of_open_error {G V : Type} (X : Externals G V) (v : V) (options : Options)
    (outcome : Outcome) (h : (open_generator X options).value = .error outcome) :
    prepare X v options =
      { calls := (open_generator X options).calls, cerr := (open_generator X options).cerr
        value := .error outcome } := by
  unfold prepare
  rw [Step.bind_eq_of_error _ _ _ h]

theorem construct_generator_no_section_calls {G V : Type} (X : Externals G V)
    (options : Options) (c : Call) (hc : c ∈ (construct_generator X options).calls) :
    c ≠ .parse ∧ (∀ s pt at_ h, c ≠ .parse_section s pt at_ h) ∧ (∀ s, c ≠ .generate s) ∧
      (∀ s pt answer, c ≠ .ebpf_api_elf_verify_section_from_memory s pt answer) := by
  rcases construct_generator_calls X options c hc with h | ⟨h, _⟩ | h | ⟨_, _, h, _⟩ <;>
    rw [h] <;>
    exact ⟨fun hcontra => (by cases hcontra), fun _ _ _ _ hcontra => (by cases hcontra),
      fun _ hcontra => (by cases hcontra), fun _ _ _ hcontra => (by cases hcontra)⟩

/-- C6, as the code has it: when the section enumeration of a run is empty,
with verification enabled `main` reports that the file contains no program
sections and returns 1, without parsing the global data and with nothing on
`std::cout`; with verification disabled `main` goes on: it parses the global
data, makes no per-section call at all, and can only fail in the global parse,
in the resolution of a supplied type string, or in the emission; when it
succeeds it returns 0 with the banner, the skeleton of the output type, if
any, and the output of the generator, which parsed the global data and no
section, on `std::cout`. -/
theorem no_program_sections_policy {G V : Type} (X : Externals G V) (v : V) (argv0 : String)
    (parameters : List String) (options : Options)
    (hparse : parse_parameters X.enable_skip_verify argv0 parameters Options.initial =
      .ok options)
    (henum : Call.program_sections (.ok []) ∈ (main X v argv0 parameters).calls) :
    (options.verify_programs = true →
      (main X v argv0 parameters).outcome = .failure .no_program_sections ∧
      (main X v argv0 parameters).outcome.exit_code = some 1 ∧
      (main X v argv0 parameters).cout = "" ∧
      Call.parse ∉ (main X v argv0 parameters).calls ∧
      ∃ text, (main X v argv0 parameters).cerr =
        text ++ ("ELF " ++ options.file ++ " file contains no program sections" ++ "\n")) ∧
    (options.verify_programs = false →
      Call.parse ∈ (main X v argv0 parameters).calls ∧
      (∀ c ∈ (main X v argv0 parameters).calls,
        (∀ s pt at_ h, c ≠ .parse_section s pt at_ h) ∧ (∀ s, c ≠ .generate s) ∧
          (∀ s pt answer, c ≠ .ebpf_api_elf_verify_section_from_memory s pt answer)) ∧
      ((main X v argv0 parameters).outcome = .success ∨
        (main X v argv0 parameters).outcome = .failure .global_data_parsing ∨
        (main X v argv0 parameters).outcome = .failure .type_string_resolution ∨
        (main X v argv0 parameters).outcome = .crashed .skeleton_emission ∨
        (main X v argv0 parameters).outcome = .failure .final_emit) ∧
      ((main X v argv0 parameters).outcome = .success →
        (main X v argv0 parameters).outcome.exit_code = some 0 ∧
        ∃ generator parsed skeleton, X.program_sections generator = .ok [] ∧
          X.parse generator = .ok parsed ∧
          (main X v argv0 parameters).cout =
            banner options.file ++ skeleton ++ (X.emit_c_code parsed).1 ∧
          (options.type = .Bare → skeleton = ""))) := by
  rw [main_eq_run X v argv0 parameters options hparse] at henum ⊢
  obtain ⟨c_name, data, generator, hconstructed, hempty⟩ :=
    enumeration_reached X v options _ henum
  have hopen := open_generator_of_constructed X options c_name data generator hconstructed
  constructor
  · intro hverify
    rw [finish_opening_no_sections_verified X options c_name data generator hempty hverify]
      at hopen
    have hprepare := prepare_of_open_error X v options (.failure .no_program_sections)
      (by rw [hopen])
    rw [run_of_error X v options _ (by rw [hprepare]), hprepare, hopen]
    refine ⟨rfl, rfl, rfl, ?_, ⟨(construct_generator X options).cerr, rfl⟩⟩
    intro hmem
    rcases List.mem_append.1 hmem with h | h
    · exact (construct_generator_no_section_calls X options _ h).1 rfl
    · simp at h
  · intro hverify
    obtain ⟨rest, hcalls, hrest, hvalue⟩ :=
      finish_opening_no_sections_unverified X options c_name data generator hempty hverify
    have hopen_calls : ∀ c ∈ (open_generator X options).calls,
        (∀ s pt at_ h, c ≠ .parse_section s pt at_ h) ∧ (∀ s, c ≠ .generate s) ∧
          (∀ s pt answer, c ≠ .ebpf_api_elf_verify_section_from_memory s pt answer) := by
      intro c hc
      rw [hopen, hcalls] at hc
      simp only [List.mem_append, List.mem_cons, List.not_mem_nil, or_false] at hc
      rcases hc with h | (h | h) | h
      · exact (construct_generator_no_section_calls X options c h).2
      · rw [h]
        exact ⟨fun _ _ _ _ hcontra => (by cases hcontra), fun _ hcontra => (by cases hcontra),
          fun _ _ _ hcontra => (by cases hcontra)⟩
      · rw [h]
        exact ⟨fun _ _ _ _ hcontra => (by cases hcontra), fun _ hcontra => (by cases hcontra),
          fun _ _ _ hcontra => (by cases hcontra)⟩
      · rw [hrest c h]
        exact ⟨fun _ _ _ _ hcontra => (by cases hcontra), fun _ hcontra => (by cases hcontra),
          fun _ _ _ hcontra => (by cases hcontra)⟩
    have hparse_call : Call.parse ∈ (open_generator X options).calls := by
      rw [hopen, hcalls]; simp
    have hfailed : ∀ step, (open_generator X options).value = .error (.failure step) →
        Call.parse ∈ (run X v options).calls ∧
        (∀ c ∈ (run X v options).calls,
          (∀ s pt at_ h, c ≠ .parse_section s pt at_ h) ∧ (∀ s, c ≠ .generate s) ∧
            (∀ s pt answer, c ≠ .ebpf_api_elf_verify_section_from_memory s pt answer)) ∧
        (run X v options).outcome = .failure step := by
      intro step hstep
      have hprepare := prepare_of_open_error X v options _ hstep
      rw [run_of_error X v options _ (by rw [hprepare]), hprepare]
      exact ⟨hparse_call, hopen_calls, rfl⟩
    rcases hvalue with h | h | ⟨parsed, global, hparsed, h⟩
    · obtain ⟨h1, h2, h3⟩ := hfailed _ (by rw [hopen]; exact h)
      exact ⟨h1, h2, Or.inr (Or.inl h3), fun hs => by rw [h3] at hs; cases hs⟩
    · obtain ⟨h1, h2, h3⟩ := hfailed _ (by rw [hopen]; exact h)
      exact ⟨h1, h2, Or.inr (Or.inr (Or.inl h3)), fun hs => by rw [h3] at hs; cases hs⟩
    · have hprepare := prepare_of_no_sections X v options _ (by rw [hopen]; exact h) rfl
      have hp : (prepare X v options).value = .ok (c_name, parsed) := by rw [hprepare]
      obtain ⟨houtcome, _, hsuccess⟩ := run_of_prepared X v options c_name parsed hp
      refine ⟨?_, ?_, ?_, ?_⟩
      · obtain ⟨emission, hsplit, _, _⟩ := run_calls_split X v options
        rw [hsplit, hprepare]
        exact List.mem_append_left _ hparse_call
      · intro c hc
        rcases mem_run_calls X v options c hc with hc | ⟨_, hc⟩ | hc
        · rw [hprepare] at hc
          exact hopen_calls c hc
        · rw [hc]
          exact ⟨fun _ _ _ _ hcontra => (by cases hcontra), fun _ hcontra => (by cases hcontra),
            fun _ _ _ hcontra => (by cases hcontra)⟩
        · rw [hc]
          exact ⟨fun _ _ _ _ hcontra => (by cases hcontra), fun _ hcontra => (by cases hcontra),
            fun _ _ _ hcontra => (by cases hcontra)⟩
      · rcases houtcome with ho | ho | ho
        · exact Or.inl ho
        · exact Or.inr (Or.inr (Or.inr (Or.inl ho)))
        · exact Or.inr (Or.inr (Or.inr (Or.inr ho)))
      · intro hs
        obtain ⟨skeleton, hcout, hbare⟩ := hsuccess hs
        exact ⟨by rw [hs]; rfl, generator, parsed, skeleton, hempty, hparsed, hcout, hbare⟩

theorem no_program_sections_policy_witness :
    parse_parameters empty_world.enable_skip_verify "bpf2c" ["--bpf", "prog.o", "--no-verify"]
        Options.initial = .ok sample_options_unverified ∧
      Call.program_sections (.ok []) ∈
        (main empty_world "" "bpf2c" ["--bpf", "prog.o", "--no-verify"]).calls ∧
      (main empty_world "" "bpf2c" ["--bpf", "prog.o", "--no-verify"]).outcome = .success ∧
      Call.parse ∈ (main empty_world "" "bpf2c" ["--bpf", "prog.o", "--no-verify"]).calls ∧
      (main empty_world "" "bpf2c" ["--bpf", "prog.o", "--no-verify"]).outcome.exit_code =
        some 0 :=
  have h := (no_program_sections_policy empty_world "" "bpf2c"
    ["--bpf", "prog.o", "--no-verify"] sample_options_unverified rfl (by decide)).2 rfl
  ⟨rfl, by decide, by rfl, h.1, (h.2.2.2 (by rfl)).1⟩

/-- C6, as stated, fails with verification disabled when a type string is
supplied that the registry does not know: the section enumeration is empty,
and `main` returns 1 with nothing on `std::cout`, because the type string is
resolved before the loop over the sections. -/
theorem no_sections_unverified_can_fail :
    (parse_parameters empty_world.enable_skip_verify "bpf2c"
        ["--bpf", "prog.o", "--no-verify", "--type", "nope"] Options.initial).map
      (·.verify_programs) = .ok false ∧
    Call.program_sections (.ok []) ∈
      (main empty_world "" "bpf2c" ["--bpf", "prog.o", "--no-verify", "--type", "nope"]).calls ∧
    (main empty_world "" "bpf2c"
      ["--bpf", "prog.o", "--no-verify", "--type", "nope"]).outcome.exit_code = some 1 ∧
    (main empty_world "" "bpf2c"
      ["--bpf", "prog.o", "--no-verify", "--type", "nope"]).cout = "" ∧
    (main empty_world "" "bpf2c"
      ["--bpf", "prog.o", "--no-verify", "--type", "nope"]).cerr =
        "Program type not found for type string nope\n" := by
  refine ⟨by rfl, by decide, by rfl, by rfl, by rfl⟩

/-! ## The steps at which a run can end early -/

theorem artifact_name_value_error (file : String) (outcome : Outcome)
    (h : (artifact_name file).value = .error outcome) : outcome = .crashed .artifact_name := by
  unfold artifact_name at h
  cases hd : derive_c_name file with
  | none => rw [hd] at h; exact (Except.error.inj h).symm
  | some c_name => rw [hd] at h; cases h

theorem hash_file_value_error {G V : Type} (X : Externals G V) (options : Options)
    (data : List Nat) (outcome : Outcome)
    (h : (hash_file X options data).value = .error outcome) :
    outcome = .failure .file_hashing ∧ options.hash_algorithm ≠ "none" := by
  unfold hash_file at h
  by_cases hn : options.hash_algorithm = "none"
  · simp [hn, pure, Step.pure] at h
  · simp only [hn, ne_eq, not_false_eq_true, if_true, Step.bind_value_error, Step.call_value,
      Step.of_except_value_error, pure, Step.pure_value] at h
    rcases h with h | ⟨_, _, h | ⟨_, _, h⟩⟩
    · cases h
    · exact ⟨h.1, hn⟩
    · cases h

theorem check_elf_value_error {G V : Type} (X : Externals G V) (data : List Nat)
    (outcome : Outcome) (h : (check_elf X data).value = .error outcome) :
    outcome = .failure .elf_validation := by
  unfold check_elf at h
  simp only [Step.bind_value_error, Step.call_value, Step.write_cerr_value] at h
  rcases h with h | ⟨_, _, h | ⟨_, _, h⟩⟩
  · cases h
  · cases h
  · split_ifs at h
    · exact (Except.error.inj h).symm
    · cases h

theorem enumerate_sections_value_error {G V : Type} (X : Externals G V) (options : Options)
    (generator : G) (outcome : Outcome)
    (h : (enumerate_sections X options generator).value = .error outcome) :
    outcome = .failure .section_enumeration ∨ outcome = .failure .no_program_sections := by
  unfold enumerate_sections at h
  simp only [Step.bind_value_error, Step.call_value, Step.of_except_value_error] at h
  rcases h with h | ⟨_, _, h | ⟨_, _, h⟩⟩
  · cases h
  · exact Or.inl h.1
  · split_ifs at h
    · exact Or.inr (Except.error.inj h).symm
    · cases h

theorem resolve_global_type_value_error {G V : Type} (X : Externals G V) (options : Options)
    (outcome : Outcome) (h : (resolve_global_type X options).value = .error outcome) :
    outcome = .failure .type_string_resolution := by
  rcases (resolve_global_type_cases X options).2 with h' | ⟨_, h'⟩
  · rw [h'] at h; exact (Except.error.inj h).symm
  · rw [h'] at h; cases h

theorem construct_generator_value_error {G V : Type} (X : Externals G V) (options : Options)
    (outcome : Outcome) (h : (construct_generator X options).value = .error outcome) :
    outcome = .crashed .artifact_name ∨ outcome = .failure .file_loading ∨
      (outcome = .failure .file_hashing ∧ options.hash_algorithm ≠ "none") ∨
      outcome = .failure .elf_validation ∨ outcome = .failure .generator_construction := by
  unfold construct_generator at h
  simp only [Step.bind_value_error, Step.call_value, Step.of_except_value_error, pure,
    Step.pure_value] at h
  rcases h with h | ⟨_, _, h⟩
  · exact Or.inl (artifact_name_value_error _ _ h)
  rcases h with h | ⟨_, _, h⟩
  · cases h
  rcases h with h | ⟨_, _, h⟩
  · exact Or.inr (Or.inl h.1)
  rcases h with h | ⟨_, _, h⟩
  · exact Or.inr (Or.inr (Or.inl (hash_file_value_error X options _ _ h)))
  rcases h with h | ⟨_, _, h⟩
  · exact Or.inr (Or.inr (Or.inr (Or.inl (check_elf_value_error X _ _ h))))
  rcases h with h | ⟨_, _, h⟩
  · cases h
  rcases h with h | ⟨_, _, h⟩
  · exact Or.inr (Or.inr (Or.inr (Or.inr h.1)))
  · cases h

theorem finish_opening_value_error {G V : Type} (X : Externals G V) (options : Options)
    (c_name : String) (data : List Nat) (generator : G) (outcome : Outcome)
    (h : (finish_opening X options c_name data generator).value = .error outcome) :
    outcome = .failure .section_enumeration ∨ outcome = .failure .no_program_sections ∨
      outcome = .failure .global_data_parsing ∨ outcome = .failure .type_string_resolution := by
  unfold finish_opening at h
  simp only [Step.bind_value_error, Step.call_value, Step.of_except_value_error, pure,
    Step.pure_value] at h
  rcases h with h | ⟨_, _, h⟩
  · rcases enumerate_sections_value_error X options _ _ h with h | h
    · exact Or.inl h
    · exact Or.inr (Or.inl h)
  rcases h with h | ⟨_, _, h⟩
  · cases h
  rcases h with h | ⟨_, _, h⟩
  · exact Or.inr (Or.inr (Or.inl h.1))
  rcases h with h | ⟨_, _, h⟩
  · exact Or.inr (Or.inr (Or.inr (resolve_global_type_value_error X options _ h)))
  · cases h

theorem process_section_value_error {G V : Type} (X : Externals G V) (options : Options)
    (data : List Nat) (global : Option (Nat × Nat)) (s : String) (generator : G) (v : V)
    (outcome : Outcome)
    (h : (process_section X options data global s generator v).value = .error outcome) :
    (outcome = .failure (.section_type_resolution s) ∧ global = none) ∨
      (outcome = .failure (.verification s) ∨ outcome = .crashed (.verification s)) ∨
      (outcome = .failure (.program_info_hashing s) ∧
        options.verify_programs = true ∧ options.hash_algorithm ≠ "none") ∨
      outcome = .failure (.section_parse s) := by
  rw [process_section_eq] at h
  cases hres : resolved_types X global s with
  | none =>
    simp only [hres] at h
    refine Or.inl ⟨(Except.error.inj h).symm, ?_⟩
    cases global with
    | none => rfl
    | some types => simp [resolved_types] at hres
  | some types =>
    simp only [hres] at h
    by_cases hfail : verification_fails X options data s types.1 v
    · simp only [hfail, if_true] at h
      refine Or.inr (Or.inl ?_)
      rw [← Except.error.inj h]
      unfold verification_failure
      cases (X.ebpf_api_elf_verify_section_from_memory v data s types.1).1.error_message
      · exact Or.inr rfl
      · exact Or.inl rfl
    · simp only [hfail, if_false] at h
      cases hh : section_hash X options (verified_state X options data s types.1 v) with
      | error what =>
        simp only [hh] at h
        refine Or.inr (Or.inr (Or.inl ⟨(Except.error.inj h).symm, ?_⟩))
        unfold section_hash at hh
        by_cases hon : options.verify_programs = true ∧ options.hash_algorithm ≠ "none"
        · exact hon
        · rw [if_neg hon] at hh; cases hh
      | ok program_info_hash =>
        simp only [hh] at h
        cases hp : X.parse_section generator s types.1 types.2 program_info_hash with
        | error what =>
          simp only [hp] at h
          exact Or.inr (Or.inr (Or.inr (Except.error.inj h).symm))
        | ok parsed => simp only [hp] at h; cases h

theorem parse_sections_value_error {G V : Type} (X : Externals G V) (options : Options)
    (data : List Nat) (global : Option (Nat × Nat)) (sections : List String) :
    ∀ (generator : G) (v : V) (outcome : Outcome),
      (parse_sections X options data global sections generator v).value = .error outcome →
      ∃ s ∈ sections,
        (outcome = .failure (.section_type_resolution s) ∧ global = none) ∨
        (outcome = .failure (.verification s) ∨ outcome = .crashed (.verification s)) ∨
        (outcome = .failure (.program_info_hashing s) ∧
          options.verify_programs = true ∧ options.hash_algorithm ≠ "none") ∨
        outcome = .failure (.section_parse s) := by
  induction sections with
  | nil => intro generator v outcome h; cases h
  | cons s rest ih =>
    intro generator v outcome h
    unfold parse_sections at h
    rw [Step.bind_value_error] at h
    rcases h with h | ⟨state, _, h⟩
    · exact ⟨s, List.mem_cons_self _ _, process_section_value_error X options data global s
        generator v outcome h⟩
    · obtain ⟨s', hs', h'⟩ := ih state.1 state.2 outcome h
      exact ⟨s', List.mem_cons_of_mem _ hs', h'⟩

theorem generate_sections_value_error {G V : Type} (X : Externals G V)
    (sections : List String) :
    ∀ (generator : G) (outcome : Outcome),
      (generate_sections X sections generator).value = .error outcome →
      ∃ s ∈ sections, outcome = .failure (.section_generate s) := by
  induction sections with
  | nil => intro generator outcome h; cases h
  | cons s rest ih =>
    intro generator outcome h
    unfold generate_sections at h
    simp only [Step.bind_value_error, Step.call_value, Step.of_except_value_error] at h
    rcases h with h | ⟨_, _, h | ⟨generated, _, h⟩⟩
    · cases h
    · exact ⟨s, List.mem_cons_self _ _, h.1⟩
    · obtain ⟨s', hs', h'⟩ := ih generated outcome h
      exact ⟨s', List.mem_cons_of_mem _ hs', h'⟩

/-- Before the first write to `std::cout` a run can end early only at one of
these steps; it ends at a hashing step only when the hash algorithm is not
"none". -/
theorem prepare_value_error {G V : Type} (X : Externals G V) (v : V) (options : Options)
    (outcome : Outcome) (h : (prepare X v options).value = .error outcome) :
    ∃ step, outcome.failed_step = some step ∧
      step ≠ .option_parsing ∧ step ≠ .skeleton_emission ∧ step ≠ .final_emit ∧
      (Failure.is_hashing step → options.hash_algorithm ≠ "none") := by
  have easy : ∀ step : Failure, step ≠ .option_parsing → step ≠ .skeleton_emission →
      step ≠ .final_emit → ¬ Failure.is_hashing step →
      (outcome = .failure step ∨ outcome = .crashed step) →
      ∃ step, outcome.failed_step = some step ∧
        step ≠ .option_parsing ∧ step ≠ .skeleton_emission ∧ step ≠ .final_emit ∧
        (Failure.is_hashing step → options.hash_algorithm ≠ "none") := by
    intro step h1 h2 h3 h4 ho
    refine ⟨step, ?_, h1, h2, h3, fun hh => absurd hh h4⟩
    rcases ho with ho | ho <;> rw [ho] <;> rfl
  have hashing : ∀ step : Failure, step ≠ .option_parsing → step ≠ .skeleton_emission →
      step ≠ .final_emit → options.hash_algorithm ≠ "none" → outcome = .failure step →
      ∃ step, outcome.failed_step = some step ∧
        step ≠ .option_parsing ∧ step ≠ .skeleton_emission ∧ step ≠ .final_emit ∧
        (Failure.is_hashing step → options.hash_algorithm ≠ "none") := by
    intro step h1 h2 h3 h4 ho
    exact ⟨step, by rw [ho]; rfl, h1, h2, h3, fun _ => h4⟩
  unfold prepare at h
  simp only [Step.bind_value_error, pure, Step.pure_value] at h
  rcases h with h | ⟨opened, _, h⟩
  · unfold open_generator at h
    rw [Step.bind_value_error] at h
    rcases h with h | ⟨_, _, h⟩
    · rcases construct_generator_value_error X options outcome h with
        h | h | ⟨h, hn⟩ | h | h
      · exact easy _ (by simp) (by simp) (by simp) (by intro hh; exact hh) (Or.inr h)
      · exact easy _ (by simp) (by simp) (by simp) (by intro hh; exact hh) (Or.inl h)
      · exact hashing _ (by simp) (by simp) (by simp) hn h
      · exact easy _ (by simp) (by simp) (by simp) (by intro hh; exact hh) (Or.inl h)
      · exact easy _ (by simp) (by simp) (by simp) (by intro hh; exact hh) (Or.inl h)
    · rcases finish_opening_value_error X options _ _ _ outcome h with h | h | h | h <;>
        exact easy _ (by simp) (by simp) (by simp) (by intro hh; exact hh) (Or.inl h)
  rcases h with h | ⟨parsed, _, h⟩
  · obtain ⟨s, _, h⟩ := parse_sections_value_error X options _ _ _ _ _ outcome h
    rcases h with ⟨h, _⟩ | h | ⟨h, _, hn⟩ | h
    · exact easy _ (by simp) (by simp) (by simp) (by intro hh; exact hh) (Or.inl h)
    · exact easy _ (by simp) (by simp) (by simp) (by intro hh; exact hh) h
    · exact hashing _ (by simp) (by simp) (by simp) hn h
    · exact easy _ (by simp) (by simp) (by simp) (by intro hh; exact hh) (Or.inl h)
  rcases h with h | ⟨_, _, h⟩
  · obtain ⟨s, _, h⟩ := generate_sections_value_error X _ _ outcome h
    exact easy _ (by simp) (by simp) (by simp) (by intro hh; exact hh) (Or.inl h)
  · cases h

/-! ## The hash algorithm "none" -/

theorem process_section_hash_free {G V : Type} (X : Externals G V) (options : Options)
    (data : List Nat) (global : Option (Nat × Nat)) (s : String) (generator : G) (v : V)
    (hnone : options.hash_algorithm = "none") (c : Call)
    (hc : c ∈ (process_section X options data global s generator v).calls) :
    Call.is_hash_free c := by
  rcases mem_process_section_calls X options data global s generator v c hc with
    h | ⟨t, _, h | ⟨_, h | ⟨program_info_hash, hh, h⟩⟩⟩
  · rw [((mem_lookup_calls _ _ _).1 h).2]
    exact ⟨fun _ hcontra => (by cases hcontra), fun _ _ hcontra => (by cases hcontra),
      fun _ hcontra => (by cases hcontra), fun _ _ hcontra => (by cases hcontra),
      fun _ _ _ _ hcontra => (by cases hcontra)⟩
  · rw [((mem_verify_calls _ _ _ _ _ _ _).1 h).2]
    exact ⟨fun _ hcontra => (by cases hcontra), fun _ _ hcontra => (by cases hcontra),
      fun _ hcontra => (by cases hcontra), fun _ _ hcontra => (by cases hcontra),
      fun _ _ _ _ hcontra => (by cases hcontra)⟩
  · exact absurd hnone (mem_hash_calls _ _ _ _ h).1.2
  · have hnone' : program_info_hash = none := by
      unfold section_hash at hh
      rw [if_neg (fun hon => hon.2 hnone)] at hh
      exact (Except.ok.inj hh).symm
    rw [h, hnone']
    exact ⟨fun _ hcontra => (by cases hcontra), fun _ _ hcontra => (by cases hcontra),
      fun _ hcontra => (by cases hcontra), fun _ _ hcontra => (by cases hcontra),
      fun _ _ _ _ hcontra => (by cases hcontra; rfl)⟩

/-- C7: in every run whose hash algorithm is "none" no digest is computed:
no call digests the file or queries or digests the program information, the
generator is constructed without a file hash, and every section is handed to
`generator.parse` without a program information hash; no hashing step can
fail, so a run that does not return 0 ended at another step. -/
theorem hashing_disabled_by_none {G V : Type} (X : Externals G V) (v : V) (argv0 : String)
    (parameters : List String) (options : Options)
    (hparse : parse_parameters X.enable_skip_verify argv0 parameters Options.initial =
      .ok options)
    (hnone : options.hash_algorithm = "none") :
    (∀ c ∈ (main X v argv0 parameters).calls, Call.is_hash_free c) ∧
      (∀ step, (main X v argv0 parameters).outcome.failed_step = some step →
        ¬ Failure.is_hashing step) ∧
      ((main X v argv0 parameters).outcome.failed_step = none →
        (main X v argv0 parameters).outcome.exit_code = some 0) := by
  rw [main_eq_run X v argv0 parameters options hparse]
  have hfree : ∀ c : Call, (∀ algorithm, c ≠ .hash_string algorithm) →
      (∀ algorithm byte_range, c ≠ .hash_byte_ranges algorithm byte_range) →
      (∀ reported, c ≠ .ebpf_get_program_info_from_verifier reported) →
      (∀ c_name elf_file_hash, c ≠ .bpf_code_generator c_name elf_file_hash) →
      (∀ s pt at_ h, c ≠ .parse_section s pt at_ h) → Call.is_hash_free c :=
    fun c h1 h2 h3 h4 h5 =>
      ⟨h1, h2, h3, fun n e he => absurd he (h4 n e), fun s pt a h he => absurd he (h5 s pt a h)⟩
  refine ⟨?_, ?_, ?_⟩
  · intro c hc
    rcases mem_run_calls X v options c hc with h | ⟨_, h⟩ | h
    · rcases mem_prepare_calls X v options c h with h | ⟨opened, _, h | ⟨_, _, h⟩⟩
      · rcases open_generator_calls X options c h with
          h | ⟨_, h⟩ | h | ⟨_, elf_file_hash, h, hfile⟩ | ⟨_, h⟩ | h | ⟨h, _⟩
        · rw [h]
          exact hfree _ (fun _ hcontra => (by cases hcontra)) (fun _ _ hcontra => (by cases hcontra))
            (fun _ hcontra => (by cases hcontra)) (fun _ _ hcontra => (by cases hcontra))
            (fun _ _ _ _ hcontra => (by cases hcontra))
        · exact absurd hnone h
        · rw [h]
          exact hfree _ (fun _ hcontra => (by cases hcontra)) (fun _ _ hcontra => (by cases hcontra))
            (fun _ hcontra => (by cases hcontra)) (fun _ _ hcontra => (by cases hcontra))
            (fun _ _ _ _ hcontra => (by cases hcontra))
        · rw [h, hfile hnone]
          exact ⟨fun _ hcontra => (by cases hcontra), fun _ _ hcontra => (by cases hcontra),
            fun _ hcontra => (by cases hcontra), fun _ _ hcontra => (by cases hcontra; rfl),
            fun _ _ _ _ hcontra => (by cases hcontra)⟩
        · rw [h]
          exact hfree _ (fun _ hcontra => (by cases hcontra)) (fun _ _ hcontra => (by cases hcontra))
            (fun _ hcontra => (by cases hcontra)) (fun _ _ hcontra => (by cases hcontra))
            (fun _ _ _ _ hcontra => (by cases hcontra))
        · rw [h]
          exact hfree _ (fun _ hcontra => (by cases hcontra)) (fun _ _ hcontra => (by cases hcontra))
            (fun _ hcontra => (by cases hcontra)) (fun _ _ hcontra => (by cases hcontra))
            (fun _ _ _ _ hcontra => (by cases hcontra))
        · rw [h]
          exact hfree _ (fun _ hcontra => (by cases hcontra)) (fun _ _ hcontra => (by cases hcontra))
            (fun _ hcontra => (by cases hcontra)) (fun _ _ hcontra => (by cases hcontra))
            (fun _ _ _ _ hcontra => (by cases hcontra))
      · exact parse_sections_calls_forall X options opened.data opened.global Call.is_hash_free
          opened.sections
          (fun s _ generator v c hc =>
            process_section_hash_free X options opened.data opened.global s generator v hnone
              c hc)
          opened.generator v c h
      · rw [h]
        exact hfree _ (fun _ hcontra => (by cases hcontra)) (fun _ _ hcontra => (by cases hcontra))
          (fun _ hcontra => (by cases hcontra)) (fun _ _ hcontra => (by cases hcontra))
          (fun _ _ _ _ hcontra => (by cases hcontra))
    · rw [h]
      exact hfree _ (fun _ hcontra => (by cases hcontra)) (fun _ _ hcontra => (by cases hcontra))
        (fun _ hcontra => (by cases hcontra)) (fun _ _ hcontra => (by cases hcontra))
        (fun _ _ _ _ hcontra => (by cases hcontra))
    · rw [h]
      exact hfree _ (fun _ hcontra => (by cases hcontra)) (fun _ _ hcontra => (by cases hcontra))
        (fun _ hcontra => (by cases hcontra)) (fun _ _ hcontra => (by cases hcontra))
        (fun _ _ _ _ hcontra => (by cases hcontra))
  · intro step hstep hhashing
    cases hp : (prepare X v options).value with
    | error outcome =>
      rw [run_of_error X v options outcome hp] at hstep
      obtain ⟨step', hstep', _, _, _, hn⟩ := prepare_value_error X v options outcome hp
      have heq : step' = step := by
        simp only at hstep
        rw [hstep'] at hstep
        exact Option.some.inj hstep
      rw [heq] at hn
      exact hn hhashing hnone
    | ok prepared =>
      obtain ⟨c_name, generator⟩ := prepared
      rcases (run_of_prepared X v options c_name generator hp).1 with ho | ho | ho <;>
        rw [ho] at hstep <;> cases hstep <;> exact hhashing
  · intro hstep
    cases ho : (run X v options).outcome with
    | success => rfl
    | failure step => rw [ho] at hstep; cases hstep
    | crashed step => rw [ho] at hstep; cases hstep

theorem hashing_disabled_by_none_witness :
    parse_parameters sample_world.enable_skip_verify "bpf2c"
        ["--bpf", "prog.o", "--hash", "none"] Options.initial = .ok sample_options_unhashed ∧
      (∀ c ∈ (main sample_world "" "bpf2c" ["--bpf", "prog.o", "--hash", "none"]).calls,
        Call.is_hash_free c) ∧
      Call.parse_section "bind" 2 20 none ∈
        (main sample_world "" "bpf2c" ["--bpf", "prog.o", "--hash", "none"]).calls ∧
      (main sample_world "" "bpf2c" ["--bpf", "prog.o", "--hash", "none"]).outcome.exit_code =
        some 0 :=
  ⟨rfl,
    (hashing_disabled_by_none sample_world "" "bpf2c" ["--bpf", "prog.o", "--hash", "none"]
      sample_options_unhashed rfl rfl).1,
    by decide, by rfl⟩

/-! ## The program information hash of each section -/

theorem append_split_of_not_mem {α : Type} (q : α) (b : List α) :
    ∀ (l front back : List α), q ∉ b → b ++ l = front ++ q :: back →
      ∃ middle, front = b ++ middle ∧ l = middle ++ q :: back := by
  induction b with
  | nil => intro l front back _ h; exact ⟨front, rfl, h⟩
  | cons x b ih =>
    intro l front back hq h
    cases front with
    | nil =>
      simp only [List.cons_append, List.nil_append, List.cons.injEq] at h
      exact absurd (h.1 ▸ List.mem_cons_self x b) hq
    | cons y front =>
      simp only [List.cons_append, List.cons.injEq] at h
      obtain ⟨middle, h1, h2⟩ := ih l front back (fun hm => hq (List.mem_cons_of_mem _ hm)) h.2
      exact ⟨middle, by rw [h.1, h1]; rfl, h2⟩

theorem append_split_left_of_not_mem {α : Type} (q : α) (b : List α) :
    ∀ (a front back : List α), q ∉ b → a ++ b = front ++ q :: back →
      ∃ rest, a = front ++ q :: rest ∧ back = rest ++ b := by
  intro a
  induction a with
  | nil =>
    intro front back hq h
    have hmem : q ∈ b := by
      rw [List.nil_append] at h
      rw [h]
      exact List.mem_append_right _ (List.mem_cons_self _ _)
    exact absurd hmem hq
  | cons x a ih =>
    intro front back hq h
    cases front with
    | nil =>
      simp only [List.cons_append, List.nil_append, List.cons.injEq] at h
      exact ⟨a, by rw [h.1]; rfl, h.2.symm⟩
    | cons y front =>
      simp only [List.cons_append, List.cons.injEq] at h
      obtain ⟨rest, h1, h2⟩ := ih front back hq h.2
      exact ⟨rest, by rw [h.1, h1]; rfl, h2⟩

theorem hashed_of_no_parse (hash : hash_t) (algorithm : String) (calls : List Call)
    (h : ∀ c ∈ calls, ¬ Call.is_parse_section c) :
    hashed_after_own_verification hash algorithm calls := by
  intro front back s pt at_ program_info_hash hsplit
  exfalso
  refine h (.parse_section s pt at_ program_info_hash) ?_ trivial
  rw [hsplit]
  exact List.mem_append_right _ (List.mem_cons_self _ _)

theorem hashed_append_front (hash : hash_t) (algorithm : String) (b calls : List Call)
    (hb : ∀ c ∈ b, ¬ Call.is_parse_section c)
    (h : hashed_after_own_verification hash algorithm calls) :
    hashed_after_own_verification hash algorithm (b ++ calls) := by
  intro front back s pt at_ program_info_hash hsplit
  obtain ⟨middle, h1, h2⟩ := append_split_of_not_mem
    (Call.parse_section s pt at_ program_info_hash) b calls front back
    (fun hm => hb _ hm trivial) hsplit
  obtain ⟨before, answer, program_info, digest, h3, h4⟩ := h middle back s pt at_ _ h2
  exact ⟨b ++ before, answer, program_info, digest, by rw [h1, h3, List.append_assoc], h4⟩

theorem hashed_append_back (hash : hash_t) (algorithm : String) (calls b : List Call)
    (hb : ∀ c ∈ b, ¬ Call.is_parse_section c)
    (h : hashed_after_own_verification hash algorithm calls) :
    hashed_after_own_verification hash algorithm (calls ++ b) := by
  intro front back s pt at_ program_info_hash hsplit
  obtain ⟨rest, h1, _⟩ := append_split_left_of_not_mem
    (Call.parse_section s pt at_ program_info_hash) b calls front back
    (fun hm => hb _ hm trivial) hsplit
  exact h front rest s pt at_ _ h1

theorem hashed_block (hash : hash_t) (algorithm : String) (b calls : List Call)
    (s : String) (pt at_ : Nat) (answer : verify_result) (program_info : ebpf_program_info_t)
    (digest : List Nat)
    (hb : ∀ c ∈ b, ¬ Call.is_parse_section c)
    (haccepted : answer.result = 0)
    (hdigest : get_program_info_type_hash hash algorithm (some program_info) = .ok digest)
    (h : hashed_after_own_verification hash algorithm calls) :
    hashed_after_own_verification hash algorithm
      (b ++ ([.ebpf_api_elf_verify_section_from_memory s pt answer] ++
        ([.ebpf_get_program_info_from_verifier (some program_info),
          .hash_byte_ranges algorithm (program_info_byte_range hash program_info)] ++
          (.parse_section s pt at_ (some digest) :: calls)))) := by
  intro front back s' pt' at_' program_info_hash hsplit
  have hblock : ∀ c ∈ b ++ [Call.ebpf_api_elf_verify_section_from_memory s pt answer,
      .ebpf_get_program_info_from_verifier (some program_info),
      .hash_byte_ranges algorithm (program_info_byte_range hash program_info)],
      ¬ Call.is_parse_section c := by
    intro c hc
    simp only [List.mem_append, List.mem_cons, List.not_mem_nil, or_false] at hc
    rcases hc with hc | hc | hc | hc
    · exact hb c hc
    · rw [hc]; exact fun hcontra => hcontra
    · rw [hc]; exact fun hcontra => hcontra
    · rw [hc]; exact fun hcontra => hcontra
  have hsplit' : (b ++ [Call.ebpf_api_elf_verify_section_from_memory s pt answer,
      .ebpf_get_program_info_from_verifier (some program_info),
      .hash_byte_ranges algorithm (program_info_byte_range hash program_info)]) ++
      (.parse_section s pt at_ (some digest) :: calls) =
      front ++ .parse_section s' pt' at_' program_info_hash :: back := by
    rw [← hsplit]; simp
  obtain ⟨middle, h1, h2⟩ := append_split_of_not_mem
    (Call.parse_section s' pt' at_' program_info_hash) _ _ front back
    (fun hm => hblock _ hm trivial) hsplit'
  cases middle with
  | nil =>
    simp only [List.nil_append, List.cons.injEq, Call.parse_section.injEq] at h2
    obtain ⟨⟨hs, hpt, _, hh⟩, _⟩ := h2
    refine ⟨b, answer, program_info, digest, ?_, haccepted, hdigest, hh.symm⟩
    rw [h1, ← hs, ← hpt]; simp
  | cons x middle =>
    simp only [List.cons_append, List.cons.injEq] at h2
    obtain ⟨before, answer', program_info', digest', h3, h4⟩ :=
      h middle back s' pt' at_' _ h2.2
    refine ⟨(b ++ [Call.ebpf_api_elf_verify_section_from_memory s pt answer,
      .ebpf_get_program_info_from_verifier (some program_info),
      .hash_byte_ranges algorithm (program_info_byte_range hash program_info)]) ++
      x :: before, answer', program_info', digest', ?_, h4⟩
    rw [h1, h3]; simp

theorem lookup_calls_no_parse (global : Option (Nat × Nat)) (s : String) :
    ∀ c ∈ lookup_calls global s, ¬ Call.is_parse_section c := by
  intro c hc
  rw [((mem_lookup_calls _ _ _).1 hc).2]
  exact fun hcontra => hcontra

theorem verify_calls_no_parse {G V : Type} (X : Externals G V) (options : Options)
    (data : List Nat) (s : String) (pt : Nat) (v : V) :
    ∀ c ∈ verify_calls X options data s pt v, ¬ Call.is_parse_section c := by
  intro c hc
  rw [((mem_verify_calls _ _ _ _ _ _ _).1 hc).2]
  exact fun hcontra => hcontra

theorem hash_calls_no_parse {G V : Type} (X : Externals G V) (options : Options) (v : V) :
    ∀ c ∈ hash_calls X options v, ¬ Call.is_parse_section c := by
  intro c hc
  rcases (mem_hash_calls _ _ _ _ hc).2 with h | ⟨_, _, h⟩ <;> rw [h] <;>
    exact fun hcontra => hcontra

/-- One loop iteration of a run that verifies and hashes keeps the calls in
the shape of `hashed_after_own_verification`. -/
theorem process_section_hashed {G V : Type} (X : Externals G V) (options : Options)
    (data : List Nat) (global : Option (Nat × Nat)) (s : String) (generator : G) (v : V)
    (hverify : options.verify_programs = true) (halgorithm : options.hash_algorithm ≠ "none")
    (calls : List Call)
    (h : hashed_after_own_verification X.hash options.hash_algorithm calls) :
    hashed_after_own_verification X.hash options.hash_algorithm
      ((process_section X options data global s generator v).calls ++ calls) := by
  rw [process_section_eq]
  cases hres : resolved_types X global s with
  | none => exact hashed_append_front _ _ _ _ (lookup_calls_no_parse global s) h
  | some types =>
    simp only
    by_cases hfail : verification_fails X options data s types.1 v
    · simp only [hfail, if_true]
      refine hashed_append_front _ _ _ _ ?_ h
      intro c hc
      rcases List.mem_append.1 hc with hc | hc
      · exact lookup_calls_no_parse global s c hc
      · exact verify_calls_no_parse X options data s types.1 v c hc
    · simp only [hfail, if_false]
      cases hh : section_hash X options (verified_state X options data s types.1 v) with
      | error what =>
        refine hashed_append_front _ _ _ _ ?_ h
        intro c hc
        simp only [List.mem_append] at hc
        rcases hc with hc | hc | hc
        · exact lookup_calls_no_parse global s c hc
        · exact verify_calls_no_parse X options data s types.1 v c hc
        · exact hash_calls_no_parse X options _ c hc
      | ok program_info_hash =>
        have key : hashed_after_own_verification X.hash options.hash_algorithm
            ((lookup_calls global s ++
              (verify_calls X options data s types.1 v ++
                (hash_calls X options (verified_state X options data s types.1 v) ++
                  [Call.parse_section s types.1 types.2 program_info_hash]))) ++ calls) := by
          have haccepted :
              (X.ebpf_api_elf_verify_section_from_memory v data s types.1).1.result = 0 := by
            by_contra hcontra
            exact hfail ⟨hverify, hcontra⟩
          unfold section_hash at hh
          rw [if_pos ⟨hverify, halgorithm⟩] at hh
          cases hr : X.ebpf_get_program_info_from_verifier
              (verified_state X options data s types.1 v) with
          | none => rw [hr] at hh; cases hh
          | some program_info =>
            rw [hr] at hh
            cases hd : get_program_info_type_hash X.hash options.hash_algorithm
                (some program_info) with
            | error what => rw [hd] at hh; cases hh
            | ok digest =>
              rw [hd] at hh
              have hhash : program_info_hash = some digest := (Except.ok.inj hh).symm
              have hvc : verify_calls X options data s types.1 v =
                  [.ebpf_api_elf_verify_section_from_memory s types.1
                    (X.ebpf_api_elf_verify_section_from_memory v data s types.1).1] := by
                simp [verify_calls, hverify]
              have hhc : hash_calls X options (verified_state X options data s types.1 v) =
                  [.ebpf_get_program_info_from_verifier (some program_info),
                   .hash_byte_ranges options.hash_algorithm
                     (program_info_byte_range X.hash program_info)] := by
                simp [hash_calls, hverify, halgorithm, hr]
              rw [hvc, hhc, hhash]
              simp only [List.append_assoc, List.singleton_append]
              exact hashed_block X.hash options.hash_algorithm (lookup_calls global s) calls s
                types.1 types.2 _ program_info digest (lookup_calls_no_parse global s)
                haccepted hd h
        dsimp only
        cases hp : X.parse_section generator s types.1 types.2 program_info_hash <;>
          exact key

theorem parse_sections_hashed {G V : Type} (X : Externals G V) (options : Options)
    (data : List Nat) (global : Option (Nat × Nat))
    (hverify : options.verify_programs = true) (halgorithm : options.hash_algorithm ≠ "none")
    (sections : List String) :
    ∀ (generator : G) (v : V),
      hashed_after_own_verification X.hash options.hash_algorithm
        (parse_sections X options data global sections generator v).calls := by
  induction sections with
  | nil =>
    intro generator v
    exact hashed_of_no_parse _ _ _ (fun c hc => ((Step.mem_pure_calls generator c).1 hc).elim)
  | cons s rest ih =>
    intro generator v
    unfold parse_sections
    cases hb : (process_section X options data global s generator v).value with
    | error outcome =>
      rw [Step.bind_eq_of_error _ _ _ hb]
      have h := process_section_hashed X options data global s generator v hverify halgorithm
        [] (hashed_of_no_parse _ _ _ (fun c hc => absurd hc (List.not_mem_nil c)))
      rw [List.append_nil] at h
      exact h
    | ok state =>
      rw [Step.bind_eq_of_ok _ _ _ hb]
      exact process_section_hashed X options data global s generator v hverify halgorithm _
        (ih state.1 state.2)

theorem open_generator_no_parse_section {G V : Type} (X : Externals G V) (options : Options) :
    ∀ c ∈ (open_generator X options).calls, ¬ Call.is_parse_section c := by
  intro c hc
  rcases open_generator_calls X options c hc with
    h | ⟨h, _⟩ | h | ⟨_, _, h, _⟩ | ⟨_, h⟩ | h | ⟨h, _⟩ <;> rw [h] <;>
    exact fun hcontra => hcontra

/-- C8: in every run that verifies and hashes with an algorithm other than
"none", every section handed to `generator.parse` is handed over right after
its own verification, which the verifier accepted, the query of the program
information and its digest; the hash passed is present and equals
`get_program_info_type_hash` on the program information that this query
reported. Every parse has its own query and digest in front of it, so no
hash is reused from an earlier section. -/
theorem program_info_hash_per_section {G V : Type} (X : Externals G V) (v : V)
    (argv0 : String) (parameters : List String) (options : Options)
    (hparse : parse_parameters X.enable_skip_verify argv0 parameters Options.initial =
      .ok options)
    (hverify : options.verify_programs = true) (halgorithm : options.hash_algorithm ≠ "none") :
    hashed_after_own_verification X.hash options.hash_algorithm
      (main X v argv0 parameters).calls := by
  rw [main_eq_run X v argv0 parameters options hparse]
  obtain ⟨emission, hsplit, hemission, _⟩ := run_calls_split X v options
  rw [hsplit]
  refine hashed_append_back _ _ _ _ ?_ ?_
  · intro c hc
    rcases hemission c hc with h | ⟨_, h⟩ <;> rw [h] <;> exact fun hcontra => hcontra
  · rcases prepare_cases X v options with ⟨_, _, hp⟩ | ⟨opened, _, ⟨_, _, hp⟩ | ⟨parsed, _, hp⟩⟩
    · rw [hp]
      exact hashed_of_no_parse _ _ _ (open_generator_no_parse_section X options)
    · rw [hp]
      exact hashed_append_front _ _ _ _ (open_generator_no_parse_section X options)
        (parse_sections_hashed X options opened.data opened.global hverify halgorithm
          opened.sections opened.generator v)
    · rw [hp]
      refine hashed_append_front _ _ _ _ (open_generator_no_parse_section X options)
        (hashed_append_back _ _ _ _ ?_
          (parse_sections_hashed X options opened.data opened.global hverify halgorithm
            opened.sections opened.generator v))
      intro c hc
      obtain ⟨_, _, h⟩ := mem_generate_sections_calls X _ parsed c hc
      rw [h]
      exact fun hcontra => hcontra

theorem program_info_hash_per_section_witness :
    parse_parameters sample_world.enable_skip_verify "bpf2c" ["--bpf", "prog.o"]
        Options.initial = .ok sample_options ∧
      hashed_after_own_verification sample_world.hash "SHA256"
        (main sample_world "" "bpf2c" ["--bpf", "prog.o"]).calls ∧
      Call.parse_section "xdp_prog" 1 10
          (some [120, 100, 112, 95, 112, 114, 111, 103, 7, 11, 6, 0, 0]) ∈
        (main sample_world "" "bpf2c" ["--bpf", "prog.o"]).calls ∧
      Call.parse_section "bind" 2 20 (some [98, 105, 110, 100, 7, 11, 6, 0, 0]) ∈
        (main sample_world "" "bpf2c" ["--bpf", "prog.o"]).calls :=
  ⟨rfl,
    program_info_hash_per_section sample_world "" "bpf2c" ["--bpf", "prog.o"] sample_options
      rfl rfl (by decide),
    by decide, by decide⟩

/-! ## Failed registry lookups -/

theorem section_lookup_fate_front (c : Call) (calls : List Call) (cerr : String)
    (outcome : Outcome) (front : List Call) (text : String)
    (h : section_lookup_fate c calls cerr outcome) :
    section_lookup_fate c (front ++ calls) (text ++ cerr) outcome := by
  intro s hc
  obtain ⟨ho, ⟨text', ht⟩, ⟨front', hf⟩⟩ := h s hc
  refine ⟨ho, ⟨text ++ text', ?_⟩, ⟨front ++ front', ?_⟩⟩
  · rw [ht]; simp only [String.append_assoc]
  · rw [hf, List.append_assoc]

theorem enumerate_sections_calls {G V : Type} (X : Externals G V) (options : Options)
    (generator : G) :
    (enumerate_sections X options generator).calls =
      [.program_sections (X.program_sections generator)] := by
  unfold enumerate_sections
  cases h : X.program_sections generator with
  | error what => simp [bind, Step.bind, Step.call, Step.of_except, Step.throw]
  | ok sections =>
    simp only [bind, pure, Step.bind, Step.call, Step.of_except, Step.pure, Step.return_1,
      List.nil_append, List.append_nil]
    split_ifs <;> rfl

theorem process_section_failed_lookup {G V : Type} (X : Externals G V) (options : Options)
    (data : List Nat) (s : String) (generator : G) (v : V) (c : Call)
    (hc : c ∈ (process_section X options data none s generator v).calls)
    (hbad : ∃ name, c = .ebpf_get_program_type_by_name name ∧
      X.ebpf_get_program_type_by_name name = none) :
    ∃ outcome, (process_section X options data none s generator v).value = .error outcome ∧
      section_lookup_fate c (process_section X options data none s generator v).calls
        (process_section X options data none s generator v).cerr outcome := by
  obtain ⟨name, hname, hnone⟩ := hbad
  have hs : name = s := by
    rcases mem_process_section_calls X options data none s generator v c hc with
      h | ⟨t, _, h | ⟨_, h | ⟨_, _, h⟩⟩⟩
    · have := ((mem_lookup_calls _ _ _).1 h).2
      rw [hname] at this
      cases this; rfl
    · rw [((mem_verify_calls _ _ _ _ _ _ _).1 h).2] at hname; cases hname
    · rcases (mem_hash_calls _ _ _ _ h).2 with h | ⟨_, _, h⟩ <;> rw [h] at hname <;>
        cases hname
    · rw [h] at hname; cases hname
  subst hs
  have hres : resolved_types X none name = none := by simp [resolved_types, hnone]
  rw [process_section_eq]
  simp only [hres]
  refine ⟨_, rfl, ?_⟩
  intro s' hs'
  rw [hname] at hs'
  cases hs'
  exact ⟨rfl, ⟨"", by simp⟩, ⟨[], by simp [lookup_calls, hname]⟩⟩

theorem finish_opening_failed_lookup {G V : Type} (X : Externals G V) (options : Options)
    (c_name : String) (data : List Nat) (generator : G)
    (hsupplied : options.type_string ≠ "")
    (hnone : X.ebpf_get_program_type_by_name options.type_string = none)
    (hc : Call.ebpf_get_program_type_by_name options.type_string ∈
      (finish_opening X options c_name data generator).calls) :
    (finish_opening X options c_name data generator).value =
        .error (.failure .type_string_resolution) ∧
      (finish_opening X options c_name data generator).calls =
        [.program_sections (X.program_sections generator), .parse,
          .ebpf_get_program_type_by_name options.type_string] ∧
      ∃ text, (finish_opening X options c_name data generator).cerr =
        text ++ ("Program type not found for type string " ++ options.type_string ++ "\n") := by
  have hresolve : resolve_global_type X options =
      { calls := [.ebpf_get_program_type_by_name options.type_string]
        cerr := "Program type not found for type string " ++ options.type_string ++ "\n"
        value := .error (.failure .type_string_resolution) } := by
    unfold resolve_global_type
    simp [hsupplied, hnone, bind, Step.bind, Step.call, Step.return_1]
  unfold finish_opening at hc ⊢
  cases he : (enumerate_sections X options generator).value with
  | error outcome =>
    rw [Step.bind_eq_of_error _ _ _ he] at hc
    have := (mem_enumerate_sections_calls X options generator _).1 hc
    cases this
  | ok sections =>
    rw [Step.bind_eq_of_ok _ _ _ he] at hc ⊢
    rw [enumerate_sections_calls] at hc ⊢
    cases hp : X.parse generator with
    | error what =>
      exfalso
      simp [hp, bind, Step.bind, Step.call, Step.of_except, Step.throw] at hc
    | ok parsed =>
      refine ⟨?_, ?_, ⟨(enumerate_sections X options generator).cerr, ?_⟩⟩ <;>
        simp [hp, hresolve, bind, pure, Step.bind, Step.call, Step.of_except, Step.pure]

/-- C9: a failed registry lookup is fatal. When the lookup of a supplied
type string fails, `main` returns 1 with an error that names the type
string; when no type string was supplied and the lookup of a section name
fails, `main` returns 1 with an error that names the section. In both cases
nothing is on `std::cout` and the failed lookup is the last call of the run,
so no later section is resolved, verified or parsed; before the failed
lookup of a type string no section was resolved, verified or parsed
either. -/
theorem failed_lookup_is_fatal {G V : Type} (X : Externals G V) (v : V) (argv0 : String)
    (parameters : List String) (options : Options)
    (hparse : parse_parameters X.enable_skip_verify argv0 parameters Options.initial =
      .ok options) :
    (options.type_string ≠ "" →
      X.ebpf_get_program_type_by_name options.type_string = none →
      Call.ebpf_get_program_type_by_name options.type_string ∈
        (main X v argv0 parameters).calls →
      (main X v argv0 parameters).outcome = .failure .type_string_resolution ∧
      (main X v argv0 parameters).outcome.exit_code = some 1 ∧
      (main X v argv0 parameters).cout = "" ∧
      (∃ text, (main X v argv0 parameters).cerr =
        text ++ ("Program type not found for type string " ++ options.type_string ++ "\n")) ∧
      ∃ front, (main X v argv0 parameters).calls =
          front ++ [.ebpf_get_program_type_by_name options.type_string] ∧
        ∀ c ∈ front, Call.is_registry_lookup c = false ∧ ¬ Call.is_section_call c) ∧
    (options.type_string = "" →
      ∀ s, X.ebpf_get_program_type_by_name s = none →
      Call.ebpf_get_program_type_by_name s ∈ (main X v argv0 parameters).calls →
      (main X v argv0 parameters).outcome = .failure (.section_type_resolution s) ∧
      (main X v argv0 parameters).outcome.exit_code = some 1 ∧
      (main X v argv0 parameters).cout = "" ∧
      (∃ text, (main X v argv0 parameters).cerr =
        text ++ ("Program type not found for section name " ++ s ++ "\n")) ∧
      ∃ front, (main X v argv0 parameters).calls =
        front ++ [.ebpf_get_program_type_by_name s]) := by
  rw [main_eq_run X v argv0 parameters options hparse]
  constructor
  · intro hsupplied hnone hc
    cases hopen : (open_generator X options).value with
    | ok opened =>
      obtain ⟨types, hsome, _⟩ := (open_generator_global X options opened hopen).1 hsupplied
      rw [hnone] at hsome
      cases hsome
    | error outcome =>
      have hprepare := prepare_of_open_error X v options outcome hopen
      have hrun := run_of_error X v options outcome (by rw [hprepare])
      rw [hrun, hprepare] at hc ⊢
      simp only at hc ⊢
      have hc' := hc
      unfold open_generator at hc'
      rw [Step.mem_bind_calls] at hc'
      rcases hc' with h | ⟨constructed, hconstructed, h⟩
      · rcases construct_generator_calls X options _ h with h | ⟨h, _⟩ | h | ⟨_, _, h, _⟩ <;>
          cases h
      · obtain ⟨c_name, data, generator⟩ := constructed
        obtain ⟨hvalue, hcalls, ⟨text, htext⟩⟩ :=
          finish_opening_failed_lookup X options c_name data generator hsupplied hnone h
        have hopen' := open_generator_of_constructed X options c_name data generator
          hconstructed
        have houtcome : outcome = .failure .type_string_resolution := by
          rw [hopen', hvalue] at hopen
          exact (Except.error.inj hopen).symm
        rw [hopen']
        refine ⟨houtcome, by rw [houtcome]; rfl, trivial,
          ⟨(construct_generator X options).cerr ++ text, ?_⟩,
          ⟨(construct_generator X options).calls ++
            [.program_sections (X.program_sections generator), .parse], ?_, ?_⟩⟩
        · simp only [htext, String.append_assoc]
        · simp only [hcalls, List.append_assoc, List.cons_append, List.nil_append]
        · intro c hmem
          simp only [List.mem_append, List.mem_cons, List.not_mem_nil, or_false] at hmem
          rcases hmem with hmem | hmem | hmem
          · rcases construct_generator_calls X options _ hmem with
              h | ⟨h, _⟩ | h | ⟨_, _, h, _⟩ <;> rw [h] <;> exact ⟨rfl, fun hcontra => hcontra⟩
          · rw [hmem]; exact ⟨rfl, fun hcontra => hcontra⟩
          · rw [hmem]; exact ⟨rfl, fun hcontra => hcontra⟩
  · intro hnot s hnone hc
    obtain ⟨opened, outcome, hopened, _, hfate, hrun⟩ :=
      run_fatal X v options
        (fun c => ∃ name, c = .ebpf_get_program_type_by_name name ∧
          X.ebpf_get_program_type_by_name name = none)
        section_lookup_fate section_lookup_fate_front
        (fun c hc hbad => by
          obtain ⟨name, hname, _⟩ := hbad
          rcases open_generator_calls X options c hc with
            h | ⟨h, _⟩ | h | ⟨_, _, h, _⟩ | ⟨_, h⟩ | h | ⟨_, h⟩
          · rw [h] at hname; cases hname
          · rw [h] at hname; cases hname
          · rw [h] at hname; cases hname
          · rw [h] at hname; cases hname
          · rw [h] at hname; cases hname
          · rw [h] at hname; cases hname
          · exact h hnot)
        (fun _ h => by obtain ⟨_, h, _⟩ := h; cases h)
        (fun _ h => by obtain ⟨_, h, _⟩ := h; cases h)
        (fun h => by obtain ⟨_, h, _⟩ := h; cases h)
        (fun opened hopened s' _ generator v' c hc' hbad => by
          have hglobal := (open_generator_global X options opened hopened).2 hnot
          rw [hglobal] at hc' ⊢
          exact process_section_failed_lookup X options opened.data s' generator v' c hc' hbad)
        _ hc ⟨s, rfl, hnone⟩
    obtain ⟨houtcome, ⟨text, htext⟩, ⟨front, hfront⟩⟩ := hfate s rfl
    rw [hrun]
    refine ⟨houtcome, by rw [houtcome]; rfl, rfl,
      ⟨(open_generator X options).cerr ++ text, ?_⟩,
      ⟨(open_generator X options).calls ++ front, ?_⟩⟩
    · simp only [htext, String.append_assoc]
    · simp only [hfront, List.append_assoc]

theorem failed_lookup_is_fatal_witness :
    parse_parameters sample_world.enable_skip_verify "bpf2c"
        ["--bpf", "prog.o", "--type", "nope"] Options.initial =
        .ok sample_options_unknown_type ∧
      sample_world.ebpf_get_program_type_by_name "nope" = none ∧
      Call.ebpf_get_program_type_by_name "nope" ∈
        (main sample_world "" "bpf2c" ["--bpf", "prog.o", "--type", "nope"]).calls ∧
      (main sample_world "" "bpf2c" ["--bpf", "prog.o", "--type", "nope"]).outcome =
        .failure .type_string_resolution ∧
      (main sample_world "" "bpf2c" ["--bpf", "prog.o", "--type", "nope"]).cout = "" :=
  have h := (failed_lookup_is_fatal sample_world "" "bpf2c"
    ["--bpf", "prog.o", "--type", "nope"] sample_options_unknown_type rfl).1
      (by decide) rfl (by decide)
  ⟨rfl, rfl, by decide, h.1, h.2.2.1⟩

/-! ## All or nothing on standard output -/

/-- C10, as the code has it: when a run ends early at any step before the
emission (option parsing, file loading, file hashing, ELF validation,
construction of the generator, section enumeration, global data parsing, type
resolution, verification, program information hashing, section parse or
section generate), nothing has been written to `std::cout`; when it ends in
the skeleton emission or in the final emit, the banner has already been
written. -/
theorem no_output_before_emission {G V : Type} (X : Externals G V) (v : V) (argv0 : String)
    (parameters : List String) (step : Failure)
    (hfailed : (main X v argv0 parameters).outcome.failed_step = some step) :
    (step ≠ .skeleton_emission → step ≠ .final_emit → (main X v argv0 parameters).cout = "") ∧
    (step = .skeleton_emission ∨ step = .final_emit →
      ∃ options written,
        parse_parameters X.enable_skip_verify argv0 parameters Options.initial = .ok options ∧
        (main X v argv0 parameters).cout = banner options.file ++ written) := by
  cases hparse : parse_parameters X.enable_skip_verify argv0 parameters Options.initial with
  | error written =>
    have hmain : main X v argv0 parameters =
        { outcome := .failure .option_parsing, cout := "", cerr := written, calls := [] } := by
      unfold main; simp only [hparse]
    rw [hmain] at hfailed ⊢
    have hstep : step = .option_parsing := (Option.some.inj hfailed).symm
    refine ⟨fun _ _ => rfl, fun h => ?_⟩
    rcases h with h | h <;> rw [h] at hstep <;> cases hstep
  | ok options =>
    rw [main_eq_run X v argv0 parameters options hparse] at hfailed ⊢
    cases hp : (prepare X v options).value with
    | error outcome =>
      rw [run_of_error X v options outcome hp] at hfailed ⊢
      obtain ⟨step', hstep', _, h2, h3, _⟩ := prepare_value_error X v options outcome hp
      have heq : step' = step := by
        simp only at hfailed
        rw [hstep'] at hfailed
        exact Option.some.inj hfailed
      rw [heq] at h2 h3
      refine ⟨fun _ _ => rfl, fun h => ?_⟩
      rcases h with h | h
      · exact absurd h h2
      · exact absurd h h3
    | ok prepared =>
      obtain ⟨c_name, generator⟩ := prepared
      obtain ⟨houtcome, ⟨written, hwritten⟩, _⟩ := run_of_prepared X v options c_name generator hp
      refine ⟨fun h2 h3 => ?_, fun _ => ⟨options, written, rfl, hwritten⟩⟩
      rcases houtcome with ho | ho | ho
      · rw [ho] at hfailed; cases hfailed
      · rw [ho] at hfailed; exact absurd (Option.some.inj hfailed).symm h2
      · rw [ho] at hfailed; exact absurd (Option.some.inj hfailed).symm h3

theorem no_output_before_emission_witness :
    (main sample_world "" "bpf2c" ["--bpf", "missing.o"]).outcome.failed_step =
        some .file_loading ∧
      (main sample_world "" "bpf2c" ["--bpf", "missing.o"]).cout = "" :=
  ⟨rfl,
    (no_output_before_emission sample_world "" "bpf2c" ["--bpf", "missing.o"] .file_loading
      rfl).1 (by decide) (by decide)⟩

/-- C10, as stated, fails for a failure of the final emit: the banner is
written before `emit_c_code` is called, so when `emit_c_code` throws, `main`
returns 1 with the banner and the part that the generator wrote already on
`std::cout`. -/
theorem failed_final_emit_leaves_output :
    (main failing_emit_world "" "bpf2c" ["--bpf", "prog.o"]).outcome = .failure .final_emit ∧
      (main failing_emit_world "" "bpf2c" ["--bpf", "prog.o"]).outcome.exit_code = some 1 ∧
      (main failing_emit_world "" "bpf2c" ["--bpf", "prog.o"]).cout =
        "// Copyright (c) Microsoft Corporation\n// SPDX-License-Identifier: MIT\n\n" ++
          "// Do not alter this generated file.\n" ++
          "// This file was generated from prog.o\n\n" ++ "#include" ∧
      (main failing_emit_world "" "bpf2c" ["--bpf", "prog.o"]).cout ≠ "" := by
  refine ⟨by rfl, by rfl, by rfl, by decide⟩

/-! ## Loading the input file -/

/-- C20. `load_file_to_memory` returns either a buffer whose length is the
size that `stat` reports for the path, holding the first bytes of the
stream, or the error "Failed to read file: " followed by the path. The
buffer is the whole stream exactly when the stream holds as many bytes as
reported; when the stream holds more, the buffer is a proper part of it. The
function fails when `stat` fails, when the stream cannot be opened and when
the stream delivers fewer bytes than reported, so no buffer shorter than the
reported size is ever returned. -/
theorem load_file_to_memory_reported_size_or_error {G V : Type} (X : Externals G V)
    (path : String) :
    (∀ data, load_file_to_memory X path = .ok data →
      ∃ st_size available, X.stat path = some st_size ∧ X.ifstream path = some available ∧
        st_size ≤ available.length ∧ data = available.take st_size ∧
        data.length = st_size ∧ (data = available ↔ available.length = st_size) ∧
        (st_size < available.length →
          ∃ rest, rest ≠ [] ∧ available = data ++ rest)) ∧
    (∀ what, load_file_to_memory X path = .error what →
      what = "Failed to read file: " ++ path) ∧
    (X.stat path = none →
      load_file_to_memory X path = .error ("Failed to read file: " ++ path)) ∧
    (X.ifstream path = none →
      load_file_to_memory X path = .error ("Failed to read file: " ++ path)) ∧
    (∀ st_size available, X.stat path = some st_size → X.ifstream path = some available →
      available.length < st_size →
      load_file_to_memory X path = .error ("Failed to read file: " ++ path)) ∧
    (∀ st_size available, X.stat path = some st_size → X.ifstream path = some available →
      st_size ≤ available.length →
      load_file_to_memory X path = .ok (available.take st_size)) := by
  unfold load_file_to_memory
  refine ⟨?_, ?_, ?_, ?_, ?_, ?_⟩
  · intro data h
    cases hs : X.stat path with
    | none => simp [hs] at h
    | some st_size =>
      cases ha : X.ifstream path with
      | none => simp [hs, ha] at h
      | some available =>
        simp only [hs, ha] at h
        by_cases hlt : available.length < st_size
        · simp [hlt] at h
        · simp only [hlt, if_false] at h
          have hd : available.take st_size = data := Except.ok.inj h
          have hle : st_size ≤ available.length := Nat.le_of_not_lt hlt
          have hlen : data.length = st_size := by
            rw [← hd, List.length_take]; exact Nat.min_eq_left hle
          refine ⟨st_size, available, rfl, rfl, hle, hd.symm, hlen, ?_, ?_⟩
          · constructor
            · intro heq
              rw [← heq]; exact hlen
            · intro heq
              rw [← hd, ← heq, List.take_length]
          · intro hmore
            refine ⟨available.drop st_size, ?_, ?_⟩
            · intro hnil
              have hdrop : (available.drop st_size).length = available.length - st_size :=
                List.length_drop st_size available
              rw [hnil, List.length_nil] at hdrop
              omega
            · rw [← hd]; exact (List.take_append_drop st_size available).symm
  · intro what h
    cases hs : X.stat path with
    | none => simp only [hs] at h; exact (Except.error.inj h).symm
    | some st_size =>
      cases ha : X.ifstream path with
      | none => simp only [hs, ha] at h; exact (Except.error.inj h).symm
      | some available =>
        simp only [hs, ha] at h
        by_cases hlt : available.length < st_size
        · simp only [hlt, if_true] at h; exact (Except.error.inj h).symm
        · simp [hlt] at h
  · intro hs
    simp only [hs]
  · intro ha
    cases hs : X.stat path <;> simp only [ha]
  · intro st_size available hs ha hlt
    simp only [hs, ha, hlt, if_true]
  · intro st_size available hs ha hle
    simp only [hs, ha, if_neg (Nat.not_lt.2 hle)]

/-- C20 at the sample file, whose three bytes are returned in full, at a
path that does not exist, at a file that cannot be opened, at a stream that
delivers three bytes of the five reported, and at a stream that delivers
three bytes where two are reported. -/
theorem load_file_to_memory_reported_size_or_error_witness :
    load_file_to_memory sample_world "prog.o" = .ok [127, 69, 76] ∧
      (∃ st_size available, sample_world.stat "prog.o" = some st_size ∧
        sample_world.ifstream "prog.o" = some available ∧
        st_size ≤ available.length ∧ [127, 69, 76] = available.take st_size ∧
        [127, 69, 76].length = st_size ∧
        ([127, 69, 76] = available ↔ available.length = st_size) ∧
        (st_size < available.length →
          ∃ rest, rest ≠ [] ∧ available = [127, 69, 76] ++ rest)) ∧
      load_file_to_memory sample_world "none.o" = .error ("Failed to read file: " ++ "none.o") ∧
      load_file_to_memory closed_file_world "prog.o" =
        .error ("Failed to read file: " ++ "prog.o") ∧
      load_file_to_memory short_read_world "prog.o" =
        .error ("Failed to read file: " ++ "prog.o") ∧
      load_file_to_memory grown_file_world "prog.o" = .ok ([127, 69, 76].take 2) :=
  ⟨rfl, (load_file_to_memory_reported_size_or_error sample_world "prog.o").1 [127, 69, 76] rfl,
    (load_file_to_memory_reported_size_or_error sample_world "none.o").2.2.1 rfl,
    (load_file_to_memory_reported_size_or_error closed_file_world "prog.o").2.2.2.1 rfl,
    (load_file_to_memory_reported_size_or_error short_read_world "prog.o").2.2.2.2.1
      5 [127, 69, 76] rfl rfl (by decide),
    (load_file_to_memory_reported_size_or_error grown_file_world "prog.o").2.2.2.2.2
      2 [127, 69, 76] rfl rfl (by decide)⟩

/-- A file whose stream holds more bytes than `stat` reported: the file
system reports two bytes for `prog.o` and the stream delivers 127, 69, 76.
`load_file_to_memory` reads the two reported bytes, does not look for the
end of the stream, and returns the buffer 127, 69, which is not the content
of the file. -/
theorem load_file_to_memory_returns_part :
    grown_file_world.stat "prog.o" = some 2 ∧
      grown_file_world.ifstream "prog.o" = some [127, 69, 76] ∧
      load_file_to_memory grown_file_world "prog.o" = .ok [127, 69] ∧
      load_file_to_memory grown_file_world "prog.o" ≠ .ok [127, 69, 76] := by
  refine ⟨rfl, rfl, rfl, by decide⟩

/-! ## The command line -/

/-- One step of the loop over the parameters. -/
theorem parse_parameters_cons (e : Bool) (argv0 : String) (parameter : String)
    (rest : List String) (options : Options) :
    parse_parameters e argv0 (parameter :: rest) options =
      if parameter = "--sys" then
        parse_parameters e argv0 rest { options with type := .KernelPE }
      else if parameter = "--dll" then
        parse_parameters e argv0 rest { options with type := .UserPE }
      else if parameter = "--no-verify" ∧ e = true then
        parse_parameters e argv0 rest { options with verify_programs := false }
      else if parameter = "--bpf" then
        match rest with
        | [] => .error ("Invalid --bpf option" ++ "\n")
        | value :: rest => parse_parameters e argv0 rest { options with file := value }
      else if parameter = "--type" then
        match rest with
        | [] => .error ("Invalid --type option" ++ "\n")
        | value :: rest => parse_parameters e argv0 rest { options with type_string := value }
      else if parameter = "--hash" then
        match rest with
        | [] => .error ("Invalid --hash option" ++ "\n")
        | value :: rest => parse_parameters e argv0 rest { options with hash_algorithm := value }
      else .error (help_text e argv0) := by
  rw [parse_parameters.eq_def]


/-- Parameters that follow a command line parsed in full are parsed from the
options that it selected. -/
theorem parse_parameters_append (e : Bool) (argv0 : String) (back : List String) :
    ∀ (n : Nat) (front : List String) (o o1 : Options), front.length ≤ n →
      parse_parameters e argv0 front o = .ok o1 →
      parse_parameters e argv0 (front ++ back) o = parse_parameters e argv0 back o1 := by
  intro n
  induction n with
  | zero =>
    intro front o o1 hn h
    cases front with
    | nil =>
      simp only [parse_parameters] at h
      rw [List.nil_append, Except.ok.inj h]
    | cons p rest => simp at hn
  | succ n ih =>
    intro front o o1 hn h
    cases front with
    | nil =>
      simp only [parse_parameters] at h
      rw [List.nil_append, Except.ok.inj h]
    | cons p rest =>
      have hrest : rest.length ≤ n := by simpa using hn
      rw [List.cons_append]
      rw [parse_parameters_cons] at h ⊢
      split_ifs at h ⊢
      · exact ih rest _ o1 hrest h
      · exact ih rest _ o1 hrest h
      · exact ih rest _ o1 hrest h
      · cases rest with
        | nil => cases h
        | cons value rest =>
          exact ih rest _ o1 (by simp at hrest; omega) h
      · cases rest with
        | nil => cases h
        | cons value rest =>
          exact ih rest _ o1 (by simp at hrest; omega) h
      · cases rest with
        | nil => cases h
        | cons value rest =>
          exact ih rest _ o1 (by simp at hrest; omega) h

/-- Parameters without `--bpf` leave the input path as it was. -/
theorem parse_parameters_file (e : Bool) (argv0 : String) :
    ∀ (n : Nat) (back : List String) (o o1 : Options), back.length ≤ n → "--bpf" ∉ back →
      parse_parameters e argv0 back o = .ok o1 → o1.file = o.file := by
  intro n
  induction n with
  | zero =>
    intro back o o1 hn _ h
    cases back with
    | nil => simp only [parse_parameters] at h; rw [← Except.ok.inj h]
    | cons p rest => simp at hn
  | succ n ih =>
    intro back o o1 hn hno h
    cases back with
    | nil => simp only [parse_parameters] at h; rw [← Except.ok.inj h]
    | cons p rest =>
      have hrest : rest.length ≤ n := by simpa using hn
      have hp : p ≠ "--bpf" := fun hp => hno (by simp [hp])
      have hnorest : "--bpf" ∉ rest := fun hm => hno (List.mem_cons_of_mem _ hm)
      rw [parse_parameters_cons] at h
      split_ifs at h
      · exact (ih rest _ o1 hrest hnorest h).trans rfl
      · exact (ih rest _ o1 hrest hnorest h).trans rfl
      · exact (ih rest _ o1 hrest hnorest h).trans rfl
      · cases rest with
        | nil => cases h
        | cons value rest =>
          exact (ih rest _ o1 (by simp at hrest; omega)
            (fun hm => hnorest (List.mem_cons_of_mem _ hm)) h).trans rfl
      · cases rest with
        | nil => cases h
        | cons value rest =>
          exact (ih rest _ o1 (by simp at hrest; omega)
            (fun hm => hnorest (List.mem_cons_of_mem _ hm)) h).trans rfl

/-- Parameters without `--sys` and `--dll` leave the output type as it
was. -/
theorem parse_parameters_type (e : Bool) (argv0 : String) :
    ∀ (n : Nat) (back : List String) (o o1 : Options), back.length ≤ n →
      "--sys" ∉ back → "--dll" ∉ back →
      parse_parameters e argv0 back o = .ok o1 → o1.type = o.type := by
  intro n
  induction n with
  | zero =>
    intro back o o1 hn _ _ h
    cases back with
    | nil => simp only [parse_parameters] at h; rw [← Except.ok.inj h]
    | cons p rest => simp at hn
  | succ n ih =>
    intro back o o1 hn hsys hdll h
    cases back with
    | nil => simp only [parse_parameters] at h; rw [← Except.ok.inj h]
    | cons p rest =>
      have hrest : rest.length ≤ n := by simpa using hn
      have hp1 : p ≠ "--sys" := fun hp => hsys (by simp [hp])
      have hp2 : p ≠ "--dll" := fun hp => hdll (by simp [hp])
      have hsys1 : "--sys" ∉ rest := fun hm => hsys (List.mem_cons_of_mem _ hm)
      have hdll1 : "--dll" ∉ rest := fun hm => hdll (List.mem_cons_of_mem _ hm)
      rw [parse_parameters_cons, if_neg hp1, if_neg hp2] at h
      split_ifs at h
      · exact (ih rest _ o1 hrest hsys1 hdll1 h).trans rfl
      · cases rest with
        | nil => cases h
        | cons value rest =>
          exact (ih rest _ o1 (by simp at hrest; omega)
            (fun hm => hsys1 (List.mem_cons_of_mem _ hm))
            (fun hm => hdll1 (List.mem_cons_of_mem _ hm)) h).trans rfl
      · cases rest with
        | nil => cases h
        | cons value rest =>
          exact (ih rest _ o1 (by simp at hrest; omega)
            (fun hm => hsys1 (List.mem_cons_of_mem _ hm))
            (fun hm => hdll1 (List.mem_cons_of_mem _ hm)) h).trans rfl
      · cases rest with
        | nil => cases h
        | cons value rest =>
          exact (ih rest _ o1 (by simp at hrest; omega)
            (fun hm => hsys1 (List.mem_cons_of_mem _ hm))
            (fun hm => hdll1 (List.mem_cons_of_mem _ hm)) h).trans rfl

/-! ## The calls of a run in which every step succeeds -/

theorem Step.bind_calls_of_ok {α β : Type} (s : Step α) (f : α → Step β) (a : α)
    (h : s.value = .ok a) : (s >>= f).calls = s.calls ++ (f a).calls := by
  rw [Step.bind_eq_of_ok s f a h]

theorem Step.bind_cerr_of_ok {α β : Type} (s : Step α) (f : α → Step β) (a : α)
    (h : s.value = .ok a) : (s >>= f).cerr = s.cerr ++ (f a).cerr := by
  rw [Step.bind_eq_of_ok s f a h]

/-- What a successful construction of the generator has done: the artifact
name is derived from the path, the file is loaded and, unless the algorithm
is "none", hashed, the ELF check has passed, and the generator is built from
the contents, the artifact name and the hash. -/
theorem construct_generator_ok {G V : Type} (X : Externals G V) (options : Options)
    (c_name : String) (data : List Nat) (generator : G)
    (h : (construct_generator X options).value = .ok (c_name, data, generator)) :
    derive_c_name options.file = some c_name ∧
      load_file_to_memory X options.file = .ok data ∧
      ∃ hash_value, (hash_file X options data).value = .ok hash_value ∧
        X.bpf_code_generator data c_name hash_value = .ok generator ∧
        (construct_generator X options).calls =
          .load_file_to_memory options.file :: ((hash_file X options data).calls ++
            [.ElfCheckElf, .bpf_code_generator c_name hash_value]) := by
  unfold construct_generator at h ⊢
  simp only [Step.bind_value_ok, pure, Step.pure_value, Step.of_except_value_ok] at h
  obtain ⟨c_name', hname, _, hload_call, data', hload, hash_value, hhash, _, hcheck, _,
    hctor_call, generator', hctor, hresult⟩ := h
  have hresult' := Except.ok.inj hresult
  simp only [Prod.mk.injEq] at hresult'
  obtain ⟨h1, h2, h3⟩ := hresult'
  subst h1 h2 h3
  have hderive : derive_c_name options.file = some c_name' := by
    unfold artifact_name at hname
    cases hd : derive_c_name options.file with
    | none => simp [hd, Step.crash] at hname
    | some c => simp only [hd, pure, Step.pure_value] at hname; rw [Except.ok.inj hname]
  have hload_value : (Step.of_except Failure.file_loading
      (load_file_to_memory X options.file)).value = .ok data' :=
    (Step.of_except_value_ok _ _ _).2 hload
  have hctor_value : (Step.of_except Failure.generator_construction
      (X.bpf_code_generator data' c_name' hash_value)).value = .ok generator' :=
    (Step.of_except_value_ok _ _ _).2 hctor
  refine ⟨hderive, hload, hash_value, hhash, hctor, ?_⟩
  simp only [Step.bind_calls_of_ok _ _ _ hname, Step.bind_calls_of_ok _ _ _ hload_call,
    Step.bind_calls_of_ok _ _ _ hload_value, Step.bind_calls_of_ok _ _ _ hhash,
    Step.bind_calls_of_ok _ _ _ hcheck, Step.bind_calls_of_ok _ _ _ hctor_call,
    Step.bind_calls_of_ok _ _ _ hctor_value, artifact_name_calls]
  have hcheck_calls : (check_elf X data').calls = [.ElfCheckElf] := by
    unfold check_elf
    simp only [bind, pure, Step.bind, Step.call, Step.write_cerr, Step.return_1, Step.pure,
      List.append_nil, List.nil_append]
    split_ifs <;> rfl
  have hload_calls : (Step.of_except Failure.file_loading
      (load_file_to_memory X options.file)).calls = [] := by
    rw [hload]; rfl
  have hctor_calls : (Step.of_except Failure.generator_construction
      (X.bpf_code_generator data' c_name' hash_value)).calls = [] := by
    rw [hctor]; rfl
  rw [hcheck_calls, hload_calls, hctor_calls]
  simp [Step.call, pure, Step.pure]

/-- What a successful enumeration, global parse and global type lookup have
done. -/
theorem finish_opening_ok {G V : Type} (X : Externals G V) (options : Options)
    (c_name : String) (data : List Nat) (generator : G) (opened : Opened G)
    (h : (finish_opening X options c_name data generator).value = .ok opened) :
    opened.c_name = c_name ∧ opened.data = data ∧
      X.program_sections generator = .ok opened.sections ∧
      (options.verify_programs = true → opened.sections ≠ []) ∧
      X.parse generator = .ok opened.generator ∧
      (resolve_global_type X options).value = .ok opened.global ∧
      (finish_opening X options c_name data generator).calls =
        .program_sections (.ok opened.sections) :: .parse ::
          (resolve_global_type X options).calls := by
  unfold finish_opening at h ⊢
  simp only [Step.bind_value_ok, pure, Step.pure_value, Step.of_except_value_ok] at h
  obtain ⟨sections, henum, _, hparse_call, parsed, hparse, global, hglobal, hresult⟩ := h
  have hresult' := (Except.ok.inj hresult).symm
  subst hresult'
  have hparse_value : (Step.of_except Failure.global_data_parsing (X.parse generator)).value =
      .ok parsed := (Step.of_except_value_ok _ _ _).2 hparse
  have hparse_calls : (Step.of_except Failure.global_data_parsing (X.parse generator)).calls =
      [] := by rw [hparse]; rfl
  have hsections : X.program_sections generator = .ok sections ∧
      (options.verify_programs = true → sections ≠ []) := by
    unfold enumerate_sections at henum
    simp only [Step.bind_value_ok, Step.of_except_value_ok] at henum
    obtain ⟨_, _, sections', hs, hif⟩ := henum
    by_cases hempty : options.verify_programs = true ∧ sections'.length = 0
    · simp [hempty, Step.return_1] at hif
    · simp only [hempty, if_false, pure, Step.pure_value] at hif
      have hs' := Except.ok.inj hif
      subst hs'
      refine ⟨hs, fun hv hnil => hempty ⟨hv, ?_⟩⟩
      rw [hnil]; rfl
  refine ⟨rfl, rfl, hsections.1, hsections.2, hparse, hglobal, ?_⟩
  simp only [Step.bind_calls_of_ok _ _ _ henum, Step.bind_calls_of_ok _ _ _ hparse_call,
    Step.bind_calls_of_ok _ _ _ hparse_value, Step.bind_calls_of_ok _ _ _ hglobal,
    enumerate_sections_calls, hparse_calls, hsections.1]
  simp [Step.call, pure, Step.pure]

/-- What a successful opening has done, and the calls it made. -/
theorem open_generator_ok {G V : Type} (X : Externals G V) (options : Options)
    (opened : Opened G) (h : (open_generator X options).value = .ok opened) :
    ∃ hash_value generator,
      derive_c_name options.file = some opened.c_name ∧
      load_file_to_memory X options.file = .ok opened.data ∧
      (hash_file X options opened.data).value = .ok hash_value ∧
      X.bpf_code_generator opened.data opened.c_name hash_value = .ok generator ∧
      X.program_sections generator = .ok opened.sections ∧
      (options.verify_programs = true → opened.sections ≠ []) ∧
      X.parse generator = .ok opened.generator ∧
      (resolve_global_type X options).value = .ok opened.global ∧
      (open_generator X options).calls =
        .load_file_to_memory options.file :: ((hash_file X options opened.data).calls ++
          [.ElfCheckElf, .bpf_code_generator opened.c_name hash_value,
            .program_sections (.ok opened.sections), .parse] ++
          (resolve_global_type X options).calls) := by
  have h' := h
  unfold open_generator at h'
  rw [Step.bind_value_ok] at h'
  obtain ⟨⟨c_name, data, generator⟩, hconstructed, hfinish⟩ := h'
  obtain ⟨hname, hload, hash_value, hhash, hctor, hcalls⟩ :=
    construct_generator_ok X options c_name data generator hconstructed
  obtain ⟨h1, h2, hsections, hnonempty, hparse, hglobal, hcalls'⟩ :=
    finish_opening_ok X options c_name data generator opened hfinish
  subst h1 h2
  refine ⟨hash_value, generator, hname, hload, hhash, hctor, hsections, hnonempty, hparse,
    hglobal, ?_⟩
  rw [open_generator_of_constructed X options _ _ generator hconstructed]
  simp only [hcalls, hcalls', List.cons_append, List.append_assoc, List.nil_append]

/-- The calls of a section loop that parses every section: for each
section, in order, calls that are not made on the generator, closed by the
parse of the section. -/
theorem parse_sections_ok {G V : Type} (X : Externals G V) (options : Options)
    (data : List Nat) (global : Option (Nat × Nat)) :
    ∀ (sections : List String) (generator : G) (v : V) (parsed : G),
      (parse_sections X options data global sections generator v).value = .ok parsed →
      ∃ parses,
        (parse_sections X options data global sections generator v).calls.filter
          Call.on_generator = parses ∧
        List.Forall₂ Call.parses parses sections := by
  intro sections
  induction sections with
  | nil =>
    intro generator v parsed _
    exact ⟨[], rfl, List.Forall₂.nil⟩
  | cons s rest ih =>
    intro generator v parsed h
    unfold parse_sections at h ⊢
    rw [Step.bind_value_ok] at h
    obtain ⟨state, hstate, hrest⟩ := h
    obtain ⟨parses, hparses, hforall⟩ := ih state.1 state.2 parsed hrest
    rw [Step.bind_calls_of_ok _ _ _ hstate, List.filter_append, hparses]
    have hbody : ∃ pt at_ hash,
        (process_section X options data global s generator v).calls.filter Call.on_generator =
          [.parse_section s pt at_ hash] := by
      rw [process_section_eq] at hstate ⊢
      cases hres : resolved_types X global s with
      | none => simp [hres] at hstate
      | some types =>
        simp only [hres] at hstate ⊢
        by_cases hfail : verification_fails X options data s types.1 v
        · simp [hfail] at hstate
        · simp only [hfail, if_false] at hstate ⊢
          cases hh : section_hash X options (verified_state X options data s types.1 v) with
          | error what => simp [hh] at hstate
          | ok program_info_hash =>
            simp only [hh] at hstate ⊢
            cases hp : X.parse_section generator s types.1 types.2 program_info_hash with
            | error what => simp [hp] at hstate
            | ok g =>
              refine ⟨types.1, types.2, program_info_hash, ?_⟩
              simp only [List.filter_append]
              have h1 : (lookup_calls global s).filter Call.on_generator = [] := by
                cases global <;> rfl
              have h2 : (verify_calls X options data s types.1 v).filter Call.on_generator =
                  [] := by
                unfold verify_calls; split_ifs <;> rfl
              have h3 : (hash_calls X options
                  (verified_state X options data s types.1 v)).filter Call.on_generator =
                  [] := by
                unfold hash_calls
                split_ifs
                · cases X.ebpf_get_program_info_from_verifier
                    (verified_state X options data s types.1 v) <;> rfl
                · rfl
              rw [h1, h2, h3]
              rfl
    obtain ⟨pt, at_, hash, hb⟩ := hbody
    rw [hb]
    exact ⟨_, rfl, List.Forall₂.cons ⟨pt, at_, hash, rfl⟩ hforall⟩

/-- The calls of a generate loop that generates every section. -/
theorem generate_sections_ok {G V : Type} (X : Externals G V) :
    ∀ (sections : List String) (generator generated : G),
      (generate_sections X sections generator).value = .ok generated →
      (generate_sections X sections generator).calls = sections.map Call.generate := by
  intro sections
  induction sections with
  | nil => intro generator generated _; rfl
  | cons s rest ih =>
    intro generator generated h
    unfold generate_sections at h ⊢
    simp only [Step.bind_value_ok, Step.of_except_value_ok] at h
    obtain ⟨_, hcall, g, hg, hrest⟩ := h
    have hg_value : (Step.of_except (Failure.section_generate s) (X.generate generator s)).value =
        .ok g := (Step.of_except_value_ok _ _ _).2 hg
    have hg_calls : (Step.of_except (Failure.section_generate s) (X.generate generator s)).calls =
        [] := by rw [hg]; rfl
    simp only [Step.bind_calls_of_ok _ _ _ hcall, Step.bind_calls_of_ok _ _ _ hg_value,
      hg_calls, ih g generated hrest]
    rfl

/-- What a run has done when everything before the first write to
`std::cout` has succeeded. -/
theorem prepare_ok {G V : Type} (X : Externals G V) (v : V) (options : Options)
    (c_name : String) (generator : G)
    (h : (prepare X v options).value = .ok (c_name, generator)) :
    ∃ opened parsed, (open_generator X options).value = .ok opened ∧
      opened.c_name = c_name ∧
      (parse_sections X options opened.data opened.global opened.sections opened.generator
        v).value = .ok parsed ∧
      (generate_sections X opened.sections parsed).value = .ok generator ∧
      (prepare X v options).calls =
        (open_generator X options).calls ++
          ((parse_sections X options opened.data opened.global opened.sections
            opened.generator v).calls ++ opened.sections.map Call.generate) := by
  have h' := h
  unfold prepare at h'
  simp only [Step.bind_value_ok, pure, Step.pure_value] at h'
  obtain ⟨opened, hopen, parsed, hparsed, generated, hgenerated, hresult⟩ := h'
  have hresult' := Except.ok.inj hresult
  simp only [Prod.mk.injEq] at hresult'
  obtain ⟨h1, h2⟩ := hresult'
  subst h2
  refine ⟨opened, parsed, hopen, h1, hparsed, hgenerated, ?_⟩
  unfold prepare
  simp only [Step.bind_calls_of_ok _ _ _ hopen, Step.bind_calls_of_ok _ _ _ hparsed,
    Step.bind_calls_of_ok _ _ _ hgenerated, generate_sections_ok X _ _ _ hgenerated]
  simp [pure, Step.pure]

/-- What a successful run has written and called: the banner, the skeleton
of the output type, if any, and the generated code. -/
theorem run_success {G V : Type} (X : Externals G V) (v : V) (options : Options)
    (h : (run X v options).outcome = .success) :
    ∃ c_name generator skeleton,
      (prepare X v options).value = .ok (c_name, generator) ∧
      (X.emit_c_code generator).2 = none ∧
      (run X v options).cout = banner options.file ++ skeleton ++ (X.emit_c_code generator).1 ∧
      (run X v options).cerr = (prepare X v options).cerr ∧
      (options.type = .Bare → skeleton = "" ∧
        (run X v options).calls = (prepare X v options).calls ++ [.emit_c_code]) ∧
      (options.type = .KernelPE →
        emit_skeleton X.regex_replace c_name X.bpf2c_driver = some skeleton ∧
        (run X v options).calls =
          (prepare X v options).calls ++ [.emit_skeleton c_name, .emit_c_code]) ∧
      (options.type = .UserPE →
        emit_skeleton X.regex_replace c_name X.bpf2c_dll = some skeleton ∧
        (run X v options).calls =
          (prepare X v options).calls ++ [.emit_skeleton c_name, .emit_c_code]) := by
  have hfinal : ∀ (generator : G) (written cerr : String) (calls : List Call),
      (emit_final X generator written cerr calls).outcome = .success →
      (X.emit_c_code generator).2 = none ∧
        (emit_final X generator written cerr calls).cout =
          written ++ (X.emit_c_code generator).1 ∧
        (emit_final X generator written cerr calls).cerr = cerr ∧
        (emit_final X generator written cerr calls).calls = calls ++ [.emit_c_code] := by
    intro generator written cerr calls ho
    unfold emit_final at ho ⊢
    cases he : (X.emit_c_code generator).2 with
    | none => refine ⟨?_, ?_, ?_, ?_⟩ <;> simp [he]
    | some what => simp [he] at ho
  cases hp : (prepare X v options).value with
  | error outcome =>
    rw [run_of_error X v options outcome hp] at h
    obtain ⟨step, hstep, _⟩ := prepare_value_error X v options outcome hp
    simp only at h
    rw [h] at hstep
    cases hstep
  | ok prepared =>
    obtain ⟨c_name, generator⟩ := prepared
    rw [run_of_ok X v options c_name generator hp] at h ⊢
    cases ht : options.type with
    | Bare =>
      simp only [ht] at h ⊢
      obtain ⟨h1, h2, h3, h4⟩ := hfinal _ _ _ _ h
      exact ⟨c_name, generator, "", rfl, h1, (by rw [h2]; simp), h3,
        fun _ => ⟨rfl, h4⟩, fun hh => (by cases hh), fun hh => (by cases hh)⟩
    | KernelPE =>
      simp only [ht, emit_skeleton_then_final] at h ⊢
      cases hs : emit_skeleton X.regex_replace c_name X.bpf2c_driver with
      | none => simp [hs] at h
      | some skeleton =>
        simp only [hs] at h ⊢
        obtain ⟨h1, h2, h3, h4⟩ := hfinal _ _ _ _ h
        exact ⟨c_name, generator, skeleton, rfl, h1, h2, h3,
          fun hh => (by cases hh), fun _ => ⟨hs, (by rw [h4]; simp)⟩, fun hh => (by cases hh)⟩
    | UserPE =>
      simp only [ht, emit_skeleton_then_final] at h ⊢
      cases hs : emit_skeleton X.regex_replace c_name X.bpf2c_dll with
      | none => simp [hs] at h
      | some skeleton =>
        simp only [hs] at h ⊢
        obtain ⟨h1, h2, h3, h4⟩ := hfinal _ _ _ _ h
        exact ⟨c_name, generator, skeleton, rfl, h1, h2, h3,
          fun hh => (by cases hh), fun hh => (by cases hh), fun _ => ⟨hs, (by rw [h4]; simp)⟩⟩

/-! ## The banner and the output mode -/

theorem banner_eq (file : String) :
    banner file =
      "// Copyright (c) Microsoft Corporation\n// SPDX-License-Identifier: MIT\n\n" ++
        "// Do not alter this generated file.\n" ++
        "// This file was generated from " ++ file ++ "\n\n" := by
  unfold banner copyright_notice
  have h1 : "// Copyright (c) Microsoft Corporation\n// SPDX-License-Identifier: MIT\n" ++ "\n" ++
      "// Do not alter this generated file." ++ "\n" ++ "// This file was generated from " =
      "// Copyright (c) Microsoft Corporation\n// SPDX-License-Identifier: MIT\n\n" ++
        "// Do not alter this generated file.\n" ++ "// This file was generated from " := by
    decide
  rw [h1, String.append_assoc _ "\n" "\n"]
  rfl

/-- The input path of a command line that was parsed in full is the
parameter after the last `--bpf` in option position. -/
theorem parse_parameters_last_bpf (e : Bool) (argv0 : String) (front back : List String)
    (path : String) (o options : Options)
    (hfront : parse_parameters e argv0 front Options.initial = .ok o)
    (hback : "--bpf" ∉ back)
    (h : parse_parameters e argv0 (front ++ "--bpf" :: path :: back) Options.initial =
      .ok options) :
    options.file = path := by
  rw [parse_parameters_append e argv0 _ front.length front _ o (le_refl _) hfront,
    parse_parameters_cons] at h
  simp only [show ("--bpf" : String) ≠ "--sys" by decide, show ("--bpf" : String) ≠ "--dll" by decide,
    show ("--bpf" : String) ≠ "--no-verify" by decide, if_false, false_and, if_true] at h
  exact parse_parameters_file e argv0 back.length back _ options (le_refl _) hback h

/-- C15. When `main` returns 0, what it wrote to `std::cout` is the
copyright notice and an empty line, the line "// Do not alter this generated
file.", the line "// This file was generated from " with the input path and
an empty line, then the skeleton, if the output type has one, then what
`emit_c_code` wrote. The input path is the parameter that follows the last
`--bpf` of the command line, character for character. -/
theorem banner_precedes_output {G V : Type} (X : Externals G V) (v : V) (argv0 : String)
    (parameters : List String)
    (hsuccess : (main X v argv0 parameters).outcome = .success) :
    ∃ options c_name generator skeleton,
      parse_parameters X.enable_skip_verify argv0 parameters Options.initial = .ok options ∧
      (prepare X v options).value = .ok (c_name, generator) ∧
      (main X v argv0 parameters).cout =
        "// Copyright (c) Microsoft Corporation\n// SPDX-License-Identifier: MIT\n\n" ++
          "// Do not alter this generated file.\n" ++
          "// This file was generated from " ++ options.file ++ "\n\n" ++
          skeleton ++ (X.emit_c_code generator).1 ∧
      (skeleton = "" ∨ emit_skeleton X.regex_replace c_name X.bpf2c_driver = some skeleton ∨
        emit_skeleton X.regex_replace c_name X.bpf2c_dll = some skeleton) ∧
      (∀ front path back o, parameters = front ++ "--bpf" :: path :: back →
        parse_parameters X.enable_skip_verify argv0 front Options.initial = .ok o →
        "--bpf" ∉ back → options.file = path) := by
  cases hparse : parse_parameters X.enable_skip_verify argv0 parameters Options.initial with
  | error written =>
    unfold main at hsuccess
    simp [hparse] at hsuccess
  | ok options =>
    rw [main_eq_run X v argv0 parameters options hparse] at hsuccess ⊢
    obtain ⟨c_name, generator, skeleton, hp, _, hcout, _, hbare, hsys, hdll⟩ :=
      run_success X v options hsuccess
    refine ⟨options, c_name, generator, skeleton, rfl, hp, ?_, ?_, ?_⟩
    · rw [hcout, banner_eq]
    · cases ht : options.type with
      | Bare => exact Or.inl (hbare ht).1
      | KernelPE => exact Or.inr (Or.inl (hsys ht).1)
      | UserPE => exact Or.inr (Or.inr (hdll ht).1)
    · intro front path back o hparameters hfront hback
      rw [hparameters] at hparse
      exact parse_parameters_last_bpf _ argv0 front back path o options hfront hback hparse

set_option maxRecDepth 8192 in
/-- C15 at the command line `--sys --bpf dir\prog.o`. -/
theorem banner_precedes_output_witness :
    (main standard_world "" "bpf2c" ["--sys", "--bpf", "dir\\prog.o"]).outcome = .success ∧
      (main standard_world "" "bpf2c" ["--sys", "--bpf", "dir\\prog.o"]).cout =
        "// Copyright (c) Microsoft Corporation\n// SPDX-License-Identifier: MIT\n\n" ++
          "// Do not alter this generated file.\n" ++
          "// This file was generated from dir\\prog.o\n\n" ++
          "table prog;\n" ++ "code xdp_prog\ncode bind\n" ∧
      ∃ options c_name generator skeleton,
        parse_parameters standard_world.enable_skip_verify "bpf2c"
          ["--sys", "--bpf", "dir\\prog.o"] Options.initial = .ok options ∧
        (prepare standard_world "" options).value = .ok (c_name, generator) ∧
        (main standard_world "" "bpf2c" ["--sys", "--bpf", "dir\\prog.o"]).cout =
          "// Copyright (c) Microsoft Corporation\n// SPDX-License-Identifier: MIT\n\n" ++
            "// Do not alter this generated file.\n" ++
            "// This file was generated from " ++ options.file ++ "\n\n" ++
            skeleton ++ (standard_world.emit_c_code generator).1 ∧
        (skeleton = "" ∨
          emit_skeleton standard_world.regex_replace c_name standard_world.bpf2c_driver =
            some skeleton ∨
          emit_skeleton standard_world.regex_replace c_name standard_world.bpf2c_dll =
            some skeleton) ∧
        (∀ front path back o, ["--sys", "--bpf", "dir\\prog.o"] = front ++ "--bpf" :: path :: back →
          parse_parameters standard_world.enable_skip_verify "bpf2c" front Options.initial =
            .ok o →
          "--bpf" ∉ back → options.file = path) :=
  ⟨by rfl, by rfl,
    banner_precedes_output standard_world "" "bpf2c" ["--sys", "--bpf", "dir\\prog.o"] (by rfl)⟩

/-- Nothing before the first write to `std::cout` emits a skeleton. -/
theorem prepare_calls_no_skeleton {G V : Type} (X : Externals G V) (v : V)
    (options : Options) :
    ∀ c ∈ (prepare X v options).calls, Call.is_emit_skeleton c = false := by
  intro c hc
  rcases mem_prepare_calls X v options c hc with h | ⟨opened, _, h | ⟨s, _, h⟩⟩
  · rcases open_generator_calls X options c h with
      h | ⟨h, _⟩ | h | ⟨_, _, h, _⟩ | ⟨_, h⟩ | h | ⟨h, _⟩ <;> rw [h] <;> rfl
  · refine parse_sections_calls_forall X options opened.data opened.global
      (fun c => Call.is_emit_skeleton c = false) opened.sections ?_ opened.generator v c h
    intro s _ generator v c hc
    rcases mem_process_section_calls X options opened.data opened.global s generator v c hc with
      h | ⟨t, _, h | ⟨_, h | ⟨_, _, h⟩⟩⟩
    · rw [((mem_lookup_calls _ _ _).1 h).2]; rfl
    · rw [((mem_verify_calls _ _ _ _ _ _ _).1 h).2]; rfl
    · rcases (mem_hash_calls _ _ _ _ h).2 with h | ⟨_, _, h⟩ <;> rw [h] <;> rfl
    · rw [h]; rfl
  · rw [h]; rfl

/-- The skeleton calls of a run: none for the bare output type and at most
one otherwise. -/
theorem run_skeleton_calls {G V : Type} (X : Externals G V) (v : V) (options : Options) :
    (run X v options).calls.countP Call.is_emit_skeleton ≤ 1 ∧
      (options.type = .Bare → (run X v options).calls.countP Call.is_emit_skeleton = 0) := by
  have hprepare : (prepare X v options).calls.countP Call.is_emit_skeleton = 0 := by
    rw [List.countP_eq_zero]
    intro c hc
    rw [prepare_calls_no_skeleton X v options c hc]
    exact Bool.false_ne_true
  have hfinal : ∀ (generator : G) (written cerr : String) (calls : List Call),
      (emit_final X generator written cerr calls).calls.countP Call.is_emit_skeleton =
        calls.countP Call.is_emit_skeleton := by
    intro generator written cerr calls
    rw [emit_final_calls, List.countP_append]
    rfl
  have hskeleton : ∀ (c_name code : String) (generator : G) (written cerr : String)
      (calls : List Call),
      (emit_skeleton_then_final X c_name code generator written cerr calls).calls.countP
          Call.is_emit_skeleton =
        calls.countP Call.is_emit_skeleton + 1 := by
    intro c_name code generator written cerr calls
    unfold emit_skeleton_then_final
    cases hs : emit_skeleton X.regex_replace c_name code with
    | none => simp only [List.countP_append]; rfl
    | some skeleton => simp only [hfinal, List.countP_append]; rfl
  cases hp : (prepare X v options).value with
  | error outcome =>
    rw [run_of_error X v options outcome hp]
    simp only [hprepare]
    exact ⟨Nat.zero_le _, fun _ => trivial⟩
  | ok prepared =>
    obtain ⟨c_name, generator⟩ := prepared
    rw [run_of_ok X v options c_name generator hp]
    cases ht : options.type with
    | Bare => simp only [hfinal, hprepare]; exact ⟨Nat.zero_le _, fun _ => trivial⟩
    | KernelPE =>
      simp only [hskeleton, hprepare]
      exact ⟨le_refl _, fun hh => (by cases hh)⟩
    | UserPE =>
      simp only [hskeleton, hprepare]
      exact ⟨le_refl _, fun hh => (by cases hh)⟩

/-- C16. For every command line, at most one skeleton is emitted. When the
command line is parsed in full, the output type is bare if neither `--sys`
nor `--dll` is among the parameters, and it is decided by the last of the two
flags in option position otherwise: the kernel driver for `--sys`, the user
mode library for `--dll`. A bare run emits no skeleton, and a successful run
has written the banner, then nothing for the bare type, the skeleton
`bpf2c_driver` for the kernel driver and the skeleton `bpf2c_dll` for the
library, then the generated code. -/
theorem one_output_mode {G V : Type} (X : Externals G V) (v : V) (argv0 : String)
    (parameters : List String) :
    (main X v argv0 parameters).calls.countP Call.is_emit_skeleton ≤ 1 ∧
    ∀ options,
      parse_parameters X.enable_skip_verify argv0 parameters Options.initial = .ok options →
      ("--sys" ∉ parameters → "--dll" ∉ parameters → options.type = .Bare) ∧
      (∀ front back o, parameters = front ++ "--sys" :: back →
        parse_parameters X.enable_skip_verify argv0 front Options.initial = .ok o →
        "--sys" ∉ back → "--dll" ∉ back → options.type = .KernelPE) ∧
      (∀ front back o, parameters = front ++ "--dll" :: back →
        parse_parameters X.enable_skip_verify argv0 front Options.initial = .ok o →
        "--sys" ∉ back → "--dll" ∉ back → options.type = .UserPE) ∧
      (options.type = .Bare →
        (main X v argv0 parameters).calls.countP Call.is_emit_skeleton = 0) ∧
      ((main X v argv0 parameters).outcome = .success →
        ∃ c_name generator skeleton,
          (prepare X v options).value = .ok (c_name, generator) ∧
          (main X v argv0 parameters).cout =
            banner options.file ++ skeleton ++ (X.emit_c_code generator).1 ∧
          (options.type = .Bare → skeleton = "") ∧
          (options.type = .KernelPE →
            emit_skeleton X.regex_replace c_name X.bpf2c_driver = some skeleton) ∧
          (options.type = .UserPE →
            emit_skeleton X.regex_replace c_name X.bpf2c_dll = some skeleton)) := by
  refine ⟨?_, ?_⟩
  · cases hparse : parse_parameters X.enable_skip_verify argv0 parameters Options.initial with
    | error written =>
      unfold main
      simp only [hparse]
      exact Nat.zero_le _
    | ok options =>
      rw [main_eq_run X v argv0 parameters options hparse]
      exact (run_skeleton_calls X v options).1
  · intro options hparse
    rw [main_eq_run X v argv0 parameters options hparse]
    refine ⟨?_, ?_, ?_, (run_skeleton_calls X v options).2, ?_⟩
    · intro hsys hdll
      exact parse_parameters_type _ argv0 parameters.length parameters _ options (le_refl _)
        hsys hdll hparse
    · intro front back o hparameters hfront hsys hdll
      rw [hparameters,
        parse_parameters_append _ argv0 _ front.length front _ o (le_refl _) hfront,
        parse_parameters_cons, if_pos rfl] at hparse
      exact parse_parameters_type _ argv0 back.length back _ options (le_refl _) hsys hdll
        hparse
    · intro front back o hparameters hfront hsys hdll
      rw [hparameters,
        parse_parameters_append _ argv0 _ front.length front _ o (le_refl _) hfront,
        parse_parameters_cons, if_neg (by decide), if_pos rfl] at hparse
      exact parse_parameters_type _ argv0 back.length back _ options (le_refl _) hsys hdll
        hparse
    · intro hsuccess
      obtain ⟨c_name, generator, skeleton, hp, _, hcout, _, hbare, hsys, hdll⟩ :=
        run_success X v options hsuccess
      exact ⟨c_name, generator, skeleton, hp, hcout, fun ht => (hbare ht).1,
        fun ht => (hsys ht).1, fun ht => (hdll ht).1⟩

set_option maxRecDepth 8192 in
/-- C16 at the command line `--sys --dll --bpf prog.o`: the later flag
decides, and the only skeleton written is that of the library. -/
theorem one_output_mode_witness :
    parse_parameters standard_world.enable_skip_verify "bpf2c"
        ["--sys", "--dll", "--bpf", "prog.o"] Options.initial = .ok sample_options_dll ∧
      sample_options_dll.type = .UserPE ∧
      (main standard_world "" "bpf2c" ["--sys", "--dll", "--bpf", "prog.o"]).calls.countP
        Call.is_emit_skeleton ≤ 1 ∧
      (main standard_world "" "bpf2c" ["--sys", "--dll", "--bpf", "prog.o"]).outcome =
        .success ∧
      (main standard_world "" "bpf2c" ["--sys", "--dll", "--bpf", "prog.o"]).cout =
        banner "prog.o" ++ "table prog;\n" ++ "code xdp_prog\ncode bind\n" ∧
      (main standard_world "" "bpf2c" ["--sys", "--dll", "--bpf", "prog.o"]).calls.filter
        Call.is_emit_skeleton = [.emit_skeleton "prog"] :=
  have h := (one_output_mode standard_world "" "bpf2c"
    ["--sys", "--dll", "--bpf", "prog.o"]).2 sample_options_dll rfl
  ⟨rfl,
    h.2.2.1 ["--sys"] ["--bpf", "prog.o"] { Options.initial with type := .KernelPE } rfl rfl
      (by decide) (by decide),
    (one_output_mode standard_world "" "bpf2c" ["--sys", "--dll", "--bpf", "prog.o"]).1,
    by rfl, by rfl, by rfl⟩

/-! ## The order of the calls on the generator -/

/-- The calls on the generator in a successful opening: the construction,
the section enumeration and the global parse. -/
theorem open_generator_on_generator {G V : Type} (X : Externals G V) (options : Options)
    (opened : Opened G) (h : (open_generator X options).value = .ok opened) :
    ∃ hash_value,
      (open_generator X options).calls.filter Call.on_generator =
        [.bpf_code_generator opened.c_name hash_value,
          .program_sections (.ok opened.sections), .parse] := by
  obtain ⟨hash_value, _, _, _, _, _, _, _, _, _, hcalls⟩ := open_generator_ok X options opened h
  refine ⟨hash_value, ?_⟩
  have hhash : (hash_file X options opened.data).calls.filter Call.on_generator = [] := by
    rw [List.filter_eq_nil_iff]
    intro c hc
    rw [((mem_hash_file_calls X options opened.data c).1 hc).1]
    exact Bool.false_ne_true
  have hglobal : (resolve_global_type X options).calls.filter Call.on_generator = [] := by
    rw [List.filter_eq_nil_iff]
    intro c hc
    rw [(resolve_global_type_cases X options).1 c hc]
    exact Bool.false_ne_true
  rw [hcalls, List.filter_cons, List.filter_append, List.filter_append, hhash, hglobal]
  rfl

/-- The calls on the generator in a successful run over the options. -/
theorem run_on_generator {G V : Type} (X : Externals G V) (v : V) (options : Options)
    (hsuccess : (run X v options).outcome = .success) :
    ∃ opened elf_file_hash parses,
      (open_generator X options).value = .ok opened ∧
      (run X v options).calls.filter Call.on_generator =
        [.bpf_code_generator opened.c_name elf_file_hash,
          .program_sections (.ok opened.sections), .parse] ++
          parses ++ opened.sections.map Call.generate ++ [.emit_c_code] ∧
      List.Forall₂ Call.parses parses opened.sections := by
  obtain ⟨c_name, generator, skeleton, hp, _, _, _, hbare, hsys, hdll⟩ :=
    run_success X v options hsuccess
  obtain ⟨opened, parsed, hopen, _, hparsed, _, hcalls⟩ :=
    prepare_ok X v options c_name generator hp
  obtain ⟨hash_value, hopen_calls⟩ := open_generator_on_generator X options opened hopen
  obtain ⟨parses, hparses, hforall⟩ :=
    parse_sections_ok X options opened.data opened.global opened.sections opened.generator v
      parsed hparsed
  have hgenerate : (opened.sections.map Call.generate).filter Call.on_generator =
      opened.sections.map Call.generate := by
    rw [List.filter_eq_self]
    intro c hc
    obtain ⟨s, _, hs⟩ := List.mem_map.1 hc
    rw [← hs]
    rfl
  have hprepare : (prepare X v options).calls.filter Call.on_generator =
      [.bpf_code_generator opened.c_name hash_value,
        .program_sections (.ok opened.sections), .parse] ++
        parses ++ opened.sections.map Call.generate := by
    rw [hcalls, List.filter_append, List.filter_append, hopen_calls, hparses, hgenerate,
      List.append_assoc]
  refine ⟨opened, hash_value, parses, hopen, ?_, hforall⟩
  cases ht : options.type with
  | Bare => rw [(hbare ht).2, List.filter_append, hprepare]; rfl
  | KernelPE => rw [(hsys ht).2, List.filter_append, hprepare]; rfl
  | UserPE => rw [(hdll ht).2, List.filter_append, hprepare]; rfl

/-- C18. When `main` returns 0, the calls on the generator object are, in
this order: its construction, the enumeration of the sections, the global
parse, one parse for each enumerated section in enumeration order, one
generate for each enumerated section in enumeration order, and `emit_c_code`.
So after the enumeration every section is parsed once and generated once,
every parse comes before every generate, and `emit_c_code` comes last. -/
theorem generator_call_order {G V : Type} (X : Externals G V) (v : V) (argv0 : String)
    (parameters : List String)
    (hsuccess : (main X v argv0 parameters).outcome = .success) :
    ∃ c_name elf_file_hash sections parses,
      (main X v argv0 parameters).calls.filter Call.on_generator =
        [.bpf_code_generator c_name elf_file_hash, .program_sections (.ok sections), .parse] ++
          parses ++ sections.map Call.generate ++ [.emit_c_code] ∧
      List.Forall₂ Call.parses parses sections := by
  cases hparse : parse_parameters X.enable_skip_verify argv0 parameters Options.initial with
  | error written =>
    unfold main at hsuccess
    simp [hparse] at hsuccess
  | ok options =>
    rw [main_eq_run X v argv0 parameters options hparse] at hsuccess ⊢
    obtain ⟨opened, elf_file_hash, parses, _, hcalls, hforall⟩ :=
      run_on_generator X v options hsuccess
    exact ⟨opened.c_name, elf_file_hash, opened.sections, parses, hcalls, hforall⟩

/-- C18 at the sample file with the sections `xdp_prog` and `bind`. -/
theorem generator_call_order_witness :
    (main sample_world "" "bpf2c" ["--bpf", "prog.o"]).outcome = .success ∧
      (main sample_world "" "bpf2c" ["--bpf", "prog.o"]).calls.filter Call.on_generator =
        [.bpf_code_generator "prog" (some [127, 69, 76]),
          .program_sections (.ok ["xdp_prog", "bind"]), .parse,
          .parse_section "xdp_prog" 1 10
            (some [120, 100, 112, 95, 112, 114, 111, 103, 7, 11, 6, 0, 0]),
          .parse_section "bind" 2 20 (some [98, 105, 110, 100, 7, 11, 6, 0, 0]),
          .generate "xdp_prog", .generate "bind", .emit_c_code] ∧
      ∃ c_name elf_file_hash sections parses,
        (main sample_world "" "bpf2c" ["--bpf", "prog.o"]).calls.filter Call.on_generator =
          [.bpf_code_generator c_name elf_file_hash, .program_sections (.ok sections),
            .parse] ++ parses ++ sections.map Call.generate ++ [.emit_c_code] ∧
        List.Forall₂ Call.parses parses sections :=
  ⟨by rfl, by rfl, generator_call_order sample_world "" "bpf2c" ["--bpf", "prog.o"] (by rfl)⟩

/-! ## Runs with verification disabled -/

theorem forall₂_exists_left {α β : Type} (R : α → β → Prop) :
    ∀ (l₁ : List α) (l₂ : List β), List.Forall₂ R l₁ l₂ → ∀ b ∈ l₂, ∃ a ∈ l₁, R a b := by
  intro l₁ l₂ h
  induction h with
  | nil => intro b hb; cases hb
  | cons hr _ ih =>
    intro b hb
    rcases List.mem_cons.1 hb with hb | hb
    · exact ⟨_, List.mem_cons_self _ _, hb ▸ hr⟩
    · obtain ⟨a, ha, hab⟩ := ih b hb
      exact ⟨a, List.mem_cons_of_mem _ ha, hab⟩

/-- With verification disabled no call of a run invokes the verifier, and
every parse of a section is handed no program information hash. -/
theorem run_unverified_calls {G V : Type} (X : Externals G V) (v : V) (options : Options)
    (hverify : options.verify_programs = false) :
    ∀ c ∈ (run X v options).calls, Call.on_verifier c = false ∧
      ∀ s pt at_ h, c = .parse_section s pt at_ h → h = none := by
  have hno : ¬ options.verify_programs = true := by rw [hverify]; exact Bool.false_ne_true
  intro c hc
  rcases mem_run_calls X v options c hc with hc | ⟨_, hc⟩ | hc
  · rcases mem_prepare_calls X v options c hc with h | ⟨opened, _, h | ⟨s, _, h⟩⟩
    · rcases open_generator_calls X options c h with
        h | ⟨h, _⟩ | h | ⟨_, _, h, _⟩ | ⟨_, h⟩ | h | ⟨h, _⟩ <;> rw [h] <;>
        exact ⟨rfl, fun _ _ _ _ hcontra => (by cases hcontra)⟩
    · refine parse_sections_calls_forall X options opened.data opened.global
        (fun c => Call.on_verifier c = false ∧
          ∀ s pt at_ h, c = .parse_section s pt at_ h → h = none)
        opened.sections ?_ opened.generator v c h
      intro s _ generator v c hc
      rcases mem_process_section_calls X options opened.data opened.global s generator v c
          hc with h | ⟨t, _, h | ⟨_, h | ⟨hash, hhash, h⟩⟩⟩
      · rw [((mem_lookup_calls _ _ _).1 h).2]
        exact ⟨rfl, fun _ _ _ _ hcontra => (by cases hcontra)⟩
      · exact absurd ((mem_verify_calls _ _ _ _ _ _ _).1 h).1 hno
      · exact absurd (mem_hash_calls _ _ _ _ h).1.1 hno
      · rw [h]
        refine ⟨rfl, fun _ _ _ h' heq => ?_⟩
        have hnone : hash = none := by
          unfold section_hash at hhash
          rw [if_neg (fun hh => hno hh.1)] at hhash
          exact (Except.ok.inj hhash).symm
        cases heq
        exact hnone
    · rw [h]
      exact ⟨rfl, fun _ _ _ _ hcontra => (by cases hcontra)⟩
  · rw [hc]
    exact ⟨rfl, fun _ _ _ _ hcontra => (by cases hcontra)⟩
  · rw [hc]
    exact ⟨rfl, fun _ _ _ _ hcontra => (by cases hcontra)⟩

/-- C19, as the code has it. With verification disabled no call of the run
invokes the verifier, neither to verify a section nor to ask for its program
information, and every section parse is handed no program information hash.
When `main` returns 0, every enumerated section was passed to
`generator.parse` and to `generator.generate`. -/
theorem unverified_sections_proceed {G V : Type} (X : Externals G V) (v : V) (argv0 : String)
    (parameters : List String) (options : Options)
    (hparse : parse_parameters X.enable_skip_verify argv0 parameters Options.initial =
      .ok options)
    (hverify : options.verify_programs = false) :
    (∀ c ∈ (main X v argv0 parameters).calls, Call.on_verifier c = false) ∧
    (∀ s pt at_ h, Call.parse_section s pt at_ h ∈ (main X v argv0 parameters).calls →
      h = none) ∧
    ((main X v argv0 parameters).outcome = .success →
      ∃ sections,
        Call.program_sections (.ok sections) ∈ (main X v argv0 parameters).calls ∧
        ∀ s ∈ sections,
          (∃ pt at_, Call.parse_section s pt at_ none ∈ (main X v argv0 parameters).calls) ∧
          Call.generate s ∈ (main X v argv0 parameters).calls) := by
  rw [main_eq_run X v argv0 parameters options hparse]
  have hcalls := run_unverified_calls X v options hverify
  refine ⟨fun c hc => (hcalls c hc).1, fun s pt at_ h hc => (hcalls _ hc).2 s pt at_ h rfl, ?_⟩
  intro hsuccess
  obtain ⟨opened, elf_file_hash, parses, _, hfilter, hforall⟩ :=
    run_on_generator X v options hsuccess
  have hmem : ∀ c, c ∈ [Call.bpf_code_generator opened.c_name elf_file_hash,
      .program_sections (.ok opened.sections), .parse] ++
      parses ++ opened.sections.map Call.generate ++ [.emit_c_code] →
      c ∈ (run X v options).calls := by
    intro c hc
    rw [← hfilter] at hc
    exact (List.mem_filter.1 hc).1
  refine ⟨opened.sections, hmem _ (by simp), ?_⟩
  intro s hs
  obtain ⟨c, hc, pt, at_, h, hparses⟩ := forall₂_exists_left Call.parses _ _ hforall s hs
  have hc' : c ∈ (run X v options).calls := hmem c (by simp [hc])
  have hnone : h = none := (hcalls c hc').2 s pt at_ h hparses
  refine ⟨⟨pt, at_, ?_⟩, hmem _ (by simp [hs])⟩
  rw [← hnone, ← hparses]
  exact hc'

/-- C19 at the sample file run with `--no-verify`. -/
theorem unverified_sections_proceed_witness :
    parse_parameters sample_world.enable_skip_verify "bpf2c" ["--bpf", "prog.o", "--no-verify"]
        Options.initial = .ok sample_options_unverified ∧
      sample_options_unverified.verify_programs = false ∧
      (main sample_world "" "bpf2c" ["--bpf", "prog.o", "--no-verify"]).outcome = .success ∧
      (∀ c ∈ (main sample_world "" "bpf2c" ["--bpf", "prog.o", "--no-verify"]).calls,
        Call.on_verifier c = false) ∧
      (main sample_world "" "bpf2c" ["--bpf", "prog.o", "--no-verify"]).calls =
        [.load_file_to_memory "prog.o", .hash_string "SHA256", .ElfCheckElf,
          .bpf_code_generator "prog" (some [127, 69, 76]),
          .program_sections (.ok ["xdp_prog", "bind"]), .parse,
          .ebpf_get_program_type_by_name "xdp_prog", .parse_section "xdp_prog" 1 10 none,
          .ebpf_get_program_type_by_name "bind", .parse_section "bind" 2 20 none,
          .generate "xdp_prog", .generate "bind", .emit_c_code] :=
  ⟨rfl, rfl, by rfl,
    (unverified_sections_proceed sample_world "" "bpf2c" ["--bpf", "prog.o", "--no-verify"]
      sample_options_unverified rfl rfl).1,
    by rfl⟩

/-- C19, as stated, fails when a later section has an unknown name: with
`--no-verify` and the sections `xdp_prog` and `mystery`, the type of
`xdp_prog` resolves and the section is parsed, but the lookup of `mystery`
fails, `main` returns 1, and `xdp_prog` is never passed to
`generator.generate`. -/
theorem unverified_section_not_generated :
    unknown_section_world.ebpf_get_program_type_by_name "xdp_prog" = some (1, 10) ∧
      (main unknown_section_world "" "bpf2c" ["--bpf", "prog.o", "--no-verify"]).calls =
        [.load_file_to_memory "prog.o", .hash_string "SHA256", .ElfCheckElf,
          .bpf_code_generator "prog" (some [127, 69, 76]),
          .program_sections (.ok ["xdp_prog", "mystery"]), .parse,
          .ebpf_get_program_type_by_name "xdp_prog", .parse_section "xdp_prog" 1 10 none,
          .ebpf_get_program_type_by_name "mystery"] ∧
      Call.generate "xdp_prog" ∉
        (main unknown_section_world "" "bpf2c" ["--bpf", "prog.o", "--no-verify"]).calls ∧
      (main unknown_section_world "" "bpf2c" ["--bpf", "prog.o", "--no-verify"]).outcome =
        .failure (.section_type_resolution "mystery") := by
  refine ⟨by rfl, by rfl, by decide, by rfl⟩

/-! ## Verified and unverified runs side by side -/

/-- Without hashing, the section loop of a verified run that parses every
section and the section loop of the unverified run hand the same sections
with the same types and no hash to the generator: the unverified loop parses
every section too, leaves the same generator and writes the same to
`std::cerr`. -/
theorem parse_sections_unverified_twin {G V : Type} (X : Externals G V) (options : Options)
    (hnone : options.hash_algorithm = "none") (data : List Nat)
    (global : Option (Nat × Nat)) :
    ∀ (sections : List String) (generator : G) (v v' : V) (parsed : G),
      (parse_sections X options data global sections generator v).value = .ok parsed →
      (parse_sections X { options with verify_programs := false } data global sections
          generator v').value = .ok parsed ∧
        (parse_sections X { options with verify_programs := false } data global sections
          generator v').cerr =
          (parse_sections X options data global sections generator v).cerr := by
  intro sections
  induction sections with
  | nil =>
    intro generator v v' parsed h
    exact ⟨h, rfl⟩
  | cons s rest ih =>
    intro generator v v' parsed h
    unfold parse_sections at h ⊢
    rw [Step.bind_value_ok] at h
    obtain ⟨state, hstate, hrest⟩ := h
    have hbody : ∃ v'',
        (process_section X { options with verify_programs := false } data global s generator
          v').value = .ok (state.1, v'') ∧
        (process_section X { options with verify_programs := false } data global s generator
          v').cerr = (process_section X options data global s generator v).cerr := by
      rw [process_section_eq] at hstate ⊢
      rw [process_section_eq]
      cases hres : resolved_types X global s with
      | none => simp [hres] at hstate
      | some types =>
        simp only [hres] at hstate ⊢
        have hunverified : ¬ verification_fails X { options with verify_programs := false }
            data s types.1 v' := fun hh => Bool.false_ne_true hh.1
        have hhash : ∀ w, section_hash X { options with verify_programs := false } w =
            .ok none := by
          intro w
          unfold section_hash
          rw [if_neg (fun hh => Bool.false_ne_true hh.1)]
        have hhash' : ∀ w, section_hash X options w = .ok none := by
          intro w
          unfold section_hash
          rw [if_neg (fun hh => hh.2 hnone)]
        by_cases hfail : verification_fails X options data s types.1 v
        · simp [hfail] at hstate
        · simp only [hfail, hunverified, if_false, hhash, hhash'] at hstate ⊢
          cases hp : X.parse_section generator s types.1 types.2 none with
          | error what => simp [hp] at hstate
          | ok g =>
            simp only [hp] at hstate ⊢
            have hstate' := Except.ok.inj hstate
            refine ⟨verified_state X { options with verify_programs := false } data s types.1 v',
              ?_, trivial⟩
            rw [← hstate']
    obtain ⟨v'', hvalue, hcerr⟩ := hbody
    obtain ⟨hvalue', hcerr'⟩ := ih state.1 state.2 v'' parsed hrest
    rw [Step.bind_eq_of_ok _ _ _ hvalue, Step.bind_eq_of_ok _ _ _ hstate]
    exact ⟨hvalue', by simp only [hcerr, hcerr']⟩

/-- The opening of a verified run that succeeds and the opening of the
unverified run are the same. -/
theorem open_generator_unverified_twin {G V : Type} (X : Externals G V) (options : Options)
    (opened : Opened G) (h : (open_generator X options).value = .ok opened) :
    open_generator X { options with verify_programs := false } = open_generator X options := by
  have h' := h
  unfold open_generator at h'
  rw [Step.bind_value_ok] at h'
  obtain ⟨⟨c_name, data, generator⟩, hconstructed, hfinish⟩ := h'
  have hconstruct : construct_generator X { options with verify_programs := false } =
      construct_generator X options := rfl
  have hglobal : resolve_global_type X { options with verify_programs := false } =
      resolve_global_type X options := rfl
  obtain ⟨_, _, hsections, hnonempty, _⟩ :=
    finish_opening_ok X options c_name data generator opened hfinish
  have henumerate : enumerate_sections X { options with verify_programs := false } generator =
      enumerate_sections X options generator := by
    unfold enumerate_sections
    rw [hsections]
    have h1 : ¬ (({ options with verify_programs := false } : Options).verify_programs = true ∧
        opened.sections.length = 0) := fun hh => Bool.false_ne_true hh.1
    have h2 : ¬ (options.verify_programs = true ∧ opened.sections.length = 0) := by
      intro hh
      exact hnonempty hh.1 (List.length_eq_zero.1 hh.2)
    simp only [Step.of_except, bind, Step.bind, Step.call, Step.pure, h1, h2, if_false]
  have hfinish_eq : finish_opening X { options with verify_programs := false } c_name data
      generator = finish_opening X options c_name data generator := by
    unfold finish_opening
    rw [henumerate, hglobal]
  unfold open_generator
  rw [hconstruct, Step.bind_eq_of_ok _ _ _ hconstructed, Step.bind_eq_of_ok _ _ _ hconstructed,
    hfinish_eq]

/-- Without hashing, a verified run that succeeds and the unverified run
write the same to `std::cout` and to `std::cerr`. -/
theorem run_unverified_twin {G V : Type} (X : Externals G V) (v v' : V) (options : Options)
    (hnone : options.hash_algorithm = "none")
    (hsuccess : (run X v options).outcome = .success) :
    (run X v' { options with verify_programs := false }).outcome = .success ∧
      (run X v' { options with verify_programs := false }).cout = (run X v options).cout ∧
      (run X v' { options with verify_programs := false }).cerr = (run X v options).cerr := by
  obtain ⟨c_name, generator, _, hp, _⟩ := run_success X v options hsuccess
  obtain ⟨opened, parsed, hopen, hname, hparsed, hgenerated, _⟩ :=
    prepare_ok X v options c_name generator hp
  have hopen_eq := open_generator_unverified_twin X options opened hopen
  obtain ⟨hparsed', hcerr'⟩ := parse_sections_unverified_twin X options hnone opened.data
    opened.global opened.sections opened.generator v v' parsed hparsed
  have hprepare : (prepare X v' { options with verify_programs := false }).value =
      (prepare X v options).value ∧
      (prepare X v' { options with verify_programs := false }).cerr =
        (prepare X v options).cerr := by
    unfold prepare
    rw [hopen_eq, Step.bind_eq_of_ok _ _ _ hopen, Step.bind_eq_of_ok _ _ _ hopen]
    simp only
    rw [Step.bind_eq_of_ok _ _ _ hparsed, Step.bind_eq_of_ok _ _ _ hparsed']
    simp only [hcerr']
    exact ⟨trivial, trivial⟩
  have hp' : (prepare X v' { options with verify_programs := false }).value =
      .ok (c_name, generator) := by rw [hprepare.1, hp]
  have hfinal : ∀ (written cerr cerr' : String) (calls calls' : List Call), cerr' = cerr →
      (emit_final X generator written cerr' calls').outcome =
        (emit_final X generator written cerr calls).outcome ∧
      (emit_final X generator written cerr' calls').cout =
        (emit_final X generator written cerr calls).cout ∧
      (emit_final X generator written cerr' calls').cerr =
        (emit_final X generator written cerr calls).cerr := by
    intro written cerr cerr' calls calls' hc
    unfold emit_final
    cases he : (X.emit_c_code generator).2 <;> simp [he, hc]
  have hskeleton : ∀ (code written cerr cerr' : String) (calls calls' : List Call),
      cerr' = cerr →
      (emit_skeleton_then_final X c_name code generator written cerr' calls').outcome =
        (emit_skeleton_then_final X c_name code generator written cerr calls).outcome ∧
      (emit_skeleton_then_final X c_name code generator written cerr' calls').cout =
        (emit_skeleton_then_final X c_name code generator written cerr calls).cout ∧
      (emit_skeleton_then_final X c_name code generator written cerr' calls').cerr =
        (emit_skeleton_then_final X c_name code generator written cerr calls).cerr := by
    intro code written cerr cerr' calls calls' hc
    unfold emit_skeleton_then_final
    cases emit_skeleton X.regex_replace c_name code with
    | none => exact ⟨rfl, rfl, hc⟩
    | some skeleton => exact hfinal _ _ _ _ _ hc
  have hsame : (run X v' { options with verify_programs := false }).outcome =
        (run X v options).outcome ∧
      (run X v' { options with verify_programs := false }).cout = (run X v options).cout ∧
      (run X v' { options with verify_programs := false }).cerr = (run X v options).cerr := by
    rw [run_of_ok X v options c_name generator hp,
      run_of_ok X v' { options with verify_programs := false } c_name generator hp']
    have hcerr := hprepare.2
    cases ht : options.type with
    | Bare => rw [ht] at hcerr; exact hfinal _ _ _ _ _ hcerr
    | KernelPE => rw [ht] at hcerr; exact hskeleton _ _ _ _ _ _ hcerr
    | UserPE => rw [ht] at hcerr; exact hskeleton _ _ _ _ _ _ hcerr
  exact ⟨by rw [hsame.1, hsuccess], hsame.2.1, hsame.2.2⟩

/-- C13, as the code has it. `main` writes nothing that marks a run as
unverified. A verified and an unverified run differ in what they hand to the
generator only by the program information hashes, so without hashing they
cannot be told apart: when a run with the hash algorithm "none" returns 0, the
same command line followed by `--no-verify` returns 0 as well and writes
exactly the same to `std::cout` and to `std::cerr`. -/
theorem unverified_run_writes_the_same {G V : Type} (X : Externals G V) (v v' : V)
    (argv0 : String) (parameters : List String) (options : Options)
    (hskip : X.enable_skip_verify = true)
    (hparse : parse_parameters X.enable_skip_verify argv0 parameters Options.initial =
      .ok options)
    (hnone : options.hash_algorithm = "none")
    (hsuccess : (main X v argv0 parameters).outcome = .success) :
    parse_parameters X.enable_skip_verify argv0 (parameters ++ ["--no-verify"])
        Options.initial = .ok { options with verify_programs := false } ∧
      (main X v' argv0 (parameters ++ ["--no-verify"])).outcome = .success ∧
      (main X v' argv0 (parameters ++ ["--no-verify"])).cout =
        (main X v argv0 parameters).cout ∧
      (main X v' argv0 (parameters ++ ["--no-verify"])).cerr =
        (main X v argv0 parameters).cerr := by
  have hparse' : parse_parameters X.enable_skip_verify argv0 (parameters ++ ["--no-verify"])
      Options.initial = .ok { options with verify_programs := false } := by
    rw [parse_parameters_append _ argv0 _ parameters.length parameters _ options (le_refl _)
      hparse, parse_parameters_cons, if_neg (by decide), if_neg (by decide),
      if_pos ⟨rfl, hskip⟩]
    rfl
  rw [main_eq_run X v argv0 parameters options hparse] at hsuccess ⊢
  rw [main_eq_run X v' argv0 _ _ hparse']
  exact ⟨hparse', run_unverified_twin X v v' options hnone hsuccess⟩

/-- C13 at the command line `--bpf prog.o --type xdp --hash none`. -/
theorem unverified_run_writes_the_same_witness :
    sample_world.enable_skip_verify = true ∧
      parse_parameters sample_world.enable_skip_verify "bpf2c"
        ["--bpf", "prog.o", "--type", "xdp", "--hash", "none"] Options.initial =
        .ok sample_options_typed_unhashed ∧
      sample_options_typed_unhashed.hash_algorithm = "none" ∧
      (main sample_world "" "bpf2c"
        ["--bpf", "prog.o", "--type", "xdp", "--hash", "none"]).outcome = .success ∧
      (main sample_world "" "bpf2c"
        (["--bpf", "prog.o", "--type", "xdp", "--hash", "none"] ++ ["--no-verify"])).cout =
        (main sample_world "" "bpf2c"
          ["--bpf", "prog.o", "--type", "xdp", "--hash", "none"]).cout :=
  ⟨rfl, rfl, rfl, by rfl,
    (unverified_run_writes_the_same sample_world "" "" "bpf2c"
      ["--bpf", "prog.o", "--type", "xdp", "--hash", "none"] sample_options_typed_unhashed
      rfl rfl rfl (by rfl)).2.2.1⟩

/-- C13, as stated, fails at the sample file with the hash algorithm "none":
the run with `--no-verify` and the run without it both return 0, with the same
type resolution, and they write the same to `std::cout` and nothing to
`std::cerr`, although only the second one invoked the verifier. -/
theorem unverified_run_not_marked :
    (main sample_world "" "bpf2c" ["--bpf", "prog.o", "--hash", "none"]).outcome.exit_code =
        some 0 ∧
      (main sample_world "" "bpf2c"
        ["--bpf", "prog.o", "--hash", "none", "--no-verify"]).outcome.exit_code = some 0 ∧
      Call.ebpf_api_elf_verify_section_from_memory "bind" 2
          { result := 0, report := none, error_message := none } ∈
        (main sample_world "" "bpf2c" ["--bpf", "prog.o", "--hash", "none"]).calls ∧
      (∀ c ∈ (main sample_world "" "bpf2c"
          ["--bpf", "prog.o", "--hash", "none", "--no-verify"]).calls,
        Call.on_verifier c = false) ∧
      (main sample_world "" "bpf2c" ["--bpf", "prog.o", "--hash", "none", "--no-verify"]).cout =
        (main sample_world "" "bpf2c" ["--bpf", "prog.o", "--hash", "none"]).cout ∧
      (main sample_world "" "bpf2c" ["--bpf", "prog.o", "--hash", "none"]).cout =
        "// Copyright (c) Microsoft Corporation\n// SPDX-License-Identifier: MIT\n\n" ++
          "// Do not alter this generated file.\n" ++
          "// This file was generated from prog.o\n\n" ++ "code xdp_prog\ncode bind\n" ∧
      (main sample_world "" "bpf2c" ["--bpf", "prog.o", "--hash", "none", "--no-verify"]).cerr =
        "" ∧
      (main sample_world "" "bpf2c" ["--bpf", "prog.o", "--hash", "none"]).cerr = "" := by
  refine ⟨by rfl, by rfl, by decide, by decide, by rfl, by rfl, by rfl, by rfl⟩

/-! ## Determinism -/

/-- The name of the program does not change how the parameters are
parsed. -/
theorem parse_parameters_argv0 (e : Bool) (argv0 argv0' : String) :
    ∀ (n : Nat) (parameters : List String) (o options : Options), parameters.length ≤ n →
      parse_parameters e argv0 parameters o = .ok options →
      parse_parameters e argv0' parameters o = .ok options := by
  intro n
  induction n with
  | zero =>
    intro parameters o options hn h
    cases parameters with
    | nil => simpa only [parse_parameters] using h
    | cons p rest => simp at hn
  | succ n ih =>
    intro parameters o options hn h
    cases parameters with
    | nil => simpa only [parse_parameters] using h
    | cons p rest =>
      have hrest : rest.length ≤ n := by simpa using hn
      rw [parse_parameters_cons] at h ⊢
      split_ifs at h ⊢
      · exact ih rest _ options hrest h
      · exact ih rest _ options hrest h
      · exact ih rest _ options hrest h
      · cases rest with
        | nil => cases h
        | cons value rest => exact ih rest _ options (by simp at hrest; omega) h
      · cases rest with
        | nil => cases h
        | cons value rest => exact ih rest _ options (by simp at hrest; omega) h
      · cases rest with
        | nil => cases h
        | cons value rest => exact ih rest _ options (by simp at hrest; omega) h

/-- A run consults the file system only for the input path: it is the same
in a world whose file system answers the same for that path. -/
theorem run_same_file {G V : Type} (X : Externals G V) (stat : String → Option Nat)
    (ifstream : String → Option (List Nat)) (v : V) (options : Options)
    (hstat : stat options.file = X.stat options.file)
    (hifstream : ifstream options.file = X.ifstream options.file) :
    run { X with stat := stat, ifstream := ifstream } v options = run X v options := by
  have hload : load_file_to_memory { X with stat := stat, ifstream := ifstream } options.file =
      load_file_to_memory X options.file := by
    unfold load_file_to_memory
    simp only [hstat, hifstream]
  have hconstruct : construct_generator { X with stat := stat, ifstream := ifstream } options =
      construct_generator X options := by
    unfold construct_generator
    rw [hload]
    rfl
  have hopen : open_generator { X with stat := stat, ifstream := ifstream } options =
      open_generator X options := by
    unfold open_generator
    rw [hconstruct]
    rfl
  have hparse : ∀ (data : List Nat) (global : Option (Nat × Nat)) (sections : List String)
      (generator : G) (v : V),
      parse_sections { X with stat := stat, ifstream := ifstream } options data global sections
          generator v =
        parse_sections X options data global sections generator v := by
    intro data global sections
    induction sections with
    | nil => intro generator v; rfl
    | cons s rest ih =>
      intro generator v
      unfold parse_sections
      have hbody : process_section { X with stat := stat, ifstream := ifstream } options data
          global s generator v = process_section X options data global s generator v := rfl
      rw [hbody]
      simp only [ih]
  have hgenerate : ∀ (sections : List String) (generator : G),
      generate_sections { X with stat := stat, ifstream := ifstream } sections generator =
        generate_sections X sections generator := by
    intro sections
    induction sections with
    | nil => intro generator; rfl
    | cons s rest ih =>
      intro generator
      unfold generate_sections
      simp only [ih]
  have hprepare : prepare { X with stat := stat, ifstream := ifstream } v options =
      prepare X v options := by
    unfold prepare
    rw [hopen]
    simp only [hparse, hgenerate]
  unfold run
  rw [hprepare]
  rfl

/-- C17. What `main` writes to `std::cout`, how it ends (so its exit code,
when it returns) and the calls it makes are determined by the parameters, by
the contents of the input file and by the answers of its collaborators: two
runs over the same parameters give the same, whatever the name of the program
is and whatever the file system holds at other paths. The program information hash
of a section is determined by the hash algorithm and by the program
information that the verifier reports: it is the same for any two sections
and verifier states with the same report. -/
theorem main_deterministic {G V : Type} (X : Externals G V) (stat : String → Option Nat)
    (ifstream : String → Option (List Nat)) (v : V) (argv0 argv0' : String)
    (parameters : List String)
    (hfile : ∀ options,
      parse_parameters X.enable_skip_verify argv0 parameters Options.initial = .ok options →
      stat options.file = X.stat options.file ∧
        ifstream options.file = X.ifstream options.file) :
    (main { X with stat := stat, ifstream := ifstream } v argv0' parameters).cout =
        (main X v argv0 parameters).cout ∧
      (main { X with stat := stat, ifstream := ifstream } v argv0' parameters).outcome =
        (main X v argv0 parameters).outcome ∧
      (main { X with stat := stat, ifstream := ifstream } v argv0' parameters).calls =
        (main X v argv0 parameters).calls ∧
      (∀ (options options' : Options) (s s' : String) (w w' : V),
        options'.verify_programs = options.verify_programs →
        options'.hash_algorithm = options.hash_algorithm →
        X.ebpf_get_program_info_from_verifier w' = X.ebpf_get_program_info_from_verifier w →
        (hash_section X options' s' w').value.toOption =
          (hash_section X options s w).value.toOption) := by
  have hhash : ∀ (options options' : Options) (s s' : String) (w w' : V),
      options'.verify_programs = options.verify_programs →
      options'.hash_algorithm = options.hash_algorithm →
      X.ebpf_get_program_info_from_verifier w' = X.ebpf_get_program_info_from_verifier w →
      (hash_section X options' s' w').value.toOption =
        (hash_section X options s w).value.toOption := by
    intro options options' s s' w w' hv ha hr
    rw [hash_section_eq, hash_section_eq]
    have hsame : section_hash X options' w' = section_hash X options w := by
      unfold section_hash
      rw [hv, ha, hr]
    rw [hsame]
    cases section_hash X options w <;> rfl
  cases hparse : parse_parameters X.enable_skip_verify argv0 parameters Options.initial with
  | error written =>
    have hparse' : ∃ written', parse_parameters X.enable_skip_verify argv0' parameters
        Options.initial = .error written' := by
      cases h : parse_parameters X.enable_skip_verify argv0' parameters Options.initial with
      | error written' => exact ⟨written', rfl⟩
      | ok options =>
        rw [parse_parameters_argv0 _ argv0' argv0 parameters.length parameters _ options
          (le_refl _) h] at hparse
        cases hparse
    obtain ⟨written', hparse'⟩ := hparse'
    have h1 : main X v argv0 parameters =
        { outcome := .failure .option_parsing, cout := "", cerr := written, calls := [] } := by
      unfold main; simp only [hparse]
    have h2 : main { X with stat := stat, ifstream := ifstream } v argv0' parameters =
        { outcome := .failure .option_parsing, cout := "", cerr := written', calls := [] } := by
      unfold main; simp only [hparse']
    rw [h1, h2]
    exact ⟨rfl, rfl, rfl, hhash⟩
  | ok options =>
    have hparse' : parse_parameters X.enable_skip_verify argv0' parameters Options.initial =
        .ok options :=
      parse_parameters_argv0 _ argv0 argv0' parameters.length parameters _ options (le_refl _)
        hparse
    rw [main_eq_run X v argv0 parameters options hparse,
      main_eq_run { X with stat := stat, ifstream := ifstream } v argv0' parameters options
        hparse',
      run_same_file X stat ifstream v options (hfile options hparse).1 (hfile options hparse).2]
    exact ⟨rfl, rfl, rfl, hhash⟩

/-- C17 at the sample file, for a program called `bpf2c.exe` in a world in
which every path leads to a file of three bytes. -/
theorem main_deterministic_witness :
    (main sample_world "" "bpf2c" ["--bpf", "prog.o"]).outcome = .success ∧
    (main { sample_world with
          stat := fun _ => some 3, ifstream := fun _ => some [127, 69, 76] }
        "" "bpf2c.exe" ["--bpf", "prog.o"]).cout =
      (main sample_world "" "bpf2c" ["--bpf", "prog.o"]).cout ∧
    (main { sample_world with
          stat := fun _ => some 3, ifstream := fun _ => some [127, 69, 76] }
        "" "bpf2c.exe" ["--bpf", "prog.o"]).outcome =
      (main sample_world "" "bpf2c" ["--bpf", "prog.o"]).outcome :=
  have h := main_deterministic sample_world (fun _ => some 3) (fun _ => some [127, 69, 76]) ""
    "bpf2c" "bpf2c.exe" ["--bpf", "prog.o"]
    (fun options hparse =>
      (Except.ok.inj (show (Except.ok sample_options : Except String Options) = .ok options
        from hparse)) ▸ ⟨rfl, rfl⟩)
  ⟨by rfl, h.1, h.2.1⟩

/-! ## How a run ends -/

theorem find_last_of_from_bound (c : Char) :
    ∀ (l : List Char) (position found : Nat),
      find_last_of_from c l position found = found ∨
        (position ≤ find_last_of_from c l position found ∧
          find_last_of_from c l position found < position + l.length) := by
  intro l
  induction l with
  | nil => intro position found; exact Or.inl rfl
  | cons x rest ih =>
    intro position found
    unfold find_last_of_from
    rcases ih (position + 1) (if x = c then position else found) with h | ⟨h1, h2⟩
    · rw [h]
      by_cases hx : x = c
      · simp only [hx, if_true]
        exact Or.inr ⟨le_refl _, by simp⟩
      · simp only [hx, if_false]
        exact Or.inl trivial
    · refine Or.inr ⟨by omega, ?_⟩
      simp only [List.length_cons]
      omega

/-- The artifact name is defined for every input path: neither `substr` of
lines 214-215 can throw. -/
theorem derive_c_name_total (file : String) : ∃ c_name, derive_c_name file = some c_name := by
  unfold derive_c_name
  have hpos : (find_last_of file '\\' + 1) % 2 ^ 64 ≤ file.length := by
    unfold find_last_of
    rcases find_last_of_from_bound '\\' file.toList 0 npos with h | ⟨_, h⟩
    · rw [h]
      have : (npos + 1) % 2 ^ 64 = 0 := by decide
      rw [this]
      exact Nat.zero_le _
    · have hlen : file.toList.length = file.length := rfl
      rw [hlen] at h
      exact le_trans (Nat.mod_le _ _) (by omega)
  have hfirst : ∃ c, substr file ((find_last_of file '\\' + 1) % 2 ^ 64) npos = some c := by
    unfold substr
    rw [if_neg (Nat.not_lt.2 hpos)]
    exact ⟨_, rfl⟩
  obtain ⟨c, hc⟩ := hfirst
  rw [hc]
  unfold substr
  simp only [gt_iff_lt, Nat.not_lt_zero, if_false]
  exact ⟨_, rfl⟩

theorem append_ne_empty (text cerr : String) (h : cerr ≠ "") : text ++ cerr ≠ "" := by
  intro hcontra
  apply h
  have hdata := congrArg String.data hcontra
  rw [String.data_append] at hdata
  exact String.ext (List.append_eq_nil.1 hdata).2

theorem line_ne_empty (line : String) : line ++ "\n" ≠ "" :=
  append_ne_empty line "\n" (by decide)

theorem reported_or_unexplained_front (outcome : Outcome) (calls front : List Call)
    (cerr text : String) (h : reported_or_unexplained outcome calls cerr) :
    reported_or_unexplained outcome (front ++ calls) (text ++ cerr) := by
  refine ⟨fun step hs => append_ne_empty _ _ (h.1 step hs), fun step hs => ?_⟩
  obtain ⟨s, c, h1, h2, h3⟩ := h.2 step hs
  exact ⟨s, c, h1, List.mem_append_right _ h2, h3⟩

theorem Step.ends_well_bind {α β : Type} (s : Step α) (f : α → Step β)
    (hs : s.ends_well) (hf : ∀ a, s.value = .ok a → (f a).ends_well) :
    (s >>= f).ends_well := by
  intro outcome h
  cases hv : s.value with
  | error o =>
    rw [Step.bind_eq_of_error s f o hv] at h ⊢
    have ho : o = outcome := Except.error.inj h
    rw [← ho]
    exact hs o hv
  | ok a =>
    rw [Step.bind_eq_of_ok s f a hv] at h ⊢
    exact reported_or_unexplained_front _ _ _ _ _ (hf a hv outcome h)

theorem Step.ends_well_of_ok {α : Type} (s : Step α) (h : ∃ a, s.value = .ok a) :
    s.ends_well := by
  intro outcome ho
  obtain ⟨a, ha⟩ := h
  rw [ha] at ho
  cases ho

theorem Step.ends_well_return_1 {α : Type} (step : Failure) (line : String) :
    (Step.return_1 step line : Step α).ends_well := by
  intro outcome ho
  have ho' : Outcome.failure step = outcome := Except.error.inj ho
  rw [← ho']
  exact ⟨fun _ _ => line_ne_empty line, fun _ hcontra => (by cases hcontra)⟩

theorem Step.ends_well_of_except {α : Type} (step : Failure) (r : Except String α) :
    (Step.of_except step r).ends_well := by
  cases r with
  | ok a => exact Step.ends_well_of_ok _ ⟨a, rfl⟩
  | error what =>
    intro outcome ho
    have ho' : Outcome.failure step = outcome := Except.error.inj ho
    rw [← ho']
    exact ⟨fun _ _ => line_ne_empty what, fun _ hcontra => (by cases hcontra)⟩

theorem artifact_name_ends_well (file : String) : (artifact_name file).ends_well := by
  obtain ⟨c_name, h⟩ := derive_c_name_total file
  refine Step.ends_well_of_ok _ ⟨c_name, ?_⟩
  unfold artifact_name
  rw [h]
  rfl

theorem hash_file_ends_well {G V : Type} (X : Externals G V) (options : Options)
    (data : List Nat) : (hash_file X options data).ends_well := by
  unfold hash_file
  split_ifs
  · refine Step.ends_well_bind _ _ (Step.ends_well_of_ok _ ⟨(), rfl⟩) (fun _ _ => ?_)
    refine Step.ends_well_bind _ _ (Step.ends_well_of_except _ _) (fun _ _ => ?_)
    exact Step.ends_well_of_ok _ ⟨_, rfl⟩
  · exact Step.ends_well_of_ok _ ⟨_, rfl⟩

theorem check_elf_ends_well {G V : Type} (X : Externals G V) (data : List Nat) :
    (check_elf X data).ends_well := by
  unfold check_elf
  refine Step.ends_well_bind _ _ (Step.ends_well_of_ok _ ⟨(), rfl⟩) (fun _ _ => ?_)
  refine Step.ends_well_bind _ _ (Step.ends_well_of_ok _ ⟨(), rfl⟩) (fun _ _ => ?_)
  split_ifs
  · exact Step.ends_well_return_1 _ _
  · exact Step.ends_well_of_ok _ ⟨_, rfl⟩

theorem enumerate_sections_ends_well {G V : Type} (X : Externals G V) (options : Options)
    (generator : G) : (enumerate_sections X options generator).ends_well := by
  unfold enumerate_sections
  refine Step.ends_well_bind _ _ (Step.ends_well_of_ok _ ⟨(), rfl⟩) (fun _ _ => ?_)
  refine Step.ends_well_bind _ _ (Step.ends_well_of_except _ _) (fun _ _ => ?_)
  split_ifs
  · exact Step.ends_well_return_1 _ _
  · exact Step.ends_well_of_ok _ ⟨_, rfl⟩

theorem resolve_global_type_ends_well {G V : Type} (X : Externals G V) (options : Options) :
    (resolve_global_type X options).ends_well := by
  unfold resolve_global_type
  split_ifs
  · refine Step.ends_well_bind _ _ (Step.ends_well_of_ok _ ⟨(), rfl⟩) (fun _ _ => ?_)
    cases X.ebpf_get_program_type_by_name options.type_string with
    | none => exact Step.ends_well_return_1 _ _
    | some types => exact Step.ends_well_of_ok _ ⟨_, rfl⟩
  · exact Step.ends_well_of_ok _ ⟨_, rfl⟩

theorem open_generator_ends_well {G V : Type} (X : Externals G V) (options : Options) :
    (open_generator X options).ends_well := by
  unfold open_generator construct_generator finish_opening
  refine Step.ends_well_bind _ _ ?_ (fun _ _ => ?_)
  · refine Step.ends_well_bind _ _ (artifact_name_ends_well _) (fun _ _ => ?_)
    refine Step.ends_well_bind _ _ (Step.ends_well_of_ok _ ⟨(), rfl⟩) (fun _ _ => ?_)
    refine Step.ends_well_bind _ _ (Step.ends_well_of_except _ _) (fun _ _ => ?_)
    refine Step.ends_well_bind _ _ (hash_file_ends_well _ _ _) (fun _ _ => ?_)
    refine Step.ends_well_bind _ _ (check_elf_ends_well _ _) (fun _ _ => ?_)
    refine Step.ends_well_bind _ _ (Step.ends_well_of_ok _ ⟨(), rfl⟩) (fun _ _ => ?_)
    refine Step.ends_well_bind _ _ (Step.ends_well_of_except _ _) (fun _ _ => ?_)
    exact Step.ends_well_of_ok _ ⟨_, rfl⟩
  · refine Step.ends_well_bind _ _ (enumerate_sections_ends_well _ _ _) (fun _ _ => ?_)
    refine Step.ends_well_bind _ _ (Step.ends_well_of_ok _ ⟨(), rfl⟩) (fun _ _ => ?_)
    refine Step.ends_well_bind _ _ (Step.ends_well_of_except _ _) (fun _ _ => ?_)
    refine Step.ends_well_bind _ _ (resolve_global_type_ends_well _ _) (fun _ _ => ?_)
    exact Step.ends_well_of_ok _ ⟨_, rfl⟩

theorem process_section_ends_well {G V : Type} (X : Externals G V) (options : Options)
    (data : List Nat) (global : Option (Nat × Nat)) (s : String) (generator : G) (v : V) :
    (process_section X options data global s generator v).ends_well := by
  intro outcome ho
  rw [process_section_eq] at ho ⊢
  cases hres : resolved_types X global s with
  | none =>
    simp only [hres] at ho ⊢
    rw [← Except.error.inj ho]
    exact ⟨fun _ _ => line_ne_empty _, fun _ hcontra => (by cases hcontra)⟩
  | some types =>
    simp only [hres] at ho ⊢
    by_cases hfail : verification_fails X options data s types.1 v
    · simp only [hfail, if_true] at ho ⊢
      rw [← Except.error.inj ho]
      unfold verification_failure
      cases hm : (X.ebpf_api_elf_verify_section_from_memory v data s types.1).1.error_message with
      | none =>
        refine ⟨fun _ hcontra => (by cases hcontra), fun step hstep => ?_⟩
        refine ⟨s, .ebpf_api_elf_verify_section_from_memory s types.1
          (X.ebpf_api_elf_verify_section_from_memory v data s types.1).1,
          (Outcome.crashed.inj hstep).symm, ?_, ⟨types.1, _, rfl, hfail.2, hm⟩⟩
        apply List.mem_append_right
        unfold verify_calls
        rw [if_pos hfail.1]
        exact List.mem_singleton_self _
      | some message =>
        exact ⟨fun _ _ => line_ne_empty _, fun _ hcontra => (by cases hcontra)⟩
    · simp only [hfail, if_false] at ho ⊢
      cases hh : section_hash X options (verified_state X options data s types.1 v) with
      | error what =>
        simp only [hh] at ho ⊢
        rw [← Except.error.inj ho]
        exact ⟨fun _ _ => line_ne_empty _, fun _ hcontra => (by cases hcontra)⟩
      | ok program_info_hash =>
        simp only [hh] at ho ⊢
        cases hp : X.parse_section generator s types.1 types.2 program_info_hash with
        | error what =>
          simp only [hp] at ho ⊢
          rw [← Except.error.inj ho]
          exact ⟨fun _ _ => line_ne_empty _, fun _ hcontra => (by cases hcontra)⟩
        | ok parsed => simp [hp] at ho

theorem parse_sections_ends_well {G V : Type} (X : Externals G V) (options : Options)
    (data : List Nat) (global : Option (Nat × Nat)) :
    ∀ (sections : List String) (generator : G) (v : V),
      (parse_sections X options data global sections generator v).ends_well := by
  intro sections
  induction sections with
  | nil => intro generator v; exact Step.ends_well_of_ok _ ⟨generator, rfl⟩
  | cons s rest ih =>
    intro generator v
    unfold parse_sections
    exact Step.ends_well_bind _ _ (process_section_ends_well _ _ _ _ _ _ _)
      (fun state _ => ih state.1 state.2)

theorem generate_sections_ends_well {G V : Type} (X : Externals G V) :
    ∀ (sections : List String) (generator : G),
      (generate_sections X sections generator).ends_well := by
  intro sections
  induction sections with
  | nil => intro generator; exact Step.ends_well_of_ok _ ⟨generator, rfl⟩
  | cons s rest ih =>
    intro generator
    unfold generate_sections
    refine Step.ends_well_bind _ _ (Step.ends_well_of_ok _ ⟨(), rfl⟩) (fun _ _ => ?_)
    exact Step.ends_well_bind _ _ (Step.ends_well_of_except _ _) (fun g _ => ih g)

/-- Every early end before the first write to `std::cout` is reported on
`std::cerr` and returns 1, except the rejection of a section by a verifier
that leaves `error_message` null. -/
theorem prepare_ends_well {G V : Type} (X : Externals G V) (v : V) (options : Options) :
    (prepare X v options).ends_well := by
  unfold prepare
  refine Step.ends_well_bind _ _ (open_generator_ends_well _ _) (fun _ _ => ?_)
  refine Step.ends_well_bind _ _ (parse_sections_ends_well _ _ _ _ _ _ _) (fun _ _ => ?_)
  refine Step.ends_well_bind _ _ (generate_sections_ends_well _ _ _) (fun _ _ => ?_)
  exact Step.ends_well_of_ok _ ⟨_, rfl⟩

theorem parse_parameters_error_ne_empty (e : Bool) (argv0 : String) :
    ∀ (n : Nat) (parameters : List String) (o : Options) (written : String),
      parameters.length ≤ n →
      parse_parameters e argv0 parameters o = .error written → written ≠ "" := by
  have hhelp : help_text e argv0 ≠ "" := by
    unfold help_text
    intro h
    have hlen := congrArg String.length h
    simp only [String.length_append] at hlen
    have h12 : "Options are:".length = 12 := by decide
    have h0 : "".length = 0 := rfl
    rw [h12, h0] at hlen
    omega
  intro n
  induction n with
  | zero =>
    intro parameters o written hn h
    cases parameters with
    | nil => simp only [parse_parameters] at h; cases h
    | cons p rest => simp at hn
  | succ n ih =>
    intro parameters o written hn h
    cases parameters with
    | nil => simp only [parse_parameters] at h; cases h
    | cons p rest =>
      have hrest : rest.length ≤ n := by simpa using hn
      rw [parse_parameters_cons] at h
      split_ifs at h
      · exact ih rest _ written hrest h
      · exact ih rest _ written hrest h
      · exact ih rest _ written hrest h
      · cases rest with
        | nil => rw [← Except.error.inj h]; exact line_ne_empty _
        | cons value rest => exact ih rest _ written (by simp at hrest; omega) h
      · cases rest with
        | nil => rw [← Except.error.inj h]; exact line_ne_empty _
        | cons value rest => exact ih rest _ written (by simp at hrest; omega) h
      · cases rest with
        | nil => rw [← Except.error.inj h]; exact line_ne_empty _
        | cons value rest => exact ih rest _ written (by simp at hrest; omega) h
      · rw [← Except.error.inj h]; exact hhelp

/-- How the emission ends once everything before it has succeeded. -/
theorem run_emission_cases {G V : Type} (X : Externals G V) (v : V) (options : Options)
    (c_name : String) (generator : G)
    (hp : (prepare X v options).value = .ok (c_name, generator)) :
    ((run X v options).outcome = .success ∧ (X.emit_c_code generator).2 = none ∧
        Call.emit_c_code ∈ (run X v options).calls) ∨
      ((run X v options).outcome = .failure .final_emit ∧ (run X v options).cerr ≠ "") ∨
      (run X v options).outcome = .crashed .skeleton_emission := by
  have hfinal : ∀ (written cerr : String) (calls : List Call),
      ((emit_final X generator written cerr calls).outcome = .success ∧
          (X.emit_c_code generator).2 = none ∧
          Call.emit_c_code ∈ (emit_final X generator written cerr calls).calls) ∨
        ((emit_final X generator written cerr calls).outcome = .failure .final_emit ∧
          (emit_final X generator written cerr calls).cerr ≠ "") := by
    intro written cerr calls
    unfold emit_final
    cases he : (X.emit_c_code generator).2 with
    | none => simp only [he]; exact Or.inl ⟨trivial, by simp⟩
    | some what =>
      simp only [he]
      refine Or.inr ⟨trivial, ?_⟩
      rw [String.append_assoc]
      exact append_ne_empty _ _ (line_ne_empty _)
  have hskeleton : ∀ (code written cerr : String) (calls : List Call),
      ((emit_skeleton_then_final X c_name code generator written cerr calls).outcome =
            .success ∧ (X.emit_c_code generator).2 = none ∧
          Call.emit_c_code ∈
            (emit_skeleton_then_final X c_name code generator written cerr calls).calls) ∨
        ((emit_skeleton_then_final X c_name code generator written cerr calls).outcome =
            .failure .final_emit ∧
          (emit_skeleton_then_final X c_name code generator written cerr calls).cerr ≠ "") ∨
        (emit_skeleton_then_final X c_name code generator written cerr calls).outcome =
          .crashed .skeleton_emission := by
    intro code written cerr calls
    unfold emit_skeleton_then_final
    cases emit_skeleton X.regex_replace c_name code with
    | none => exact Or.inr (Or.inr rfl)
    | some skeleton =>
      rcases hfinal (written ++ skeleton) cerr (calls ++ [.emit_skeleton c_name]) with h | h
      · exact Or.inl h
      · exact Or.inr (Or.inl h)
  rw [run_of_ok X v options c_name generator hp]
  cases options.type with
  | Bare =>
    rcases hfinal (banner options.file) (prepare X v options).cerr
        (prepare X v options).calls with h | h
    · exact Or.inl h
    · exact Or.inr (Or.inl h)
  | KernelPE => exact hskeleton _ _ _ _
  | UserPE => exact hskeleton _ _ _ _

/-- C11, as the code has it. `main` returns 0 exactly when every step has
succeeded, and then `emit_c_code` was called and threw nothing. When a step
fails with `return 1` or with a `std::runtime_error`, `main` returns 1,
something was written to `std::cerr`, and nothing was written to `std::cout`
unless the step is the final emit. But `main` does not always return: it ends
without an exit code when `substr` throws in `emit_skeleton` and when the
verifier rejects a section and leaves `error_message` null. -/
theorem exit_code_contract {G V : Type} (X : Externals G V) (v : V) (argv0 : String)
    (parameters : List String) :
    ((main X v argv0 parameters).outcome.exit_code = some 0 ↔
      (main X v argv0 parameters).outcome = .success) ∧
    ((main X v argv0 parameters).outcome = .success →
      ∃ options c_name generator,
        parse_parameters X.enable_skip_verify argv0 parameters Options.initial = .ok options ∧
        (prepare X v options).value = .ok (c_name, generator) ∧
        (X.emit_c_code generator).2 = none ∧
        Call.emit_c_code ∈ (main X v argv0 parameters).calls) ∧
    (∀ step, (main X v argv0 parameters).outcome = .failure step →
      (main X v argv0 parameters).outcome.exit_code = some 1 ∧
        (main X v argv0 parameters).cerr ≠ "" ∧
        (step ≠ .final_emit → (main X v argv0 parameters).cout = "")) ∧
    (∀ step, (main X v argv0 parameters).outcome = .crashed step →
      (main X v argv0 parameters).outcome.exit_code = none ∧
        (step = .skeleton_emission ∨
          ∃ s c, step = .verification s ∧ c ∈ (main X v argv0 parameters).calls ∧
            Call.is_unexplained_rejection c s)) := by
  refine ⟨?_, ?_⟩
  · cases (main X v argv0 parameters).outcome <;> simp [Outcome.exit_code]
  cases hparse : parse_parameters X.enable_skip_verify argv0 parameters Options.initial with
  | error written =>
    have hmain : main X v argv0 parameters =
        { outcome := .failure .option_parsing, cout := "", cerr := written, calls := [] } := by
      unfold main; simp only [hparse]
    rw [hmain]
    refine ⟨fun h => (by cases h), fun step _ => ⟨rfl, ?_, fun _ => rfl⟩,
      fun step h => (by cases h)⟩
    exact parse_parameters_error_ne_empty _ argv0 parameters.length parameters _ written
      (le_refl _) hparse
  | ok options =>
    rw [main_eq_run X v argv0 parameters options hparse]
    cases hp : (prepare X v options).value with
    | error outcome =>
      have hfate := prepare_ends_well X v options outcome hp
      rw [run_of_error X v options outcome hp]
      refine ⟨fun h => ?_, fun step h => ⟨?_, hfate.1 step h, fun _ => rfl⟩,
        fun step h => ⟨?_, Or.inr (hfate.2 step h)⟩⟩
      · obtain ⟨step, hstep, _⟩ := prepare_value_error X v options outcome hp
        simp only at h
        rw [h] at hstep
        cases hstep
      · simp only at h; rw [h]; rfl
      · simp only at h; rw [h]; rfl
    | ok prepared =>
      obtain ⟨c_name, generator⟩ := prepared
      rcases run_emission_cases X v options c_name generator hp with
        ⟨ho, he, hc⟩ | ⟨ho, hcerr⟩ | ho
      · refine ⟨fun _ => ⟨options, c_name, generator, rfl, hp, he, hc⟩, fun step h => ?_,
          fun step h => ?_⟩
        · rw [ho] at h; cases h
        · rw [ho] at h; cases h
      · refine ⟨fun h => ?_, fun step h => ⟨by rw [ho]; rfl, hcerr, fun hne => ?_⟩,
          fun step h => ?_⟩
        · rw [ho] at h; cases h
        · rw [ho] at h
          exact absurd (Outcome.failure.inj h).symm hne
        · rw [ho] at h; cases h
      · refine ⟨fun h => ?_, fun step h => ?_, fun step h => ⟨by rw [ho]; rfl, Or.inl ?_⟩⟩
        · rw [ho] at h; cases h
        · rw [ho] at h; cases h
        · rw [ho] at h
          exact (Outcome.crashed.inj h).symm

/-- C11 at a verifier that rejects the section `bind` and leaves
`error_message` null: `main` ends without an exit code and without a word on
`std::cerr`. With an error message it returns 1 and reports the error. -/
theorem exit_code_contract_witness :
    (main (rejecting_world none (some "trace")) "" "bpf2c" ["--bpf", "prog.o"]).outcome =
        .crashed (.verification "bind") ∧
      (main (rejecting_world none (some "trace")) "" "bpf2c"
        ["--bpf", "prog.o"]).outcome.exit_code = none ∧
      (main (rejecting_world none (some "trace")) "" "bpf2c" ["--bpf", "prog.o"]).cerr = "" ∧
      (main (rejecting_world (some "bad") (some "trace")) "" "bpf2c"
        ["--bpf", "prog.o"]).outcome.exit_code = some 1 ∧
      (main (rejecting_world (some "bad") (some "trace")) "" "bpf2c" ["--bpf", "prog.o"]).cerr ≠
        "" :=
  ⟨by rfl,
    ((exit_code_contract (rejecting_world none (some "trace")) "" "bpf2c"
      ["--bpf", "prog.o"]).2.2.2 (.verification "bind") (by rfl)).1,
    by rfl,
    ((exit_code_contract (rejecting_world (some "bad") (some "trace")) "" "bpf2c"
      ["--bpf", "prog.o"]).2.2.1 (.verification "bind") (by rfl)).1,
    ((exit_code_contract (rejecting_world (some "bad") (some "trace")) "" "bpf2c"
      ["--bpf", "prog.o"]).2.2.1 (.verification "bind") (by rfl)).2.1⟩

/-! ## The report of a failed verification -/

/-- C14, as the code has it. When the verifier rejects a section and
supplies an error message, `main` returns 1 and the last line that it writes
to `std::cerr` names the section, the error message and the report, an absent
report being printed as the empty text. When the verifier leaves
`error_message` null, `main` builds a `std::string` from the null pointer: the
run ends there without an exit code, and the section name and the report are
never written. -/
theorem verification_error_report {G V : Type} (X : Externals G V) (v : V) (argv0 : String)
    (parameters : List String) (s : String) (pt : Nat) (answer : verify_result)
    (hc : Call.ebpf_api_elf_verify_section_from_memory s pt answer ∈
      (main X v argv0 parameters).calls)
    (hfailed : answer.result ≠ 0) :
    (∀ message, answer.error_message = some message →
      (main X v argv0 parameters).outcome.exit_code = some 1 ∧
        ∃ text, (main X v argv0 parameters).cerr =
          text ++ ("Verification failed for " ++ s ++ " with error " ++ message ++
            "\n Report:\n" ++ answer.report.getD "" ++ "\n")) ∧
    (answer.error_message = none →
      (main X v argv0 parameters).outcome = .crashed (.verification s) ∧
        (main X v argv0 parameters).outcome.exit_code = none ∧
        ∃ front, (main X v argv0 parameters).calls =
          front ++ [.ebpf_api_elf_verify_section_from_memory s pt answer]) := by
  obtain ⟨_, houtcome, ⟨text, htext⟩, hlast, _, _, hexit⟩ :=
    verification_failure_ends_run X v argv0 parameters s pt answer hc hfailed
  refine ⟨fun message hm => ⟨hexit (by rw [hm]; exact Option.some_ne_none _), text, ?_⟩,
    fun hm => ?_⟩
  · rw [htext]
    unfold verification_failure
    simp only [hm]
  · have ho : (main X v argv0 parameters).outcome = .crashed (.verification s) := by
      rw [houtcome]
      unfold verification_failure
      simp only [hm]
    exact ⟨ho, by rw [ho]; rfl, hlast⟩

/-- C14 at a verifier that rejects the section `bind`: with the message
"bad" and no report `main` reports the section and the message; with the
report "trace" and no message it ends without an exit code and with nothing on
`std::cerr`. -/
theorem verification_error_report_witness :
    (main (rejecting_world (some "bad") none) "" "bpf2c" ["--bpf", "prog.o"]).cerr =
        "Verification failed for bind with error bad\n Report:\n\n" ∧
      (main (rejecting_world (some "bad") (some "trace")) "" "bpf2c" ["--bpf", "prog.o"]).cerr =
        "Verification failed for bind with error bad\n Report:\ntrace\n" ∧
      (main (rejecting_world (some "bad") none) "" "bpf2c"
        ["--bpf", "prog.o"]).outcome.exit_code = some 1 ∧
      (main (rejecting_world none (some "trace")) "" "bpf2c" ["--bpf", "prog.o"]).cerr = "" ∧
      (main (rejecting_world none (some "trace")) "" "bpf2c" ["--bpf", "prog.o"]).outcome =
        .crashed (.verification "bind") ∧
      (main (rejecting_world none (some "trace")) "" "bpf2c"
        ["--bpf", "prog.o"]).outcome.exit_code = none :=
  have h := (verification_error_report (rejecting_world none (some "trace")) "" "bpf2c"
    ["--bpf", "prog.o"] "bind" 2 { result := 1, report := some "trace", error_message := none }
    (by decide) (by decide)).2 rfl
  ⟨by rfl, by rfl,
    ((verification_error_report (rejecting_world (some "bad") none) "" "bpf2c"
      ["--bpf", "prog.o"] "bind" 2 { result := 1, report := none, error_message := some "bad" }
      (by decide) (by decide)).1 "bad" rfl).1,
    by rfl, h.1, h.2.1⟩

/-! ## The substitution of the artifact name -/

/-- A format string without a dollar sign expands to itself. -/
theorem format_of_no_dollar (pre matched suf : List Char) :
    ∀ fmt : List Char, '$' ∉ fmt → format pre matched suf fmt = fmt := by
  intro fmt
  unfold format
  induction fmt with
  | nil => intro _; rfl
  | cons c rest ih =>
    intro h
    have hc : c ≠ '$' := fun hc => h (by simp [hc])
    have hrest : '$' ∉ rest := fun hm => h (List.mem_cons_of_mem _ hm)
    rw [format_scan, if_neg hc, ih hrest]

/-- With a name that holds no dollar sign, `std::regex_replace` replaces the
token by the name itself. -/
theorem regex_replace_scan_of_no_dollar (pattern name : List Char) (h : '$' ∉ name) :
    ∀ (code pre : List Char) (skip : Nat),
      regex_replace_scan pattern name code pre skip = spec_replace_scan pattern name code skip := by
  intro code
  induction code with
  | nil => intro pre skip; cases skip <;> rfl
  | cons c rest ih =>
    intro pre skip
    cases skip with
    | succ skip =>
      rw [regex_replace_scan, spec_replace_scan]
      exact ih [] skip
    | zero =>
      rw [regex_replace_scan, spec_replace_scan]
      split_ifs
      · rw [format_of_no_dollar _ _ _ name h, ih]
      · rw [ih]

set_option maxRecDepth 8192 in
/-- C12, as the code has it. `emit_skeleton` hands the artifact name to
`std::regex_replace` as its format string. For a name without a dollar sign
the text printed is the template with every token replaced by the name
itself, less the first 72 characters, as the literal replacement has it. A
dollar sign in the name is read as a directive: for the input path `a$&b.o`
the artifact name is `a$&b`, the literal replacement would print
`table a$&b;`, and `emit_skeleton` prints `table a___METADATA_TABLE___b;`,
with the token put back in place of `$&`; the name `a$$b` loses one of its
dollar signs. A backslash is kept. -/
theorem skeleton_substitution :
    (∀ c_name code : String, '$' ∉ c_name.toList →
      emit_skeleton regex_replace c_name code = emit_skeleton spec_replace c_name code) ∧
    derive_c_name "a$&b.o" = some "a$&b" ∧
    emit_skeleton spec_replace "a$&b" sample_template = some "table a$&b;\n" ∧
    emit_skeleton regex_replace "a$&b" sample_template =
      some "table a___METADATA_TABLE___b;\n" ∧
    emit_skeleton regex_replace "a$$b" sample_template = some "table a$b;\n" ∧
    emit_skeleton regex_replace "a\\b" sample_template = some "table a\\b;\n" ∧
    (main standard_world "" "bpf2c" ["--sys", "--bpf", "a$&b.o"]).outcome = .success ∧
    (main standard_world "" "bpf2c" ["--sys", "--bpf", "a$&b.o"]).cout =
      banner "a$&b.o" ++ "table a___METADATA_TABLE___b;\n" ++ "code xdp_prog\ncode bind\n" := by
  refine ⟨?_, by rfl, by rfl, by rfl, by rfl, by rfl, by rfl, by rfl⟩
  intro c_name code h
  have hreplace : regex_replace code "___METADATA_TABLE___" c_name =
      spec_replace code "___METADATA_TABLE___" c_name := by
    unfold regex_replace spec_replace
    rw [regex_replace_scan_of_no_dollar _ _ h]
  unfold emit_skeleton
  rw [hreplace]

set_option maxRecDepth 8192 in
/-- C12 at the artifact name `prog`, which holds no dollar sign. -/
theorem skeleton_substitution_witness :
    '$' ∉ "prog".toList ∧
      emit_skeleton regex_replace "prog" sample_template =
        emit_skeleton spec_replace "prog" sample_template ∧
      emit_skeleton spec_replace "prog" sample_template = some "table prog;\n" :=
  ⟨by decide, skeleton_substitution.1 "prog" sample_template (by decide), by rfl⟩

/-! ## A file that the ELF validator rejects -/

theorem check_elf_of_rejected {G V : Type} (X : Externals G V) (data : List Nat)
    (hreject : (X.ElfCheckElf data.length data (data.length % 2 ^ 32)).1 = false) :
    check_elf X data =
      { calls := [.ElfCheckElf]
        cerr := everparse_errors X data ++ ("ELF file is invalid" ++ "\n")
        value := .error (.failure .elf_validation) } := by
  unfold check_elf everparse_errors
  rw [if_pos hreject]
  simp [bind, Step.bind, Step.call, Step.write_cerr, Step.return_1]

theorem hash_file_cerr_of_ok {G V : Type} (X : Externals G V) (options : Options)
    (data : List Nat) (hash_value : Option (List Nat))
    (h : (hash_file X options data).value = .ok hash_value) :
    (hash_file X options data).cerr = "" := by
  unfold hash_file at h ⊢
  split_ifs at h ⊢ with hn
  · cases hd : X.hash.hash_string options.hash_algorithm data with
    | error what =>
      simp [hd, bind, Step.bind, Step.call, Step.of_except, Step.throw] at h
    | ok digest =>
      simp [hd, bind, pure, Step.bind, Step.call, Step.of_except, Step.pure]
  · rfl

/-- The run on a file that was loaded and hashed and that the validator
rejects. -/
theorem run_of_rejected_elf {G V : Type} (X : Externals G V) (v : V) (options : Options)
    (data : List Nat) (hash_value : Option (List Nat))
    (hload : load_file_to_memory X options.file = .ok data)
    (hhash : (hash_file X options data).value = .ok hash_value)
    (hreject : (X.ElfCheckElf data.length data (data.length % 2 ^ 32)).1 = false) :
    run X v options =
      { outcome := .failure .elf_validation
        cout := ""
        cerr := everparse_errors X data ++ ("ELF file is invalid" ++ "\n")
        calls := .load_file_to_memory options.file ::
          ((hash_file X options data).calls ++ [.ElfCheckElf]) } := by
  obtain ⟨c_name, hname⟩ := derive_c_name_total options.file
  have hartifact : artifact_name options.file =
      { calls := [], cerr := "", value := .ok c_name } := by
    unfold artifact_name
    rw [hname]
    rfl
  have hconstruct : construct_generator X options =
      { calls := .load_file_to_memory options.file ::
          ((hash_file X options data).calls ++ [.ElfCheckElf])
        cerr := everparse_errors X data ++ ("ELF file is invalid" ++ "\n")
        value := .error (.failure .elf_validation) } := by
    unfold construct_generator
    rw [hartifact, hload]
    simp only [bind, Step.bind, Step.call, Step.of_except, Step.pure, hhash,
      check_elf_of_rejected X data hreject, hash_file_cerr_of_ok X options data hash_value hhash]
    simp
  have hopen : open_generator X options =
      { calls := .load_file_to_memory options.file ::
          ((hash_file X options data).calls ++ [.ElfCheckElf])
        cerr := everparse_errors X data ++ ("ELF file is invalid" ++ "\n")
        value := .error (.failure .elf_validation) } := by
    unfold open_generator
    rw [Step.bind_eq_of_error _ _ (.failure .elf_validation) (by rw [hconstruct]), hconstruct]
  have hprepare := prepare_of_open_error X v options (.failure .elf_validation)
    (by rw [hopen])
  rw [run_of_error X v options (.failure .elf_validation) (by rw [hprepare]), hprepare, hopen]

/-- The validator is called only on a file that was loaded and, unless the
hash algorithm is "none", hashed. -/
theorem validator_reached {G V : Type} (X : Externals G V) (v : V) (options : Options)
    (hc : Call.ElfCheckElf ∈ (run X v options).calls) :
    ∃ data hash_value, load_file_to_memory X options.file = .ok data ∧
      (hash_file X options data).value = .ok hash_value := by
  have hopen : Call.ElfCheckElf ∈ (open_generator X options).calls := by
    rcases mem_run_calls X v options _ hc with h | ⟨_, h⟩ | h
    · rcases mem_prepare_calls X v options _ h with h | ⟨opened, _, h | ⟨s, _, h⟩⟩
      · exact h
      · exact absurd h (fun hmem => by
          have hno := parse_sections_calls_forall X options opened.data opened.global
            (fun c => c ≠ Call.ElfCheckElf) opened.sections
            (fun s _ generator v c hc => by
              rcases mem_process_section_calls X options opened.data opened.global s generator
                v c hc with h | ⟨t, _, h | ⟨_, h | ⟨_, _, h⟩⟩⟩
              · rw [((mem_lookup_calls _ _ _).1 h).2]; intro hcontra; cases hcontra
              · rw [((mem_verify_calls _ _ _ _ _ _ _).1 h).2]; intro hcontra; cases hcontra
              · rcases (mem_hash_calls _ _ _ _ h).2 with h | ⟨_, _, h⟩ <;> rw [h] <;>
                  intro hcontra <;> cases hcontra
              · rw [h]; intro hcontra; cases hcontra)
            opened.generator v _ hmem
          exact hno rfl)
      · cases h
    · cases h
    · cases h
  unfold open_generator at hopen
  rw [Step.mem_bind_calls] at hopen
  have hconstruct : Call.ElfCheckElf ∈ (construct_generator X options).calls := by
    rcases hopen with h | ⟨⟨c_name, data, generator⟩, _, h⟩
    · exact h
    · rcases finish_opening_calls X options c_name data generator _ h with
        h | h | ⟨h, _⟩ <;> cases h
  unfold construct_generator at hconstruct
  simp only [Step.mem_bind_calls, Step.mem_call_calls, Step.mem_of_except_calls,
    Step.of_except_value_ok, Step.call_value, artifact_name_calls, List.not_mem_nil,
    false_or, mem_hash_file_calls, pure, Step.mem_pure_calls] at hconstruct
  obtain ⟨_, _, hrest⟩ := hconstruct
  rcases hrest with h | ⟨_, _, h⟩
  · cases h
  · obtain ⟨data, hload, hrest⟩ := h
    rcases hrest with h | ⟨hash_value, hhash, _⟩
    · cases h.1
    · exact ⟨data, hash_value, hload, hhash⟩

/-- C21. When `main` calls `ElfCheckElf` and the validator rejects the file,
`main` returns 1; it has written nothing to `std::cout`, and to `std::cerr`
the parsing errors that the validator reported and then the line "ELF file is
invalid". Its calls are the load of the file, the hash of the file (unless
the hash algorithm is "none") and the validator, in this order: the code
generator is neither constructed nor used, so no section is enumerated, and
neither the registry nor the verifier is asked. -/
theorem rejected_elf_is_fatal {G V : Type} (X : Externals G V) (v : V) (argv0 : String)
    (parameters : List String) (options : Options)
    (hparse : parse_parameters X.enable_skip_verify argv0 parameters Options.initial =
      .ok options)
    (hcalled : Call.ElfCheckElf ∈ (main X v argv0 parameters).calls)
    (hreject : ∀ data, load_file_to_memory X options.file = .ok data →
      (X.ElfCheckElf data.length data (data.length % 2 ^ 32)).1 = false) :
    ∃ data, load_file_to_memory X options.file = .ok data ∧
      (main X v argv0 parameters).outcome = .failure .elf_validation ∧
      (main X v argv0 parameters).outcome.exit_code = some 1 ∧
      (main X v argv0 parameters).cerr = everparse_errors X data ++ "ELF file is invalid\n" ∧
      (main X v argv0 parameters).cout = "" ∧
      (main X v argv0 parameters).calls =
        .load_file_to_memory options.file ::
          ((hash_file X options data).calls ++ [.ElfCheckElf]) ∧
      (∀ c ∈ (main X v argv0 parameters).calls,
        Call.on_generator c = false ∧ Call.is_registry_lookup c = false ∧
          Call.on_verifier c = false) := by
  rw [main_eq_run X v argv0 parameters options hparse] at hcalled ⊢
  obtain ⟨data, hash_value, hload, hhash⟩ := validator_reached X v options hcalled
  rw [run_of_rejected_elf X v options data hash_value hload hhash (hreject data hload)]
  refine ⟨data, hload, rfl, rfl, rfl, rfl, rfl, ?_⟩
  intro c hc
  simp only [List.mem_cons, List.mem_append, List.not_mem_nil, or_false] at hc
  rcases hc with hc | hc | hc
  · rw [hc]; exact ⟨rfl, rfl, rfl⟩
  · rw [((mem_hash_file_calls X options data c).1 hc).1]; exact ⟨rfl, rfl, rfl⟩
  · rw [hc]; exact ⟨rfl, rfl, rfl⟩

/-- C21 at a file that the validator rejects with one parsing error. -/
theorem rejected_elf_is_fatal_witness :
    Call.ElfCheckElf ∈ (main invalid_elf_world "" "bpf2c" ["--bpf", "prog.o"]).calls ∧
      (main invalid_elf_world "" "bpf2c" ["--bpf", "prog.o"]).outcome.exit_code = some 1 ∧
      (main invalid_elf_world "" "bpf2c" ["--bpf", "prog.o"]).cerr =
        "Failed parsing in struct Elf64_Ehdr field e_ident reason constraint failed\n" ++
          "ELF file is invalid\n" ∧
      (main invalid_elf_world "" "bpf2c" ["--bpf", "prog.o"]).cout = "" ∧
      (main invalid_elf_world "" "bpf2c" ["--bpf", "prog.o"]).calls =
        [.load_file_to_memory "prog.o", .hash_string "SHA256", .ElfCheckElf] ∧
      ∃ data, load_file_to_memory invalid_elf_world sample_options.file = .ok data ∧
        (main invalid_elf_world "" "bpf2c" ["--bpf", "prog.o"]).outcome =
          .failure .elf_validation :=
  have h := rejected_elf_is_fatal invalid_elf_world "" "bpf2c" ["--bpf", "prog.o"]
    sample_options rfl (by decide) (fun _ _ => rfl)
  ⟨by decide, by rfl, by rfl, by rfl, by rfl,
    h.elim (fun data hd => ⟨data, hd.1, hd.2.1⟩)⟩

/-! ## The program information hash comes after the verification -/

theorem queried_of_no_query (calls : List Call)
    (h : ∀ c ∈ calls, ¬ Call.is_program_info_query c) : queried_after_verification calls := by
  intro front c back hsplit hc
  exact absurd hc (h c (by rw [hsplit]; simp))

theorem queried_append (l₁ l₂ : List Call) (h₁ : queried_after_verification l₁)
    (h₂ : queried_after_verification l₂) : queried_after_verification (l₁ ++ l₂) := by
  intro front c back hsplit hc
  rcases List.append_eq_append_iff.1 hsplit with ⟨a, hfront, hl₂⟩ | ⟨a, hl₁, hback⟩
  · obtain ⟨before, q, hbefore, hq⟩ := h₂ a c back hl₂ hc
    exact ⟨l₁ ++ before, q, by rw [hfront, hbefore, List.append_assoc], hq⟩
  · cases a with
    | nil =>
      simp only [List.nil_append] at hback
      obtain ⟨before, q, hbefore, _⟩ := h₂ [] c back hback.symm hc
      exact absurd hbefore (by simp)
    | cons x rest =>
      simp only [List.cons_append, List.cons.injEq] at hback
      rw [← hback.1] at hl₁
      exact h₁ front c rest hl₁ hc

theorem queried_block (q c : Call) (hq : Call.is_accepted_verification q) :
    queried_after_verification [q, c] := by
  intro front x back hsplit hx
  cases front with
  | nil =>
    simp only [List.nil_append, List.cons.injEq] at hsplit
    rw [← hsplit.1] at hx
    cases q <;> first | exact hx.elim | exact hq.elim
  | cons y rest =>
    simp only [List.cons_append, List.cons.injEq] at hsplit
    cases rest with
    | nil => exact ⟨[], q, by rw [hsplit.1]; rfl, hq⟩
    | cons z rest =>
      simp only [List.cons_append, List.cons.injEq] at hsplit
      exact absurd hsplit.2.2 (by simp)

theorem Step.queried_bind {α β : Type} (s : Step α) (f : α → Step β)
    (hs : queried_after_verification s.calls)
    (hf : ∀ a, queried_after_verification (f a).calls) :
    queried_after_verification (s >>= f).calls := by
  cases hv : s.value with
  | error o => rw [Step.bind_eq_of_error s f o hv]; exact hs
  | ok a => rw [Step.bind_eq_of_ok s f a hv]; exact queried_append _ _ hs (hf a)

theorem process_section_queried {G V : Type} (X : Externals G V) (options : Options)
    (data : List Nat) (global : Option (Nat × Nat)) (s : String) (generator : G) (v : V) :
    queried_after_verification (process_section X options data global s generator v).calls := by
  have hlookup : queried_after_verification (lookup_calls global s) :=
    queried_of_no_query _ (fun c hc => by
      rw [((mem_lookup_calls _ _ _).1 hc).2]; exact fun h => h)
  have hverify : ∀ pt, queried_after_verification (verify_calls X options data s pt v) :=
    fun pt => queried_of_no_query _ (fun c hc => by
      rw [((mem_verify_calls _ _ _ _ _ _ _).1 hc).2]; exact fun h => h)
  have hparse : ∀ pt at_ h, queried_after_verification [Call.parse_section s pt at_ h] :=
    fun pt at_ h => queried_of_no_query _ (fun c hc => by
      rw [List.mem_singleton.1 hc]; exact fun h => h)
  have hblock : ∀ pt, ¬ verification_fails X options data s pt v →
      queried_after_verification (verify_calls X options data s pt v ++
        hash_calls X options (verified_state X options data s pt v)) := by
    intro pt hfail
    unfold hash_calls
    split_ifs with hh
    · have hv : verify_calls X options data s pt v =
          [.ebpf_api_elf_verify_section_from_memory s pt
            (X.ebpf_api_elf_verify_section_from_memory v data s pt).1] := by
        unfold verify_calls; rw [if_pos hh.1]
      have haccepted : Call.is_accepted_verification
          (.ebpf_api_elf_verify_section_from_memory s pt
            (X.ebpf_api_elf_verify_section_from_memory v data s pt).1) := by
        show (X.ebpf_api_elf_verify_section_from_memory v data s pt).1.result = 0
        exact Classical.not_not.1 (fun hne => hfail ⟨hh.1, hne⟩)
      rw [hv]
      cases X.ebpf_get_program_info_from_verifier (verified_state X options data s pt v) with
      | none => exact queried_block _ _ haccepted
      | some program_info =>
        exact queried_append [_, _] [_] (queried_block _ _ haccepted)
          (queried_of_no_query _ (fun c hc => by
            rw [List.mem_singleton.1 hc]; exact fun h => h))
    · rw [List.append_nil]; exact hverify pt
  rw [process_section_eq]
  cases hres : resolved_types X global s with
  | none => exact hlookup
  | some types =>
    simp only
    by_cases hfail : verification_fails X options data s types.1 v
    · simp only [hfail, if_true]
      exact queried_append _ _ hlookup (hverify _)
    · simp only [hfail, if_false]
      cases hh : section_hash X options (verified_state X options data s types.1 v) with
      | error what =>
        simp only
        exact queried_append _ _ hlookup (hblock _ hfail)
      | ok program_info_hash =>
        have hall : queried_after_verification (lookup_calls global s ++
            (verify_calls X options data s types.1 v ++
              (hash_calls X options (verified_state X options data s types.1 v) ++
                [.parse_section s types.1 types.2 program_info_hash]))) := by
          rw [← List.append_assoc (verify_calls X options data s types.1 v)]
          exact queried_append _ _ hlookup (queried_append _ _ (hblock _ hfail) (hparse _ _ _))
        cases hp : X.parse_section generator s types.1 types.2 program_info_hash <;>
          simpa only [hp] using hall

theorem run_queried {G V : Type} (X : Externals G V) (v : V) (options : Options) :
    queried_after_verification (run X v options).calls := by
  have hopen : queried_after_verification (open_generator X options).calls :=
    queried_of_no_query _ (fun c hc => by
      rcases open_generator_calls X options c hc with
        h | ⟨h, _⟩ | h | ⟨_, _, h, _⟩ | ⟨_, h⟩ | h | ⟨h, _⟩ <;> rw [h] <;> exact fun h => h)
  have hloop : ∀ (data : List Nat) (global : Option (Nat × Nat)) (sections : List String)
      (generator : G) (v : V),
      queried_after_verification
        (parse_sections X options data global sections generator v).calls := by
    intro data global sections
    induction sections with
    | nil => intro generator v; exact queried_of_no_query _ (fun c hc => by cases hc)
    | cons s rest ih =>
      intro generator v
      unfold parse_sections
      exact Step.queried_bind _ _ (process_section_queried _ _ _ _ _ _ _)
        (fun state => ih state.1 state.2)
  have hgenerate : ∀ (sections : List String) (generator : G),
      queried_after_verification (generate_sections X sections generator).calls := by
    intro sections generator
    exact queried_of_no_query _ (fun c hc => by
      obtain ⟨s, _, h⟩ := mem_generate_sections_calls X sections generator c hc
      rw [h]; exact fun h => h)
  have hprepare : queried_after_verification (prepare X v options).calls := by
    unfold prepare
    refine Step.queried_bind _ _ hopen (fun opened => ?_)
    refine Step.queried_bind _ _ (hloop _ _ _ _ _) (fun parsed => ?_)
    refine Step.queried_bind _ _ (hgenerate _ _) (fun generated => ?_)
    exact queried_of_no_query _ (fun c hc => by cases hc)
  obtain ⟨emission, hcalls, hemission, _⟩ := run_calls_split X v options
  rw [hcalls]
  refine queried_append _ _ hprepare (queried_of_no_query _ (fun c hc => ?_))
  rcases hemission c hc with h | ⟨_, h⟩ <;> rw [h] <;> exact fun h => h

/-- The file is hashed in every run that loads it with a hash algorithm
other than "none". -/
theorem file_hash_computed {G V : Type} (X : Externals G V) (v : V) (options : Options)
    (data : List Nat) (hload : load_file_to_memory X options.file = .ok data)
    (hsome : options.hash_algorithm ≠ "none") :
    Call.hash_string options.hash_algorithm ∈ (run X v options).calls := by
  obtain ⟨c_name, hname⟩ := derive_c_name_total options.file
  have hartifact : (artifact_name options.file).value = .ok c_name := by
    unfold artifact_name; rw [hname]; rfl
  have hconstruct : Call.hash_string options.hash_algorithm ∈
      (construct_generator X options).calls := by
    unfold construct_generator
    rw [Step.mem_bind_calls]
    refine Or.inr ⟨c_name, hartifact, ?_⟩
    rw [Step.mem_bind_calls]
    refine Or.inr ⟨(), rfl, ?_⟩
    rw [Step.mem_bind_calls]
    refine Or.inr ⟨data, (Step.of_except_value_ok _ _ _).2 hload, ?_⟩
    rw [Step.mem_bind_calls]
    exact Or.inl ((mem_hash_file_calls X options data _).2 ⟨rfl, hsome⟩)
  have hopen : Call.hash_string options.hash_algorithm ∈ (open_generator X options).calls := by
    unfold open_generator
    rw [Step.mem_bind_calls]
    exact Or.inl hconstruct
  have hprepare : Call.hash_string options.hash_algorithm ∈ (prepare X v options).calls := by
    unfold prepare
    rw [Step.mem_bind_calls]
    exact Or.inl hopen
  obtain ⟨emission, hcalls, _⟩ := run_calls_split X v options
  rw [hcalls]
  exact List.mem_append_left _ hprepare

/-- In a run that succeeds every enumerated section is parsed. -/
theorem run_success_parses {G V : Type} (X : Externals G V) (v : V) (options : Options)
    (hsuccess : (run X v options).outcome = .success) :
    ∃ sections, Call.program_sections (.ok sections) ∈ (run X v options).calls ∧
      ∀ s ∈ sections, ∃ pt at_ h, Call.parse_section s pt at_ h ∈ (run X v options).calls := by
  obtain ⟨opened, elf_file_hash, parses, _, hfilter, hforall⟩ :=
    run_on_generator X v options hsuccess
  have hmem : ∀ c, c ∈ [Call.bpf_code_generator opened.c_name elf_file_hash,
      .program_sections (.ok opened.sections), .parse] ++
      parses ++ opened.sections.map Call.generate ++ [.emit_c_code] →
      c ∈ (run X v options).calls := by
    intro c hc
    rw [← hfilter] at hc
    exact (List.mem_filter.1 hc).1
  refine ⟨opened.sections, hmem _ (by simp), ?_⟩
  intro s hs
  obtain ⟨c, hc, pt, at_, h, hparses⟩ := forall₂_exists_left Call.parses _ _ hforall s hs
  exact ⟨pt, at_, h, hparses ▸ hmem c (by simp [hc])⟩

/-- C24. In every run each query of the program information, with which
`get_program_info_type_hash` begins, comes right after a verification that
the verifier accepted: the hash of a section is computed only once the
section has been verified. With verification disabled no call invokes the
verifier, so the program information is never queried, and every section
parse is handed an empty `program_info_hash`, whatever the hash algorithm is.
When such a run returns 0, every enumerated section has been parsed so. The
file itself is still hashed whenever it was loaded and the algorithm is not
"none". -/
theorem program_info_hash_needs_verification {G V : Type} (X : Externals G V) (v : V)
    (argv0 : String) (parameters : List String) (options : Options)
    (hparse : parse_parameters X.enable_skip_verify argv0 parameters Options.initial =
      .ok options) :
    queried_after_verification (main X v argv0 parameters).calls ∧
    (options.verify_programs = false →
      (∀ c ∈ (main X v argv0 parameters).calls, Call.on_verifier c = false) ∧
      (∀ s pt at_ h, Call.parse_section s pt at_ h ∈ (main X v argv0 parameters).calls →
        h = none) ∧
      ((main X v argv0 parameters).outcome = .success →
        ∃ sections,
          Call.program_sections (.ok sections) ∈ (main X v argv0 parameters).calls ∧
          ∀ s ∈ sections, ∃ pt at_,
            Call.parse_section s pt at_ none ∈ (main X v argv0 parameters).calls)) ∧
    (options.hash_algorithm ≠ "none" →
      ∀ data, load_file_to_memory X options.file = .ok data →
        Call.hash_string options.hash_algorithm ∈ (main X v argv0 parameters).calls) := by
  rw [main_eq_run X v argv0 parameters options hparse]
  refine ⟨run_queried X v options, fun hverify => ?_, fun hsome data hload =>
    file_hash_computed X v options data hload hsome⟩
  have hcalls := run_unverified_calls X v options hverify
  refine ⟨fun c hc => (hcalls c hc).1, fun s pt at_ h hc => (hcalls _ hc).2 s pt at_ h rfl,
    fun hsuccess => ?_⟩
  obtain ⟨sections, henumerated, hparsed⟩ := run_success_parses X v options hsuccess
  refine ⟨sections, henumerated, fun s hs => ?_⟩
  obtain ⟨pt, at_, h, hc⟩ := hparsed s hs
  have hnone : h = none := (hcalls _ hc).2 s pt at_ h rfl
  exact ⟨pt, at_, hnone ▸ hc⟩

/-- C24 at the sample file run with `--hash SHA512 --no-verify`: the file is
hashed, the verifier is not asked and both sections are parsed without a
hash. -/
theorem program_info_hash_needs_verification_witness :
    parse_parameters sample_world.enable_skip_verify "bpf2c"
        ["--bpf", "prog.o", "--hash", "SHA512", "--no-verify"] Options.initial =
        .ok sample_options_unverified_sha512 ∧
      (main sample_world "" "bpf2c"
        ["--bpf", "prog.o", "--hash", "SHA512", "--no-verify"]).calls =
        [.load_file_to_memory "prog.o", .hash_string "SHA512", .ElfCheckElf,
          .bpf_code_generator "prog" (some [127, 69, 76]),
          .program_sections (.ok ["xdp_prog", "bind"]), .parse,
          .ebpf_get_program_type_by_name "xdp_prog", .parse_section "xdp_prog" 1 10 none,
          .ebpf_get_program_type_by_name "bind", .parse_section "bind" 2 20 none,
          .generate "xdp_prog", .generate "bind", .emit_c_code] ∧
      (∀ c ∈ (main sample_world "" "bpf2c"
          ["--bpf", "prog.o", "--hash", "SHA512", "--no-verify"]).calls,
        Call.on_verifier c = false) ∧
      Call.hash_string "SHA512" ∈ (main sample_world "" "bpf2c"
        ["--bpf", "prog.o", "--hash", "SHA512", "--no-verify"]).calls ∧
      queried_after_verification (main sample_world "" "bpf2c" ["--bpf", "prog.o"]).calls :=
  have h := program_info_hash_needs_verification sample_world "" "bpf2c"
    ["--bpf", "prog.o", "--hash", "SHA512", "--no-verify"] sample_options_unverified_sha512 rfl
  ⟨rfl, by rfl, (h.2.1 rfl).1, h.2.2 (by decide) [127, 69, 76] rfl,
    (program_info_hash_needs_verification sample_world "" "bpf2c" ["--bpf", "prog.o"]
      sample_options rfl).1⟩

/-! ## The artifact name -/

theorem find_last_of_from_of_not_mem (c : Char) :
    ∀ (l : List Char) (position found : Nat), c ∉ l →
      find_last_of_from c l position found = found := by
  intro l
  induction l with
  | nil => intro position found _; rfl
  | cons x rest ih =>
    intro position found h
    have hx : x ≠ c := fun hx => h (by simp [hx])
    unfold find_last_of_from
    rw [if_neg hx]
    exact ih _ _ (fun hm => h (List.mem_cons_of_mem _ hm))

theorem find_last_of_from_of_split (c : Char) (after : List Char) (hafter : c ∉ after) :
    ∀ (before : List Char) (position found : Nat),
      find_last_of_from c (before ++ c :: after) position found = position + before.length := by
  intro before
  induction before with
  | nil =>
    intro position found
    simp only [List.nil_append, List.length_nil, Nat.add_zero]
    unfold find_last_of_from
    rw [if_pos rfl]
    exact find_last_of_from_of_not_mem c after _ _ hafter
  | cons x rest ih =>
    intro position found
    simp only [List.cons_append, List.length_cons]
    unfold find_last_of_from
    rw [ih]
    omega

theorem find_from_of_not_mem (c : Char) :
    ∀ (l : List Char) (position : Nat), c ∉ l → find_from c l position = npos := by
  intro l
  induction l with
  | nil => intro position _; rfl
  | cons x rest ih =>
    intro position h
    have hx : x ≠ c := fun hx => h (by simp [hx])
    unfold find_from
    rw [if_neg hx]
    exact ih _ (fun hm => h (List.mem_cons_of_mem _ hm))

theorem find_from_of_split (c : Char) (after : List Char) :
    ∀ (before : List Char) (position : Nat), c ∉ before →
      find_from c (before ++ c :: after) position = position + before.length := by
  intro before
  induction before with
  | nil =>
    intro position _
    simp only [List.nil_append, List.length_nil, Nat.add_zero]
    unfold find_from
    rw [if_pos rfl]
  | cons x rest ih =>
    intro position h
    have hx : x ≠ c := fun hx => h (by simp [hx])
    simp only [List.cons_append, List.length_cons]
    unfold find_from
    rw [if_neg hx, ih _ (fun hm => h (List.mem_cons_of_mem _ hm))]
    omega

/-- Every text splits at its last backslash. -/
theorem split_at_last (c : Char) :
    ∀ l : List Char, ∃ pre tail, l = pre ++ tail ∧
      (pre = [] ∨ ∃ dir, pre = dir ++ [c]) ∧ c ∉ tail := by
  intro l
  induction l with
  | nil => exact ⟨[], [], rfl, Or.inl rfl, by simp⟩
  | cons x rest ih =>
    obtain ⟨pre, tail, hsplit, hpre, htail⟩ := ih
    rcases hpre with hpre | ⟨dir, hdir⟩
    · subst hpre
      simp only [List.nil_append] at hsplit
      subst hsplit
      by_cases hx : x = c
      · exact ⟨[x], rest, rfl, Or.inr ⟨[], by simp [hx]⟩, htail⟩
      · refine ⟨[], x :: rest, rfl, Or.inl rfl, ?_⟩
        intro hm
        rcases List.mem_cons.1 hm with h | h
        · exact hx h.symm
        · exact htail h
    · exact ⟨x :: pre, tail, by rw [hsplit]; rfl, Or.inr ⟨x :: dir, by rw [hdir]; rfl⟩, htail⟩

/-- Every text splits at its first dot. -/
theorem split_at_first (c : Char) :
    ∀ l : List Char, ∃ name post, l = name ++ post ∧ c ∉ name ∧
      (post = [] ∨ ∃ ext, post = c :: ext) := by
  intro l
  induction l with
  | nil => exact ⟨[], [], rfl, by simp, Or.inl rfl⟩
  | cons x rest ih =>
    by_cases hx : x = c
    · exact ⟨[], x :: rest, rfl, by simp, Or.inr ⟨rest, by rw [hx]⟩⟩
    · obtain ⟨name, post, hsplit, hname, hpost⟩ := ih
      refine ⟨x :: name, post, by rw [hsplit]; rfl, ?_, hpost⟩
      intro hm
      rcases List.mem_cons.1 hm with h | h
      · exact hx h.symm
      · exact hname h

/-- Line 214: the text after the last backslash. -/
theorem substr_after_last_backslash (file : String) (hlen : file.length < 2 ^ 64)
    (pre tail : List Char) (hsplit : file.toList = pre ++ tail)
    (hpre : pre = [] ∨ ∃ dir, pre = dir ++ ['\\']) (htail : '\\' ∉ tail) :
    substr file ((find_last_of file '\\' + 1) % 2 ^ 64) npos = some (String.mk tail) := by
  have hlength : file.length = pre.length + tail.length := by
    show file.toList.length = _
    rw [hsplit, List.length_append]
  have hnpos : npos = 2 ^ 64 - 1 := rfl
  have hposition : (find_last_of file '\\' + 1) % 2 ^ 64 = pre.length := by
    unfold find_last_of
    rw [hsplit]
    rcases hpre with hpre | ⟨dir, hdir⟩
    · subst hpre
      rw [List.nil_append, find_last_of_from_of_not_mem _ _ _ _ htail]
      decide
    · subst hdir
      rw [List.append_assoc, List.singleton_append,
        find_last_of_from_of_split _ _ htail, Nat.zero_add]
      rw [List.length_append, List.length_singleton] at hlength ⊢
      exact Nat.mod_eq_of_lt (by omega)
  unfold substr
  rw [hposition, if_neg (by omega), hsplit, List.drop_left, List.take_of_length_le (by omega)]

/-- Line 215: the text before the first dot. -/
theorem substr_before_first_dot (text : String) (hlen : text.length < 2 ^ 64)
    (name post : List Char) (hsplit : text.toList = name ++ post) (hname : '.' ∉ name)
    (hpost : post = [] ∨ ∃ ext, post = '.' :: ext) :
    substr text 0 (find text '.') = some (String.mk name) := by
  have hlength : text.length = name.length + post.length := by
    show text.toList.length = _
    rw [hsplit, List.length_append]
  have hnpos : npos = 2 ^ 64 - 1 := rfl
  unfold substr find
  rw [if_neg (by omega), hsplit, List.drop_zero]
  rcases hpost with hpost | ⟨ext, hext⟩
  · subst hpost
    rw [List.append_nil] at hsplit ⊢
    rw [List.length_nil] at hlength
    rw [find_from_of_not_mem _ _ _ hname, List.take_of_length_le (by omega)]
  · subst hext
    rw [find_from_of_split _ _ _ _ hname, Nat.zero_add, List.take_left]

/-- Lines 214-215 on a path split into the part up to the last backslash,
the name and the part from the first dot after it. -/
theorem derive_c_name_of_split (file : String) (hlen : file.length < 2 ^ 64)
    (pre name post : List Char) (hsplit : file.toList = pre ++ name ++ post)
    (hpre : pre = [] ∨ ∃ dir, pre = dir ++ ['\\']) (hname : '\\' ∉ name)
    (hpost : '\\' ∉ post) (hdot : '.' ∉ name) (hext : post = [] ∨ ∃ ext, post = '.' :: ext) :
    derive_c_name file = some (String.mk name) := by
  have htail : '\\' ∉ name ++ post := by
    intro hm
    rcases List.mem_append.1 hm with h | h
    · exact hname h
    · exact hpost h
  have hlength : (String.mk (name ++ post)).length < 2 ^ 64 := by
    have h1 : file.length = (pre ++ name ++ post).length := by
      show file.toList.length = _
      rw [hsplit]
    have h2 : (String.mk (name ++ post)).length = (name ++ post).length := rfl
    rw [h2]
    simp only [List.length_append] at h1 ⊢
    omega
  unfold derive_c_name
  rw [substr_after_last_backslash file hlen pre (name ++ post)
    (by rw [hsplit, List.append_assoc]) hpre htail]
  exact substr_before_first_dot (String.mk (name ++ post)) hlength name post rfl hdot hext

/-- The artifact name handed to the constructor of the generator is the one
derived from the input path. -/
theorem constructed_with_derived_name {G V : Type} (X : Externals G V) (v : V)
    (options : Options) (c_name : String) (elf_file_hash : Option (List Nat))
    (hc : Call.bpf_code_generator c_name elf_file_hash ∈ (run X v options).calls) :
    derive_c_name options.file = some c_name := by
  have hopen : Call.bpf_code_generator c_name elf_file_hash ∈
      (open_generator X options).calls := by
    rcases mem_run_calls X v options _ hc with h | ⟨_, h⟩ | h
    · rcases mem_prepare_calls X v options _ h with h | ⟨opened, _, h | ⟨s, _, h⟩⟩
      · exact h
      · exact absurd h (fun hmem => by
          have hno := parse_sections_calls_forall X options opened.data opened.global
            (fun c => c ≠ Call.bpf_code_generator c_name elf_file_hash) opened.sections
            (fun s _ generator v c hc => by
              rcases mem_process_section_calls X options opened.data opened.global s generator
                v c hc with h | ⟨t, _, h | ⟨_, h | ⟨_, _, h⟩⟩⟩
              · rw [((mem_lookup_calls _ _ _).1 h).2]; intro hcontra; cases hcontra
              · rw [((mem_verify_calls _ _ _ _ _ _ _).1 h).2]; intro hcontra; cases hcontra
              · rcases (mem_hash_calls _ _ _ _ h).2 with h | ⟨_, _, h⟩ <;> rw [h] <;>
                  intro hcontra <;> cases hcontra
              · rw [h]; intro hcontra; cases hcontra)
            opened.generator v _ hmem
          exact hno rfl)
      · cases h
    · cases h
    · cases h
  unfold open_generator at hopen
  rw [Step.mem_bind_calls] at hopen
  have hconstruct : Call.bpf_code_generator c_name elf_file_hash ∈
      (construct_generator X options).calls := by
    rcases hopen with h | ⟨⟨c_name', data, generator⟩, _, h⟩
    · exact h
    · rcases finish_opening_calls X options c_name' data generator _ h with
        h | h | ⟨h, _⟩ <;> cases h
  unfold construct_generator at hconstruct
  simp only [Step.mem_bind_calls, Step.mem_call_calls, Step.mem_of_except_calls,
    Step.of_except_value_ok, Step.call_value, artifact_name_calls, List.not_mem_nil,
    false_or, mem_hash_file_calls, mem_check_elf_calls, pure, Step.mem_pure_calls] at hconstruct
  obtain ⟨derived, hderived, hrest⟩ := hconstruct
  have hname : derive_c_name options.file = some derived := by
    unfold artifact_name at hderived
    cases hd : derive_c_name options.file with
    | none => simp [hd, Step.crash] at hderived
    | some c => simp only [hd, pure, Step.pure_value] at hderived; rw [Except.ok.inj hderived]
  rcases hrest with h | ⟨_, _, h⟩
  · cases h
  · obtain ⟨data, _, hrest⟩ := h
    rcases hrest with h | ⟨hash_value, _, hrest⟩
    · cases h.1
    · rcases hrest with h | ⟨_, _, hrest⟩
      · cases h
      · rcases hrest with h | ⟨_, _, h⟩
        · cases h
          exact hname
        · obtain ⟨_, _, hfalse⟩ := h
          exact hfalse.elim

/-- C23. For an input path shorter than 2^64 characters, as every
`std::string` is, the artifact name of lines 214-215 is the text between the
last backslash of the path, or its start when it holds no backslash, and the
first dot after that, or its end when no dot follows: a contiguous part of
the path that holds neither a backslash nor a dot. It is empty when a dot
comes right after the last backslash, or first in a path without a backslash.
This is the name that `main` hands to the constructor of the generator. -/
theorem artifact_name_shape {G V : Type} (X : Externals G V) (v : V) (argv0 : String)
    (parameters : List String) (options : Options)
    (hparse : parse_parameters X.enable_skip_verify argv0 parameters Options.initial =
      .ok options)
    (hlen : options.file.length < 2 ^ 64) :
    (∃ c_name pre post, derive_c_name options.file = some c_name ∧
      options.file.toList = pre ++ c_name.toList ++ post ∧
      (pre = [] ∨ ∃ dir, pre = dir ++ ['\\']) ∧
      '\\' ∉ c_name.toList ∧ '\\' ∉ post ∧ '.' ∉ c_name.toList ∧
      (post = [] ∨ ∃ ext, post = '.' :: ext)) ∧
    (∀ pre name post, options.file.toList = pre ++ name ++ post →
      (pre = [] ∨ ∃ dir, pre = dir ++ ['\\']) → '\\' ∉ name → '\\' ∉ post → '.' ∉ name →
      (post = [] ∨ ∃ ext, post = '.' :: ext) →
      derive_c_name options.file = some (String.mk name)) ∧
    (∀ dir rest, options.file.toList = dir ++ '\\' :: '.' :: rest → '\\' ∉ rest →
      derive_c_name options.file = some "") ∧
    (∀ rest, options.file.toList = '.' :: rest → '\\' ∉ rest →
      derive_c_name options.file = some "") ∧
    (∀ c_name elf_file_hash,
      Call.bpf_code_generator c_name elf_file_hash ∈ (main X v argv0 parameters).calls →
      derive_c_name options.file = some c_name) := by
  refine ⟨?_, fun pre name post h1 h2 h3 h4 h5 h6 =>
    derive_c_name_of_split options.file hlen pre name post h1 h2 h3 h4 h5 h6, ?_, ?_, ?_⟩
  · obtain ⟨pre, tail, hsplit, hpre, htail⟩ := split_at_last '\\' options.file.toList
    obtain ⟨name, post, hsplit', hname, hpost⟩ := split_at_first '.' tail
    subst hsplit'
    have h1 : '\\' ∉ name := fun hm => htail (List.mem_append_left _ hm)
    have h2 : '\\' ∉ post := fun hm => htail (List.mem_append_right _ hm)
    exact ⟨String.mk name, pre, post,
      derive_c_name_of_split options.file hlen pre name post
        (by rw [hsplit, List.append_assoc]) hpre h1 h2 hname hpost,
      (by rw [hsplit, List.append_assoc]; rfl), hpre, h1, h2, hname, hpost⟩
  · intro dir rest hsplit hrest
    exact derive_c_name_of_split options.file hlen (dir ++ ['\\']) [] ('.' :: rest)
      (by rw [hsplit]; simp) (Or.inr ⟨dir, rfl⟩) (by simp)
      (by
        intro hm
        rcases List.mem_cons.1 hm with h | h
        · exact absurd h (by decide)
        · exact hrest h)
      (by simp) (Or.inr ⟨rest, rfl⟩)
  · intro rest hsplit hrest
    exact derive_c_name_of_split options.file hlen [] [] ('.' :: rest)
      (by rw [hsplit]; simp) (Or.inl rfl) (by simp)
      (by
        intro hm
        rcases List.mem_cons.1 hm with h | h
        · exact absurd h (by decide)
        · exact hrest h)
      (by simp) (Or.inr ⟨rest, rfl⟩)
  · intro c_name elf_file_hash hc
    rw [main_eq_run X v argv0 parameters options hparse] at hc
    exact constructed_with_derived_name X v options c_name elf_file_hash hc

/-- C23 at the paths `dir\sub/prog.v1.o`, whose artifact name `sub/prog`
keeps the forward slash and ends at the first dot, and `out\.hidden`, whose
artifact name is empty. -/
theorem artifact_name_shape_witness :
    derive_c_name "dir\\sub/prog.v1.o" = some "sub/prog" ∧
      Call.bpf_code_generator "sub/prog" (some [127, 69, 76]) ∈
        (main standard_world "" "bpf2c" ["--bpf", "dir\\sub/prog.v1.o"]).calls ∧
      derive_c_name "out\\.hidden" = some "" ∧
      Call.bpf_code_generator "" (some [127, 69, 76]) ∈
        (main standard_world "" "bpf2c" ["--bpf", "out\\.hidden"]).calls :=
  ⟨(artifact_name_shape standard_world "" "bpf2c" ["--bpf", "dir\\sub/prog.v1.o"]
      sample_options_path rfl (by decide)).2.2.2.2 "sub/prog" (some [127, 69, 76]) (by decide),
    by decide,
    (artifact_name_shape standard_world "" "bpf2c" ["--bpf", "out\\.hidden"]
      sample_options_hidden rfl (by decide)).2.2.1 ['o', 'u', 't'] ['h', 'i', 'd', 'd', 'e', 'n']
      rfl (by decide),
    by decide⟩

/-! ## Repeated helper ids -/

theorem map_assign_mem_iff (key value : Nat) (e : Nat × Nat) :
    ∀ m : List (Nat × Nat), m.Pairwise (fun a b => a.1 < b.1) →
      (e ∈ map_assign m key value ↔ e = (key, value) ∨ (e ∈ m ∧ e.1 ≠ key)) := by
  intro m
  induction m with
  | nil => intro _; simp [map_assign]
  | cons x m ih =>
    intro hsorted
    obtain ⟨k, v⟩ := x
    rw [List.pairwise_cons] at hsorted
    simp only [map_assign]
    split_ifs with h1 h2
    · simp only [List.mem_cons]
      constructor
      · rintro (h | h | h)
        · exact Or.inl h
        · refine Or.inr ⟨Or.inl h, ?_⟩
          rw [h]; exact Nat.ne_of_gt h1
        · exact Or.inr ⟨Or.inr h, Nat.ne_of_gt (lt_trans h1 (hsorted.1 e h))⟩
      · rintro (h | ⟨h | h, _⟩)
        · exact Or.inl h
        · exact Or.inr (Or.inl h)
        · exact Or.inr (Or.inr h)
    · simp only [List.mem_cons]
      constructor
      · rintro (h | h)
        · exact Or.inl h
        · refine Or.inr ⟨Or.inr h, ?_⟩
          rw [h2]; exact Nat.ne_of_gt (hsorted.1 e h)
      · rintro (h | ⟨h | h, hne⟩)
        · exact Or.inl h
        · rw [h] at hne; exact absurd h2.symm hne
        · exact Or.inr h
    · simp only [List.mem_cons, ih hsorted.2]
      constructor
      · rintro (h | h | ⟨h, hne⟩)
        · refine Or.inr ⟨Or.inl h, ?_⟩
          rw [h]; exact fun hk => h2 hk.symm
        · exact Or.inl h
        · exact Or.inr ⟨Or.inr h, hne⟩
      · rintro (h | ⟨h | h, hne⟩)
        · exact Or.inr (Or.inl h)
        · exact Or.inl h
        · exact Or.inr (Or.inr ⟨h, hne⟩)

/-- The entries for a table with one more prototype at its end. -/
theorem last_entry_concat (walked : List ebpf_helper_function_prototype_t)
    (p : ebpf_helper_function_prototype_t) (e : Nat × Nat) :
    last_entry (walked ++ [p]) e ↔
      e = (p.helper_id, walked.length) ∨ (last_entry walked e ∧ e.1 ≠ p.helper_id) := by
  constructor
  · rintro ⟨before, q, after, hsplit, he, hlast⟩
    rcases List.eq_nil_or_concat after with hafter | ⟨after', x, hafter⟩
    · subst hafter
      obtain ⟨h1, h2⟩ := List.append_inj' hsplit rfl
      have hq : p = q := by simpa using h2
      rw [he, ← hq, ← h1]
      exact Or.inl rfl
    · rw [List.concat_eq_append] at hafter
      subst hafter
      have hsplit' : walked ++ [p] = (before ++ q :: after') ++ [x] := by
        rw [hsplit]; simp
      obtain ⟨h1, h2⟩ := List.append_inj' hsplit' rfl
      have hx : p = x := by simpa using h2
      subst hx
      simp only [List.map_append, List.map_cons, List.map_nil, List.mem_append,
        List.mem_singleton, not_or] at hlast
      refine Or.inr ⟨⟨before, q, after', h1, he, hlast.1⟩, ?_⟩
      rw [he]
      exact hlast.2
  · rintro (he | ⟨⟨before, q, after, hsplit, he, hlast⟩, hne⟩)
    · exact ⟨walked, p, [], rfl, he, by simp⟩
    · refine ⟨before, q, after ++ [p], by rw [hsplit]; simp, he, ?_⟩
      rw [he] at hne
      simp only [List.map_append, List.map_cons, List.map_nil, List.mem_append,
        List.mem_singleton, not_or]
      exact ⟨hlast, hne⟩

/-- What the loop that fills `helper_id_ordering` maintains for every table:
the keys are strictly ascending and the entries are those of the prototypes
walked so far that no later one shadows. -/
theorem fill_helper_id_ordering_last :
    ∀ (rest walked : List ebpf_helper_function_prototype_t) (m : List (Nat × Nat)),
      m.Pairwise (fun a b => a.1 < b.1) →
      (∀ e, e ∈ m ↔ last_entry walked e) →
      (fill_helper_id_ordering rest walked.length m).Pairwise (fun a b => a.1 < b.1) ∧
      (∀ e, e ∈ fill_helper_id_ordering rest walked.length m ↔
        last_entry (walked ++ rest) e) := by
  intro rest
  induction rest with
  | nil =>
    intro walked m hsorted hentries
    rw [List.append_nil]
    exact ⟨hsorted, hentries⟩
  | cons p rest ih =>
    intro walked m hsorted hentries
    have hstep := ih (walked ++ [p]) (map_assign m p.helper_id walked.length)
      (map_assign_sorted m _ _ hsorted)
      (by
        intro e
        rw [map_assign_mem_iff _ _ _ m hsorted, last_entry_concat, hentries])
    simpa [fill_helper_id_ordering] using hstep

theorem getD_of_split (before after : List ebpf_helper_function_prototype_t)
    (p : ebpf_helper_function_prototype_t) :
    (before ++ p :: after).getD before.length default = p := by
  rw [List.getD_eq_getElem?_getD, List.getElem?_append_right (le_refl _)]
  simp

theorem last_declared_mem (p : ebpf_helper_function_prototype_t) :
    ∀ table : List ebpf_helper_function_prototype_t,
      p ∈ last_declared table ↔
        ∃ before after, table = before ++ p :: after ∧
          p.helper_id ∉ after.map (·.helper_id) := by
  intro table
  induction table with
  | nil => simp [last_declared]
  | cons x rest ih =>
    constructor
    · intro hp
      have hcases : (p = x ∧ x.helper_id ∉ rest.map (·.helper_id)) ∨ p ∈ last_declared rest := by
        simp only [last_declared] at hp
        split_ifs at hp with hx
        · exact Or.inr hp
        · rcases List.mem_cons.1 hp with h | h
          · exact Or.inl ⟨h, hx⟩
          · exact Or.inr h
      rcases hcases with ⟨hpx, hx⟩ | hrest
      · subst hpx
        exact ⟨[], rest, rfl, hx⟩
      · obtain ⟨before, after, hsplit, hlast⟩ := ih.1 hrest
        exact ⟨x :: before, after, by rw [hsplit]; rfl, hlast⟩
    · rintro ⟨before, after, hsplit, hlast⟩
      cases before with
      | nil =>
        simp only [List.nil_append, List.cons.injEq] at hsplit
        obtain ⟨hx, hrest⟩ := hsplit
        subst hx hrest
        simp only [last_declared]
        rw [if_neg hlast]
        exact List.mem_cons_self _ _
      | cons b before =>
        simp only [List.cons_append, List.cons.injEq] at hsplit
        have hrest : p ∈ last_declared rest := ih.2 ⟨before, after, hsplit.2, hlast⟩
        simp only [last_declared]
        split_ifs
        · exact hrest
        · exact List.mem_cons_of_mem _ hrest

theorem last_declared_ids_nodup :
    ∀ table : List ebpf_helper_function_prototype_t,
      ((last_declared table).map (·.helper_id)).Nodup := by
  intro table
  induction table with
  | nil => simp [last_declared]
  | cons x rest ih =>
    simp only [last_declared]
    split_ifs with hx
    · exact ih
    · rw [List.map_cons, List.nodup_cons]
      refine ⟨?_, ih⟩
      intro hmem
      obtain ⟨q, hq, hid⟩ := List.mem_map.1 hmem
      obtain ⟨before, after, hsplit, _⟩ := (last_declared_mem q rest).1 hq
      apply hx
      rw [hsplit]
      simp only [List.map_append, List.map_cons, List.mem_append, List.mem_cons]
      exact Or.inr (Or.inl hid.symm)

theorem last_declared_ids (id : Nat) :
    ∀ table : List ebpf_helper_function_prototype_t,
      id ∈ (last_declared table).map (·.helper_id) ↔ id ∈ table.map (·.helper_id) := by
  intro table
  induction table with
  | nil => simp [last_declared]
  | cons x rest ih =>
    simp only [last_declared]
    split_ifs with hx
    · rw [ih, List.map_cons, List.mem_cons]
      constructor
      · exact Or.inr
      · rintro (h | h)
        · rw [h]; exact hx
        · exact h
    · rw [List.map_cons, List.map_cons, List.mem_cons, List.mem_cons, ih]

theorem last_declared_length_le :
    ∀ table : List ebpf_helper_function_prototype_t,
      (last_declared table).length ≤ table.length := by
  intro table
  induction table with
  | nil => simp [last_declared]
  | cons x rest ih =>
    simp only [last_declared]
    split_ifs
    · exact Nat.le_succ_of_le ih
    · simpa using ih

theorem last_declared_length :
    ∀ table : List ebpf_helper_function_prototype_t,
      (last_declared table).length = table.length ↔ (table.map (·.helper_id)).Nodup := by
  intro table
  induction table with
  | nil => simp [last_declared]
  | cons x rest ih =>
    simp only [last_declared]
    rw [List.map_cons, List.nodup_cons]
    split_ifs with hx
    · constructor
      · intro h
        have := last_declared_length_le rest
        rw [h, List.length_cons] at this
        omega
      · intro h
        exact absurd hx h.1
    · rw [List.length_cons, List.length_cons, Nat.succ_inj', ih]
      exact ⟨fun h => ⟨hx, h⟩, fun h => h.2⟩

theorem last_declared_shadowed (p q : ebpf_helper_function_prototype_t)
    (after : List ebpf_helper_function_prototype_t)
    (hp : p.helper_id ∈ after.map (·.helper_id))
    (hq : q.helper_id ∈ after.map (·.helper_id)) :
    ∀ before : List ebpf_helper_function_prototype_t,
      last_declared (before ++ p :: after) = last_declared (before ++ q :: after) := by
  intro before
  induction before with
  | nil =>
    simp only [List.nil_append, last_declared]
    rw [if_pos hp, if_pos hq]
  | cons x before ih =>
    have hids : x.helper_id ∈ (before ++ p :: after).map (·.helper_id) ↔
        x.helper_id ∈ (before ++ q :: after).map (·.helper_id) := by
      simp only [List.map_append, List.map_cons, List.mem_append, List.mem_cons]
      constructor
      · rintro (h | h | h)
        · exact Or.inl h
        · exact Or.inr (Or.inr (h ▸ hp))
        · exact Or.inr (Or.inr h)
      · rintro (h | h | h)
        · exact Or.inl h
        · exact Or.inr (Or.inr (h ▸ hq))
        · exact Or.inr (Or.inr h)
    show last_declared (x :: (before ++ p :: after)) = last_declared (x :: (before ++ q :: after))
    simp only [last_declared]
    rw [ih]
    exact if_congr hids rfl rfl

/-- The prototypes that the loop over `helper_id_ordering` visits, for every
table: of each `helper_id` the prototype declared last, in ascending
`helper_id` order. -/
theorem visited_helpers_eq_last_declared (prototypes : List ebpf_helper_function_prototype_t) :
    visited_helpers prototypes (fill_helper_id_ordering prototypes 0 []) =
      helpers_by_ascending_id (last_declared prototypes) := by
  obtain ⟨hsorted, hentries⟩ := fill_helper_id_ordering_last prototypes [] []
    List.Pairwise.nil (by
      intro e
      simp only [List.not_mem_nil, false_iff]
      rintro ⟨before, q, after, hsplit, _⟩
      exact absurd hsplit (by simp))
  simp only [List.length_nil, List.nil_append] at hsorted hentries
  have hget : ∀ e ∈ fill_helper_id_ordering prototypes 0 [],
      (prototypes.getD e.2 default).helper_id = e.1 ∧
        prototypes.getD e.2 default ∈ last_declared prototypes := by
    intro e he
    obtain ⟨before, q, after, hsplit, hentry, hlast⟩ := (hentries e).1 he
    have hq : prototypes.getD e.2 default = q := by
      rw [hentry, hsplit]
      exact getD_of_split before after q
    rw [hq, hentry]
    exact ⟨rfl, (last_declared_mem q prototypes).2 ⟨before, after, hsplit, hlast⟩⟩
  have hsorted_visited : (visited_helpers prototypes
      (fill_helper_id_ordering prototypes 0 [])).Pairwise
        (fun a b => a.helper_id < b.helper_id) := by
    rw [visited_helpers, List.pairwise_map]
    refine hsorted.imp_of_mem ?_
    intro a b ha hb hab
    rw [(hget a ha).1, (hget b hb).1]
    exact hab
  have hnodup_visited : (visited_helpers prototypes
      (fill_helper_id_ordering prototypes 0 [])).Nodup :=
    hsorted_visited.imp (fun h heq => by rw [heq] at h; exact lt_irrefl _ h)
  have hnodup_last : (last_declared prototypes).Nodup :=
    List.Nodup.of_map _ (last_declared_ids_nodup prototypes)
  have hperm : (visited_helpers prototypes
      (fill_helper_id_ordering prototypes 0 [])).Perm (last_declared prototypes) := by
    rw [List.perm_ext_iff_of_nodup hnodup_visited hnodup_last]
    intro p
    constructor
    · intro hp
      obtain ⟨e, he, hpe⟩ := List.mem_map.1 hp
      rw [← hpe]
      exact (hget e he).2
    · intro hp
      obtain ⟨before, after, hsplit, hlast⟩ := (last_declared_mem p prototypes).1 hp
      have he : (p.helper_id, before.length) ∈ fill_helper_id_ordering prototypes 0 [] :=
        (hentries _).2 ⟨before, p, after, hsplit, rfl, hlast⟩
      refine List.mem_map.2 ⟨_, he, ?_⟩
      rw [hsplit]
      exact getD_of_split before after p
  refine ascending_unique _ _
    (hperm.trans (List.perm_insertionSort _ (last_declared prototypes)).symm)
    ((hperm.map _).nodup_iff.2 (last_declared_ids_nodup prototypes))
    (hsorted_visited.imp le_of_lt) ?_
  exact List.sorted_insertionSort _ (last_declared prototypes)

/-- C22: for every prototype table, also one with repeated helper ids,
`get_program_info_type_hash` digests the descriptor fields, the declared
table length as the count, and then one helper record per distinct
`helper_id`, in ascending order, which is the prototype declared last with
that id. So the number of helper records equals the hashed count exactly
when the helper ids are pairwise distinct, and a prototype that a later one
shadows can be replaced by any other shadowed prototype without changing the
hash. -/
theorem repeated_helper_ids_hash (hash : hash_t) (algorithm : String)
    (program_info : ebpf_program_info_t) :
    get_program_info_type_hash hash algorithm (some program_info) =
      hash.digest algorithm
        (hash.of_name program_info.program_type_descriptor.name ++
          hash.of_context_descriptor program_info.program_type_descriptor.context_descriptor ++
          hash.of_program_type program_info.program_type_descriptor.program_type ++
          hash.of_bpf_prog_type program_info.program_type_descriptor.bpf_prog_type ++
          hash.of_is_privileged program_info.program_type_descriptor.is_privileged ++
          hash.of_count program_info.program_type_specific_helper_prototype.length ++
          ((visited_helpers program_info.program_type_specific_helper_prototype
            (fill_helper_id_ordering program_info.program_type_specific_helper_prototype
              0 [])).map (helper_bytes hash)).flatten) ∧
    visited_helpers program_info.program_type_specific_helper_prototype
        (fill_helper_id_ordering program_info.program_type_specific_helper_prototype 0 []) =
      helpers_by_ascending_id
        (last_declared program_info.program_type_specific_helper_prototype) ∧
    ((visited_helpers program_info.program_type_specific_helper_prototype
        (fill_helper_id_ordering program_info.program_type_specific_helper_prototype
          0 [])).map (·.helper_id)).Pairwise (fun a b => a < b) ∧
    (∀ id, id ∈ (visited_helpers program_info.program_type_specific_helper_prototype
        (fill_helper_id_ordering program_info.program_type_specific_helper_prototype
          0 [])).map (·.helper_id) ↔
      id ∈ program_info.program_type_specific_helper_prototype.map (·.helper_id)) ∧
    (∀ p, p ∈ visited_helpers program_info.program_type_specific_helper_prototype
        (fill_helper_id_ordering program_info.program_type_specific_helper_prototype 0 []) ↔
      ∃ before after,
        program_info.program_type_specific_helper_prototype = before ++ p :: after ∧
        p.helper_id ∉ after.map (·.helper_id)) ∧
    ((visited_helpers program_info.program_type_specific_helper_prototype
        (fill_helper_id_ordering program_info.program_type_specific_helper_prototype
          0 [])).length = program_info.count_of_program_type_specific_helpers ↔
      distinct_helper_ids program_info) ∧
    (∀ before p q after,
      program_info.program_type_specific_helper_prototype = before ++ p :: after →
      p.helper_id ∈ after.map (·.helper_id) → q.helper_id ∈ after.map (·.helper_id) →
      get_program_info_type_hash hash algorithm
          (some { program_info with
            program_type_specific_helper_prototype := before ++ q :: after }) =
        get_program_info_type_hash hash algorithm (some program_info)) := by
  have hclosed := visited_helpers_eq_last_declared
    program_info.program_type_specific_helper_prototype
  have hperm : (helpers_by_ascending_id
      (last_declared program_info.program_type_specific_helper_prototype)).Perm
        (last_declared program_info.program_type_specific_helper_prototype) :=
    List.perm_insertionSort _ _
  have hhash : ∀ info : ebpf_program_info_t,
      get_program_info_type_hash hash algorithm (some info) =
        hash.digest algorithm (descriptor_bytes hash info ++
          ((helpers_by_ascending_id
            (last_declared info.program_type_specific_helper_prototype)).map
              (helper_bytes hash)).flatten) := by
    intro info
    simp only [get_program_info_type_hash, hash_t.hash_byte_ranges,
      bytes_program_info_byte_range, visited_helpers_eq_last_declared]
  refine ⟨?_, hclosed, ?_, ?_, ?_, ?_, ?_⟩
  · rw [hhash, hclosed]
    rfl
  · rw [hclosed]
    have hle : (helpers_by_ascending_id
        (last_declared program_info.program_type_specific_helper_prototype)).Pairwise
          (fun a b => a.helper_id ≤ b.helper_id) :=
      List.sorted_insertionSort _ _
    have hnd := (hperm.map (·.helper_id)).nodup_iff.2
      (last_declared_ids_nodup program_info.program_type_specific_helper_prototype)
    rw [List.pairwise_map]
    rw [List.Nodup, List.pairwise_map] at hnd
    exact (hle.and hnd).imp (fun h => lt_of_le_of_ne h.1 h.2)
  · intro id
    rw [hclosed, (hperm.map (·.helper_id)).mem_iff]
    exact last_declared_ids id _
  · intro p
    rw [hclosed, hperm.mem_iff]
    exact last_declared_mem p _
  · rw [hclosed, hperm.length_eq]
    exact last_declared_length _
  · intro before p q after hsplit hp hq
    rw [hhash, hhash]
    simp only [descriptor_bytes]
    rw [hsplit, last_declared_shadowed p q after hp hq before]
    simp

theorem repeated_helper_ids_hash_witness :
    (visited_helpers duplicate_info.program_type_specific_helper_prototype
        (fill_helper_id_ordering duplicate_info.program_type_specific_helper_prototype
          0 [])).length = 1 ∧
      duplicate_info.count_of_program_type_specific_helpers = 2 ∧
      ¬ distinct_helper_ids duplicate_info ∧
      get_program_info_type_hash sample_hash "SHA256" (some duplicate_info) =
        .ok ([120, 100, 112, 7, 11, 6, 0, 2] ++ [1, 98, 0]) ∧
      get_program_info_type_hash sample_hash "SHA256" (some duplicate_info_renamed) =
        get_program_info_type_hash sample_hash "SHA256" (some duplicate_info) :=
  ⟨by decide, rfl, by decide,
    ((repeated_helper_ids_hash sample_hash "SHA256" duplicate_info).1).trans (by decide),
    (repeated_helper_ids_hash sample_hash "SHA256" duplicate_info).2.2.2.2.2.2
      [] { helper_id := 1, name := "a", return_type := 0, arguments := [] }
      { helper_id := 1, name := "c", return_type := 0, arguments := [] }
      [{ helper_id := 1, name := "b", return_type := 0, arguments := [] }]
      rfl (by decide) (by decide)⟩

end Bpf2c

/-! # The `bpf` system call shim -/

namespace BpfSyscall

theorem decode_append (bytes : List Nat) (byte : Nat) :
    decode (bytes ++ [byte]) = decode bytes + 256 ^ bytes.length * byte := by
  induction bytes with
  | nil => simp [decode]
  | cons b rest ih =>
    show decode (b :: (rest ++ [byte])) = decode (b :: rest) + 256 ^ (b :: rest).length * byte
    simp only [decode, ih, List.length_cons, pow_succ]
    ring

theorem decode_bytes_of (value : Nat) (count : Nat) :
    decode ((List.range count).map (fun k => value / 256 ^ k % 256)) = value % 256 ^ count := by
  induction count with
  | zero => simp [decode, Nat.mod_one]
  | succ n ih =>
    rw [List.range_succ, List.map_append, List.map_singleton, decode_append, ih,
      List.length_map, List.length_range, Nat.mod_pow_succ]

theorem get_congr (layout : Layout) (a b : bpf_attr) (field : Field)
    (h : ∀ offset, layout.covers field offset → a offset = b offset) :
    get layout a field = get layout b field := by
  unfold get
  congr 1
  apply List.map_congr_left
  intro k hk
  apply h
  rw [List.mem_range] at hk
  exact ⟨Nat.le_add_right _ _, by unfold Layout.end_offset; omega⟩

theorem set_outside (layout : Layout) (attr : bpf_attr) (field : Field) (value offset : Nat)
    (h : ¬ layout.covers field offset) : set layout attr field value offset = attr offset := by
  simp only [set, if_neg h]

theorem get_set_same (layout : Layout) (attr : bpf_attr) (field : Field) (value : Nat) :
    get layout (set layout attr field value) field = value % 256 ^ layout.sizeof field := by
  rw [← decode_bytes_of]
  unfold get
  congr 1
  apply List.map_congr_left
  intro k hk
  rw [List.mem_range] at hk
  have hcovers : layout.covers field (layout.offsetof field + k) :=
    ⟨Nat.le_add_right _ _, by unfold Layout.end_offset; omega⟩
  simp only [set, if_pos hcovers, Nat.add_sub_cancel_left]

theorem get_set_disjoint (layout : Layout) (attr : bpf_attr) (written read : Field)
    (value : Nat) (h : layout.disjoint written read) :
    get layout (set layout attr written value) read = get layout attr read := by
  apply get_congr
  intro offset hread
  apply set_outside
  intro hwritten
  unfold Layout.disjoint at h
  unfold Layout.covers at hread hwritten
  omega

theorem store_test_results_outside (layout : Layout) (attr : bpf_attr)
    (opts : bpf_test_run_opts) (offset : Nat)
    (h : ∀ field ∈ test_results, ¬ layout.covers field offset) :
    store_test_results layout attr opts offset = attr offset := by
  simp only [test_results, List.mem_cons, List.mem_singleton, List.not_mem_nil, or_false,
    forall_eq_or_imp, forall_eq] at h
  obtain ⟨h1, h2, h3, h4⟩ := h
  simp only [store_test_results]
  rw [set_outside _ _ _ _ _ h4, set_outside _ _ _ _ _ h3, set_outside _ _ _ _ _ h2,
    set_outside _ _ _ _ _ h1]

theorem bpf_checked (layout : Layout) (libbpf : Call → Answer) (cmd : Command)
    (attr : bpf_attr) (size : Nat) (field : Field) (hfield : last_field_name cmd = some field)
    (hsize : size < layout.end_offset field) :
    bpf layout libbpf cmd attr size = invalid attr := by
  have hcheck : CHECK_SIZE layout size field = true := by
    simpa [CHECK_SIZE, Layout.end_offset] using hsize
  cases cmd <;> simp only [last_field_name] at hfield <;> cases hfield <;>
    simp only [bpf, hcheck, if_true]

/-- C25: for every command whose case has a `CHECK_SIZE`, the checked member
is one that the case touches, and a `size` below the end offset of that
member makes `bpf` return -1 with `errno` set to `EINVAL`, without a libbpf
call and without a change of `attr`; where the checked member ends last
among the members the case touches, this holds for a `size` below the end of
any touched member. A command that is none of the case labels gets the same
answer for every `size`. The case `BPF_PROG_TEST_RUN` has no `CHECK_SIZE`:
for every `size`, also 0, it reads the members of `test`, calls
`bpf_prog_test_run_opts` and returns what that call returns. -/
theorem check_size_guard (layout : Layout) (libbpf : Call → Answer) (cmd : Command)
    (attr : bpf_attr) (size : Nat) :
    (∀ field, last_field_name cmd = some field →
      field ∈ accessed_fields cmd ∧
      (size < layout.end_offset field →
        (bpf layout libbpf cmd attr size).ret = -1 ∧
        (bpf layout libbpf cmd attr size).errno = some Errno.EINVAL ∧
        (bpf layout libbpf cmd attr size).calls = [] ∧
        (bpf layout libbpf cmd attr size).attr = attr) ∧
      ((∀ other ∈ accessed_fields cmd, layout.end_offset other ≤ layout.end_offset field) →
        ∀ touched ∈ accessed_fields cmd, size < layout.end_offset touched →
          (bpf layout libbpf cmd attr size).ret = -1 ∧
          (bpf layout libbpf cmd attr size).errno = some Errno.EINVAL ∧
          (bpf layout libbpf cmd attr size).calls = [] ∧
          (bpf layout libbpf cmd attr size).attr = attr)) ∧
    (cmd = Command.other →
      (bpf layout libbpf cmd attr size).ret = -1 ∧
      (bpf layout libbpf cmd attr size).errno = some Errno.EINVAL ∧
      (bpf layout libbpf cmd attr size).calls = [] ∧
      (bpf layout libbpf cmd attr size).attr = attr) ∧
    (cmd = Command.BPF_PROG_TEST_RUN →
      last_field_name cmd = none ∧
      (bpf layout libbpf cmd attr size).calls =
        [Call.bpf_prog_test_run_opts (get layout attr Field.test_prog_fd)
          (test_run_opts layout attr)] ∧
      (bpf layout libbpf cmd attr size).ret =
        (libbpf (Call.bpf_prog_test_run_opts (get layout attr Field.test_prog_fd)
          (test_run_opts layout attr))).result ∧
      (bpf layout libbpf cmd attr size).errno = none) := by
  refine ⟨?_, ?_, ?_⟩
  · intro field hfield
    have hrejected : size < layout.end_offset field →
        (bpf layout libbpf cmd attr size).ret = -1 ∧
        (bpf layout libbpf cmd attr size).errno = some Errno.EINVAL ∧
        (bpf layout libbpf cmd attr size).calls = [] ∧
        (bpf layout libbpf cmd attr size).attr = attr := by
      intro hsize
      rw [bpf_checked layout libbpf cmd attr size field hfield hsize]
      exact ⟨rfl, rfl, rfl, rfl⟩
    refine ⟨?_, hrejected, ?_⟩
    · cases cmd <;> simp only [last_field_name] at hfield <;> cases hfield <;>
        simp [accessed_fields]
    · intro hlast touched htouched hsize
      exact hrejected (lt_of_lt_of_le hsize (hlast touched htouched))
  · intro hcmd
    subst hcmd
    exact ⟨rfl, rfl, rfl, rfl⟩
  · intro hcmd
    subst hcmd
    exact ⟨rfl, rfl, rfl, rfl⟩

theorem check_size_guard_witness :
    last_field_name Command.BPF_PROG_TEST_RUN = none ∧
      (∀ touched ∈ accessed_fields Command.BPF_PROG_TEST_RUN,
        0 < sample_layout.end_offset touched) ∧
      (bpf sample_layout sample_libbpf Command.BPF_PROG_TEST_RUN sample_attr 0).calls =
        [Call.bpf_prog_test_run_opts 67305985 (test_run_opts sample_layout sample_attr)] ∧
      (bpf sample_layout sample_libbpf Command.BPF_PROG_TEST_RUN sample_attr 0).ret = 0 ∧
      (bpf sample_layout sample_libbpf Command.BPF_PROG_TEST_RUN sample_attr 0).errno = none ∧
      (bpf sample_layout sample_libbpf Command.BPF_MAP_CREATE sample_attr 3).ret = -1 ∧
      (bpf sample_layout sample_libbpf Command.BPF_MAP_CREATE sample_attr 3).calls = [] :=
  ⟨rfl, by decide,
    ((check_size_guard sample_layout sample_libbpf Command.BPF_PROG_TEST_RUN sample_attr
      0).2.2 rfl).2.1.trans (by decide),
    ((check_size_guard sample_layout sample_libbpf Command.BPF_PROG_TEST_RUN sample_attr
      0).2.2 rfl).2.2.1.trans (by decide),
    ((check_size_guard sample_layout sample_libbpf Command.BPF_PROG_TEST_RUN sample_attr
      0).2.2 rfl).2.2.2,
    (((check_size_guard sample_layout sample_libbpf Command.BPF_MAP_CREATE sample_attr
      3).1 Field.map_flags rfl).2.1 (by decide)).1,
    (((check_size_guard sample_layout sample_libbpf Command.BPF_MAP_CREATE sample_attr
      3).1 Field.map_flags rfl).2.1 (by decide)).2.2.1⟩

/-- C26: for the command `BPF_PROG_TEST_RUN` and every `size`, `bpf` makes
the one call of `bpf_prog_test_run_opts` and returns its value. When that
value is not 0 the memory at `attr` is as before. When it is 0, every byte
outside the four members `test.data_size_out`, `test.ctx_size_out`,
`test.retval` and `test.duration` is as before, so every member that shares
no byte with these four reads as before; and where the four share no byte
with each other, each of them reads the value that the run reported, cut to
the size of the member. -/
theorem prog_test_run_frame (layout : Layout) (libbpf : Call → Answer) (attr : bpf_attr)
    (size : Nat) :
    (bpf layout libbpf Command.BPF_PROG_TEST_RUN attr size).calls =
      [Call.bpf_prog_test_run_opts (get layout attr Field.test_prog_fd)
        (test_run_opts layout attr)] ∧
    (bpf layout libbpf Command.BPF_PROG_TEST_RUN attr size).ret =
      (libbpf (Call.bpf_prog_test_run_opts (get layout attr Field.test_prog_fd)
        (test_run_opts layout attr))).result ∧
    ((libbpf (Call.bpf_prog_test_run_opts (get layout attr Field.test_prog_fd)
        (test_run_opts layout attr))).result ≠ 0 →
      (bpf layout libbpf Command.BPF_PROG_TEST_RUN attr size).attr = attr) ∧
    ((libbpf (Call.bpf_prog_test_run_opts (get layout attr Field.test_prog_fd)
        (test_run_opts layout attr))).result = 0 →
      (∀ offset, (∀ field ∈ test_results, ¬ layout.covers field offset) →
        (bpf layout libbpf Command.BPF_PROG_TEST_RUN attr size).attr offset = attr offset) ∧
      (∀ other, (∀ field ∈ test_results, layout.disjoint field other) →
        get layout (bpf layout libbpf Command.BPF_PROG_TEST_RUN attr size).attr other =
          get layout attr other) ∧
      (test_results.Pairwise layout.disjoint →
        get layout (bpf layout libbpf Command.BPF_PROG_TEST_RUN attr size).attr
            Field.test_data_size_out =
          (libbpf (Call.bpf_prog_test_run_opts (get layout attr Field.test_prog_fd)
            (test_run_opts layout attr))).opts.data_size_out %
              256 ^ layout.sizeof Field.test_data_size_out ∧
        get layout (bpf layout libbpf Command.BPF_PROG_TEST_RUN attr size).attr
            Field.test_ctx_size_out =
          (libbpf (Call.bpf_prog_test_run_opts (get layout attr Field.test_prog_fd)
            (test_run_opts layout attr))).opts.ctx_size_out %
              256 ^ layout.sizeof Field.test_ctx_size_out ∧
        get layout (bpf layout libbpf Command.BPF_PROG_TEST_RUN attr size).attr
            Field.test_retval =
          (libbpf (Call.bpf_prog_test_run_opts (get layout attr Field.test_prog_fd)
            (test_run_opts layout attr))).opts.retval %
              256 ^ layout.sizeof Field.test_retval ∧
        get layout (bpf layout libbpf Command.BPF_PROG_TEST_RUN attr size).attr
            Field.test_duration =
          (libbpf (Call.bpf_prog_test_run_opts (get layout attr Field.test_prog_fd)
            (test_run_opts layout attr))).opts.duration %
              256 ^ layout.sizeof Field.test_duration)) := by
  refine ⟨rfl, rfl, ?_, ?_⟩
  · intro hfailed
    simp only [bpf, prog_test_run, if_neg hfailed]
  · intro hran
    have hattr : (bpf layout libbpf Command.BPF_PROG_TEST_RUN attr size).attr =
        store_test_results layout attr
          (libbpf (Call.bpf_prog_test_run_opts (get layout attr Field.test_prog_fd)
            (test_run_opts layout attr))).opts := by
      simp only [bpf, prog_test_run, if_pos hran]
    rw [hattr]
    refine ⟨?_, ?_, ?_⟩
    · intro offset houtside
      exact store_test_results_outside layout attr _ offset houtside
    · intro other hdisjoint
      apply get_congr
      intro offset hother
      apply store_test_results_outside
      intro field hfield hcovers
      have h := hdisjoint field hfield
      unfold Layout.disjoint at h
      unfold Layout.covers at hother hcovers
      omega
    · intro hpairwise
      simp only [test_results, List.pairwise_cons, List.mem_cons, List.mem_singleton,
        List.not_mem_nil, or_false, forall_eq_or_imp, forall_eq, List.Pairwise.nil,
        and_true, IsEmpty.forall_iff, implies_true] at hpairwise
      obtain ⟨⟨h12, h13, h14⟩, ⟨h23, h24⟩, h34⟩ := hpairwise
      have symm : ∀ f g, layout.disjoint f g → layout.disjoint g f := by
        intro f g h
        unfold Layout.disjoint at h ⊢
        omega
      simp only [store_test_results]
      refine ⟨?_, ?_, ?_, ?_⟩
      · rw [get_set_disjoint _ _ _ _ _ (symm _ _ h14), get_set_disjoint _ _ _ _ _ (symm _ _ h13),
          get_set_disjoint _ _ _ _ _ (symm _ _ h12), get_set_same]
      · rw [get_set_disjoint _ _ _ _ _ (symm _ _ h24), get_set_disjoint _ _ _ _ _ (symm _ _ h23),
          get_set_same]
      · rw [get_set_disjoint _ _ _ _ _ (symm _ _ h34), get_set_same]
      · rw [get_set_same]

theorem prog_test_run_frame_witness :
    (bpf sample_layout sample_libbpf Command.BPF_PROG_TEST_RUN sample_attr 76).ret = 0 ∧
      get sample_layout
        (bpf sample_layout sample_libbpf Command.BPF_PROG_TEST_RUN sample_attr 76).attr
          Field.test_retval = 7 ∧
      get sample_layout
        (bpf sample_layout sample_libbpf Command.BPF_PROG_TEST_RUN sample_attr 76).attr
          Field.test_prog_fd = get sample_layout sample_attr Field.test_prog_fd ∧
      (bpf sample_layout failing_libbpf Command.BPF_PROG_TEST_RUN sample_attr 76).ret = -1 ∧
      (bpf sample_layout failing_libbpf Command.BPF_PROG_TEST_RUN sample_attr 76).attr =
        sample_attr :=
  ⟨(prog_test_run_frame sample_layout sample_libbpf sample_attr 76).2.1.trans (by decide),
    ((((prog_test_run_frame sample_layout sample_libbpf sample_attr 76).2.2.2
      (by decide)).2.2 (by decide)).2.2.1).trans (by decide),
    ((prog_test_run_frame sample_layout sample_libbpf sample_attr 76).2.2.2
      (by decide)).2.1 Field.test_prog_fd (by decide),
    (prog_test_run_frame sample_layout failing_libbpf sample_attr 76).2.1.trans (by decide),
    (prog_test_run_frame sample_layout failing_libbpf sample_attr 76).2.2.1 (by decide)⟩

end BpfSyscall

/-! # The ioctl handler of the sample extension driver -/

namespace SampleExtDrv

theorem not_success_unsuccessful : ¬ NT_SUCCESS STATUS_UNSUCCESSFUL := by decide

theorem not_success_invalid_parameter : ¬ NT_SUCCESS STATUS_INVALID_PARAMETER := by decide

theorem not_success_buffer_too_small : ¬ NT_SUCCESS STATUS_BUFFER_TOO_SMALL := by decide

/-- What follows the switch completes the request once, with a success
status exactly when the status was one and the result is `EBPF_SUCCESS`. -/
theorem after_switch_completes (output_buffer_length : Nat) (status : NTSTATUS)
    (result : ebpf_result_t) :
    ∃ final, after_switch output_buffer_length status result =
        [Call.WdfRequestCompleteWithInformation final output_buffer_length] ∧
      (NT_SUCCESS final ↔ NT_SUCCESS status ∧ result = ebpf_result_t.EBPF_SUCCESS) ∧
      (NT_SUCCESS status → result ≠ ebpf_result_t.EBPF_SUCCESS → final = STATUS_UNSUCCESSFUL) ∧
      (result = ebpf_result_t.EBPF_SUCCESS → final = status) := by
  unfold after_switch
  split_ifs with h
  · refine ⟨STATUS_UNSUCCESSFUL, rfl, ?_, fun _ _ => rfl, fun hr => absurd hr h.2⟩
    constructor
    · intro hs; exact absurd hs not_success_unsuccessful
    · intro hs; exact absurd hs.2 h.2
  · refine ⟨status, rfl, ?_, ?_, fun _ => rfl⟩
    · constructor
      · intro hs
        refine ⟨hs, ?_⟩
        by_contra hr
        exact h ⟨hs, hr⟩
      · intro hs; exact hs.1
    · intro hs hr
      exact absurd ⟨hs, hr⟩ h

theorem operation_of_succeeded (X : Externals) (c : Call) (h : Call.succeeded X c) :
    Call.is_operation c = true := by
  cases c <;> first | rfl | exact h.elim

/-- A path that ends at `Done` with a failure status before any operation. -/
theorem path_without_operation (X : Externals) (output_buffer_length : Nat)
    (front : List Call) (status : NTSTATUS) (checks : Prop)
    (hfront : ∀ c ∈ front, Call.is_completion c = false ∧ Call.is_operation c = false)
    (hstatus : ¬ NT_SUCCESS status) (hchecks : ¬ checks) :
    front ++ done output_buffer_length status =
        front ++ [Call.WdfRequestCompleteWithInformation status output_buffer_length] ∧
      (∀ c ∈ front, Call.is_completion c = false) ∧
      ((∃ c ∈ front, Call.is_operation c = true) ↔ checks) ∧
      (NT_SUCCESS status ↔ checks ∧ ∃ c ∈ front, Call.succeeded X c) := by
  refine ⟨rfl, fun c hc => (hfront c hc).1, ?_, ?_⟩
  · constructor
    · rintro ⟨c, hc, hop⟩
      rw [(hfront c hc).2] at hop
      exact absurd hop (by decide)
    · intro h; exact absurd h hchecks
  · constructor
    · intro h; exact absurd h hstatus
    · intro h; exact absurd h.1 hchecks

/-- A path that passes every check, runs its operation and leaves the switch. -/
theorem path_with_operation (X : Externals) (output_buffer_length : Nat)
    (front : List Call) (status : NTSTATUS) (operation : Call) (result : ebpf_result_t)
    (checks : Prop)
    (hfront : ∀ c ∈ front, Call.is_completion c = false ∧ Call.is_operation c = false)
    (hoperation : Call.is_operation operation = true)
    (hcompletion : Call.is_completion operation = false)
    (hresult : Call.succeeded X operation ↔ result = ebpf_result_t.EBPF_SUCCESS)
    (hstatus : NT_SUCCESS status) (hchecks : checks) :
    ∃ final,
      front ++ operation :: after_switch output_buffer_length status result =
        (front ++ [operation]) ++
          [Call.WdfRequestCompleteWithInformation final output_buffer_length] ∧
      (∀ c ∈ front ++ [operation], Call.is_completion c = false) ∧
      ((∃ c ∈ front ++ [operation], Call.is_operation c = true) ↔ checks) ∧
      (NT_SUCCESS final ↔ checks ∧ ∃ c ∈ front ++ [operation], Call.succeeded X c) := by
  obtain ⟨final, hfinal, hsuccess, _, _⟩ :=
    after_switch_completes output_buffer_length status result
  refine ⟨final, by rw [hfinal]; simp, ?_, ?_, ?_⟩
  · intro c hc
    rcases List.mem_append.1 hc with h | h
    · exact (hfront c h).1
    · rw [List.mem_singleton.1 h]; exact hcompletion
  · exact ⟨fun _ => hchecks, fun _ => ⟨operation, by simp, hoperation⟩⟩
  · rw [hsuccess]
    constructor
    · intro h
      exact ⟨hchecks, operation, by simp, hresult.2 h.2⟩
    · rintro ⟨_, c, hc, hsucceeded⟩
      refine ⟨hstatus, ?_⟩
      rcases List.mem_append.1 hc with h | h
      · have hop := operation_of_succeeded X c hsucceeded
        rw [(hfront c h).2] at hop
        exact absurd hop (by decide)
      · rw [List.mem_singleton.1 h] at hsucceeded
        exact hresult.1 hsucceeded

theorem ctl_run_completes (X : Externals) (output_buffer_length input_buffer_length : Nat) :
    ∃ front status,
      ctl_run X output_buffer_length input_buffer_length =
        front ++ [Call.WdfRequestCompleteWithInformation status output_buffer_length] ∧
      (∀ c ∈ front, Call.is_completion c = false) ∧
      ((∃ c ∈ front, Call.is_operation c = true) ↔
        run_checks_pass X output_buffer_length input_buffer_length) ∧
      (NT_SUCCESS status ↔
        run_checks_pass X output_buffer_length input_buffer_length ∧
          ∃ c ∈ front, Call.succeeded X c) ∧
      (input_buffer_length = 0 → front = [] ∧ status = STATUS_INVALID_PARAMETER) := by
  have key : ∀ trace, trace = ctl_run X output_buffer_length input_buffer_length →
      ∃ front status,
        trace = front ++ [Call.WdfRequestCompleteWithInformation status output_buffer_length] ∧
        (∀ c ∈ front, Call.is_completion c = false) ∧
        ((∃ c ∈ front, Call.is_operation c = true) ↔
          run_checks_pass X output_buffer_length input_buffer_length) ∧
        (NT_SUCCESS status ↔
          run_checks_pass X output_buffer_length input_buffer_length ∧
            ∃ c ∈ front, Call.succeeded X c) ∧
        (input_buffer_length = 0 → front = [] ∧ status = STATUS_INVALID_PARAMETER) := by
    intro trace htrace
    unfold ctl_run at htrace
    simp only [] at htrace
    split_ifs at htrace with h0 h1 h2 h3 h4 h5 h6 h7
    · obtain ⟨e1, e2, e3, e4⟩ := path_without_operation X output_buffer_length
        [Call.WdfRequestRetrieveInputBuffer input_buffer_length] STATUS_INVALID_PARAMETER
        (run_checks_pass X output_buffer_length input_buffer_length)
        (by simp [Call.is_completion, Call.is_operation]) not_success_invalid_parameter
        (fun hc => hc.2.2.1 h2)
      exact ⟨_, _, htrace.trans e1, e2, e3, e4, fun h => absurd h h0⟩
    · exact absurd h3 (Nat.not_lt_zero _)
    · obtain ⟨e1, e2, e3, e4⟩ := path_without_operation X output_buffer_length
        [Call.WdfRequestRetrieveInputBuffer input_buffer_length,
          Call.WdfRequestRetrieveOutputBuffer output_buffer_length] STATUS_INVALID_PARAMETER
        (run_checks_pass X output_buffer_length input_buffer_length)
        (by simp [Call.is_completion, Call.is_operation]) not_success_invalid_parameter
        (fun hc => (hc.2.2.2 h4).2.1 h6)
      exact ⟨_, _, htrace.trans e1, e2, e3, e4, fun h => absurd h h0⟩
    · obtain ⟨e1, e2, e3, e4⟩ := path_without_operation X output_buffer_length
        [Call.WdfRequestRetrieveInputBuffer input_buffer_length,
          Call.WdfRequestRetrieveOutputBuffer output_buffer_length] STATUS_BUFFER_TOO_SMALL
        (run_checks_pass X output_buffer_length input_buffer_length)
        (by simp [Call.is_completion, Call.is_operation]) not_success_buffer_too_small
        (fun hc => absurd (hc.2.2.2 h4).2.2 (not_le.2 h7))
      exact ⟨_, _, htrace.trans e1, e2, e3, e4, fun h => absurd h h0⟩
    · obtain ⟨final, e1, e2, e3, e4⟩ := path_with_operation X output_buffer_length
        [Call.WdfRequestRetrieveInputBuffer input_buffer_length,
          Call.WdfRequestRetrieveOutputBuffer output_buffer_length]
        (X.WdfRequestRetrieveOutputBuffer output_buffer_length).status
        (Call.sample_ebpf_extension_invoke_program (program_context output_buffer_length
          (X.WdfRequestRetrieveOutputBuffer output_buffer_length).buffer))
        (X.sample_ebpf_extension_invoke_program (program_context output_buffer_length
          (X.WdfRequestRetrieveOutputBuffer output_buffer_length).buffer))
        (run_checks_pass X output_buffer_length input_buffer_length)
        (by simp [Call.is_completion, Call.is_operation]) rfl rfl Iff.rfl h5
        ⟨h0, h1, h2, fun _ => ⟨h5, h6, not_lt.1 h7⟩⟩
      exact ⟨_, final, htrace.trans e1, e2, e3, e4, fun h => absurd h h0⟩
    · obtain ⟨e1, e2, e3, e4⟩ := path_without_operation X output_buffer_length
        [Call.WdfRequestRetrieveInputBuffer input_buffer_length,
          Call.WdfRequestRetrieveOutputBuffer output_buffer_length,
          Call.KdPrintEx "Output buffer failure"
            (X.WdfRequestRetrieveOutputBuffer output_buffer_length).status]
        (X.WdfRequestRetrieveOutputBuffer output_buffer_length).status
        (run_checks_pass X output_buffer_length input_buffer_length)
        (by simp [Call.is_completion, Call.is_operation]) h5
        (fun hc => h5 (hc.2.2.2 h4).1)
      exact ⟨_, _, htrace.trans e1, e2, e3, e4, fun h => absurd h h0⟩
    · obtain ⟨final, e1, e2, e3, e4⟩ := path_with_operation X output_buffer_length
        [Call.WdfRequestRetrieveInputBuffer input_buffer_length]
        (X.WdfRequestRetrieveInputBuffer input_buffer_length).status
        (Call.sample_ebpf_extension_invoke_program (program_context output_buffer_length 0))
        (X.sample_ebpf_extension_invoke_program (program_context output_buffer_length 0))
        (run_checks_pass X output_buffer_length input_buffer_length)
        (by simp [Call.is_completion, Call.is_operation]) rfl rfl Iff.rfl h1
        ⟨h0, h1, h2, fun hpos => absurd hpos h4⟩
      exact ⟨_, final, htrace.trans e1, e2, e3, e4, fun h => absurd h h0⟩
    · obtain ⟨e1, e2, e3, e4⟩ := path_without_operation X output_buffer_length
        [Call.WdfRequestRetrieveInputBuffer input_buffer_length,
          Call.KdPrintEx "Input buffer failure"
            (X.WdfRequestRetrieveInputBuffer input_buffer_length).status]
        (X.WdfRequestRetrieveInputBuffer input_buffer_length).status
        (run_checks_pass X output_buffer_length input_buffer_length)
        (by simp [Call.is_completion, Call.is_operation]) h1
        (fun hc => h1 hc.2.1)
      exact ⟨_, _, htrace.trans e1, e2, e3, e4, fun h => absurd h h0⟩
    · obtain ⟨e1, e2, e3, e4⟩ := path_without_operation X output_buffer_length
        [] STATUS_INVALID_PARAMETER
        (run_checks_pass X output_buffer_length input_buffer_length)
        (by simp) not_success_invalid_parameter
        (fun hc => h0 hc.1)
      exact ⟨_, _, htrace.trans e1, e2, e3, e4, fun _ => ⟨rfl, rfl⟩⟩
  exact key _ rfl

theorem ctl_profile_completes (X : Externals)
    (output_buffer_length input_buffer_length : Nat) :
    ∃ front status,
      ctl_profile X output_buffer_length input_buffer_length =
        front ++ [Call.WdfRequestCompleteWithInformation status output_buffer_length] ∧
      (∀ c ∈ front, Call.is_completion c = false) ∧
      ((∃ c ∈ front, Call.is_operation c = true) ↔
        profile_checks_pass X output_buffer_length input_buffer_length) ∧
      (NT_SUCCESS status ↔
        profile_checks_pass X output_buffer_length input_buffer_length ∧
          ∃ c ∈ front, Call.succeeded X c) := by
  have key : ∀ trace, trace = ctl_profile X output_buffer_length input_buffer_length →
      ∃ front status,
        trace = front ++ [Call.WdfRequestCompleteWithInformation status output_buffer_length] ∧
        (∀ c ∈ front, Call.is_completion c = false) ∧
        ((∃ c ∈ front, Call.is_operation c = true) ↔
          profile_checks_pass X output_buffer_length input_buffer_length) ∧
        (NT_SUCCESS status ↔
          profile_checks_pass X output_buffer_length input_buffer_length ∧
            ∃ c ∈ front, Call.succeeded X c) := by
    intro trace htrace
    unfold ctl_profile at htrace
    simp only [] at htrace
    split_ifs at htrace with h0 h1 h2 h3 h4 h5 h6
    · obtain ⟨e1, e2, e3, e4⟩ := path_without_operation X output_buffer_length
        [] STATUS_INVALID_PARAMETER
        (profile_checks_pass X output_buffer_length input_buffer_length)
        (by simp) not_success_invalid_parameter
        (fun hc => hc.1 h0)
      exact ⟨_, _, htrace.trans e1, e2, e3, e4⟩
    · obtain ⟨e1, e2, e3, e4⟩ := path_without_operation X output_buffer_length
        [Call.WdfRequestRetrieveInputBuffer input_buffer_length] STATUS_INVALID_PARAMETER
        (profile_checks_pass X output_buffer_length input_buffer_length)
        (by simp [Call.is_completion, Call.is_operation]) not_success_invalid_parameter
        (fun hc => hc.2.2.1 h2)
      exact ⟨_, _, htrace.trans e1, e2, e3, e4⟩
    · obtain ⟨e1, e2, e3, e4⟩ := path_without_operation X output_buffer_length
        [Call.WdfRequestRetrieveInputBuffer input_buffer_length] STATUS_INVALID_PARAMETER
        (profile_checks_pass X output_buffer_length input_buffer_length)
        (by simp [Call.is_completion, Call.is_operation]) not_success_invalid_parameter
        (fun hc => absurd hc.2.2.2.1 (not_le.2 h3))
      exact ⟨_, _, htrace.trans e1, e2, e3, e4⟩
    · obtain ⟨e1, e2, e3, e4⟩ := path_without_operation X output_buffer_length
        [Call.WdfRequestRetrieveInputBuffer input_buffer_length,
          Call.WdfRequestRetrieveOutputBuffer output_buffer_length] STATUS_INVALID_PARAMETER
        (profile_checks_pass X output_buffer_length input_buffer_length)
        (by simp [Call.is_completion, Call.is_operation]) not_success_invalid_parameter
        (fun hc => hc.2.2.2.2.2.1 h5)
      exact ⟨_, _, htrace.trans e1, e2, e3, e4⟩
    · obtain ⟨e1, e2, e3, e4⟩ := path_without_operation X output_buffer_length
        [Call.WdfRequestRetrieveInputBuffer input_buffer_length,
          Call.WdfRequestRetrieveOutputBuffer output_buffer_length] STATUS_BUFFER_TOO_SMALL
        (profile_checks_pass X output_buffer_length input_buffer_length)
        (by simp [Call.is_completion, Call.is_operation]) not_success_buffer_too_small
        (fun hc => absurd hc.2.2.2.2.2.2 (not_le.2 h6))
      exact ⟨_, _, htrace.trans e1, e2, e3, e4⟩
    · obtain ⟨final, e1, e2, e3, e4⟩ := path_with_operation X output_buffer_length
        [Call.WdfRequestRetrieveInputBuffer input_buffer_length,
          Call.WdfRequestRetrieveOutputBuffer output_buffer_length]
        (X.WdfRequestRetrieveOutputBuffer output_buffer_length).status
        (Call.sample_ebpf_extension_profile_program
          (X.WdfRequestRetrieveInputBuffer input_buffer_length).buffer
          (X.WdfRequestRetrieveInputBuffer input_buffer_length).length
          (X.WdfRequestRetrieveOutputBuffer output_buffer_length).buffer)
        (X.sample_ebpf_extension_profile_program
          (X.WdfRequestRetrieveInputBuffer input_buffer_length).buffer
          (X.WdfRequestRetrieveInputBuffer input_buffer_length).length
          (X.WdfRequestRetrieveOutputBuffer output_buffer_length).buffer)
        (profile_checks_pass X output_buffer_length input_buffer_length)
        (by simp [Call.is_completion, Call.is_operation]) rfl rfl Iff.rfl h4
        ⟨h0, h1, h2, not_lt.1 h3, h4, h5, not_lt.1 h6⟩
      exact ⟨_, final, htrace.trans e1, e2, e3, e4⟩
    · obtain ⟨e1, e2, e3, e4⟩ := path_without_operation X output_buffer_length
        [Call.WdfRequestRetrieveInputBuffer input_buffer_length,
          Call.WdfRequestRetrieveOutputBuffer output_buffer_length,
          Call.KdPrintEx "Output buffer failure"
            (X.WdfRequestRetrieveOutputBuffer output_buffer_length).status]
        (X.WdfRequestRetrieveOutputBuffer output_buffer_length).status
        (profile_checks_pass X output_buffer_length input_buffer_length)
        (by simp [Call.is_completion, Call.is_operation]) h4
        (fun hc => h4 hc.2.2.2.2.1)
      exact ⟨_, _, htrace.trans e1, e2, e3, e4⟩
    · obtain ⟨e1, e2, e3, e4⟩ := path_without_operation X output_buffer_length
        [Call.WdfRequestRetrieveInputBuffer input_buffer_length,
          Call.KdPrintEx "Input buffer failure"
            (X.WdfRequestRetrieveInputBuffer input_buffer_length).status]
        (X.WdfRequestRetrieveInputBuffer input_buffer_length).status
        (profile_checks_pass X output_buffer_length input_buffer_length)
        (by simp [Call.is_completion, Call.is_operation]) h1
        (fun hc => h1 hc.2.1)
      exact ⟨_, _, htrace.trans e1, e2, e3, e4⟩
  exact key _ rfl

/-- C27: for every request, the handler completes it exactly once, as its
last call and with `output_buffer_length` as the information. An eBPF
program is run exactly when the control code is RUN or PROFILE and every
buffer check of the case passes, and the completion status is a success
status exactly when, moreover, that operation returned `EBPF_SUCCESS`. An
unrecognised control code completes with `STATUS_UNSUCCESSFUL` and a RUN
request with input length zero with `STATUS_INVALID_PARAMETER`, both right
after the device lookup, without running a program. -/
theorem io_device_control_completes_once (X : Externals)
    (output_buffer_length input_buffer_length : Nat) (io_control_code : ControlCode) :
    ∃ front status,
      _sample_ebpf_ext_driver_io_device_control X output_buffer_length input_buffer_length
          io_control_code =
        front ++ [Call.WdfRequestCompleteWithInformation status output_buffer_length] ∧
      (∀ c ∈ front, Call.is_completion c = false) ∧
      ((∃ c ∈ front, Call.is_operation c = true) ↔
        checks_pass X output_buffer_length input_buffer_length io_control_code) ∧
      (NT_SUCCESS status ↔
        (io_control_code = ControlCode.IOCTL_SAMPLE_EBPF_EXT_CTL_RUN ∨
          io_control_code = ControlCode.IOCTL_SAMPLE_EBPF_EXT_CTL_PROFILE) ∧
        checks_pass X output_buffer_length input_buffer_length io_control_code ∧
        ∃ c ∈ front, Call.succeeded X c) ∧
      (io_control_code = ControlCode.other →
        front = [Call.WdfIoQueueGetDevice] ∧ status = STATUS_UNSUCCESSFUL) ∧
      (io_control_code = ControlCode.IOCTL_SAMPLE_EBPF_EXT_CTL_RUN →
        input_buffer_length = 0 →
        front = [Call.WdfIoQueueGetDevice] ∧ status = STATUS_INVALID_PARAMETER) := by
  cases io_control_code with
  | IOCTL_SAMPLE_EBPF_EXT_CTL_RUN =>
    obtain ⟨front, status, e1, e2, e3, e4, e5⟩ :=
      ctl_run_completes X output_buffer_length input_buffer_length
    refine ⟨Call.WdfIoQueueGetDevice :: front, status, ?_, ?_, ?_, ?_, ?_, ?_⟩
    · simp only [_sample_ebpf_ext_driver_io_device_control, e1, List.cons_append]
    · intro c hc
      rcases List.mem_cons.1 hc with h | h
      · rw [h]; rfl
      · exact e2 c h
    · show _ ↔ run_checks_pass X output_buffer_length input_buffer_length
      rw [← e3]
      simp [Call.is_operation]
    · rw [e4]
      simp [checks_pass, Call.succeeded]
    · intro h; cases h
    · intro _ h0
      obtain ⟨hfront, hstatus⟩ := e5 h0
      rw [hfront, hstatus]
      exact ⟨rfl, rfl⟩
  | IOCTL_SAMPLE_EBPF_EXT_CTL_PROFILE =>
    obtain ⟨front, status, e1, e2, e3, e4⟩ :=
      ctl_profile_completes X output_buffer_length input_buffer_length
    refine ⟨Call.WdfIoQueueGetDevice :: front, status, ?_, ?_, ?_, ?_, ?_, ?_⟩
    · simp only [_sample_ebpf_ext_driver_io_device_control, e1, List.cons_append]
    · intro c hc
      rcases List.mem_cons.1 hc with h | h
      · rw [h]; rfl
      · exact e2 c h
    · show _ ↔ profile_checks_pass X output_buffer_length input_buffer_length
      rw [← e3]
      simp [Call.is_operation]
    · rw [e4]
      simp [checks_pass, Call.succeeded]
    · intro h; cases h
    · intro h; cases h
  | other =>
    refine ⟨[Call.WdfIoQueueGetDevice], STATUS_UNSUCCESSFUL, ?_, ?_, ?_, ?_, ?_, ?_⟩
    · simp only [_sample_ebpf_ext_driver_io_device_control, after_switch, done]
      rw [if_pos ⟨by decide, by decide⟩]
      rfl
    · simp [Call.is_completion]
    · simp [Call.is_operation, checks_pass]
    · simp [checks_pass, not_success_unsuccessful]
    · intro _; exact ⟨rfl, rfl⟩
    · intro h; cases h

theorem io_device_control_completes_once_witness :
    _sample_ebpf_ext_driver_io_device_control sample_externals 8 8
        ControlCode.IOCTL_SAMPLE_EBPF_EXT_CTL_RUN =
      [Call.WdfIoQueueGetDevice, Call.WdfRequestRetrieveInputBuffer 8,
        Call.WdfRequestRetrieveOutputBuffer 8,
        Call.sample_ebpf_extension_invoke_program (program_context 8 4096),
        Call.WdfRequestCompleteWithInformation STATUS_SUCCESS 8] ∧
      _sample_ebpf_ext_driver_io_device_control sample_externals 8 0
        ControlCode.IOCTL_SAMPLE_EBPF_EXT_CTL_RUN =
      [Call.WdfIoQueueGetDevice,
        Call.WdfRequestCompleteWithInformation STATUS_INVALID_PARAMETER 8] ∧
      ∃ front status,
        _sample_ebpf_ext_driver_io_device_control sample_externals 8 8 ControlCode.other =
          front ++ [Call.WdfRequestCompleteWithInformation status 8] ∧
        front = [Call.WdfIoQueueGetDevice] ∧ status = STATUS_UNSUCCESSFUL :=
  ⟨by decide, by decide,
    (io_device_control_completes_once sample_externals 8 8 ControlCode.other).elim
      (fun front h => h.elim
        (fun status h => ⟨front, status, h.1, h.2.2.2.2.1 rfl⟩))⟩

end SampleExtDrv
